import Mathlib

/-!
# GRegex (glib/gregex.c): a shallow embedding and its verified properties

Bytes are natural numbers below 256, strings are lists of bytes, positions in a
string are integers (the `gint` offsets of the C code).  The external
collaborators of gregex.c (the PCRE matcher, the UTF-8 and Unicode helpers of
glib) are parameters of the definitions: every theorem holds for all of them,
under the hypotheses it states.

The argument checks `g_return_val_if_fail` of the public entry points on
numbers are part of the definitions: the option bits inside the mask
(`(match_options & ~G_REGEX_MATCH_MASK) == 0` and the like for the compile
options), `start_position >= 0`, `match_info->pos >= 0`, `match_num >= 0`.  A
call whose check fails returns `Ret.null` (or `none`, or FALSE) before anything
else is done.  The checks on pointers are carried by the types: a regex, a
string and a callback are always given, and the entry points that take no
error location in the model are called with an empty one.

A C string is modelled by the list of its bytes before the terminating NUL.

Loops whose termination depends on the matcher take a `fuel` argument: the
number of loop iterations the caller allows.  A run that needs more reports
`Ret.out_of_fuel`.
-/

/-! ## Bytes and slices -/

/-- Modelled from the spec: the copy of `n` bytes found at byte offset `start`
of `string` ("the byte slice `subject[start..end]`").  It stands for the glib
helpers `g_strndup (string + start, n)` and
`g_string_append_len (result, string + start, n)`, which are not part of the
sources at hand.  Bytes outside the string are not copied. -/
def bytes_at (string : List Nat) (start n : Int) : List Nat :=
  (string.drop start.toNat).take n.toNat

/-- Modelled from the spec: `g_strndup (string + start, n)` of glib
(gstrfuncs.c, not part of the sources at hand): a fresh copy of the byte slice
of length `n` at offset `start`. -/
def g_strndup (string : List Nat) (start n : Int) : List Nat :=
  bytes_at string start n

/-- Modelled from the spec: `strlen` of the C library, the "C-style length" a
length of -1 stands for: the number of bytes before the first NUL byte. -/
def strlen (string : List Nat) : Int :=
  ((string.takeWhile (fun b => b != 0)).length : Int)

/-- The byte the C code reads at `string[i]`; the byte just after the last one
is the terminating NUL of a C string. -/
def byte_at (string : List Nat) (i : Int) : Nat :=
  string.getD i.toNat 0

/-! ## The UTF-8 and Unicode helpers of glib -/

/-- The UTF-8 and Unicode primitives of glib that gregex.c calls (gunicode.h,
gutf8.c, guniprop.c).  They are not part of the sources at hand and are taken
as parameters.  `g_utf8_skip` is the table behind the macro
`g_utf8_next_char (p) = p + g_utf8_skip[*(guchar *) p]`; every entry of that
table is at least 1, which is what makes the scanning loops advance. -/
structure GUnicode where
  /-- Length in bytes of the UTF-8 sequence introduced by a lead byte. -/
  g_utf8_skip : Nat → Nat
  /-- Every entry of the skip table is positive. -/
  skip_pos : ∀ b, 1 ≤ g_utf8_skip b
  /-- Offset of the start of the code point before offset `p` of a string. -/
  g_utf8_prev_char : List Nat → Int → Int
  /-- The first code point of a non-empty UTF-8 text. -/
  g_utf8_get_char : List Nat → Nat
  /-- The UTF-8 encoding of a code point. -/
  g_unichar_to_utf8 : Nat → List Nat
  /-- Upper-case mapping of a code point. -/
  g_unichar_toupper : Nat → Nat
  /-- Lower-case mapping of a code point. -/
  g_unichar_tolower : Nat → Nat

/-- The macro `g_utf8_next_char`, on offsets: the offset after the code point
that starts at offset `p`. -/
def g_utf8_next_char (U : GUnicode) (string : List Nat) (p : Int) : Int :=
  p + (U.g_utf8_skip (byte_at string p) : Int)

/-! ## g_regex_escape_string -/

/-- The case labels of the `switch` in `g_regex_escape_string`:
NUL, backslash, `|`, `(`, `)`, `[`, `]`, `{`, `}`, `^`, `$`, `*`, `+`, `?`, `.`. -/
def escape_special (c : Nat) : Bool :=
  c == 0 || c == 92 || c == 124 || c == 40 || c == 41 || c == 91 || c == 93 ||
  c == 123 || c == 125 || c == 94 || c == 36 || c == 42 || c == 43 || c == 63 ||
  c == 46

/-- The `while (p < end)` loop of `g_regex_escape_string`.  The state is the
pair of offsets `p`, `piece_start` and the buffer `escaped`; the result is the
final `piece_start` and buffer.  `fuel` bounds the number of iterations; since
every iteration advances `p` by at least one, `end_ - p + 1` is enough. -/
def escape_loop (U : GUnicode) (string : List Nat) (end_ : Int) :
    Nat → Int → Int → List Nat → Int × List Nat
  | 0, _, piece_start, escaped => (piece_start, escaped)
  | fuel + 1, p, piece_start, escaped =>
    if p < end_ then
      if escape_special (byte_at string p) then
        let escaped1 :=
          if p ≠ piece_start then escaped ++ bytes_at string piece_start (p - piece_start)
          else escaped
        let escaped2 := escaped1 ++ [92]
        let escaped3 :=
          if byte_at string p = 0 then escaped2 ++ [48]
          else escaped2 ++ [byte_at string p]
        escape_loop U string end_ fuel (p + 1) (p + 1) escaped3
      else
        escape_loop U string end_ fuel (g_utf8_next_char U string p) piece_start escaped
    else (piece_start, escaped)

/-- The function `g_regex_escape_string (string, length)` of gregex.c. -/
def g_regex_escape_string (U : GUnicode) (string : List Nat) (length : Int) : List Nat :=
  let length1 := if length < 0 then strlen string else length
  let end_ := length1
  let r := escape_loop U string end_ (end_.toNat + 1) 0 0 []
  if r.1 < end_ then r.2 ++ bytes_at string r.1 (end_ - r.1) else r.2

/-- The byte-wise reference map of the escaping: a NUL byte becomes backslash
and `0`, a special byte becomes backslash and itself, any other byte is kept. -/
def escape_byte (c : Nat) : List Nat :=
  if c = 0 then [92, 48] else if escape_special c then [92, c] else [c]

/-- The byte-wise escaping of a whole string, the reference that
`g_regex_escape_string` is compared with. -/
def escape_bytewise (s : List Nat) : List Nat :=
  s.flatMap escape_byte

/-- Modelled from the spec: the skip table `g_utf8_skip` of glib (gutf8.c, not
part of the sources at hand), "the scanner advances by code point": 1 for
bytes below 0xC0, then the sequence length announced by the lead byte. -/
def glib_utf8_skip (b : Nat) : Nat :=
  if b < 192 then 1 else if b < 224 then 2 else if b < 240 then 3
  else if b < 248 then 4 else if b < 252 then 5 else if b < 254 then 6 else 1

/-- Modelled from the spec: `g_utf8_prev_char` of glib (gutf8.c, not part of the
sources at hand), "backed up by one code point": step back over continuation
bytes (`10xxxxxx`) to the previous lead byte.  `n` is the offset as a natural
number; stepping back from offset 0 leaves the string. -/
def glib_utf8_prev (string : List Nat) : Nat → Int
  | 0 => -1
  | n + 1 => if (string.getD n 0) / 64 % 4 ≠ 2 then (n : Int) else glib_utf8_prev string n

/-- An instance of the glib helpers that agrees with glib on ASCII text: the
skip table and the backward step are those of gutf8.c, code points of one byte
are decoded and encoded as themselves and the case mappings are those of the
ASCII letters. -/
def glib_ascii : GUnicode where
  g_utf8_skip := glib_utf8_skip
  skip_pos := by
    intro b
    unfold glib_utf8_skip
    split_ifs <;> omega
  g_utf8_prev_char := fun string p => if p ≤ 0 then p - 1 else glib_utf8_prev string p.toNat
  g_utf8_get_char := fun text => text.headD 0
  g_unichar_to_utf8 := fun c => [c]
  g_unichar_toupper := fun c => if 97 ≤ c ∧ c ≤ 122 then c - 32 else c
  g_unichar_tolower := fun c => if 65 ≤ c ∧ c ≤ 90 then c + 32 else c

/-- The length of the subject that the functions work with: a negative
`string_len` stands for the C-style length (`if (string_len < 0) string_len =
strlen (string)`). -/
def effective_len (string : List Nat) (string_len : Int) : Int :=
  if string_len < 0 then strlen string else string_len

/-! ## The PCRE matcher -/

/-- Modelled from the spec: the return code `PCRE_ERROR_NOMATCH` of pcre.h (not
part of the sources at hand), the "no match" sentinel. -/
def PCRE_ERROR_NOMATCH : Int := -1

/-- Modelled from the spec: the return code `PCRE_ERROR_PARTIAL` of pcre.h (not
part of the sources at hand), the "partial match" sentinel. -/
def PCRE_ERROR_PARTIAL : Int := -12

/-- Modelled from the spec: the return code `PCRE_ERROR_NOSUBSTRING` of pcre.h
(not part of the sources at hand), the answer of the name table for a name
that does not exist. -/
def PCRE_ERROR_NOSUBSTRING : Int := -7

/-- Modelled from the spec: the option bit `PCRE_UTF8` of pcre.h (not part of
the sources at hand), "UTF-8 mode". -/
def PCRE_UTF8 : Nat := 0x00000800

/-- Modelled from the spec: the option bit `PCRE_NO_UTF8_CHECK` of pcre.h (not
part of the sources at hand), "skip UTF-8 validity recheck". -/
def PCRE_NO_UTF8_CHECK : Nat := 0x00002000

/-- Modelled from the spec: the option bit `PCRE_NEWLINE_ANY` of pcre.h (not
part of the sources at hand), the "any-newline" convention. -/
def PCRE_NEWLINE_ANY : Nat := 0x00400000

/-- Modelled from the spec: the compile flag `G_REGEX_RAW` of gregex.h (not part
of the sources at hand). -/
def G_REGEX_RAW : Nat := 2 ^ 11

/-- Modelled from the spec: the compile flag `G_REGEX_OPTIMIZE` of gregex.h (not
part of the sources at hand). -/
def G_REGEX_OPTIMIZE : Nat := 2 ^ 13

/-- Modelled from the spec: the compile flag `G_REGEX_NEWLINE_CR` of gregex.h
(not part of the sources at hand). -/
def G_REGEX_NEWLINE_CR : Nat := 2 ^ 20

/-- Modelled from the spec: the compile flag `G_REGEX_NEWLINE_LF` of gregex.h
(not part of the sources at hand). -/
def G_REGEX_NEWLINE_LF : Nat := 2 ^ 21

/-- Modelled from the spec: the compile flag `G_REGEX_CASELESS` of gregex.h (not
part of the sources at hand). -/
def G_REGEX_CASELESS : Nat := 2 ^ 0

/-- Modelled from the spec: the compile flag `G_REGEX_MULTILINE` of gregex.h
(not part of the sources at hand). -/
def G_REGEX_MULTILINE : Nat := 2 ^ 1

/-- Modelled from the spec: the compile flag `G_REGEX_DOTALL` of gregex.h (not
part of the sources at hand). -/
def G_REGEX_DOTALL : Nat := 2 ^ 2

/-- Modelled from the spec: the compile flag `G_REGEX_EXTENDED` of gregex.h (not
part of the sources at hand). -/
def G_REGEX_EXTENDED : Nat := 2 ^ 3

/-- Modelled from the spec: the compile flag `G_REGEX_ANCHORED` of gregex.h (not
part of the sources at hand). -/
def G_REGEX_ANCHORED : Nat := 2 ^ 4

/-- Modelled from the spec: the compile flag `G_REGEX_DOLLAR_ENDONLY` of
gregex.h (not part of the sources at hand). -/
def G_REGEX_DOLLAR_ENDONLY : Nat := 2 ^ 5

/-- Modelled from the spec: the compile flag `G_REGEX_UNGREEDY` of gregex.h (not
part of the sources at hand). -/
def G_REGEX_UNGREEDY : Nat := 2 ^ 9

/-- Modelled from the spec: the compile flag `G_REGEX_NO_AUTO_CAPTURE` of
gregex.h (not part of the sources at hand). -/
def G_REGEX_NO_AUTO_CAPTURE : Nat := 2 ^ 12

/-- Modelled from the spec: the compile flag `G_REGEX_DUPNAMES` of gregex.h (not
part of the sources at hand). -/
def G_REGEX_DUPNAMES : Nat := 2 ^ 19

/-- Modelled from the spec: the compile flag `G_REGEX_NEWLINE_CRLF` of gregex.h
(not part of the sources at hand), the two newline bits together. -/
def G_REGEX_NEWLINE_CRLF : Nat := G_REGEX_NEWLINE_CR ||| G_REGEX_NEWLINE_LF

/-- Modelled from the spec: the match flag `G_REGEX_MATCH_ANCHORED` of gregex.h
(not part of the sources at hand). -/
def G_REGEX_MATCH_ANCHORED : Nat := 2 ^ 4

/-- Modelled from the spec: the match flag `G_REGEX_MATCH_NOTBOL` of gregex.h
(not part of the sources at hand). -/
def G_REGEX_MATCH_NOTBOL : Nat := 2 ^ 7

/-- Modelled from the spec: the match flag `G_REGEX_MATCH_NOTEOL` of gregex.h
(not part of the sources at hand). -/
def G_REGEX_MATCH_NOTEOL : Nat := 2 ^ 8

/-- Modelled from the spec: the match flag `G_REGEX_MATCH_NOTEMPTY` of gregex.h
(not part of the sources at hand). -/
def G_REGEX_MATCH_NOTEMPTY : Nat := 2 ^ 10

/-- Modelled from the spec: the match flag `G_REGEX_MATCH_PARTIAL` of gregex.h
(not part of the sources at hand); it has the value of `PCRE_PARTIAL`. -/
def G_REGEX_MATCH_PARTIAL : Nat := 2 ^ 15

/-- Modelled from the spec: the match flag `G_REGEX_MATCH_NEWLINE_CR` of
gregex.h (not part of the sources at hand). -/
def G_REGEX_MATCH_NEWLINE_CR : Nat := 2 ^ 20

/-- Modelled from the spec: the match flag `G_REGEX_MATCH_NEWLINE_LF` of
gregex.h (not part of the sources at hand). -/
def G_REGEX_MATCH_NEWLINE_LF : Nat := 2 ^ 21

/-- Modelled from the spec: the match flag `G_REGEX_MATCH_NEWLINE_CRLF` of
gregex.h (not part of the sources at hand), the two newline bits together. -/
def G_REGEX_MATCH_NEWLINE_CRLF : Nat := G_REGEX_MATCH_NEWLINE_CR ||| G_REGEX_MATCH_NEWLINE_LF

/-- Modelled from the spec: the match flag `G_REGEX_MATCH_NEWLINE_ANY` of
gregex.h (not part of the sources at hand). -/
def G_REGEX_MATCH_NEWLINE_ANY : Nat := 2 ^ 22

/-- The macro `G_REGEX_COMPILE_MASK`: all the possible values for the compile
flags. -/
def G_REGEX_COMPILE_MASK : Nat :=
  G_REGEX_CASELESS ||| G_REGEX_MULTILINE ||| G_REGEX_DOTALL ||| G_REGEX_EXTENDED |||
    G_REGEX_ANCHORED ||| G_REGEX_DOLLAR_ENDONLY ||| G_REGEX_UNGREEDY ||| G_REGEX_RAW |||
    G_REGEX_NO_AUTO_CAPTURE ||| G_REGEX_OPTIMIZE ||| G_REGEX_DUPNAMES |||
    G_REGEX_NEWLINE_CR ||| G_REGEX_NEWLINE_LF ||| G_REGEX_NEWLINE_CRLF

/-- The macro `G_REGEX_MATCH_MASK`: all the possible values for the match
flags. -/
def G_REGEX_MATCH_MASK : Nat :=
  G_REGEX_MATCH_ANCHORED ||| G_REGEX_MATCH_NOTBOL ||| G_REGEX_MATCH_NOTEOL |||
    G_REGEX_MATCH_NOTEMPTY ||| G_REGEX_MATCH_PARTIAL ||| G_REGEX_MATCH_NEWLINE_CR |||
    G_REGEX_MATCH_NEWLINE_LF ||| G_REGEX_MATCH_NEWLINE_CRLF ||| G_REGEX_MATCH_NEWLINE_ANY

/-- The expression `options & ~mask` of the argument checks: the bits of
`options` that are not bits of `mask`. -/
def bits_outside (options mask : Nat) : Nat := options ^^^ (options &&& mask)

/-- The constant `G_MAXINT` of a 32-bit `gint`. -/
def G_MAXINT : Int := 2147483647

/-- The macro `IS_PCRE_ERROR`: TRUE if `ret` is an error code. -/
def IS_PCRE_ERROR (ret : Int) : Bool :=
  decide (ret < PCRE_ERROR_NOMATCH) && decide (ret ≠ PCRE_ERROR_PARTIAL)

/-- A compiled pattern (`pcre *`), given by what the PCRE library answers about
it.  `exec string string_len pos options offsets n_offsets` is `pcre_exec`: it
returns the return code and the contents of the offset vector after the call
(`offsets` are its contents before the call).  `capture_count` is what
`pcre_fullinfo (PCRE_INFO_CAPTURECOUNT)` reports and `get_stringnumber` is
`pcre_get_stringnumber`. -/
structure Pcre where
  exec : List Nat → Int → Int → Nat → List Int → Int → Int × List Int
  capture_count : Int
  get_stringnumber : List Nat → Int

/-- The structure `_GRegex` (the reference count and the study data, which no
function below reads, are left out). -/
structure GRegex where
  pattern : List Nat
  pcre_re : Pcre
  compile_opts : Nat
  match_opts : Nat

/-- The structure `_GMatchInfo` (without the DFA workspace). -/
structure GMatchInfo where
  regex : GRegex
  match_opts : Nat
  /-- The field `matches` of the C structure. -/
  matches_ : Int
  pos : Int
  offsets : List Int
  n_offsets : Int
  string : List Nat
  string_len : Int

/-- The read `match_info->offsets[i]`. -/
def GMatchInfo.offset (match_info : GMatchInfo) (i : Int) : Int :=
  match_info.offsets.getD i.toNat 0

/-- The macro `NEXT_CHAR (re, s)`, on offsets. -/
def NEXT_CHAR (U : GUnicode) (re : GRegex) (string : List Nat) (pos : Int) : Int :=
  if re.compile_opts &&& PCRE_UTF8 ≠ 0 then g_utf8_next_char U string pos else pos + 1

/-- The macro `PREV_CHAR (re, s)`, on offsets. -/
def PREV_CHAR (U : GUnicode) (re : GRegex) (string : List Nat) (pos : Int) : Int :=
  if re.compile_opts &&& PCRE_UTF8 ≠ 0 then U.g_utf8_prev_char string pos else pos - 1

/-- What a call of the API gives back. -/
inductive Ret (α : Type) where
  /-- The call returned this value. -/
  | value (v : α)
  /-- The call returned NULL and set a `GError` for this PCRE error code. -/
  | match_error (code : Int)
  /-- An argument check `g_return_val_if_fail` failed, or the pattern did not
  compile: NULL without a match error. -/
  | null
  /-- The loop needed more iterations than `fuel` allowed. -/
  | out_of_fuel
  deriving DecidableEq, Repr

/-- The function `match_info_new`. -/
def match_info_new (regex : GRegex) (string : List Nat) (string_len : Int)
    (start_position : Int) (match_options : Nat) (is_dfa : Bool) : GMatchInfo :=
  let string_len1 := if string_len < 0 then strlen string else string_len
  let n_offsets := if is_dfa then 24 else (regex.pcre_re.capture_count + 1) * 3
  { regex := regex
    string := string
    string_len := string_len1
    matches_ := PCRE_ERROR_NOMATCH
    pos := start_position
    match_opts := match_options
    n_offsets := n_offsets
    offsets := List.replicate n_offsets.toNat 0 }

/-- The result of `g_match_info_next`: the match state after the call, the
returned boolean, and the error location after the call (the PCRE error code
when an error is set). -/
structure NextResult where
  info : GMatchInfo
  ret : Bool
  error : Option Int

/-- The call `pcre_exec (...)` that `g_match_info_next` makes in the match
state `match_info`: the return code and the new contents of the offset
vector. -/
def pcre_exec_call (match_info : GMatchInfo) : Int × List Int :=
  match_info.regex.pcre_re.exec match_info.string match_info.string_len
    match_info.pos (match_info.regex.match_opts ||| match_info.match_opts)
    match_info.offsets match_info.n_offsets

/-- The function `g_match_info_next (match_info, error)`; `error` is the content
of the error location before the call. -/
def g_match_info_next (U : GUnicode) (match_info : GMatchInfo) (error : Option Int) :
    NextResult :=
  if error.isSome then ⟨match_info, false, error⟩
  else if ¬ (match_info.pos ≥ 0) then ⟨match_info, false, error⟩
  else
    let r := pcre_exec_call match_info
    let mi1 : GMatchInfo := { match_info with matches_ := r.1, offsets := r.2 }
    if IS_PCRE_ERROR mi1.matches_ then ⟨mi1, false, some mi1.matches_⟩
    else if mi1.pos = mi1.offset 1 then
      if mi1.pos > mi1.string_len then
        ⟨{ mi1 with pos := -1, matches_ := PCRE_ERROR_NOMATCH }, false, error⟩
      else
        let mi2 : GMatchInfo := { mi1 with pos := NEXT_CHAR U mi1.regex mi1.string mi1.pos }
        ⟨mi2, decide (mi2.matches_ ≥ 0), error⟩
    else
      let mi2 : GMatchInfo := { mi1 with pos := mi1.offset 1 }
      ⟨mi2, decide (mi2.matches_ ≥ 0), error⟩

/-- The function `g_match_info_matches`. -/
def g_match_info_matches (match_info : GMatchInfo) : Bool :=
  decide (match_info.matches_ ≥ 0)

/-- The function `g_match_info_get_match_count`. -/
def g_match_info_get_match_count (match_info : GMatchInfo) : Int :=
  if match_info.matches_ = PCRE_ERROR_NOMATCH then 0
  else if match_info.matches_ < PCRE_ERROR_NOMATCH then -1
  else match_info.matches_

/-- The function `g_match_info_fetch_pos`: `none` is the return value FALSE
(the output positions are left unchanged), `some (start, end)` is TRUE with the
positions stored. -/
def g_match_info_fetch_pos (match_info : GMatchInfo) (match_num : Int) : Option (Int × Int) :=
  if ¬ (match_num ≥ 0) then none
  else if match_num ≥ match_info.matches_ then none
  else some (match_info.offset (2 * match_num), match_info.offset (2 * match_num + 1))

/-- The function `g_match_info_fetch`: `none` is the return value NULL. -/
def g_match_info_fetch (match_info : GMatchInfo) (match_num : Int) : Option (List Nat) :=
  if ¬ (match_num ≥ 0) then none
  else
    match g_match_info_fetch_pos match_info match_num with
    | none => none
    | some (start, end_) =>
      if start = -1 then some []
      else some (g_strndup match_info.string start (end_ - start))

/-- The function `g_regex_get_string_number`. -/
def g_regex_get_string_number (regex : GRegex) (name : List Nat) : Int :=
  let num := regex.pcre_re.get_stringnumber name
  if num = PCRE_ERROR_NOSUBSTRING then -1 else num

/-- The function `g_match_info_fetch_named`. -/
def g_match_info_fetch_named (match_info : GMatchInfo) (name : List Nat) : Option (List Nat) :=
  let num := g_regex_get_string_number match_info.regex name
  if num = -1 then none else g_match_info_fetch match_info num

/-- The statements of `g_regex_match_full` that follow its argument checks: the
new match state and its first step.  The result holds the match state that is
stored, the boolean returned and the error location after the call. -/
def match_full_body (U : GUnicode) (regex : GRegex) (string : List Nat) (string_len : Int)
    (start_position : Int) (match_options : Nat) (error : Option Int) : NextResult :=
  let info := match_info_new regex string string_len start_position match_options false
  g_match_info_next U info error

/-- The function `g_regex_match_full`, always asked for the match state; `error`
is the content of the error location before the call.  `none` is the return
value FALSE of a failed argument check (`start_position >= 0`, an empty error
location, the option bits inside `G_REGEX_MATCH_MASK`), on which no match state
is created; `some r` holds the match state stored, the boolean returned and
the error location after the call. -/
def g_regex_match_full (U : GUnicode) (regex : GRegex) (string : List Nat) (string_len : Int)
    (start_position : Int) (match_options : Nat) (error : Option Int) : Option NextResult :=
  if ¬ (start_position ≥ 0) then none
  else if error.isSome then none
  else if bits_outside match_options G_REGEX_MATCH_MASK ≠ 0 then none
  else some (match_full_body U regex string string_len start_position match_options error)

/-! ## g_regex_new -/

/-- The PCRE library as `g_regex_new` uses it: the two capability answers of
`pcre_config`, the compiler `pcre_compile (pattern, options)` (`none` when the
pattern does not compile) and whether `pcre_study` reports an error. -/
structure PcreLib where
  config_utf8 : Bool
  config_unicode_properties : Bool
  compile : List Nat → Nat → Option Pcre
  study_fails : Pcre → Bool

/-- The function `g_regex_new (pattern, compile_options, match_options)`;
`none` is the return value NULL. -/
def g_regex_new (L : PcreLib) (pattern : List Nat) (compile_options match_options : Nat) :
    Option GRegex :=
  if bits_outside compile_options G_REGEX_COMPILE_MASK ≠ 0 then none
  else if bits_outside match_options G_REGEX_MATCH_MASK ≠ 0 then none
  else if ¬ L.config_utf8 then none
  else if ¬ L.config_unicode_properties then none
  else
    let optimize : Bool := decide (compile_options &&& G_REGEX_OPTIMIZE ≠ 0)
    let compile_options1 :=
      if compile_options &&& G_REGEX_RAW ≠ 0 then compile_options ^^^ G_REGEX_RAW
      else compile_options ||| (PCRE_UTF8 ||| PCRE_NO_UTF8_CHECK)
    let match_options1 :=
      if compile_options &&& G_REGEX_RAW ≠ 0 then match_options
      else match_options ||| PCRE_NO_UTF8_CHECK
    let compile_options2 :=
      if compile_options1 &&& G_REGEX_NEWLINE_CR = 0 ∧ compile_options1 &&& G_REGEX_NEWLINE_LF = 0
      then compile_options1 ||| PCRE_NEWLINE_ANY
      else compile_options1
    match L.compile pattern compile_options2 with
    | none => none
    | some re =>
      if optimize && L.study_fails re then none
      else some
        { pattern := pattern
          pcre_re := re
          compile_opts := compile_options2
          match_opts := match_options1 }

/-! ## g_regex_split_full -/

/-- The loop `for (i = 1; i < match_count; i++)` of `g_regex_split_full`, which
prepends the text of every substring to the list.  `g_match_info_fetch` cannot
return NULL there, since `i` is below the match count. -/
def split_add_substrings (match_info : GMatchInfo) (match_count : Int)
    (list : List (List Nat)) : List (List Nat) :=
  (List.range (match_count.toNat - 1)).foldl
    (fun l (k : Nat) => ((g_match_info_fetch match_info ((k : Int) + 1)).getD []) :: l) list

/-- The loop `while (tmp_error == NULL)` of `g_regex_split_full`.  The state is
the match state, `match_ok`, the list of tokens (most recent first, as the C
code prepends), `token_count`, `last_separator_end` and `last_match_is_empty`.
The test of `tmp_error` is made where the error is produced, after
`g_match_info_next`. -/
def split_loop (U : GUnicode) (regex : GRegex) (string : List Nat) (string_len : Int)
    (max_tokens : Int) :
    Nat → GMatchInfo → Bool → List (List Nat) → Int → Int → Bool → Ret (List (List Nat))
  | 0, _, _, _, _, _, _ => Ret.out_of_fuel
  | fuel + 1, match_info, match_ok, list, token_count, last_separator_end,
      last_match_is_empty =>
    if match_ok then
      let last_match_is_empty1 : Bool := decide (match_info.offset 0 = match_info.offset 1)
      let emit : Bool := decide (last_separator_end ≠ match_info.offset 1)
      let token := g_strndup string last_separator_end (match_info.offset 0 - last_separator_end)
      let match_count := g_match_info_get_match_count match_info
      let list1 :=
        if emit then
          if match_count > 1 then split_add_substrings match_info match_count (token :: list)
          else token :: list
        else list
      let token_count1 := if emit then token_count + 1 else token_count
      if token_count1 ≥ max_tokens - 1 then
        let pos1 :=
          if last_match_is_empty1 then PREV_CHAR U regex string match_info.pos
          else match_info.pos
        if string_len > pos1 then
          Ret.value (g_strndup string pos1 (string_len - pos1) :: list1)
        else Ret.value list1
      else
        let last_separator_end1 :=
          if last_match_is_empty1 then PREV_CHAR U regex string match_info.pos
          else match_info.pos
        let r := g_match_info_next U match_info none
        match r.error with
        | some code => Ret.match_error code
        | none =>
          split_loop U regex string string_len max_tokens fuel r.info r.ret list1
            token_count1 last_separator_end1 last_match_is_empty1
    else
      if ¬ last_match_is_empty then
        Ret.value (g_strndup string last_separator_end
          (match_info.string_len - last_separator_end) :: list)
      else Ret.value list

/-- The function `g_regex_split_full`; the vector returned is the list of
tokens in the order of emission.  The call of `g_regex_match_full` is made
after the same argument checks have passed, so it cannot fail them: its case
`none` is never taken. -/
def g_regex_split_full (fuel : Nat) (U : GUnicode) (regex : GRegex) (string : List Nat)
    (string_len : Int) (start_position : Int) (match_options : Nat) (max_tokens : Int) :
    Ret (List (List Nat)) :=
  if ¬ (start_position ≥ 0) then Ret.null
  else if bits_outside match_options G_REGEX_MATCH_MASK ≠ 0 then Ret.null
  else
    let max_tokens1 := if max_tokens ≤ 0 then G_MAXINT else max_tokens
    let string_len1 := if string_len < 0 then strlen string else string_len
    if string_len1 - start_position = 0 then Ret.value []
    else if max_tokens1 = 1 then
      Ret.value [g_strndup string start_position (string_len1 - start_position)]
    else
      match g_regex_match_full U regex string string_len1 start_position match_options none with
      | none => Ret.null
      | some r =>
        match r.error with
        | some code => Ret.match_error code
        | none =>
          match split_loop U regex string string_len1 max_tokens1 fuel r.info r.ret [] 0
              start_position false with
          | Ret.value list => Ret.value list.reverse
          | Ret.match_error code => Ret.match_error code
          | Ret.null => Ret.null
          | Ret.out_of_fuel => Ret.out_of_fuel

/-- The function `g_regex_split_simple`. -/
def g_regex_split_simple (fuel : Nat) (L : PcreLib) (U : GUnicode) (pattern : List Nat)
    (string : List Nat) (compile_options match_options : Nat) : Ret (List (List Nat)) :=
  match g_regex_new L pattern compile_options 0 with
  | none => Ret.null
  | some regex => g_regex_split_full fuel U regex string (-1) 0 match_options 0

/-! ## g_regex_replace_eval and g_regex_replace_literal -/

/-- The type `GRegexEvalCallback` together with its user data: from the regex,
the match state, the subject and the result buffer to the new contents of the
buffer and the returned boolean ("stop"). -/
abbrev GRegexEvalCallback := GRegex → GMatchInfo → List Nat → List Nat → List Nat × Bool

/-- The state of the loop of `g_regex_replace_eval` at its exit. -/
structure ReplaceExit where
  result : List Nat
  str_pos : Int
  tmp_error : Option Int

/-- The loop `while (!done && g_match_info_matches (match_info))` of
`g_regex_replace_eval`. -/
def replace_loop (U : GUnicode) (regex : GRegex) (string : List Nat)
    (eval : GRegexEvalCallback) :
    Nat → GMatchInfo → Option Int → List Nat → Int → Bool → Ret ReplaceExit
  | 0, _, _, _, _, _ => Ret.out_of_fuel
  | fuel + 1, match_info, tmp_error, result, str_pos, done =>
    if (!done) && g_match_info_matches match_info then
      let result1 := result ++ bytes_at string str_pos (match_info.offset 0 - str_pos)
      let e := eval regex match_info string result1
      let str_pos1 := match_info.offset 1
      let r := g_match_info_next U match_info tmp_error
      replace_loop U regex string eval fuel r.info r.error e.1 str_pos1 e.2
    else Ret.value ⟨result, str_pos, tmp_error⟩

/-- The function `g_regex_replace_eval`.  The call of `g_regex_match_full` is
made after the same argument checks have passed, so it cannot fail them: its
case `none` is never taken. -/
def g_regex_replace_eval (fuel : Nat) (U : GUnicode) (regex : GRegex) (string : List Nat)
    (string_len : Int) (start_position : Int) (match_options : Nat)
    (eval : GRegexEvalCallback) : Ret (List Nat) :=
  if ¬ (start_position ≥ 0) then Ret.null
  else if bits_outside match_options G_REGEX_MATCH_MASK ≠ 0 then Ret.null
  else
    let string_len1 := if string_len < 0 then strlen string else string_len
    match g_regex_match_full U regex string string_len1 start_position match_options none with
    | none => Ret.null
    | some r =>
      match replace_loop U regex string eval fuel r.info r.error [] 0 false with
      | Ret.value x =>
        match x.tmp_error with
        | some code => Ret.match_error code
        | none => Ret.value (x.result ++ bytes_at string x.str_pos (string_len1 - x.str_pos))
      | Ret.match_error code => Ret.match_error code
      | Ret.null => Ret.null
      | Ret.out_of_fuel => Ret.out_of_fuel

/-- The callback `literal_replacement`; `data` is the replacement text. -/
def literal_replacement (data : List Nat) : GRegexEvalCallback :=
  fun _ _ _ result => (result ++ data, false)

/-- The function `g_regex_replace_literal`. -/
def g_regex_replace_literal (fuel : Nat) (U : GUnicode) (regex : GRegex) (string : List Nat)
    (string_len : Int) (start_position : Int) (replacement : List Nat) (match_options : Nat) :
    Ret (List Nat) :=
  if bits_outside match_options G_REGEX_MATCH_MASK ≠ 0 then Ret.null
  else
    g_regex_replace_eval fuel U regex string string_len start_position match_options
      (literal_replacement replacement)

/-! ## Interpolation of a parsed replacement -/

/-- The constant `CHANGE_CASE_NONE` of the enumeration `ChangeCase`. -/
def CHANGE_CASE_NONE : Nat := 1

/-- The constant `CHANGE_CASE_UPPER`. -/
def CHANGE_CASE_UPPER : Nat := 2

/-- The constant `CHANGE_CASE_LOWER`. -/
def CHANGE_CASE_LOWER : Nat := 4

/-- The constant `CHANGE_CASE_UPPER_SINGLE`. -/
def CHANGE_CASE_UPPER_SINGLE : Nat := 8

/-- The constant `CHANGE_CASE_LOWER_SINGLE`. -/
def CHANGE_CASE_LOWER_SINGLE : Nat := 16

/-- The constant `CHANGE_CASE_SINGLE_MASK`. -/
def CHANGE_CASE_SINGLE_MASK : Nat := CHANGE_CASE_UPPER_SINGLE ||| CHANGE_CASE_LOWER_SINGLE

/-- The constant `CHANGE_CASE_LOWER_MASK`. -/
def CHANGE_CASE_LOWER_MASK : Nat := CHANGE_CASE_LOWER ||| CHANGE_CASE_LOWER_SINGLE

/-- The constant `CHANGE_CASE_UPPER_MASK`. -/
def CHANGE_CASE_UPPER_MASK : Nat := CHANGE_CASE_UPPER ||| CHANGE_CASE_UPPER_SINGLE

/-- The anonymous enumeration `REPL_TYPE_...` of the kinds of atoms. -/
inductive ReplType where
  | REPL_TYPE_STRING
  | REPL_TYPE_CHARACTER
  | REPL_TYPE_SYMBOLIC_REFERENCE
  | REPL_TYPE_NUMERIC_REFERENCE
  | REPL_TYPE_CHANGE_CASE
  deriving DecidableEq, Repr

/-- The structure `_InterpolationData`, an atom of a parsed replacement.  A
text is the list of the bytes of a C string (without the terminating NUL); the
fields an atom does not use are zero, as `g_new0` leaves them. -/
structure InterpolationData where
  text : List Nat
  type : ReplType
  num : Int
  c : Nat
  change_case : Nat
  deriving DecidableEq, Repr

/-- The macro `CHANGE_CASE (c, change_case)`. -/
def CHANGE_CASE (U : GUnicode) (c : Nat) (change_case : Nat) : Nat :=
  if change_case &&& CHANGE_CASE_LOWER_MASK ≠ 0 then U.g_unichar_tolower c
  else U.g_unichar_toupper c

/-- The loop `while (*text != '\0')` of `string_append`, which appends every
code point of `text` with its case changed.  `fuel` bounds the number of
iterations; every iteration consumes at least one byte, so the length of the
text is enough. -/
def string_append_all (U : GUnicode) (change_case : Nat) :
    Nat → List Nat → List Nat → List Nat
  | 0, _, string => string
  | fuel + 1, text, string =>
    if text = [] then string
    else
      string_append_all U change_case fuel (text.drop (U.g_utf8_skip (text.headD 0)))
        (string ++ U.g_unichar_to_utf8 (CHANGE_CASE U (U.g_utf8_get_char text) change_case))

/-- The function `string_append (string, text, change_case)`: the new contents
of the buffer and the new value of `*change_case`. -/
def string_append (U : GUnicode) (string : List Nat) (text : List Nat) (change_case : Nat) :
    List Nat × Nat :=
  if text = [] then (string, change_case)
  else if change_case = CHANGE_CASE_NONE then (string ++ text, change_case)
  else if change_case &&& CHANGE_CASE_SINGLE_MASK ≠ 0 then
    (string ++ U.g_unichar_to_utf8 (CHANGE_CASE U (U.g_utf8_get_char text) change_case)
      ++ text.drop (U.g_utf8_skip (text.headD 0)), CHANGE_CASE_NONE)
  else (string_append_all U change_case text.length text string, change_case)

/-- The body of the loop of `interpolate_replacement`: the atom `idata` applied
to the buffer and the case mode `st`. -/
def interpolate_step (U : GUnicode) (match_info : GMatchInfo) (st : List Nat × Nat)
    (idata : InterpolationData) : List Nat × Nat :=
  match idata.type with
  | ReplType.REPL_TYPE_STRING => string_append U st.1 idata.text st.2
  | ReplType.REPL_TYPE_CHARACTER =>
    (st.1 ++ [CHANGE_CASE U idata.c st.2 % 256],
      if st.2 &&& CHANGE_CASE_SINGLE_MASK ≠ 0 then CHANGE_CASE_NONE else st.2)
  | ReplType.REPL_TYPE_NUMERIC_REFERENCE =>
    match g_match_info_fetch match_info idata.num with
    | some m => string_append U st.1 m st.2
    | none => st
  | ReplType.REPL_TYPE_SYMBOLIC_REFERENCE =>
    match g_match_info_fetch_named match_info idata.text with
    | some m => string_append U st.1 m st.2
    | none => st
  | ReplType.REPL_TYPE_CHANGE_CASE => (st.1, idata.change_case)

/-- The callback `interpolate_replacement`; `data` is the list of atoms. -/
def interpolate_replacement (U : GUnicode) (data : List InterpolationData) :
    GRegexEvalCallback :=
  fun _ match_info _ result =>
    ((data.foldl (interpolate_step U match_info) (result, CHANGE_CASE_NONE)).1, false)

/-- The atom `NumericRef (n)`, as the parser builds it. -/
def numeric_ref (n : Int) : InterpolationData :=
  { text := [], type := ReplType.REPL_TYPE_NUMERIC_REFERENCE, num := n, c := 0,
    change_case := 0 }

/-- The atom `Literal (text)`, as the parser builds it. -/
def literal_text (text : List Nat) : InterpolationData :=
  { text := text, type := ReplType.REPL_TYPE_STRING, num := 0, c := 0, change_case := 0 }

/-- The text that the group `n` contributes to a replacement, in the words of
the spec: nothing when the group is absent (`n` is not below the match count)
or did not take part in the match (its start offset is -1), else the byte
slice of the group. -/
def group_text (match_info : GMatchInfo) (n : Int) : List Nat :=
  if n < match_info.matches_ then
    if match_info.offset (2 * n) = -1 then []
    else bytes_at match_info.string (match_info.offset (2 * n))
      (match_info.offset (2 * n + 1) - match_info.offset (2 * n))
  else []

/-! ## The parser of replacement templates

A pointer into the template is modelled by the list of the bytes from the
pointer to the end of the template: `*p` is the head of the list (0 at the end,
where the terminating NUL stands), `p++` is the tail, and the difference of two
pointers is the difference of the two lengths. -/

/-- The byte `*p` under a pointer into a C string. -/
def deref (p : List Nat) : Nat := p.headD 0

/-- The C string that a buffer holds: the bytes before the first NUL. -/
def c_string (buffer : List Nat) : List Nat := buffer.takeWhile (fun b => b != 0)

/-- The value of a `gint` expression, on 32 bits in two's complement. -/
def wrap_gint (x : Int) : Int := (x + 2147483648) % 4294967296 - 2147483648

/-- The conversion of a `gint` to the `gunichar` that `g_unichar_to_utf8`
receives. -/
def to_gunichar (x : Int) : Nat := (x % 4294967296).toNat

/-- Modelled from the spec: `g_ascii_digit_value` of gstrfuncs.c, which is not
among the sources: the value of a decimal digit, -1 for any other byte. -/
def g_ascii_digit_value (c : Nat) : Int :=
  if 48 ≤ c ∧ c ≤ 57 then (c : Int) - 48 else -1

/-- Modelled from the spec: `g_ascii_xdigit_value` of gstrfuncs.c, which is not
among the sources: the value of a hexadecimal digit in either case, -1 for any
other byte. -/
def g_ascii_xdigit_value (c : Nat) : Int :=
  if 65 ≤ c ∧ c ≤ 70 then (c : Int) - 65 + 10
  else if 97 ≤ c ∧ c ≤ 102 then (c : Int) - 97 + 10
  else g_ascii_digit_value c

/-- Modelled from the spec: the macro `g_ascii_isdigit` of gstrfuncs.h, which
is not among the sources: the ASCII decimal digits. -/
def g_ascii_isdigit (c : Nat) : Bool := decide (48 ≤ c ∧ c ≤ 57)

/-- Modelled from the spec: the macro `g_ascii_isalnum` of gstrfuncs.h, which
is not among the sources: the ASCII letters and decimal digits. -/
def g_ascii_isalnum (c : Nat) : Bool :=
  decide (48 ≤ c ∧ c ≤ 57) || decide (65 ≤ c ∧ c ≤ 90) || decide (97 ≤ c ∧ c ≤ 122)

/-- The texts `error_detail` of `expand_escape`, in the order of the source. -/
inductive ErrorDetail where
  /-- The text "hexadecimal digit or '}' expected". -/
  | hexadecimal_digit_or_brace_expected
  /-- The text "hexadecimal digit expected". -/
  | hexadecimal_digit_expected
  /-- The text "missing '<' in symbolic reference". -/
  | missing_lt_in_symbolic_reference
  /-- The text "unfinished symbolic reference". -/
  | unfinished_symbolic_reference
  /-- The text "zero-length symbolic reference". -/
  | zero_length_symbolic_reference
  /-- The text "digit expected". -/
  | digit_expected
  /-- The text "illegal symbolic reference". -/
  | illegal_symbolic_reference
  /-- The text "stray final '\'". -/
  | stray_final_backslash
  /-- The text "unknown escape sequence". -/
  | unknown_escape_sequence
  deriving DecidableEq, Repr

/-- The error `G_REGEX_ERROR_REPLACE` that `expand_escape` raises: the offset
`p - replacement` it reports and its detail. -/
structure ReplaceError where
  offset : Nat
  detail : ErrorDetail
  deriving DecidableEq, Repr

/-- The outcome of a step of the parser: a value, or NULL with the error set.
The third case is for the loop of `split_replacement`, whose iterations are
bounded here. -/
inductive Parsed (α : Type) where
  | ok (a : α)
  | error (e : ReplaceError)
  | out_of_fuel
  deriving DecidableEq, Repr

/-- The atom `LiteralChar (c)`, as the parser builds it. -/
def literal_char (c : Nat) : InterpolationData :=
  { text := [], type := ReplType.REPL_TYPE_CHARACTER, num := 0, c := c, change_case := 0 }

/-- The atom `SymbolicRef (name)`, as the parser builds it. -/
def symbolic_ref (name : List Nat) : InterpolationData :=
  { text := name, type := ReplType.REPL_TYPE_SYMBOLIC_REFERENCE, num := 0, c := 0,
    change_case := 0 }

/-- The atom `CaseChange (mode)`, as the parser builds it. -/
def case_change (mode : Nat) : InterpolationData :=
  { text := [], type := ReplType.REPL_TYPE_CHANGE_CASE, num := 0, c := 0, change_case := mode }

/-- The loop `do ... while (*p != '}')` of the case `x` of `expand_escape`, from
the pointer `p` and the value `x` at the start of an iteration; the pointer it
returns is past the closing brace.  At the end of the template `*p` is the NUL,
which is no hexadecimal digit. -/
def hex_brace_loop (replacement : List Nat) : List Nat → Int → Parsed (List Nat × Int)
  | [], _ =>
    Parsed.error ⟨replacement.length, ErrorDetail.hexadecimal_digit_or_brace_expected⟩
  | c :: p, x =>
    if g_ascii_xdigit_value c < 0 then
      Parsed.error ⟨replacement.length - (c :: p).length,
        ErrorDetail.hexadecimal_digit_or_brace_expected⟩
    else if deref p ≠ 125 then
      hex_brace_loop replacement p (wrap_gint (x * 16 + g_ascii_xdigit_value c))
    else Parsed.ok (p.tail, wrap_gint (x * 16 + g_ascii_xdigit_value c))

/-- The loop `for (i = 0; i < 2; i++)` of the case `x` of `expand_escape`; the
first argument is the number of iterations left. -/
def hex_pair_loop (replacement : List Nat) : Nat → List Nat → Int → Parsed (List Nat × Int)
  | 0, p, x => Parsed.ok (p, x)
  | n + 1, p, x =>
    if g_ascii_xdigit_value (deref p) < 0 then
      Parsed.error ⟨replacement.length - p.length, ErrorDetail.hexadecimal_digit_expected⟩
    else
      hex_pair_loop replacement n p.tail (wrap_gint (x * 16 + g_ascii_xdigit_value (deref p)))

/-- The case `x` of `expand_escape`; `p` is the pointer after the `x`. -/
def expand_escape_hex (U : GUnicode) (replacement : List Nat) (p : List Nat) :
    Parsed (List Nat × InterpolationData) :=
  match (if deref p = 123 then hex_brace_loop replacement p.tail 0
         else hex_pair_loop replacement 2 p 0) with
  | Parsed.ok (p, x) =>
    Parsed.ok (p, literal_text (c_string (U.g_unichar_to_utf8 (to_gunichar x))))
  | Parsed.error e => Parsed.error e
  | Parsed.out_of_fuel => Parsed.out_of_fuel

/-- The loop `do { p++; ... } while (*p != '>')` of the case `g` of
`expand_escape`; the argument is the pointer after the increment, the result
the pointer to the closing `>`. -/
def reference_end (replacement : List Nat) : List Nat → Parsed (List Nat)
  | [] => Parsed.error ⟨replacement.length, ErrorDetail.unfinished_symbolic_reference⟩
  | c :: p =>
    if c = 0 then
      Parsed.error ⟨replacement.length - (c :: p).length,
        ErrorDetail.unfinished_symbolic_reference⟩
    else if c ≠ 62 then reference_end replacement p
    else Parsed.ok (c :: p)

/-- The loop `do ... while (q != p)` over the digits of a numeric reference
`\g<number>`, from the pointer `q` and the value `x` at the start of an
iteration; `p` points to the closing `>`. -/
def reference_number (replacement : List Nat) (p : List Nat) : List Nat → Int → Parsed Int
  | [], _ => Parsed.error ⟨replacement.length, ErrorDetail.digit_expected⟩
  | c :: q, x =>
    if g_ascii_digit_value c < 0 then
      Parsed.error ⟨replacement.length - (c :: q).length, ErrorDetail.digit_expected⟩
    else if q.length ≠ p.length then
      reference_number replacement p q (wrap_gint (x * 10 + g_ascii_digit_value c))
    else Parsed.ok (wrap_gint (x * 10 + g_ascii_digit_value c))

/-- The loop `do ... while (r != p)` over the bytes of a symbolic reference
`\g<name>`, from the pointer `r`; `p` points to the closing `>`. -/
def reference_name (replacement : List Nat) (p : List Nat) : List Nat → Parsed Unit
  | [] => Parsed.error ⟨replacement.length, ErrorDetail.illegal_symbolic_reference⟩
  | c :: r =>
    if g_ascii_isalnum c = false then
      Parsed.error ⟨replacement.length - (c :: r).length,
        ErrorDetail.illegal_symbolic_reference⟩
    else if r.length ≠ p.length then reference_name replacement p r
    else Parsed.ok ()

/-- The case `g` of `expand_escape`; `p` is the pointer after the `g`. -/
def expand_escape_reference (replacement : List Nat) (p : List Nat) :
    Parsed (List Nat × InterpolationData) :=
  if deref p ≠ 60 then
    Parsed.error ⟨replacement.length - p.length, ErrorDetail.missing_lt_in_symbolic_reference⟩
  else
    let q := p.tail
    match reference_end replacement q with
    | Parsed.error e => Parsed.error e
    | Parsed.out_of_fuel => Parsed.out_of_fuel
    | Parsed.ok p =>
      if q.length - p.length = 0 then
        Parsed.error ⟨replacement.length - p.length,
          ErrorDetail.zero_length_symbolic_reference⟩
      else if g_ascii_isdigit (deref q) then
        match reference_number replacement p q 0 with
        | Parsed.ok x => Parsed.ok (p.tail, numeric_ref x)
        | Parsed.error e => Parsed.error e
        | Parsed.out_of_fuel => Parsed.out_of_fuel
      else
        match reference_name replacement p q with
        | Parsed.ok _ => Parsed.ok (p.tail, symbolic_ref (q.take (q.length - p.length)))
        | Parsed.error e => Parsed.error e
        | Parsed.out_of_fuel => Parsed.out_of_fuel

/-- The variables of the loop over the digits in `expand_escape`. -/
structure DigitsState where
  i : Nat
  p : List Nat
  x : Int
  d : Int
  base : Int
  deriving DecidableEq, Repr

/-- The loop `for (i = 0; i < 3; i++)` of the cases `0` to `9` of
`expand_escape`; the first argument is the number of iterations left. -/
def digits_loop : Nat → DigitsState → DigitsState
  | 0, s => s
  | n + 1, s =>
    if g_ascii_digit_value (deref s.p) < 0 then s
    else if g_ascii_digit_value (deref s.p) > 7 ∧ s.base = 8 then s
    else if s.i = 2 ∧ (if g_ascii_digit_value (deref s.p) > 7 then 10 else s.base) = 10 then
      { s with base := 10 }
    else
      digits_loop n
        { i := s.i + 1
          p := s.p.tail
          x := s.x * 8 + g_ascii_digit_value (deref s.p)
          d := s.d * 10 + g_ascii_digit_value (deref s.p)
          base := if g_ascii_digit_value (deref s.p) > 7 then 10 else s.base }

/-- The cases `1` to `9` of `expand_escape`, which the case `0` falls into;
`p` is the pointer to the first digit that the loop reads and `base` is 8 after
`\0` before a digit, else 0. -/
def expand_escape_digits (U : GUnicode) (p : List Nat) (base : Int) :
    Parsed (List Nat × InterpolationData) :=
  let s := digits_loop 3 { i := 0, p := p, x := 0, d := 0, base := base }
  if s.base = 8 ∨ s.i = 3 then
    Parsed.ok (s.p, literal_text (c_string (U.g_unichar_to_utf8 (to_gunichar s.x))))
  else Parsed.ok (s.p, numeric_ref s.d)

/-- The function `expand_escape (replacement, p, data, error)`, with `p` at a
backslash: the pointer after the escape and the atom written to `data`, or the
error.  The bytes compared with `*p` are the characters of the `switch`, in its
order: t n v r f a b \ x l u L U E g 0 1-9 NUL. -/
def expand_escape (U : GUnicode) (replacement : List Nat) (p : List Nat) :
    Parsed (List Nat × InterpolationData) :=
  let p := p.tail
  if deref p = 116 then Parsed.ok (p.tail, literal_char 9)
  else if deref p = 110 then Parsed.ok (p.tail, literal_char 10)
  else if deref p = 118 then Parsed.ok (p.tail, literal_char 11)
  else if deref p = 114 then Parsed.ok (p.tail, literal_char 13)
  else if deref p = 102 then Parsed.ok (p.tail, literal_char 12)
  else if deref p = 97 then Parsed.ok (p.tail, literal_char 7)
  else if deref p = 98 then Parsed.ok (p.tail, literal_char 8)
  else if deref p = 92 then Parsed.ok (p.tail, literal_char 92)
  else if deref p = 120 then expand_escape_hex U replacement p.tail
  else if deref p = 108 then Parsed.ok (p.tail, case_change CHANGE_CASE_LOWER_SINGLE)
  else if deref p = 117 then Parsed.ok (p.tail, case_change CHANGE_CASE_UPPER_SINGLE)
  else if deref p = 76 then Parsed.ok (p.tail, case_change CHANGE_CASE_LOWER)
  else if deref p = 85 then Parsed.ok (p.tail, case_change CHANGE_CASE_UPPER)
  else if deref p = 69 then Parsed.ok (p.tail, case_change CHANGE_CASE_NONE)
  else if deref p = 103 then expand_escape_reference replacement p.tail
  else if deref p = 48 then
    if g_ascii_digit_value (deref (p.drop (U.g_utf8_skip (deref p)))) ≥ 0 then
      expand_escape_digits U (p.drop (U.g_utf8_skip (deref p))) 8
    else expand_escape_digits U p 0
  else if 49 ≤ deref p ∧ deref p ≤ 57 then expand_escape_digits U p 0
  else if deref p = 0 then
    Parsed.error ⟨replacement.length - p.length, ErrorDetail.stray_final_backslash⟩
  else Parsed.error ⟨replacement.length - p.length, ErrorDetail.unknown_escape_sequence⟩

/-- The loop `while (*p)` of `split_replacement`, with the atoms found so far
in `list`, last first.  `fuel` bounds the number of iterations; every iteration
consumes at least one byte. -/
def split_replacement_loop (U : GUnicode) (replacement : List Nat) :
    Nat → List Nat → List Nat → List InterpolationData → Parsed (List InterpolationData)
  | 0, _, _, _ => Parsed.out_of_fuel
  | fuel + 1, start, p, list =>
    if deref p = 0 then Parsed.ok list.reverse
    else if deref p = 92 then
      match expand_escape U replacement p with
      | Parsed.ok (p, data) => split_replacement_loop U replacement fuel p p (data :: list)
      | Parsed.error e => Parsed.error e
      | Parsed.out_of_fuel => Parsed.out_of_fuel
    else if (deref p.tail = 92 ∨ deref p.tail = 0) ∧ start.length - p.tail.length > 0 then
      split_replacement_loop U replacement fuel start p.tail
        (literal_text (start.take (start.length - p.tail.length)) :: list)
    else split_replacement_loop U replacement fuel start p.tail list

/-- The function `split_replacement`: the atoms of the template, or the error
of the first escape that does not parse (no list is returned then). -/
def split_replacement (U : GUnicode) (replacement : List Nat) :
    Parsed (List InterpolationData) :=
  split_replacement_loop U replacement (replacement.length + 1) replacement replacement []

/-- The outcome of `g_regex_replace`: NULL with the error of the parser of the
template, or what `g_regex_replace_eval` returns. -/
inductive Replaced where
  | replace_error (e : ReplaceError)
  | eval (r : Ret (List Nat))
  deriving DecidableEq, Repr

/-- The function `g_regex_replace`.  The template is parsed before anything is
matched. -/
def g_regex_replace (fuel : Nat) (U : GUnicode) (regex : GRegex) (string : List Nat)
    (string_len : Int) (start_position : Int) (replacement : List Nat) (match_options : Nat) :
    Replaced :=
  if ¬ (start_position ≥ 0) then Replaced.eval Ret.null
  else if bits_outside match_options G_REGEX_MATCH_MASK ≠ 0 then Replaced.eval Ret.null
  else
    match split_replacement U replacement with
    | Parsed.error e => Replaced.replace_error e
    | Parsed.out_of_fuel => Replaced.eval Ret.out_of_fuel
    | Parsed.ok list =>
      Replaced.eval (g_regex_replace_eval fuel U regex string string_len start_position
        match_options (interpolate_replacement U list))


/-- The number that a string of digits denotes in base 8, in the words of the
spec. -/
def octal_value (digits : List Nat) : Nat :=
  digits.foldl (fun x b => x * 8 + (b - 48)) 0

/-- The number that a string of digits denotes in base 10, in the words of the
spec. -/
def decimal_value (digits : List Nat) : Nat :=
  digits.foldl (fun x b => x * 10 + (b - 48)) 0

/-! ## Case modes, in the words of the spec -/

/-- The text that an atom appends while the case mode is None, in the words of
the spec: a Literal appends its text, a LiteralChar its byte, a reference the
text of its group (nothing when there is none), a CaseChange nothing. -/
def plain_text (match_info : GMatchInfo) (idata : InterpolationData) : List Nat :=
  match idata.type with
  | ReplType.REPL_TYPE_STRING => idata.text
  | ReplType.REPL_TYPE_CHARACTER => [idata.c]
  | ReplType.REPL_TYPE_NUMERIC_REFERENCE =>
    (g_match_info_fetch match_info idata.num).getD []
  | ReplType.REPL_TYPE_SYMBOLIC_REFERENCE =>
    (g_match_info_fetch_named match_info idata.text).getD []
  | ReplType.REPL_TYPE_CHANGE_CASE => []

/-- The text `text` with every code point sent through `f` and encoded again,
code point by code point; the first argument bounds the number of code points,
and the length of the text is enough. -/
def map_code_points (U : GUnicode) (f : Nat → Nat) : Nat → List Nat → List Nat
  | 0, _ => []
  | n + 1, text =>
    if text = [] then []
    else
      U.g_unichar_to_utf8 (f (U.g_utf8_get_char text))
        ++ map_code_points U f n (text.drop (U.g_utf8_skip (text.headD 0)))

/-- The text `text` with every code point upper-cased by the case-mapping
primitive. -/
def upper_cased (U : GUnicode) (text : List Nat) : List Nat :=
  map_code_points U U.g_unichar_toupper text.length text

/-- What an atom appends in the mode that upper-cases everything, in the words
of the spec: the text of a Literal or of a group with every code point
upper-cased, the upper-cased byte of a LiteralChar. -/
def upper_text (U : GUnicode) (match_info : GMatchInfo) (idata : InterpolationData) :
    List Nat :=
  match idata.type with
  | ReplType.REPL_TYPE_CHARACTER => [U.g_unichar_toupper idata.c % 256]
  | _ => upper_cased U (plain_text match_info idata)

/-- The case mapping of a one-shot mode: to lower case for `\l`, to upper case
for `\u`. -/
def one_shot_map (U : GUnicode) (mode : Nat) (c : Nat) : Nat :=
  if mode = CHANGE_CASE_LOWER_SINGLE then U.g_unichar_tolower c else U.g_unichar_toupper c

/-- What an atom with a non-empty text appends in a one-shot mode, in the
words of the spec: its first code point case-mapped, the rest of its text
unchanged. -/
def one_shot_text (U : GUnicode) (match_info : GMatchInfo) (mode : Nat)
    (idata : InterpolationData) : List Nat :=
  match idata.type with
  | ReplType.REPL_TYPE_CHARACTER => [one_shot_map U mode idata.c % 256]
  | _ =>
    U.g_unichar_to_utf8 (one_shot_map U mode (U.g_utf8_get_char (plain_text match_info idata)))
      ++ (plain_text match_info idata).drop
          (U.g_utf8_skip ((plain_text match_info idata).headD 0))


/-! ## The successive steps of a match state -/

/-- The match state after `k` further calls of `g_match_info_next`, starting
from the result `r` of a first call. -/
def next_iter (U : GUnicode) : Nat → NextResult → NextResult
  | 0, r => r
  | k + 1, r => next_iter U k (g_match_info_next U r.info r.error)

/-- The spans `(offsets[0], offsets[1])` that the match state shows after the
step `r` and after each of the `n - 1` steps that follow it. -/
def iter_spans (U : GUnicode) : Nat → NextResult → List (Int × Int)
  | 0, _ => []
  | n + 1, r =>
    (r.info.offset 0, r.info.offset 1) :: iter_spans U n (g_match_info_next U r.info r.error)

/-- The reference result of a literal replacement, in the words of the spec:
`s[str_pos..a1] ++ r ++ s[b1..a2] ++ r ++ ... ++ r ++ s[bn..len]` for the spans
`(a1, b1), ..., (an, bn)`. -/
def replace_literal_spec (s : List Nat) (len : Int) (r : List Nat) :
    Int → List (Int × Int) → List Nat
  | str_pos, [] => bytes_at s str_pos (len - str_pos)
  | str_pos, (a, b) :: spans =>
    bytes_at s str_pos (a - str_pos) ++ r ++ replace_literal_spec s len r b spans

/-- The subject with the given spans removed: the text before the first span,
between consecutive spans and after the last one. -/
def remove_spans (s : List Nat) (len : Int) : Int → List (Int × Int) → List Nat
  | str_pos, [] => bytes_at s str_pos (len - str_pos)
  | str_pos, (a, b) :: spans => bytes_at s str_pos (a - str_pos) ++ remove_spans s len b spans

/-! ## The tokens of a split, with the match that produced each of them -/

/-- An element of the list that `g_regex_split_full` builds, with a record of
where it comes from: a token cut before the match `(m0, m1)`, the text of a
capture group, or the final tail. -/
inductive SplitEvent where
  | piece (token : List Nat) (m0 m1 : Int)
  | group (text : List Nat)
  | tail (token : List Nat)
  deriving DecidableEq, Repr

/-- The string stored in the list for an event. -/
def SplitEvent.token : SplitEvent → List Nat
  | SplitEvent.piece token _ _ => token
  | SplitEvent.group text => text
  | SplitEvent.tail token => token

/-- Whether the event is the text of a capture group. -/
def SplitEvent.is_group : SplitEvent → Bool
  | SplitEvent.group _ => true
  | _ => false

/-- A token followed by the text of the separator that caused it to be
emitted; the tail has no separator. -/
def SplitEvent.with_separator (s : List Nat) : SplitEvent → List Nat
  | SplitEvent.piece token m0 m1 => token ++ bytes_at s m0 (m1 - m0)
  | SplitEvent.group _ => []
  | SplitEvent.tail token => token

/-- Joining the tokens with the separators recovered from the matches. -/
def split_rejoin (s : List Nat) (events : List SplitEvent) : List Nat :=
  events.flatMap (SplitEvent.with_separator s)

/-- The loop of `split_add_substrings`, recording the origin of the strings. -/
def trace_add_substrings (match_info : GMatchInfo) (match_count : Int)
    (list : List SplitEvent) : List SplitEvent :=
  (List.range (match_count.toNat - 1)).foldl
    (fun l (k : Nat) =>
      SplitEvent.group ((g_match_info_fetch match_info ((k : Int) + 1)).getD []) :: l)
    list

/-- The loop `split_loop`, recording the origin of every string it puts in the
list.  It takes the same steps as `split_loop`. -/
def split_trace_loop (U : GUnicode) (regex : GRegex) (string : List Nat) (string_len : Int)
    (max_tokens : Int) :
    Nat → GMatchInfo → Bool → List SplitEvent → Int → Int → Bool → Ret (List SplitEvent)
  | 0, _, _, _, _, _, _ => Ret.out_of_fuel
  | fuel + 1, match_info, match_ok, list, token_count, last_separator_end,
      last_match_is_empty =>
    if match_ok then
      let last_match_is_empty1 : Bool := decide (match_info.offset 0 = match_info.offset 1)
      let emit : Bool := decide (last_separator_end ≠ match_info.offset 1)
      let token := SplitEvent.piece
        (g_strndup string last_separator_end (match_info.offset 0 - last_separator_end))
        (match_info.offset 0) (match_info.offset 1)
      let match_count := g_match_info_get_match_count match_info
      let list1 :=
        if emit then
          if match_count > 1 then trace_add_substrings match_info match_count (token :: list)
          else token :: list
        else list
      let token_count1 := if emit then token_count + 1 else token_count
      if token_count1 ≥ max_tokens - 1 then
        let pos1 :=
          if last_match_is_empty1 then PREV_CHAR U regex string match_info.pos
          else match_info.pos
        if string_len > pos1 then
          Ret.value (SplitEvent.tail (g_strndup string pos1 (string_len - pos1)) :: list1)
        else Ret.value list1
      else
        let last_separator_end1 :=
          if last_match_is_empty1 then PREV_CHAR U regex string match_info.pos
          else match_info.pos
        let r := g_match_info_next U match_info none
        match r.error with
        | some code => Ret.match_error code
        | none =>
          split_trace_loop U regex string string_len max_tokens fuel r.info r.ret list1
            token_count1 last_separator_end1 last_match_is_empty1
    else
      if ¬ last_match_is_empty then
        Ret.value (SplitEvent.tail (g_strndup string last_separator_end
          (match_info.string_len - last_separator_end)) :: list)
      else Ret.value list

/-- The function `g_regex_split_full`, recording the origin of every element of
the vector. -/
def split_trace (fuel : Nat) (U : GUnicode) (regex : GRegex) (string : List Nat)
    (string_len : Int) (start_position : Int) (match_options : Nat) (max_tokens : Int) :
    Ret (List SplitEvent) :=
  if ¬ (start_position ≥ 0) then Ret.null
  else if bits_outside match_options G_REGEX_MATCH_MASK ≠ 0 then Ret.null
  else
    let max_tokens1 := if max_tokens ≤ 0 then G_MAXINT else max_tokens
    let string_len1 := if string_len < 0 then strlen string else string_len
    if string_len1 - start_position = 0 then Ret.value []
    else if max_tokens1 = 1 then
      Ret.value [SplitEvent.tail (g_strndup string start_position (string_len1 - start_position))]
    else
      match g_regex_match_full U regex string string_len1 start_position match_options none with
      | none => Ret.null
      | some r =>
        match r.error with
        | some code => Ret.match_error code
        | none =>
          match split_trace_loop U regex string string_len1 max_tokens1 fuel r.info r.ret [] 0
              start_position false with
          | Ret.value list => Ret.value list.reverse
          | Ret.match_error code => Ret.match_error code
          | Ret.null => Ret.null
          | Ret.out_of_fuel => Ret.out_of_fuel

/-- The number of elements of a recorded vector that are tokens of the split
(pieces and the tail), as opposed to texts of capture groups. -/
def split_token_count (events : List SplitEvent) : Nat :=
  events.countP (fun e => !e.is_group)

/-- Apply a function to the value a call returns. -/
def Ret.map {α β : Type} (f : α → β) : Ret α → Ret β
  | Ret.value v => Ret.value (f v)
  | Ret.match_error code => Ret.match_error code
  | Ret.null => Ret.null
  | Ret.out_of_fuel => Ret.out_of_fuel

/-! ## Hypotheses on the matcher and on the subject -/

/-- The match state `mi` belongs to a run of `regex` over the subject `string`
of length `len`. -/
def Tracks (mi : GMatchInfo) (regex : GRegex) (string : List Nat) (len : Int) : Prop :=
  mi.regex = regex ∧ mi.string = string ∧ mi.string_len = len

/-- The match state `mi` of a run of `regex` over `string` shows the match
`(m0, m1)` without groups, and the next search starts from `p`. -/
def AtMatch (mi : GMatchInfo) (regex : GRegex) (string : List Nat) (len : Int)
    (p m0 m1 : Int) : Prop :=
  Tracks mi regex string len ∧ mi.pos = p ∧ mi.offset 0 = m0 ∧ mi.offset 1 = m1 ∧
    mi.matches_ ≤ 1

/-- The matcher contract: on the subject `string` of length `len`, a search
from `pos` reports no match or a span `(m0, m1)` with
`pos <= m0 <= m1 <= len`. -/
def MatcherContract (regex : GRegex) (string : List Nat) (len : Int) : Prop :=
  ∀ (pos : Int) (opts : Nat) (offs : List Int) (n : Int), 0 ≤ pos →
    (regex.pcre_re.exec string len pos opts offs n).1 = PCRE_ERROR_NOMATCH ∨
    (0 ≤ (regex.pcre_re.exec string len pos opts offs n).1 ∧
      pos ≤ (regex.pcre_re.exec string len pos opts offs n).2.getD 0 0 ∧
      (regex.pcre_re.exec string len pos opts offs n).2.getD 0 0
        ≤ (regex.pcre_re.exec string len pos opts offs n).2.getD 1 0 ∧
      (regex.pcre_re.exec string len pos opts offs n).2.getD 1 0 ≤ len)

/-- An empty match is only reported at the position the search starts from. -/
def EmptyAtSearchStart (regex : GRegex) (string : List Nat) (len : Int) : Prop :=
  ∀ (pos : Int) (opts : Nat) (offs : List Int) (n : Int), 0 ≤ pos →
    0 ≤ (regex.pcre_re.exec string len pos opts offs n).1 →
    (regex.pcre_re.exec string len pos opts offs n).2.getD 0 0
      = (regex.pcre_re.exec string len pos opts offs n).2.getD 1 0 →
    (regex.pcre_re.exec string len pos opts offs n).2.getD 0 0 = pos

/-- After an empty match before the end of the subject, the search from the
next character finds a further match. -/
def EmptyThenMatch (U : GUnicode) (regex : GRegex) (string : List Nat) (len : Int) : Prop :=
  ∀ (pos : Int) (opts : Nat) (offs : List Int) (n : Int), 0 ≤ pos →
    0 ≤ (regex.pcre_re.exec string len pos opts offs n).1 →
    (regex.pcre_re.exec string len pos opts offs n).2.getD 0 0
      = (regex.pcre_re.exec string len pos opts offs n).2.getD 1 0 →
    (regex.pcre_re.exec string len pos opts offs n).2.getD 1 0 < len →
    ∀ (opts' : Nat) (offs' : List Int) (n' : Int),
      (regex.pcre_re.exec string len (NEXT_CHAR U regex string pos) opts' offs' n').1
        ≠ PCRE_ERROR_NOMATCH

/-- Stepping back one character undoes stepping forward one character, at
every offset in `[0, len]`: so it is in raw mode, for single-byte characters
and for valid UTF-8. -/
def StepBackReturns (U : GUnicode) (regex : GRegex) (string : List Nat) (len : Int) : Prop :=
  ∀ p : Int, 0 ≤ p → p ≤ len →
    PREV_CHAR U regex string (NEXT_CHAR U regex string p) = p

/-- A regex without capture groups: the matcher never reports more than one
matched substring (the whole match). -/
def NoGroups (regex : GRegex) : Prop :=
  ∀ (s : List Nat) (l p : Int) (o : Nat) (offs : List Int) (n : Int),
    (regex.pcre_re.exec s l p o offs n).1 ≤ 1

/-- The characters of the subject are single bytes for the regex: stepping to
the next character from an offset in `[0, len]` adds one, and stepping back
from there returns.  This is so for every subject in raw mode, and in UTF-8
mode for an ASCII subject. -/
def SingleByteSteps (U : GUnicode) (regex : GRegex) (string : List Nat) (len : Int) : Prop :=
  ∀ p : Int, 0 ≤ p → p ≤ len →
    NEXT_CHAR U regex string p = p + 1 ∧ PREV_CHAR U regex string (p + 1) = p

/-- A matcher that reports an empty match at every position `p` in `[0, len]`
when searched from `p`, and no match beyond `len`. -/
def EmptyEverywhere (regex : GRegex) (string : List Nat) (len : Int) : Prop :=
  ∀ (pos : Int) (opts : Nat) (offs : List Int) (n : Int),
    (0 ≤ pos → pos ≤ len →
      0 ≤ (regex.pcre_re.exec string len pos opts offs n).1 ∧
      (regex.pcre_re.exec string len pos opts offs n).1 ≤ 1 ∧
      (regex.pcre_re.exec string len pos opts offs n).2.getD 0 0 = pos ∧
      (regex.pcre_re.exec string len pos opts offs n).2.getD 1 0 = pos) ∧
    (len < pos → (regex.pcre_re.exec string len pos opts offs n).1 = PCRE_ERROR_NOMATCH)

/-- The outcome `r1` of reading an escape in a template followed by one more
backslash, against the outcome `r` of reading it in the template itself: when
the escape parses, it parses to the same atom in the longer template and
returns the same pointer, which lies in `p`. -/
def EscapeFrame {α : Type} (r r1 : Parsed (List Nat × α)) (p : List Nat) : Prop :=
  ∀ (p1 : List Nat) (data : α),
    r = Parsed.ok (p1, data) → r1 = Parsed.ok (p1 ++ [92], data) ∧ p1 <:+ p

/-! ## Concrete matchers, for the examples -/

/-- Store `vals` at the start of the offset vector. -/
def set_offsets (offsets : List Int) (vals : List Int) : List Int :=
  vals ++ offsets.drop vals.length

/-- A `pcre_exec` built from a search function: `search string string_len pos`
is `none` when nothing matches at or after `pos`, else the offsets of the whole
match and of the groups.  A search from beyond the end of the subject reports
no match; a failed search leaves the offset vector as it was. -/
def exec_of (search : List Nat → Int → Int → Option (List Int)) :
    List Nat → Int → Int → Nat → List Int → Int → Int × List Int :=
  fun string string_len pos _ offsets _ =>
    if pos > string_len then (PCRE_ERROR_NOMATCH, offsets)
    else
      match search string string_len pos with
      | none => (PCRE_ERROR_NOMATCH, offsets)
      | some spans => (((spans.length / 2 : Nat) : Int), set_offsets offsets spans)

/-- A regex in UTF-8 mode (what `g_regex_new` builds by default) around a
search function, with `capture_count` groups. -/
def regex_of (search : List Nat → Int → Int → Option (List Int)) (capture_count : Int) :
    GRegex :=
  { pattern := []
    pcre_re :=
      { exec := exec_of search
        capture_count := capture_count
        get_stringnumber := fun _ => PCRE_ERROR_NOSUBSTRING }
    compile_opts := PCRE_UTF8 ||| PCRE_NO_UTF8_CHECK ||| PCRE_NEWLINE_ANY
    match_opts := PCRE_NO_UTF8_CHECK }

/-- The white space of the pattern `\s`. -/
def is_space (b : Nat) : Bool :=
  b == 32 || b == 9 || b == 10 || b == 11 || b == 12 || b == 13

/-- The end of the maximal run of white space that starts at `p`. -/
def space_run_end (string : List Nat) (string_len : Int) (p : Int) : Int :=
  p + (((bytes_at string p (string_len - p)).takeWhile is_space).length : Int)

/-- The pattern `\s*`: from `p` it matches the maximal run of white space that
starts at `p`, possibly empty. -/
def search_space_star (string : List Nat) (string_len : Int) (pos : Int) : Option (List Int) :=
  some [pos, space_run_end string string_len pos]

/-- The empty pattern: from `p` it matches the empty string at `p`. -/
def search_empty (_ : List Nat) (_ : Int) (pos : Int) : Option (List Int) :=
  some [pos, pos]

/-- The pattern `^` (without the multi-line option): the empty string at
offset 0 and nothing else. -/
def search_caret (_ : List Nat) (_ : Int) (pos : Int) : Option (List Int) :=
  if pos = 0 then some [0, 0] else none

/-- The pattern `(,)`: the first comma at or after `pos`, which is also the
text of group 1. -/
def search_comma_group (string : List Nat) (string_len : Int) (pos : Int) :
    Option (List Int) :=
  let rest := bytes_at string pos (string_len - pos)
  let i := rest.findIdx (fun b => b == 44)
  if i < rest.length then some [pos + i, pos + i + 1, pos + i, pos + i + 1] else none

/-- The pattern `,` : the first comma at or after `pos`. -/
def search_comma (string : List Nat) (string_len : Int) (pos : Int) : Option (List Int) :=
  let rest := bytes_at string pos (string_len - pos)
  let i := rest.findIdx (fun b => b == 44)
  if i < rest.length then some [pos + i, pos + i + 1] else none

/-- A matcher implementing the pattern `\s*` on the subject `string` of length
`len`: searched from `p <= len` it reports the span from `p` to the end of the
maximal run of white space starting at `p`; beyond `len` it reports no
match. -/
def MatchesSpaceStar (regex : GRegex) (string : List Nat) (len : Int) : Prop :=
  ∀ (pos : Int) (opts : Nat) (offs : List Int) (n : Int),
    (0 ≤ pos → pos ≤ len →
      0 ≤ (regex.pcre_re.exec string len pos opts offs n).1 ∧
      (regex.pcre_re.exec string len pos opts offs n).1 ≤ 1 ∧
      (regex.pcre_re.exec string len pos opts offs n).2.getD 0 0 = pos ∧
      (regex.pcre_re.exec string len pos opts offs n).2.getD 1 0
        = space_run_end string len pos) ∧
    (len < pos → (regex.pcre_re.exec string len pos opts offs n).1 = PCRE_ERROR_NOMATCH)

/-- The pattern `(?=b)`: the empty string before the first `b` at or after
`pos`. -/
def search_before_b (string : List Nat) (string_len : Int) (pos : Int) : Option (List Int) :=
  let rest := bytes_at string pos (string_len - pos)
  let i := rest.findIdx (fun b => b == 98)
  if i < rest.length then some [pos + i, pos + i] else none

/-- The word characters of the pattern `\w`: the ASCII letters and digits and
the underscore. -/
def is_word (b : Nat) : Bool :=
  (decide (48 ≤ b) && decide (b ≤ 57)) || (decide (65 ≤ b) && decide (b ≤ 90)) ||
  (decide (97 ≤ b) && decide (b ≤ 122)) || b == 95

/-- The end of the maximal run of word characters that starts at `p`. -/
def word_run_end (string : List Nat) (string_len : Int) (p : Int) : Int :=
  p + (((bytes_at string p (string_len - p)).takeWhile is_word).length : Int)

/-- The pattern `(\w+) (\w+)`: the first offset `i` at or after `pos` where a
run of word characters ends with a space that is followed by a word
character; group 1 is the first run, group 2 the run after the space. -/
def search_two_words (string : List Nat) (string_len : Int) (pos : Int) : Option (List Int) :=
  let starts := (List.range (string_len - pos).toNat).map (fun (k : Nat) => pos + (k : Int))
  match starts.find? (fun i =>
      decide (i < word_run_end string string_len i) &&
      (byte_at string (word_run_end string string_len i) == 32) &&
      decide (word_run_end string string_len i + 1
        < word_run_end string string_len (word_run_end string string_len i + 1))) with
  | none => none
  | some i =>
    some [i, word_run_end string string_len (word_run_end string string_len i + 1),
      i, word_run_end string string_len i,
      word_run_end string string_len i + 1,
      word_run_end string string_len (word_run_end string string_len i + 1)]

/-- The lower-case letters of the class `[a-z]`. -/
def is_lower (b : Nat) : Bool := decide (97 ≤ b) && decide (b ≤ 122)

/-- The pattern `([a-z]+)`: the first maximal run of lower-case letters at or
after `pos`, which is also the text of group 1. -/
def search_lower_word (string : List Nat) (string_len : Int) (pos : Int) :
    Option (List Int) :=
  let rest := bytes_at string pos (string_len - pos)
  let i := rest.findIdx is_lower
  if i < rest.length then
    some [pos + i, pos + i + (((rest.drop i).takeWhile is_lower).length : Int),
      pos + i, pos + i + (((rest.drop i).takeWhile is_lower).length : Int)]
  else none

/-- The pattern `(a)?b` as PCRE reports it: at the first `b` at or after `pos`,
with the `a` before it when there is one.  When group 1 is set the result is 2;
when it is not, the result is 1 (one more than the highest group that is set)
and both offsets of group 1 are -1. -/
def exec_optional_a_b : List Nat → Int → Int → Nat → List Int → Int → Int × List Int :=
  fun string string_len pos _ offsets _ =>
    if pos > string_len then (PCRE_ERROR_NOMATCH, offsets)
    else
      let rest := bytes_at string pos (string_len - pos)
      let i := rest.findIdx (fun b => b == 98)
      if i < rest.length then
        if 0 < i ∧ rest.getD (i - 1) 0 = 97 then
          (2, set_offsets offsets [pos + i - 1, pos + i + 1, pos + i - 1, pos + i])
        else (1, set_offsets offsets [pos + i, pos + i + 1, -1, -1])
      else (PCRE_ERROR_NOMATCH, offsets)

/-- The regex `(a)?b`, in UTF-8 mode, with its one group. -/
def regex_optional_a_b : GRegex :=
  { pattern := [40, 97, 41, 63, 98]
    pcre_re :=
      { exec := exec_optional_a_b
        capture_count := 1
        get_stringnumber := fun _ => PCRE_ERROR_NOSUBSTRING }
    compile_opts := PCRE_UTF8 ||| PCRE_NO_UTF8_CHECK ||| PCRE_NEWLINE_ANY
    match_opts := PCRE_NO_UTF8_CHECK }

/-- The constant `PCRE_PARTIAL` of pcre.h, the option that `G_REGEX_MATCH_PARTIAL`
stands for. -/
def PCRE_PARTIAL : Nat := 0x8000

/-- The pattern `abc` anchored at the start position, as PCRE reports it: the
match when the subject continues with `abc`; with the option `PCRE_PARTIAL`, a
partial match when the subject ends inside `abc`; else no match. -/
def exec_abc_partial : List Nat → Int → Int → Nat → List Int → Int → Int × List Int :=
  fun string string_len pos options offsets _ =>
    if pos > string_len then (PCRE_ERROR_NOMATCH, offsets)
    else if (bytes_at string pos (string_len - pos)).take 3 = [97, 98, 99] then
      (1, set_offsets offsets [pos, pos + 3])
    else if options &&& PCRE_PARTIAL ≠ 0 ∧ bytes_at string pos (string_len - pos) ≠ [] ∧
        bytes_at string pos (string_len - pos)
          = [97, 98, 99].take (bytes_at string pos (string_len - pos)).length then
      (PCRE_ERROR_PARTIAL, offsets)
    else (PCRE_ERROR_NOMATCH, offsets)

/-- The regex `abc`, anchored, in UTF-8 mode. -/
def regex_abc_partial : GRegex :=
  { pattern := [97, 98, 99]
    pcre_re :=
      { exec := exec_abc_partial
        capture_count := 0
        get_stringnumber := fun _ => PCRE_ERROR_NOSUBSTRING }
    compile_opts := PCRE_UTF8 ||| PCRE_NO_UTF8_CHECK ||| PCRE_NEWLINE_ANY
    match_opts := PCRE_NO_UTF8_CHECK }

/-- A callback that appends `data` and asks to stop after the first match. -/
def stop_after_first (data : List Nat) : GRegexEvalCallback :=
  fun _ _ _ result => (result ++ data, true)

/-- A PCRE library whose compiler knows the pattern `\s*` only. -/
def pcre_lib_space_star : PcreLib :=
  { config_utf8 := true
    config_unicode_properties := true
    compile := fun pattern _ =>
      if pattern = [92, 115, 42] then
        some { exec := exec_of search_space_star
               capture_count := 0
               get_stringnumber := fun _ => PCRE_ERROR_NOSUBSTRING }
      else none
    study_fails := fun _ => false }

/-! ## The calls of the callback of g_regex_replace_eval -/

/-- The loop of `g_regex_replace_eval` with a record of the calls of the
callback: each call is recorded with the match state and the buffer that the
callback received.  Without the record this is `replace_loop`. -/
def replace_trace_loop (U : GUnicode) (regex : GRegex) (string : List Nat)
    (eval : GRegexEvalCallback) :
    Nat → GMatchInfo → Option Int → List Nat → Int → Bool → List (GMatchInfo × List Nat) →
      Ret (ReplaceExit × List (GMatchInfo × List Nat))
  | 0, _, _, _, _, _, _ => Ret.out_of_fuel
  | fuel + 1, match_info, tmp_error, result, str_pos, done, calls =>
    if (!done) && g_match_info_matches match_info then
      let result1 := result ++ bytes_at string str_pos (match_info.offset 0 - str_pos)
      let e := eval regex match_info string result1
      let str_pos1 := match_info.offset 1
      let r := g_match_info_next U match_info tmp_error
      replace_trace_loop U regex string eval fuel r.info r.error e.1 str_pos1 e.2
        (calls ++ [(match_info, result1)])
    else Ret.value (⟨result, str_pos, tmp_error⟩, calls)

/-- The function `g_regex_replace_eval` up to the exit of its loop, with the
record of the calls of the callback. -/
def replace_trace (fuel : Nat) (U : GUnicode) (regex : GRegex) (string : List Nat)
    (string_len : Int) (start_position : Int) (match_options : Nat)
    (eval : GRegexEvalCallback) : Ret (ReplaceExit × List (GMatchInfo × List Nat)) :=
  if ¬ (start_position ≥ 0) then Ret.null
  else if bits_outside match_options G_REGEX_MATCH_MASK ≠ 0 then Ret.null
  else
    let string_len1 := if string_len < 0 then strlen string else string_len
    match g_regex_match_full U regex string string_len1 start_position match_options none with
    | none => Ret.null
    | some r => replace_trace_loop U regex string eval fuel r.info r.error [] 0 false []

/-! ## Strings that the scanner of g_regex_escape_string reads in step -/

/-- The scanner of `g_regex_escape_string` never steps over a special byte of
the string: a byte that is not special is followed, over the length that the
skip table gives it, by bytes that are not special.  This is so for every
valid UTF-8 string (the bytes of a multi-byte character are all above 0x7F)
and for every string of bytes below 0x80. -/
inductive ScanAligned (U : GUnicode) : List Nat → Prop where
  | nil : ScanAligned U []
  | special (c : Nat) (rest : List Nat) :
      escape_special c = true → ScanAligned U rest → ScanAligned U (c :: rest)
  | plain (c : Nat) (rest : List Nat) :
      escape_special c = false →
      (∀ b ∈ rest.take (U.g_utf8_skip c - 1), escape_special b = false) →
      ScanAligned U (rest.drop (U.g_utf8_skip c - 1)) → ScanAligned U (c :: rest)

/-! ## The file monitor (gfilemonitor.c): the rate limit of the change events

A file is modelled by a number (the address of the `GFile`), a pending timer
by the time at which it is due, in milliseconds of the clock that
`get_time_msecs` reads, and the signal `changed` by the list of the events
that `g_signal_emit` is called with. -/

/-- A file, `GFile *`: files are compared by address. -/
abbrev GFile := Nat

/-- Modelled from the spec: the enumeration `GFileMonitorEvent` of gioenums.h,
which is not among the sources: the event vocabulary of the monitor. -/
inductive GFileMonitorEvent where
  | G_FILE_MONITOR_EVENT_CHANGED
  | G_FILE_MONITOR_EVENT_CHANGES_DONE_HINT
  | G_FILE_MONITOR_EVENT_DELETED
  | G_FILE_MONITOR_EVENT_CREATED
  | G_FILE_MONITOR_EVENT_ATTRIBUTE_CHANGED
  | G_FILE_MONITOR_EVENT_PRE_UNMOUNT
  | G_FILE_MONITOR_EVENT_UNMOUNTED
  deriving DecidableEq, Repr

/-- An emission of the signal `changed`: the arguments `file`, `other_file` and
`event_type` of `g_signal_emit`. -/
structure Emission where
  file : Option GFile
  other_file : Option GFile
  event_type : GFileMonitorEvent
  deriving DecidableEq, Repr

/-- The structure `_GFileMonitorPrivate`.  The two timeout fields hold the time
at which the pending source is due, `none` for the 0 and the NULL of the
source. -/
structure GFileMonitorPrivate where
  cancelled : Bool
  rate_limit_msec : Int
  last_sent_change_time : Nat
  last_sent_change_file : Option GFile
  send_delayed_change_timeout : Option Nat
  virtual_changes_done_timeout : Option Nat
  virtual_changes_done_file : Option GFile
  deriving DecidableEq, Repr

/-- The constant `DEFAULT_RATE_LIMIT_MSECS`. -/
def DEFAULT_RATE_LIMIT_MSECS : Int := 800

/-- The constant `DEFAULT_VIRTUAL_CHANGES_DONE_DELAY_SECS`. -/
def DEFAULT_VIRTUAL_CHANGES_DONE_DELAY_SECS : Nat := 2

/-- The private data after `g_file_monitor_init`: zeroed, with the default
rate limit. -/
def g_file_monitor_init : GFileMonitorPrivate :=
  { cancelled := false
    rate_limit_msec := DEFAULT_RATE_LIMIT_MSECS
    last_sent_change_time := 0
    last_sent_change_file := none
    send_delayed_change_timeout := none
    virtual_changes_done_timeout := none
    virtual_changes_done_file := none }

/-- The function `g_file_monitor_is_cancelled`. -/
def g_file_monitor_is_cancelled (priv : GFileMonitorPrivate) : Bool :=
  priv.cancelled

/-- What a call of `g_file_monitor_cancel` gives: the private data after it,
the value returned, and the number of calls of the hook `klass->cancel` that it
made. -/
structure CancelResult where
  priv : GFileMonitorPrivate
  ret : Bool
  hook_calls : Nat
  deriving DecidableEq, Repr

/-- The function `g_file_monitor_cancel`; `klass_cancel` is the hook
`klass->cancel` of the class of the monitor, which returns a boolean. -/
def g_file_monitor_cancel (klass_cancel : GFileMonitorPrivate → Bool)
    (priv : GFileMonitorPrivate) : CancelResult :=
  if priv.cancelled then ⟨priv, true, 0⟩
  else ⟨{ priv with cancelled := true }, klass_cancel { priv with cancelled := true }, 1⟩

/-- The function `g_file_monitor_set_rate_limit`. -/
def g_file_monitor_set_rate_limit (priv : GFileMonitorPrivate) (limit_msecs : Int) :
    GFileMonitorPrivate :=
  { priv with rate_limit_msec := limit_msecs }

/-- The conversion of an `int` to `guint32`, as in the comparison and the
subtraction of `g_file_monitor_emit_event` that mix the two types. -/
def to_guint32 (x : Int) : Nat := (x % 4294967296).toNat

/-- The function `time_difference (from, to)`. -/
def time_difference (from_ to_ : Nat) : Nat :=
  if from_ > to_ then 0 else to_ - from_

/-- The function `update_last_sent_change (monitor, file, time_now)`. -/
def update_last_sent_change (priv : GFileMonitorPrivate) (file : Option GFile)
    (time_now : Nat) : GFileMonitorPrivate :=
  let priv1 :=
    if priv.last_sent_change_file ≠ file then
      let priv2 :=
        if priv.last_sent_change_file.isSome then { priv with last_sent_change_file := none }
        else priv
      if file.isSome then { priv2 with last_sent_change_file := file } else priv2
    else priv
  { priv1 with last_sent_change_time := time_now }

/-- The function `send_delayed_change_now`; `time_now` is what `get_time_msecs`
returns. -/
def send_delayed_change_now (priv : GFileMonitorPrivate) (time_now : Nat) :
    GFileMonitorPrivate × List Emission :=
  if priv.send_delayed_change_timeout.isSome then
    ({ priv with send_delayed_change_timeout := none, last_sent_change_time := time_now },
      [⟨priv.last_sent_change_file, none, GFileMonitorEvent.G_FILE_MONITOR_EVENT_CHANGED⟩])
  else (priv, [])

/-- The callback `delayed_changed_event_timeout` of the delayed change. -/
def delayed_changed_event_timeout (priv : GFileMonitorPrivate) (time_now : Nat) :
    GFileMonitorPrivate × List Emission :=
  send_delayed_change_now priv time_now

/-- The function `schedule_delayed_change (monitor, file, delay_msec)`.
Modelled from the spec: `g_timeout_add` of gmain.c, which is not among the
sources: the source is due `delay_msec` milliseconds after the call, made at
the time `time_now`. -/
def schedule_delayed_change (priv : GFileMonitorPrivate) (delay_msec : Nat)
    (time_now : Nat) : GFileMonitorPrivate :=
  if priv.send_delayed_change_timeout = none then
    { priv with send_delayed_change_timeout := some (time_now + delay_msec) }
  else priv

/-- The function `cancel_delayed_change`. -/
def cancel_delayed_change (priv : GFileMonitorPrivate) : GFileMonitorPrivate :=
  if priv.send_delayed_change_timeout ≠ none then
    { priv with send_delayed_change_timeout := none }
  else priv

/-- The function `send_virtual_changes_done_now`. -/
def send_virtual_changes_done_now (priv : GFileMonitorPrivate) :
    GFileMonitorPrivate × List Emission :=
  if priv.virtual_changes_done_timeout.isSome then
    ({ priv with virtual_changes_done_timeout := none, virtual_changes_done_file := none },
      [⟨priv.virtual_changes_done_file, none,
        GFileMonitorEvent.G_FILE_MONITOR_EVENT_CHANGES_DONE_HINT⟩])
  else (priv, [])

/-- The callback `virtual_changes_done_timeout` of the virtual changes-done
event. -/
def virtual_changes_done_timeout (priv : GFileMonitorPrivate) :
    GFileMonitorPrivate × List Emission :=
  send_virtual_changes_done_now priv

/-- The function `schedule_virtual_change_done (monitor, file)`.  Modelled from
the spec: `g_timeout_source_new_seconds` of gmain.c, which is not among the
sources: the source is due the given number of seconds after the call, made at
the time `time_now`. -/
def schedule_virtual_change_done (priv : GFileMonitorPrivate) (file : GFile)
    (time_now : Nat) : GFileMonitorPrivate :=
  { priv with
    virtual_changes_done_timeout :=
      some (time_now + DEFAULT_VIRTUAL_CHANGES_DONE_DELAY_SECS * 1000)
    virtual_changes_done_file := some file }

/-- The function `cancel_virtual_changes_done`. -/
def cancel_virtual_changes_done (priv : GFileMonitorPrivate) : GFileMonitorPrivate :=
  if priv.virtual_changes_done_timeout.isSome then
    { priv with virtual_changes_done_timeout := none, virtual_changes_done_file := none }
  else priv

/-- The function `g_file_monitor_emit_event (monitor, file, other_file,
event_type)`: the private data after the call and the events emitted, in
order.  `time_now` is what `get_time_msecs` returns during the call; `file` is
a file (the check `G_IS_FILE (file)` has passed). -/
def g_file_monitor_emit_event (priv : GFileMonitorPrivate) (time_now : Nat) (file : GFile)
    (other_file : Option GFile) (event_type : GFileMonitorEvent) :
    GFileMonitorPrivate × List Emission :=
  if event_type ≠ GFileMonitorEvent.G_FILE_MONITOR_EVENT_CHANGED then
    let r1 := send_delayed_change_now priv time_now
    let priv2 := update_last_sent_change r1.1 none 0
    let r3 :=
      if event_type = GFileMonitorEvent.G_FILE_MONITOR_EVENT_CHANGES_DONE_HINT then
        (cancel_virtual_changes_done priv2, [])
      else send_virtual_changes_done_now priv2
    (r3.1, r1.2 ++ r3.2 ++ [⟨some file, other_file, event_type⟩])
  else
    let since_last := time_difference priv.last_sent_change_time time_now
    let emit_now : Bool :=
      !(priv.last_sent_change_file.isSome && decide (since_last < to_guint32 priv.rate_limit_msec))
    let priv1 :=
      if priv.last_sent_change_file.isSome ∧ since_last < to_guint32 priv.rate_limit_msec then
        schedule_delayed_change priv (to_guint32 (priv.rate_limit_msec - since_last)) time_now
      else priv
    let r2 : GFileMonitorPrivate × List Emission :=
      if emit_now then
        (update_last_sent_change (cancel_delayed_change priv1) (some file) time_now,
          [⟨some file, other_file, event_type⟩])
      else (priv1, [])
    (schedule_virtual_change_done (cancel_virtual_changes_done r2.1) file time_now, r2.2)

/-- What happens to a monitor: a call of `g_file_monitor_emit_event`, the
expiry of one of its two timers (the main loop calls the callback of the
source), a call of `g_file_monitor_set_rate_limit` or of
`g_file_monitor_cancel`. -/
inductive MonitorInput where
  | emit_event (file : GFile) (other_file : Option GFile) (event_type : GFileMonitorEvent)
  | delayed_change_expiry
  | virtual_changes_done_expiry
  | set_rate_limit (limit_msecs : Int)
  | cancel
  deriving DecidableEq, Repr

/-- One input at the time `time_now`: the private data after it and the events
emitted. -/
def monitor_step (klass_cancel : GFileMonitorPrivate → Bool) (priv : GFileMonitorPrivate)
    (time_now : Nat) : MonitorInput → GFileMonitorPrivate × List Emission
  | MonitorInput.emit_event file other_file event_type =>
    g_file_monitor_emit_event priv time_now file other_file event_type
  | MonitorInput.delayed_change_expiry => delayed_changed_event_timeout priv time_now
  | MonitorInput.virtual_changes_done_expiry => virtual_changes_done_timeout priv
  | MonitorInput.set_rate_limit limit_msecs =>
    (g_file_monitor_set_rate_limit priv limit_msecs, [])
  | MonitorInput.cancel => ((g_file_monitor_cancel klass_cancel priv).priv, [])

/-- A run of the monitor over timed inputs: the private data at the end and
the events emitted, each with the time of the input that emitted it. -/
def monitor_run (klass_cancel : GFileMonitorPrivate → Bool) :
    GFileMonitorPrivate → List (Nat × MonitorInput) →
      GFileMonitorPrivate × List (Nat × Emission)
  | priv, [] => (priv, [])
  | priv, (t, input) :: rest =>
    ((monitor_run klass_cancel (monitor_step klass_cancel priv t input).1 rest).1,
      (monitor_step klass_cancel priv t input).2.map (fun e => (t, e))
        ++ (monitor_run klass_cancel (monitor_step klass_cancel priv t input).1 rest).2)

/-- The main loop calls the callback of a timer only while the timer is
pending, and not before it is due. -/
def input_due (priv : GFileMonitorPrivate) (t : Nat) : MonitorInput → Bool
  | MonitorInput.delayed_change_expiry =>
    match priv.send_delayed_change_timeout with
    | some due => decide (due ≤ t)
    | none => false
  | MonitorInput.virtual_changes_done_expiry =>
    match priv.virtual_changes_done_timeout with
    | some due => decide (due ≤ t)
    | none => false
  | _ => true

/-- The timed inputs come in the order of time, from the time `t0` on, and the
timers expire when they are due or later. -/
def well_timed (klass_cancel : GFileMonitorPrivate → Bool) :
    Nat → GFileMonitorPrivate → List (Nat × MonitorInput) → Bool
  | _, _, [] => true
  | t0, priv, (t, input) :: rest =>
    decide (t0 ≤ t) && input_due priv t input &&
      well_timed klass_cancel t (monitor_step klass_cancel priv t input).1 rest

/-- The times at which a run emitted the event `Changed`. -/
def changed_times (trace : List (Nat × Emission)) : List Nat :=
  (trace.filter
    (fun e => e.2.event_type = GFileMonitorEvent.G_FILE_MONITOR_EVENT_CHANGED)).map Prod.fst

/-- The inputs of a run in which the monitor reports changes only: a call of
`g_file_monitor_emit_event` with the event `G_FILE_MONITOR_EVENT_CHANGED`, the
expiry of a timer, or a call of `g_file_monitor_cancel`. -/
def changed_or_timer : MonitorInput → Bool
  | MonitorInput.emit_event _ _ event_type =>
    decide (event_type = GFileMonitorEvent.G_FILE_MONITOR_EVENT_CHANGED)
  | MonitorInput.set_rate_limit _ => false
  | _ => true

/-- The inputs that are neither an event of the monitor nor the expiry of the
timer of the virtual changes-done event. -/
def quiet_input : MonitorInput → Bool
  | MonitorInput.emit_event _ _ _ => false
  | MonitorInput.virtual_changes_done_expiry => false
  | _ => true

/-- The number of calls of the hook `klass->cancel` made during a run. -/
def hook_calls_run (klass_cancel : GFileMonitorPrivate → Bool) :
    GFileMonitorPrivate → List (Nat × MonitorInput) → Nat
  | _, [] => 0
  | priv, (t, input) :: rest =>
    (match input with
      | MonitorInput.cancel => (g_file_monitor_cancel klass_cancel priv).hook_calls
      | _ => 0)
      + hook_calls_run klass_cancel (monitor_step klass_cancel priv t input).1 rest

/-- The number of the times of a list that lie in the window of the length
`len` that starts at `w`. -/
def count_in_window (times : List Nat) (w len : Nat) : Nat :=
  (times.filter (fun e => decide (w ≤ e) && decide (e < w + len))).length

/-- The most recent event that the monitor reported in a run, its file and its
kind, after the inputs of the list; `last` is the most recent one before
them. -/
def last_event_from (last : Option (GFile × GFileMonitorEvent)) :
    List (Nat × MonitorInput) → Option (GFile × GFileMonitorEvent)
  | [] => last
  | (_, MonitorInput.emit_event file _ event_type) :: rest =>
    last_event_from (some (file, event_type)) rest
  | _ :: rest => last_event_from last rest

/-- The order in which the main loop is taken to dispatch the two timers
(gmain.c is not among the sources): by deadline, and the delayed change, whose
source was attached first, before the virtual changes-done event when both
are due at the same time.  So the virtual changes-done event does not expire
while a delayed change that is due no later is pending. -/
def timer_order (priv : GFileMonitorPrivate) : MonitorInput → Bool
  | MonitorInput.virtual_changes_done_expiry =>
    match priv.send_delayed_change_timeout, priv.virtual_changes_done_timeout with
    | some d, some v => decide (v < d)
    | _, _ => true
  | _ => true

/-- Every timer expiry of the run respects `timer_order`. -/
def timers_in_order (klass_cancel : GFileMonitorPrivate → Bool) :
    GFileMonitorPrivate → List (Nat × MonitorInput) → Bool
  | _, [] => true
  | priv, (t, input) :: rest =>
    timer_order priv input &&
      timers_in_order klass_cancel (monitor_step klass_cancel priv t input).1 rest

/-- A run holds an event `Changed` of the monitor. -/
def has_changed_event (inputs : List (Nat × MonitorInput)) : Bool :=
  inputs.any (fun x =>
    match x.2 with
    | MonitorInput.emit_event _ _ event_type =>
      decide (event_type = GFileMonitorEvent.G_FILE_MONITOR_EVENT_CHANGED)
    | _ => false)

/-! ## The timeout sources of the monitor that are attached to the main loop -/

/-- The timeout sources of a monitor that are attached to the main loop, each
given by the time at which it is due: `delayed_change` holds those whose
callback is `delayed_changed_event_timeout`, `virtual_changes_done` those whose
callback is `virtual_changes_done_timeout`.  Modelled from the spec: the main
loop of gmain.c, which is not among the sources: `g_timeout_add` and
`g_source_attach` add a source, `g_source_remove` and `g_source_destroy` take
away the source that they are given.  The functions below follow these calls
through the functions of the monitor; they are kept apart from the private
data, so a source that no field names any more stays in the lists. -/
structure TimerSources where
  delayed_change : List Nat
  virtual_changes_done : List Nat
  deriving DecidableEq, Repr

/-- The sources that the two timeout fields of the private data name. -/
def sources_of (priv : GFileMonitorPrivate) : TimerSources :=
  ⟨priv.send_delayed_change_timeout.toList, priv.virtual_changes_done_timeout.toList⟩

/-- The sources after `send_delayed_change_now`, called on `priv`: the call of
`g_source_remove (monitor->priv->send_delayed_change_timeout)`. -/
def sources_send_delayed_change_now (priv : GFileMonitorPrivate) (sources : TimerSources) :
    TimerSources :=
  match priv.send_delayed_change_timeout with
  | some due => { sources with delayed_change := sources.delayed_change.erase due }
  | none => sources

/-- The sources after `schedule_delayed_change`, called on `priv` at the time
`time_now`: the call of `g_timeout_add`, made only when the field is 0. -/
def sources_schedule_delayed_change (priv : GFileMonitorPrivate) (delay_msec : Nat)
    (time_now : Nat) (sources : TimerSources) : TimerSources :=
  if priv.send_delayed_change_timeout = none then
    { sources with delayed_change := (time_now + delay_msec) :: sources.delayed_change }
  else sources

/-- The sources after `cancel_delayed_change`, called on `priv`: the call of
`g_source_remove`. -/
def sources_cancel_delayed_change (priv : GFileMonitorPrivate) (sources : TimerSources) :
    TimerSources :=
  match priv.send_delayed_change_timeout with
  | some due => { sources with delayed_change := sources.delayed_change.erase due }
  | none => sources

/-- The sources after `send_virtual_changes_done_now`, called on `priv`: the
call of `g_source_destroy (monitor->priv->virtual_changes_done_timeout)`. -/
def sources_send_virtual_changes_done_now (priv : GFileMonitorPrivate)
    (sources : TimerSources) : TimerSources :=
  match priv.virtual_changes_done_timeout with
  | some due => { sources with virtual_changes_done := sources.virtual_changes_done.erase due }
  | none => sources

/-- The sources after `schedule_virtual_change_done`, called at the time
`time_now`: the source is created and attached whatever the field holds. -/
def sources_schedule_virtual_change_done (time_now : Nat) (sources : TimerSources) :
    TimerSources :=
  { sources with
    virtual_changes_done :=
      (time_now + DEFAULT_VIRTUAL_CHANGES_DONE_DELAY_SECS * 1000)
        :: sources.virtual_changes_done }

/-- The sources after `cancel_virtual_changes_done`, called on `priv`: the call
of `g_source_destroy`. -/
def sources_cancel_virtual_changes_done (priv : GFileMonitorPrivate)
    (sources : TimerSources) : TimerSources :=
  match priv.virtual_changes_done_timeout with
  | some due => { sources with virtual_changes_done := sources.virtual_changes_done.erase due }
  | none => sources

/-- The sources after `g_file_monitor_emit_event`, called on `priv`: the body of
the function, statement by statement, with the private data that each of its
calls finds. -/
def sources_emit_event (priv : GFileMonitorPrivate) (time_now : Nat) (file : GFile)
    (event_type : GFileMonitorEvent) (sources : TimerSources) : TimerSources :=
  if event_type ≠ GFileMonitorEvent.G_FILE_MONITOR_EVENT_CHANGED then
    let s1 := sources_send_delayed_change_now priv sources
    let r1 := send_delayed_change_now priv time_now
    let priv2 := update_last_sent_change r1.1 none 0
    if event_type = GFileMonitorEvent.G_FILE_MONITOR_EVENT_CHANGES_DONE_HINT then
      sources_cancel_virtual_changes_done priv2 s1
    else sources_send_virtual_changes_done_now priv2 s1
  else
    let since_last := time_difference priv.last_sent_change_time time_now
    let emit_now : Bool :=
      !(priv.last_sent_change_file.isSome && decide (since_last < to_guint32 priv.rate_limit_msec))
    let limited : Bool :=
      priv.last_sent_change_file.isSome && decide (since_last < to_guint32 priv.rate_limit_msec)
    let priv1 :=
      if limited then
        schedule_delayed_change priv (to_guint32 (priv.rate_limit_msec - since_last)) time_now
      else priv
    let s1 :=
      if limited then
        sources_schedule_delayed_change priv (to_guint32 (priv.rate_limit_msec - since_last))
          time_now sources
      else sources
    let priv2 :=
      if emit_now then
        update_last_sent_change (cancel_delayed_change priv1) (some file) time_now
      else priv1
    let s2 := if emit_now then sources_cancel_delayed_change priv1 s1 else s1
    sources_schedule_virtual_change_done time_now (sources_cancel_virtual_changes_done priv2 s2)

/-- The sources after one input of the monitor.  A timer expiry runs the
callback of the source; the callback returns `FALSE`, on which the main loop
destroys the source that it dispatched, the one that the callback has taken
away already.  `g_file_monitor_set_rate_limit` and `g_file_monitor_cancel`
touch no source. -/
def sources_step (priv : GFileMonitorPrivate) (time_now : Nat) :
    MonitorInput → TimerSources → TimerSources
  | MonitorInput.emit_event file _ event_type, sources =>
    sources_emit_event priv time_now file event_type sources
  | MonitorInput.delayed_change_expiry, sources => sources_send_delayed_change_now priv sources
  | MonitorInput.virtual_changes_done_expiry, sources =>
    sources_send_virtual_changes_done_now priv sources
  | MonitorInput.set_rate_limit _, sources => sources
  | MonitorInput.cancel, sources => sources

/-- The sources attached at the end of a run of the monitor that starts with
the private data `priv` and the sources `sources`. -/
def sources_run (klass_cancel : GFileMonitorPrivate → Bool) :
    GFileMonitorPrivate → TimerSources → List (Nat × MonitorInput) → TimerSources
  | _, sources, [] => sources
  | priv, sources, (t, input) :: rest =>
    sources_run klass_cancel (monitor_step klass_cancel priv t input).1
      (sources_step priv t input sources) rest

/-! ## The slices that g_regex_replace_eval copies -/

/-- A search that finds nothing leaves `offsets[1]` as it was: the matcher
stores the end of a match when it has found one. -/
def KeepsEndOnFailure (regex : GRegex) (string : List Nat) (len : Int) : Prop :=
  ∀ (pos : Int) (opts : Nat) (offs : List Int) (n : Int),
    (regex.pcre_re.exec string len pos opts offs n).1 = PCRE_ERROR_NOMATCH →
    (regex.pcre_re.exec string len pos opts offs n).2.getD 1 0 = offs.getD 1 0

/-- A callback that only appends its output to the buffer it receives. -/
def CallbackAppends (eval : GRegexEvalCallback) : Prop :=
  ∀ (regex : GRegex) (match_info : GMatchInfo) (string result : List Nat),
    result <+: (eval regex match_info string result).1

/-- The loop of `g_regex_replace_eval` with a record of the slices
`(str_pos, offsets[0])` of the subject that it copies before each call of the
callback.  Without the record this is `replace_loop`. -/
def replace_slices_loop (U : GUnicode) (regex : GRegex) (string : List Nat)
    (eval : GRegexEvalCallback) :
    Nat → GMatchInfo → Option Int → List Nat → Int → Bool → List (Int × Int) →
      Ret (ReplaceExit × List (Int × Int))
  | 0, _, _, _, _, _, _ => Ret.out_of_fuel
  | fuel + 1, match_info, tmp_error, result, str_pos, done, slices =>
    if (!done) && g_match_info_matches match_info then
      let result1 := result ++ bytes_at string str_pos (match_info.offset 0 - str_pos)
      let e := eval regex match_info string result1
      let str_pos1 := match_info.offset 1
      let r := g_match_info_next U match_info tmp_error
      replace_slices_loop U regex string eval fuel r.info r.error e.1 str_pos1 e.2
        (slices ++ [(str_pos, match_info.offset 0)])
    else Ret.value (⟨result, str_pos, tmp_error⟩, slices)

/-- The slices of the subject, as pairs of offsets (from, to), that
`g_regex_replace_eval` copies in a run: those of the loop and, when no error
is set at the end, the last one `(str_pos, string_len)`. -/
def replace_slices (fuel : Nat) (U : GUnicode) (regex : GRegex) (string : List Nat)
    (string_len : Int) (start_position : Int) (match_options : Nat)
    (eval : GRegexEvalCallback) : Ret (List (Int × Int)) :=
  if ¬ (start_position ≥ 0) then Ret.null
  else if bits_outside match_options G_REGEX_MATCH_MASK ≠ 0 then Ret.null
  else
    let string_len1 := if string_len < 0 then strlen string else string_len
    match g_regex_match_full U regex string string_len1 start_position match_options none with
    | none => Ret.null
    | some r =>
      match replace_slices_loop U regex string eval fuel r.info r.error [] 0 false [] with
      | Ret.value x =>
        match x.1.tmp_error with
        | some _ => Ret.value x.2
        | none => Ret.value (x.2 ++ [(x.1.str_pos, string_len1)])
      | Ret.match_error code => Ret.match_error code
      | Ret.null => Ret.null
      | Ret.out_of_fuel => Ret.out_of_fuel

/-! ## The decoder of escaped strings, in the words of the spec -/

/-- The decoder of an escaped string: a backslash followed by `0` yields NUL,
a backslash followed by any other byte yields that byte, any other byte yields
itself. -/
def escape_decode : List Nat → List Nat
  | [] => []
  | [c] => [c]
  | c :: d :: rest =>
    if c = 92 then (if d = 48 then 0 else d) :: escape_decode rest
    else c :: escape_decode (d :: rest)

/-! # Theorems -/

/-! ## The entry points after their argument checks -/

/-- The option bits 0 are inside every mask. -/
theorem bits_outside_zero (mask : Nat) : bits_outside 0 mask = 0 := by
  simp [bits_outside]

/-- The argument checks of `g_regex_match_full` pass when the start position is
not negative, the error location is empty and the option bits are inside the
mask; the call then makes the first step of a new match state. -/
theorem g_regex_match_full_checked (U : GUnicode) (regex : GRegex) (string : List Nat)
    (string_len start_position : Int) (match_options : Nat) (hstart : 0 ≤ start_position)
    (hopts : bits_outside match_options G_REGEX_MATCH_MASK = 0) :
    g_regex_match_full U regex string string_len start_position match_options none
      = some (match_full_body U regex string string_len start_position match_options none) := by
  unfold g_regex_match_full
  rw [if_neg (by omega), if_neg (by simp), if_neg (by simp [hopts])]

/-- The function `g_regex_match_full` returns a match state only when its
argument checks have passed. -/
theorem g_regex_match_full_some (U : GUnicode) (regex : GRegex) (string : List Nat)
    (string_len start_position : Int) (match_options : Nat) (error : Option Int)
    (r : NextResult)
    (h : g_regex_match_full U regex string string_len start_position match_options error
      = some r) :
    0 ≤ start_position ∧ error = none ∧ bits_outside match_options G_REGEX_MATCH_MASK = 0 ∧
      r = match_full_body U regex string string_len start_position match_options error := by
  unfold g_regex_match_full at h
  split_ifs at h with h1 h2 h3
  refine ⟨by omega, ?_, by simpa using h3, ?_⟩
  · cases error with
    | none => rfl
    | some e => simp at h2
  · exact (Option.some.inj h).symm

/-- The function `g_regex_split_full` on option bits inside the mask. -/
theorem g_regex_split_full_checked (fuel : Nat) (U : GUnicode) (regex : GRegex)
    (string : List Nat) (string_len start_position : Int) (match_options : Nat)
    (max_tokens : Int) (hopts : bits_outside match_options G_REGEX_MATCH_MASK = 0) :
    g_regex_split_full fuel U regex string string_len start_position match_options max_tokens
      = if ¬ (start_position ≥ 0) then Ret.null
        else
          let max_tokens1 := if max_tokens ≤ 0 then G_MAXINT else max_tokens
          let string_len1 := if string_len < 0 then strlen string else string_len
          if string_len1 - start_position = 0 then Ret.value []
          else if max_tokens1 = 1 then
            Ret.value [g_strndup string start_position (string_len1 - start_position)]
          else
            let r := match_full_body U regex string string_len1 start_position match_options none
            match r.error with
            | some code => Ret.match_error code
            | none =>
              match split_loop U regex string string_len1 max_tokens1 fuel r.info r.ret [] 0
                  start_position false with
              | Ret.value list => Ret.value list.reverse
              | Ret.match_error code => Ret.match_error code
              | Ret.null => Ret.null
              | Ret.out_of_fuel => Ret.out_of_fuel := by
  unfold g_regex_split_full
  by_cases h : start_position ≥ 0
  · rw [if_neg (not_not.mpr h), if_neg (not_not.mpr h), if_neg (by simp [hopts])]
    simp only [g_regex_match_full_checked U regex string _ start_position match_options h hopts]
  · rw [if_pos h, if_pos h]

/-- The ghost copy `split_trace` on option bits inside the mask. -/
theorem split_trace_checked (fuel : Nat) (U : GUnicode) (regex : GRegex)
    (string : List Nat) (string_len start_position : Int) (match_options : Nat)
    (max_tokens : Int) (hopts : bits_outside match_options G_REGEX_MATCH_MASK = 0) :
    split_trace fuel U regex string string_len start_position match_options max_tokens
      = if ¬ (start_position ≥ 0) then Ret.null
        else
          let max_tokens1 := if max_tokens ≤ 0 then G_MAXINT else max_tokens
          let string_len1 := if string_len < 0 then strlen string else string_len
          if string_len1 - start_position = 0 then Ret.value []
          else if max_tokens1 = 1 then
            Ret.value
              [SplitEvent.tail (g_strndup string start_position (string_len1 - start_position))]
          else
            let r := match_full_body U regex string string_len1 start_position match_options none
            match r.error with
            | some code => Ret.match_error code
            | none =>
              match split_trace_loop U regex string string_len1 max_tokens1 fuel r.info r.ret []
                  0 start_position false with
              | Ret.value list => Ret.value list.reverse
              | Ret.match_error code => Ret.match_error code
              | Ret.null => Ret.null
              | Ret.out_of_fuel => Ret.out_of_fuel := by
  unfold split_trace
  by_cases h : start_position ≥ 0
  · rw [if_neg (not_not.mpr h), if_neg (not_not.mpr h), if_neg (by simp [hopts])]
    simp only [g_regex_match_full_checked U regex string _ start_position match_options h hopts]
  · rw [if_pos h, if_pos h]

/-- The function `g_regex_replace_eval` on option bits inside the mask. -/
theorem g_regex_replace_eval_checked (fuel : Nat) (U : GUnicode) (regex : GRegex)
    (string : List Nat) (string_len start_position : Int) (match_options : Nat)
    (eval : GRegexEvalCallback) (hopts : bits_outside match_options G_REGEX_MATCH_MASK = 0) :
    g_regex_replace_eval fuel U regex string string_len start_position match_options eval
      = if ¬ (start_position ≥ 0) then Ret.null
        else
          let string_len1 := if string_len < 0 then strlen string else string_len
          let r := match_full_body U regex string string_len1 start_position match_options none
          match replace_loop U regex string eval fuel r.info r.error [] 0 false with
          | Ret.value x =>
            match x.tmp_error with
            | some code => Ret.match_error code
            | none =>
              Ret.value (x.result ++ bytes_at string x.str_pos (string_len1 - x.str_pos))
          | Ret.match_error code => Ret.match_error code
          | Ret.null => Ret.null
          | Ret.out_of_fuel => Ret.out_of_fuel := by
  unfold g_regex_replace_eval
  by_cases h : start_position ≥ 0
  · rw [if_neg (not_not.mpr h), if_neg (not_not.mpr h), if_neg (by simp [hopts])]
    simp only [g_regex_match_full_checked U regex string _ start_position match_options h hopts]
  · rw [if_pos h, if_pos h]

/-- The function `g_regex_replace_literal` on option bits inside the mask. -/
theorem g_regex_replace_literal_checked (fuel : Nat) (U : GUnicode) (regex : GRegex)
    (string : List Nat) (string_len start_position : Int) (replacement : List Nat)
    (match_options : Nat) (hopts : bits_outside match_options G_REGEX_MATCH_MASK = 0) :
    g_regex_replace_literal fuel U regex string string_len start_position replacement
        match_options
      = g_regex_replace_eval fuel U regex string string_len start_position match_options
          (literal_replacement replacement) := by
  unfold g_regex_replace_literal
  rw [if_neg (by simp [hopts])]

/-- The function `g_regex_replace` on option bits inside the mask. -/
theorem g_regex_replace_checked (fuel : Nat) (U : GUnicode) (regex : GRegex)
    (string : List Nat) (string_len start_position : Int) (replacement : List Nat)
    (match_options : Nat) (hopts : bits_outside match_options G_REGEX_MATCH_MASK = 0) :
    g_regex_replace fuel U regex string string_len start_position replacement match_options
      = if ¬ (start_position ≥ 0) then Replaced.eval Ret.null
        else
          match split_replacement U replacement with
          | Parsed.error e => Replaced.replace_error e
          | Parsed.out_of_fuel => Replaced.eval Ret.out_of_fuel
          | Parsed.ok list =>
            Replaced.eval (g_regex_replace_eval fuel U regex string string_len start_position
              match_options (interpolate_replacement U list)) := by
  unfold g_regex_replace
  by_cases h : start_position ≥ 0
  · rw [if_neg (not_not.mpr h), if_neg (not_not.mpr h), if_neg (by simp [hopts])]
  · rw [if_pos h, if_pos h]

/-- The ghost copy `replace_trace` after the argument checks. -/
theorem replace_trace_checked (fuel : Nat) (U : GUnicode) (regex : GRegex)
    (string : List Nat) (string_len start_position : Int) (match_options : Nat)
    (eval : GRegexEvalCallback) (hstart : 0 ≤ start_position)
    (hopts : bits_outside match_options G_REGEX_MATCH_MASK = 0) :
    replace_trace fuel U regex string string_len start_position match_options eval
      = let string_len1 := if string_len < 0 then strlen string else string_len
        let r := match_full_body U regex string string_len1 start_position match_options none
        replace_trace_loop U regex string eval fuel r.info r.error [] 0 false [] := by
  unfold replace_trace
  rw [if_neg (by omega), if_neg (by simp [hopts])]
  simp only [g_regex_match_full_checked U regex string _ start_position match_options hstart
    hopts]

/-- The ghost copy `replace_trace` returns a value only when the argument
checks have passed. -/
theorem replace_trace_value (fuel : Nat) (U : GUnicode) (regex : GRegex)
    (string : List Nat) (string_len start_position : Int) (match_options : Nat)
    (eval : GRegexEvalCallback) (v : ReplaceExit × List (GMatchInfo × List Nat))
    (h : replace_trace fuel U regex string string_len start_position match_options eval
      = Ret.value v) :
    0 ≤ start_position ∧ bits_outside match_options G_REGEX_MATCH_MASK = 0 := by
  by_cases h1 : 0 ≤ start_position
  · by_cases h2 : bits_outside match_options G_REGEX_MATCH_MASK = 0
    · exact ⟨h1, h2⟩
    · unfold replace_trace at h
      rw [if_neg (by omega), if_pos h2] at h
      cases h
  · unfold replace_trace at h
    rw [if_pos (by omega)] at h
    cases h

/-- The ghost copy `replace_slices` after the argument checks. -/
theorem replace_slices_checked (fuel : Nat) (U : GUnicode) (regex : GRegex)
    (string : List Nat) (string_len start_position : Int) (match_options : Nat)
    (eval : GRegexEvalCallback) (hstart : 0 ≤ start_position)
    (hopts : bits_outside match_options G_REGEX_MATCH_MASK = 0) :
    replace_slices fuel U regex string string_len start_position match_options eval
      = let string_len1 := if string_len < 0 then strlen string else string_len
        let r := match_full_body U regex string string_len1 start_position match_options none
        match replace_slices_loop U regex string eval fuel r.info r.error [] 0 false [] with
        | Ret.value x =>
          match x.1.tmp_error with
          | some _ => Ret.value x.2
          | none => Ret.value (x.2 ++ [(x.1.str_pos, string_len1)])
        | Ret.match_error code => Ret.match_error code
        | Ret.null => Ret.null
        | Ret.out_of_fuel => Ret.out_of_fuel := by
  unfold replace_slices
  rw [if_neg (by omega), if_neg (by simp [hopts])]
  simp only [g_regex_match_full_checked U regex string _ start_position match_options hstart
    hopts]

/-- The ghost copy `replace_slices` returns a value only when the argument
checks have passed. -/
theorem replace_slices_value (fuel : Nat) (U : GUnicode) (regex : GRegex)
    (string : List Nat) (string_len start_position : Int) (match_options : Nat)
    (eval : GRegexEvalCallback) (v : List (Int × Int))
    (h : replace_slices fuel U regex string string_len start_position match_options eval
      = Ret.value v) :
    0 ≤ start_position ∧ bits_outside match_options G_REGEX_MATCH_MASK = 0 := by
  by_cases h1 : 0 ≤ start_position
  · by_cases h2 : bits_outside match_options G_REGEX_MATCH_MASK = 0
    · exact ⟨h1, h2⟩
    · unfold replace_slices at h
      rw [if_neg (by omega), if_pos h2] at h
      cases h
  · unfold replace_slices at h
    rw [if_pos (by omega)] at h
    cases h

/-- The function `g_regex_replace_eval` returns a value only when the argument
checks have passed. -/
theorem g_regex_replace_eval_value (fuel : Nat) (U : GUnicode) (regex : GRegex)
    (string : List Nat) (string_len start_position : Int) (match_options : Nat)
    (eval : GRegexEvalCallback) (v : List Nat)
    (h : g_regex_replace_eval fuel U regex string string_len start_position match_options eval
      = Ret.value v) :
    0 ≤ start_position ∧ bits_outside match_options G_REGEX_MATCH_MASK = 0 := by
  by_cases h1 : 0 ≤ start_position
  · by_cases h2 : bits_outside match_options G_REGEX_MATCH_MASK = 0
    · exact ⟨h1, h2⟩
    · unfold g_regex_replace_eval at h
      rw [if_neg (by omega), if_pos h2] at h
      cases h
  · unfold g_regex_replace_eval at h
    rw [if_pos (by omega)] at h
    cases h

/-- The function `g_regex_split_full` returns a vector only when the argument
checks have passed. -/
theorem g_regex_split_full_passed (fuel : Nat) (U : GUnicode) (regex : GRegex)
    (string : List Nat) (string_len start_position : Int) (match_options : Nat)
    (max_tokens : Int) (v : List (List Nat))
    (h : g_regex_split_full fuel U regex string string_len start_position match_options
      max_tokens = Ret.value v) :
    0 ≤ start_position ∧ bits_outside match_options G_REGEX_MATCH_MASK = 0 := by
  by_cases h1 : 0 ≤ start_position
  · by_cases h2 : bits_outside match_options G_REGEX_MATCH_MASK = 0
    · exact ⟨h1, h2⟩
    · unfold g_regex_split_full at h
      rw [if_neg (by omega), if_pos h2] at h
      cases h
  · unfold g_regex_split_full at h
    rw [if_pos (by omega)] at h
    cases h

/-- The ghost copy `split_trace` returns a vector only when the argument checks
have passed. -/
theorem split_trace_passed (fuel : Nat) (U : GUnicode) (regex : GRegex)
    (string : List Nat) (string_len start_position : Int) (match_options : Nat)
    (max_tokens : Int) (v : List SplitEvent)
    (h : split_trace fuel U regex string string_len start_position match_options
      max_tokens = Ret.value v) :
    0 ≤ start_position ∧ bits_outside match_options G_REGEX_MATCH_MASK = 0 := by
  by_cases h1 : 0 ≤ start_position
  · by_cases h2 : bits_outside match_options G_REGEX_MATCH_MASK = 0
    · exact ⟨h1, h2⟩
    · unfold split_trace at h
      rw [if_neg (by omega), if_pos h2] at h
      cases h
  · unfold split_trace at h
    rw [if_pos (by omega)] at h
    cases h

/-- The function `g_regex_split_full` returns NULL, without a match error, on
option bits outside the mask. -/
theorem g_regex_split_full_outside (fuel : Nat) (U : GUnicode) (regex : GRegex)
    (string : List Nat) (string_len start_position : Int) (match_options : Nat)
    (max_tokens : Int) (hopts : bits_outside match_options G_REGEX_MATCH_MASK ≠ 0) :
    g_regex_split_full fuel U regex string string_len start_position match_options max_tokens
      = Ret.null := by
  unfold g_regex_split_full
  split_ifs <;> rfl


theorem byte_at_append (a : List Nat) (c : Nat) (r : List Nat) :
    byte_at (a ++ c :: r) (a.length : Int) = c := by
  unfold byte_at
  rw [Int.toNat_ofNat, List.getD_eq_getElem?_getD, List.getElem?_append_right (le_refl _)]
  simp

theorem bytes_at_mid (a piece r : List Nat) :
    bytes_at (a ++ piece ++ r) (a.length : Int)
      (((a.length : Int) + (piece.length : Int)) - (a.length : Int)) = piece := by
  have h : ((a.length : Int) + (piece.length : Int)) - (a.length : Int) = (piece.length : Int) := by
    omega
  rw [h]
  simp [bytes_at, List.append_assoc]

theorem escape_byte_special (c : Nat) (h : escape_special c = true) :
    escape_byte c = if c = 0 then [92, 48] else [92, c] := by
  unfold escape_byte
  simp [h]

theorem escape_byte_plain (c : Nat) (h : escape_special c = false) :
    escape_byte c = [c] := by
  unfold escape_byte
  have h0 : c ≠ 0 := by
    intro hc
    subst hc
    simp [escape_special] at h
  simp [h, h0]

theorem escape_loop_ascii (U : GUnicode) (hskip : ∀ b, b < 128 → U.g_utf8_skip b = 1) :
    ∀ (rest a piece esc : List Nat) (fuel : Nat),
      (∀ b ∈ rest, b < 128) → rest.length + 1 ≤ fuel →
      (let s := a ++ piece ++ rest
       let r := escape_loop U s (s.length : Int) fuel
          ((a.length : Int) + (piece.length : Int)) (a.length : Int) esc
       (if r.1 < (s.length : Int) then r.2 ++ bytes_at s r.1 ((s.length : Int) - r.1) else r.2)
          = esc ++ piece ++ escape_bytewise rest) := by
  intro rest
  induction rest with
  | nil =>
    intro a piece esc fuel _ hf
    obtain ⟨f, rfl⟩ : ∃ f, fuel = f + 1 := ⟨fuel - 1, by omega⟩
    have hlen : ((a ++ piece ++ ([] : List Nat)).length : Int)
        = (a.length : Int) + (piece.length : Int) := by simp
    simp only [escape_loop, hlen, lt_self_iff_false, if_false]
    by_cases hp : piece = []
    · subst hp
      simp [escape_bytewise]
    · have hpos : 0 < piece.length := List.length_pos.mpr hp
      have hlt : (a.length : Int) < (a.length : Int) + (piece.length : Int) := by omega
      rw [if_pos hlt, bytes_at_mid]
      simp [escape_bytewise]
  | cons c rest ih =>
    intro a piece esc fuel hb hf
    obtain ⟨f, rfl⟩ : ∃ f, fuel = f + 1 := ⟨fuel - 1, by omega⟩
    have hc : c < 128 := hb c (List.mem_cons_self _ _)
    have hb' : ∀ b ∈ rest, b < 128 := fun b h => hb b (List.mem_cons_of_mem _ h)
    have hf' : rest.length + 1 ≤ f := by simp at hf; omega
    have hlen : ((a ++ piece ++ c :: rest).length : Int)
        = (a.length : Int) + (piece.length : Int) + (rest.length : Int) + 1 := by
      simp; omega
    have hbyte : byte_at (a ++ piece ++ c :: rest) ((a.length : Int) + (piece.length : Int)) = c := by
      have := byte_at_append (a ++ piece) c rest
      simpa using this
    have hlt : (a.length : Int) + (piece.length : Int)
        < ((a ++ piece ++ c :: rest).length : Int) := by rw [hlen]; omega
    simp only [escape_loop, if_pos hlt, hbyte]
    by_cases hsp : escape_special c = true
    · simp only [hsp, if_true]
      have hflush : (if (a.length : Int) + (piece.length : Int) ≠ (a.length : Int)
            then esc ++ bytes_at (a ++ piece ++ c :: rest) (a.length : Int)
              ((a.length : Int) + (piece.length : Int) - (a.length : Int))
            else esc) = esc ++ piece := by
        by_cases hp : piece = []
        · subst hp; simp
        · have hpos : 0 < piece.length := List.length_pos.mpr hp
          have hne : (a.length : Int) + (piece.length : Int) ≠ (a.length : Int) := by omega
          rw [if_pos hne, bytes_at_mid]
      rw [hflush]
      have key := ih (a ++ piece ++ [c]) [] (if c = 0 then esc ++ piece ++ [92] ++ [48]
        else esc ++ piece ++ [92] ++ [c]) f hb' hf'
      have e1 : a ++ piece ++ [c] ++ [] ++ rest = a ++ piece ++ c :: rest := by simp
      have e2 : (((a ++ piece ++ [c]).length : Int) + (([] : List Nat).length : Int))
          = (a.length : Int) + (piece.length : Int) + 1 := by simp; omega
      have e3 : ((a ++ piece ++ [c]).length : Int)
          = (a.length : Int) + (piece.length : Int) + 1 := by simp; omega
      simp only [e1, e3, List.length_nil, Nat.cast_zero, add_zero] at key
      rw [key]
      simp only [escape_bytewise, List.flatMap_cons, escape_byte_special c hsp]
      split_ifs <;> simp
    · have hsp' : escape_special c = false := by simpa using hsp
      simp only [hsp', Bool.false_eq_true, if_false]
      have hnext : g_utf8_next_char U (a ++ piece ++ c :: rest)
          ((a.length : Int) + (piece.length : Int))
          = (a.length : Int) + (piece.length : Int) + 1 := by
        unfold g_utf8_next_char
        rw [hbyte, hskip c hc]
        rfl
      rw [hnext]
      have key := ih a (piece ++ [c]) esc f hb' hf'
      have e1 : a ++ (piece ++ [c]) ++ rest = a ++ piece ++ c :: rest := by simp
      have e2 : ((a.length : Int) + ((piece ++ [c]).length : Int))
          = (a.length : Int) + (piece.length : Int) + 1 := by simp; omega
      simp only [e1, e2] at key
      rw [key]
      simp [escape_bytewise, List.flatMap_cons, escape_byte_plain c hsp']

theorem escape_bytewise_length (s : List Nat) :
    (escape_bytewise s).length = s.length + s.countP escape_special := by
  induction s with
  | nil => simp [escape_bytewise]
  | cons c s ih =>
    have hcons : escape_bytewise (c :: s) = escape_byte c ++ escape_bytewise s := by
      simp [escape_bytewise]
    rw [hcons, List.length_append, ih]
    by_cases hsp : escape_special c = true
    · rw [escape_byte_special c hsp, List.countP_cons_of_pos _ _ hsp]
      split_ifs <;> simp <;> omega
    · have hsp' : escape_special c = false := by simpa using hsp
      rw [escape_byte_plain c hsp', List.countP_cons_of_neg _ _ hsp]
      simp; omega

/-- C1: on a byte string whose bytes are all below 0x80 (explicit length, NUL
bytes allowed) `g_regex_escape_string` is the byte-wise reference map, and so
the output is longer than the input by the number of special bytes.  The UTF-8
skip table is a parameter: the hypothesis on it is that an ASCII byte is a code
point of one byte. -/
theorem C1_escape_string_ascii (U : GUnicode)
    (hskip : ∀ b, b < 128 → U.g_utf8_skip b = 1)
    (s : List Nat) (hs : ∀ b ∈ s, b < 128) :
    g_regex_escape_string U s (s.length : Int) = escape_bytewise s ∧
    (g_regex_escape_string U s (s.length : Int)).length
      = s.length + s.countP escape_special := by
  have main : g_regex_escape_string U s (s.length : Int) = escape_bytewise s := by
    have key := escape_loop_ascii U hskip s [] [] [] (s.length + 1) hs (le_refl _)
    simp only [List.nil_append, List.length_nil, Int.ofNat_zero, add_zero, Nat.cast_zero] at key
    unfold g_regex_escape_string
    have hneg : ¬ ((s.length : Int) < 0) := by omega
    simp only [hneg, if_false, Int.toNat_ofNat]
    exact key
  exact ⟨main, by rw [main, escape_bytewise_length]⟩

/-- C1, witness: the seven bytes `a . b * c NUL d` give the ten bytes
`a \ . b \ * c \ 0 d`. -/
theorem C1_escape_string_ascii_witness :
    (∀ b, b < 128 → glib_ascii.g_utf8_skip b = 1) ∧
    (∀ b ∈ [97, 46, 98, 42, 99, 0, 100], b < 128) ∧
    g_regex_escape_string glib_ascii [97, 46, 98, 42, 99, 0, 100] 7
      = [97, 92, 46, 98, 92, 42, 99, 92, 48, 100] ∧
    (g_regex_escape_string glib_ascii [97, 46, 98, 42, 99, 0, 100] 7).length = 7 + 3 := by
  have hskip : ∀ b, b < 128 → glib_ascii.g_utf8_skip b = 1 := by
    intro b hb
    show glib_utf8_skip b = 1
    unfold glib_utf8_skip
    rw [if_pos (by omega)]
  have hs : ∀ b ∈ [97, 46, 98, 42, 99, 0, 100], b < 128 := by decide
  have h := C1_escape_string_ascii glib_ascii hskip [97, 46, 98, 42, 99, 0, 100] hs
  refine ⟨hskip, hs, ?_, ?_⟩
  · rw [show ((7 : Int)) = (([97, 46, 98, 42, 99, 0, 100] : List Nat).length : Int) from rfl, h.1]
    decide
  · rw [show ((7 : Int)) = (([97, 46, 98, 42, 99, 0, 100] : List Nat).length : Int) from rfl, h.2]
    decide

/-! ## One step of the match state -/

theorem next_string_len (U : GUnicode) (mi : GMatchInfo) (e : Option Int) :
    (g_match_info_next U mi e).info.string_len = mi.string_len := by
  unfold g_match_info_next
  simp only []
  split_ifs <;> rfl

theorem next_string (U : GUnicode) (mi : GMatchInfo) (e : Option Int) :
    (g_match_info_next U mi e).info.string = mi.string := by
  unfold g_match_info_next
  simp only []
  split_ifs <;> rfl

theorem next_regex (U : GUnicode) (mi : GMatchInfo) (e : Option Int) :
    (g_match_info_next U mi e).info.regex = mi.regex := by
  unfold g_match_info_next
  simp only []
  split_ifs <;> rfl

theorem next_match_opts (U : GUnicode) (mi : GMatchInfo) (e : Option Int) :
    (g_match_info_next U mi e).info.match_opts = mi.match_opts := by
  unfold g_match_info_next
  simp only []
  split_ifs <;> rfl

theorem next_n_offsets (U : GUnicode) (mi : GMatchInfo) (e : Option Int) :
    (g_match_info_next U mi e).info.n_offsets = mi.n_offsets := by
  unfold g_match_info_next
  simp only []
  split_ifs <;> rfl

/-- A step that finds a match which ends inside the subject. -/
theorem next_of_match (U : GUnicode) (mi : GMatchInfo) (hpos : 0 ≤ mi.pos)
    (hret : 0 ≤ (pcre_exec_call mi).1)
    (hend : (pcre_exec_call mi).2.getD 1 0 ≤ mi.string_len) :
    (g_match_info_next U mi none).ret = true ∧
    (g_match_info_next U mi none).error = none ∧
    (g_match_info_next U mi none).info.offsets = (pcre_exec_call mi).2 ∧
    (g_match_info_next U mi none).info.matches_ = (pcre_exec_call mi).1 ∧
    (g_match_info_next U mi none).info.pos =
      (if mi.pos = (pcre_exec_call mi).2.getD 1 0 then NEXT_CHAR U mi.regex mi.string mi.pos
       else (pcre_exec_call mi).2.getD 1 0) := by
  have herr : IS_PCRE_ERROR (pcre_exec_call mi).1 = false := by
    simp [IS_PCRE_ERROR, PCRE_ERROR_NOMATCH]
    intro h
    omega
  have hge : ¬ ¬ (mi.pos ≥ 0) := by simpa using hpos
  unfold g_match_info_next
  simp only [Option.isSome_none, Bool.false_eq_true, if_false, hge, herr, GMatchInfo.offset]
  have hdec : decide ((pcre_exec_call mi).1 ≥ 0) = true := by simpa using hret
  have e1 : (Int.toNat 1) = 1 := rfl
  simp only [e1]
  by_cases h1 : mi.pos = (pcre_exec_call mi).2.getD 1 0
  · have h2 : ¬ (mi.pos > mi.string_len) := by
      rw [h1]
      omega
    simp only [if_pos h1, if_neg h2, hdec, and_self]
  · simp only [if_neg h1, hdec, and_self]

/-- A step on which the matcher reports "no match". -/
theorem next_of_nomatch (U : GUnicode) (mi : GMatchInfo) (e : Option Int)
    (hret : (pcre_exec_call mi).1 = PCRE_ERROR_NOMATCH) :
    (g_match_info_next U mi e).ret = false ∧ (g_match_info_next U mi e).error = e := by
  have herr : IS_PCRE_ERROR PCRE_ERROR_NOMATCH = false := by decide
  unfold g_match_info_next
  simp only [hret, herr]
  split_ifs <;> first | contradiction | simp [PCRE_ERROR_NOMATCH]

theorem effective_len_nonneg (string : List Nat) (string_len : Int) :
    ¬ (effective_len string string_len < 0) := by
  unfold effective_len strlen
  split_ifs <;> omega

/-- C9, counterexample: with the match options 1, a bit that is no match flag,
splitting the empty string returns NULL and not the empty vector, for every
regex and every `max_tokens`: the argument check on the option bits comes
before the test of the length. -/
theorem C9_counterexample :
    bits_outside 1 G_REGEX_MATCH_MASK ≠ 0 ∧
    g_regex_split_full 1 glib_ascii (regex_of search_comma 0) [] 0 0 1 0 = Ret.null ∧
    g_regex_split_full 1 glib_ascii (regex_of search_comma 0) [] 0 0 1 0 ≠ Ret.value [] ∧
    (∀ (fuel : Nat) (U : GUnicode) (regex : GRegex) (max_tokens : Int) (buffer : List Nat),
      g_regex_split_full fuel U regex buffer 0 0 1 max_tokens = Ret.null) := by
  have h : bits_outside 1 G_REGEX_MATCH_MASK ≠ 0 := by decide
  refine ⟨h, ?_, ?_, ?_⟩
  · exact g_regex_split_full_outside _ _ _ _ _ _ _ _ h
  · rw [g_regex_split_full_outside _ _ _ _ _ _ _ _ h]
    exact fun hn => Ret.noConfusion hn
  · intro fuel U regex max_tokens buffer
    exact g_regex_split_full_outside _ _ _ _ _ _ _ _ h

/-- C9, amended: splitting the empty string gives the empty vector, for every
regex (so whatever its matcher would answer, an error included), all match
options inside `G_REGEX_MATCH_MASK`, every `max_tokens` (1 included) and even
with no loop iteration allowed; the result does not depend on the matcher.
The empty string is given with the explicit length 0 (any buffer) or as an
empty C string with the length -1. -/
theorem C9_split_empty_string (fuel : Nat) (U : GUnicode) (regex : GRegex)
    (match_options : Nat) (max_tokens : Int) (buffer : List Nat)
    (hopts : bits_outside match_options G_REGEX_MATCH_MASK = 0) :
    g_regex_split_full fuel U regex buffer 0 0 match_options max_tokens = Ret.value [] ∧
    g_regex_split_full fuel U regex [] (-1) 0 match_options max_tokens = Ret.value [] ∧
    g_regex_split_full fuel U regex (0 :: buffer) (-1) 0 match_options max_tokens
      = Ret.value [] := by
  refine ⟨?_, ?_, ?_⟩ <;>
    simp [g_regex_split_full_checked _ _ _ _ _ _ _ _ hopts, strlen]

/-- C9, amended, witness: with the match option `G_REGEX_MATCH_NOTBOL`, no loop
iteration allowed and `max_tokens = 1`, the empty string gives the empty
vector. -/
theorem C9_split_empty_string_witness :
    bits_outside G_REGEX_MATCH_NOTBOL G_REGEX_MATCH_MASK = 0 ∧
    g_regex_split_full 0 glib_ascii (regex_of search_comma 0) [] 0 0 G_REGEX_MATCH_NOTBOL 1
      = Ret.value [] :=
  ⟨by decide,
   (C9_split_empty_string 0 glib_ascii (regex_of search_comma 0) G_REGEX_MATCH_NOTBOL 1 []
     (by decide)).1⟩

/-- C8: when the first match attempt, the call of `g_regex_match_full` that
gives the match state `r0`, reports "no match" without an error, a subject
with `len - start_position > 0` is returned whole as the only token, for every
regex and every `max_tokens`; `len` is the length after a negative
`string_len` has been replaced by the C-style length. -/
theorem C8_split_no_match (fuel : Nat) (U : GUnicode) (regex : GRegex) (string : List Nat)
    (string_len start_position : Int) (match_options : Nat) (max_tokens : Int)
    (r0 : NextResult)
    (hfuel : 1 ≤ fuel) (hstart : 0 ≤ start_position)
    (hpos : effective_len string string_len - start_position > 0)
    (hcall : g_regex_match_full U regex string (effective_len string string_len)
      start_position match_options none = some r0)
    (hfirst : r0.ret = false)
    (herr : r0.error = none) :
    g_regex_split_full fuel U regex string string_len start_position match_options max_tokens
      = Ret.value
        [g_strndup string start_position (effective_len string string_len - start_position)] := by
  obtain ⟨_, _, hopts, hr0⟩ := g_regex_match_full_some U regex string _ _ _ _ _ hcall
  subst hr0
  obtain ⟨f, rfl⟩ : ∃ f, fuel = f + 1 := ⟨fuel - 1, by omega⟩
  have h1 : ¬ ¬ (start_position ≥ 0) := by simpa using hstart
  have h2 : ¬ (effective_len string string_len < 0) := effective_len_nonneg string string_len
  have h3 : ¬ (effective_len string string_len - start_position = 0) := by omega
  have hsl : (match_full_body U regex string (effective_len string string_len)
      start_position match_options none).info.string_len = effective_len string string_len := by
    unfold match_full_body
    rw [next_string_len]
    simp [match_info_new, h2]
  have hfold : (if string_len < 0 then strlen string else string_len)
      = effective_len string string_len := rfl
  rw [g_regex_split_full_checked _ _ _ _ _ _ _ _ hopts]
  simp only [h1, hfold, h3, if_false]
  by_cases hmax : (if max_tokens ≤ 0 then G_MAXINT else max_tokens) = 1
  · rw [if_pos hmax]
  · rw [if_neg hmax, herr]
    simp only [split_loop, hfirst, Bool.false_eq_true, if_false, not_false_eq_true, if_true, hsl]
    rfl

/-- C8, witness: the pattern `,` does not match in "ab", which is returned
whole. -/
theorem C8_split_no_match_witness :
    g_regex_split_full 1 glib_ascii (regex_of search_comma 0) [97, 98] 2 0 0 0
      = Ret.value [[97, 98]] :=
  C8_split_no_match 1 glib_ascii (regex_of search_comma 0) [97, 98] 2 0 0 0 _
    (by decide) (by decide) (by decide) rfl (by decide) (by decide)

/-! ## g_regex_replace_literal -/

theorem next_iter_succ (U : GUnicode) (k : Nat) (r : NextResult) :
    next_iter U (k + 1) r = next_iter U k (g_match_info_next U r.info r.error) := rfl

/-- The loop of `g_regex_replace_eval` with the literal callback, summarised:
if the match state holds a match after each of the first `n` steps and none
after the next one, then `n + 1` iterations end the loop, and the buffer
followed by the rest of the subject is the reference result. -/
theorem replace_loop_literal (U : GUnicode) (regex : GRegex) (string : List Nat) (len : Int)
    (data : List Nat) :
    ∀ (n : Nat) (r0 : NextResult) (result : List Nat) (str_pos : Int) (fuel : Nat),
      (∀ k, k < n → g_match_info_matches (next_iter U k r0).info = true) →
      g_match_info_matches (next_iter U n r0).info = false →
      n < fuel →
      ∃ x, replace_loop U regex string (literal_replacement data) fuel r0.info r0.error
            result str_pos false = Ret.value x ∧
        x.tmp_error = (next_iter U n r0).error ∧
        x.result ++ bytes_at string x.str_pos (len - x.str_pos)
          = result ++ replace_literal_spec string len data str_pos (iter_spans U n r0) := by
  intro n
  induction n with
  | zero =>
    intro r0 result str_pos fuel _ hlast hf
    obtain ⟨f, rfl⟩ : ∃ f, fuel = f + 1 := ⟨fuel - 1, by omega⟩
    have h0 : g_match_info_matches r0.info = false := hlast
    refine ⟨⟨result, str_pos, r0.error⟩, ?_, rfl, ?_⟩
    · simp [replace_loop, h0]
    · simp [iter_spans, replace_literal_spec]
  | succ n ih =>
    intro r0 result str_pos fuel hall hlast hf
    obtain ⟨f, rfl⟩ : ∃ f, fuel = f + 1 := ⟨fuel - 1, by omega⟩
    have h0 : g_match_info_matches r0.info = true := hall 0 (Nat.succ_pos n)
    have hall' : ∀ k, k < n →
        g_match_info_matches (next_iter U k (g_match_info_next U r0.info r0.error)).info
          = true := by
      intro k hk
      have := hall (k + 1) (by omega)
      rwa [next_iter_succ] at this
    have hlast' :
        g_match_info_matches (next_iter U n (g_match_info_next U r0.info r0.error)).info
          = false := by
      rwa [next_iter_succ] at hlast
    obtain ⟨x, hx, herr, hres⟩ := ih (g_match_info_next U r0.info r0.error)
      (result ++ bytes_at string str_pos (r0.info.offset 0 - str_pos) ++ data)
      (r0.info.offset 1) f hall' hlast' (by omega)
    refine ⟨x, ?_, ?_, ?_⟩
    · rw [← hx]
      simp [replace_loop, h0, literal_replacement]
    · rw [herr, next_iter_succ]
    · rw [hres]
      simp [iter_spans, replace_literal_spec, List.append_assoc]

theorem replace_literal_spec_nil (s : List Nat) (len : Int) :
    ∀ (spans : List (Int × Int)) (str_pos : Int),
      replace_literal_spec s len [] str_pos spans = remove_spans s len str_pos spans := by
  intro spans
  induction spans with
  | nil => intro str_pos; rfl
  | cons ab spans ih =>
    intro str_pos
    obtain ⟨a, b⟩ := ab
    simp [replace_literal_spec, remove_spans, ih]

theorem bytes_at_all (s : List Nat) : bytes_at s 0 ((s.length : Int) - 0) = s := by
  simp [bytes_at]

/-- C2: `g_regex_replace_literal` returns
`s[0..a1] ++ r ++ s[b1..a2] ++ ... ++ r ++ s[bn..len]` for the spans
`(a1, b1), ..., (an, bn)` that the match state shows after the successive steps
(the first match, the call of `g_regex_match_full` that gives `r0`, then
`g_match_info_next`) up to the first step after which it holds no match,
provided no step reports an error; `n + 1` loop iterations are enough.  With
an empty `r` the result is the subject with those spans removed, and with no
match at all it is the subject unchanged. -/
theorem C2_replace_literal (U : GUnicode) (regex : GRegex) (string : List Nat)
    (string_len start_position : Int) (r : List Nat) (match_options : Nat) (n fuel : Nat)
    (r0 : NextResult)
    (hstart : 0 ≤ start_position)
    (hcall : g_regex_match_full U regex string (effective_len string string_len)
      start_position match_options none = some r0)
    (hall : ∀ k, k < n → g_match_info_matches (next_iter U k r0).info = true)
    (hlast : g_match_info_matches (next_iter U n r0).info = false)
    (herr : (next_iter U n r0).error = none)
    (hfuel : n < fuel) :
    g_regex_replace_literal fuel U regex string string_len start_position r match_options
      = Ret.value (replace_literal_spec string (effective_len string string_len) r 0
          (iter_spans U n r0)) ∧
    g_regex_replace_literal fuel U regex string string_len start_position [] match_options
      = Ret.value (remove_spans string (effective_len string string_len) 0
          (iter_spans U n r0)) ∧
    (n = 0 → string_len = (string.length : Int) →
      g_regex_replace_literal fuel U regex string string_len start_position r match_options
        = Ret.value string) := by
  obtain ⟨_, _, hopts, hr0⟩ := g_regex_match_full_some U regex string _ _ _ _ _ hcall
  subst hr0
  have h1 : ¬ ¬ (start_position ≥ 0) := by simpa using hstart
  have hfold : (if string_len < 0 then strlen string else string_len)
      = effective_len string string_len := rfl
  have main : ∀ data : List Nat,
      g_regex_replace_literal fuel U regex string string_len start_position data match_options
        = Ret.value (replace_literal_spec string (effective_len string string_len) data 0
            (iter_spans U n (match_full_body U regex string
              (effective_len string string_len) start_position match_options none))) := by
    intro data
    obtain ⟨x, hx, hxe, hres⟩ := replace_loop_literal U regex string
      (effective_len string string_len) data n
      (match_full_body U regex string (effective_len string string_len) start_position
        match_options none) [] 0 fuel hall hlast hfuel
    rw [g_regex_replace_literal_checked _ _ _ _ _ _ _ _ hopts,
      g_regex_replace_eval_checked _ _ _ _ _ _ _ _ hopts]
    simp only [h1, hfold, if_false, hx]
    rw [herr] at hxe
    rw [hxe]
    simp only [hres, List.nil_append]
  refine ⟨main r, ?_, ?_⟩
  · rw [main [], replace_literal_spec_nil]
  · intro hn hlen
    subst hn
    have hl : effective_len string string_len = (string.length : Int) := by
      unfold effective_len
      rw [if_neg (by omega), hlen]
    rw [main r, hl]
    simp only [iter_spans, replace_literal_spec]
    rw [bytes_at_all]

/-- C2, witness: replacing the commas of "a,b,c" by "--" gives "a--b--c"; the
match state holds a match after the first two steps and none after the
third. -/
theorem C2_replace_literal_witness :
    g_regex_replace_literal 3 glib_ascii (regex_of search_comma 0) [97, 44, 98, 44, 99] 5 0
      [45, 45] 0 = Ret.value [97, 45, 45, 98, 45, 45, 99] := by
  have h := (C2_replace_literal glib_ascii (regex_of search_comma 0) [97, 44, 98, 44, 99] 5 0
    [45, 45] 0 2 3 _ (by decide) rfl (by decide) (by decide) (by decide) (by decide)).1
  rw [h]
  decide

/-! ## The recorded run of a split and the vector returned -/

theorem trace_add_substrings_token (match_info : GMatchInfo) (match_count : Int)
    (list : List SplitEvent) :
    (trace_add_substrings match_info match_count list).map SplitEvent.token
      = split_add_substrings match_info match_count (list.map SplitEvent.token) := by
  unfold trace_add_substrings split_add_substrings
  generalize List.range (match_count.toNat - 1) = ks
  induction ks generalizing list with
  | nil => rfl
  | cons k ks ih =>
    rw [List.foldl_cons, List.foldl_cons, ih]
    rfl

theorem split_trace_loop_token (U : GUnicode) (regex : GRegex) (string : List Nat)
    (string_len max_tokens : Int) :
    ∀ (fuel : Nat) (mi : GMatchInfo) (ok : Bool) (list : List SplitEvent)
      (tc lse : Int) (lme : Bool),
      Ret.map (List.map SplitEvent.token)
        (split_trace_loop U regex string string_len max_tokens fuel mi ok list tc lse lme)
      = split_loop U regex string string_len max_tokens fuel mi ok
          (list.map SplitEvent.token) tc lse lme := by
  intro fuel
  induction fuel with
  | zero => intro mi ok list tc lse lme; rfl
  | succ f ih =>
    intro mi ok list tc lse lme
    unfold split_trace_loop split_loop
    simp only []
    split_ifs
    all_goals first
      | rfl
      | (simp [Ret.map, trace_add_substrings_token, SplitEvent.token]; done)
      | (cases herr : (g_match_info_next U mi none).error with
         | some code => rfl
         | none =>
           dsimp only []
           rw [ih]
           try simp [trace_add_substrings_token, SplitEvent.token])

/-- The vector that `g_regex_split_full` returns is the list of the strings of
the recorded run. -/
theorem split_trace_token (fuel : Nat) (U : GUnicode) (regex : GRegex) (string : List Nat)
    (string_len start_position : Int) (match_options : Nat) (max_tokens : Int) :
    Ret.map (List.map SplitEvent.token)
      (split_trace fuel U regex string string_len start_position match_options max_tokens)
    = g_regex_split_full fuel U regex string string_len start_position match_options
        max_tokens := by
  by_cases hopts : bits_outside match_options G_REGEX_MATCH_MASK = 0
  swap
  · unfold split_trace g_regex_split_full
    by_cases h1 : ¬ (start_position ≥ 0)
    · rw [if_pos h1, if_pos h1]
      rfl
    · rw [if_neg h1, if_neg h1, if_pos hopts, if_pos hopts]
      rfl
  rw [split_trace_checked _ _ _ _ _ _ _ _ hopts, g_regex_split_full_checked _ _ _ _ _ _ _ _ hopts]
  generalize (if string_len < 0 then strlen string else string_len) = len
  generalize (if max_tokens ≤ 0 then G_MAXINT else max_tokens) = max1
  by_cases h1 : ¬ (start_position ≥ 0)
  · simp only [h1, if_true]; rfl
  · simp only [h1, if_false]
    by_cases h2 : len - start_position = 0
    · simp only [h2, if_true]; rfl
    · simp only [h2, if_false]
      by_cases h3 : max1 = 1
      · simp only [h3, if_true]; rfl
      · simp only [h3, if_false]
        cases herr : (match_full_body U regex string len start_position match_options
            none).error with
        | some code => rfl
        | none =>
          dsimp only []
          have key := split_trace_loop_token U regex string len max1 fuel
            (match_full_body U regex string len start_position match_options none).info
            (match_full_body U regex string len start_position match_options none).ret
            [] 0 start_position false
          rw [List.map_nil] at key
          rw [← key]
          cases split_trace_loop U regex string len max1 fuel
            (match_full_body U regex string len start_position match_options none).info
            (match_full_body U regex string len start_position match_options none).ret
            [] 0 start_position false with
          | value v => simp [Ret.map, List.map_reverse]
          | match_error code => rfl
          | null => rfl
          | out_of_fuel => rfl

theorem split_trace_value (fuel : Nat) (U : GUnicode) (regex : GRegex) (string : List Nat)
    (string_len start_position : Int) (match_options : Nat) (max_tokens : Int)
    (events : List SplitEvent)
    (h : split_trace fuel U regex string string_len start_position match_options max_tokens
      = Ret.value events) :
    g_regex_split_full fuel U regex string string_len start_position match_options max_tokens
      = Ret.value (events.map SplitEvent.token) := by
  rw [← split_trace_token, h]
  rfl

theorem split_full_value (fuel : Nat) (U : GUnicode) (regex : GRegex) (string : List Nat)
    (string_len start_position : Int) (match_options : Nat) (max_tokens : Int)
    (toks : List (List Nat))
    (h : g_regex_split_full fuel U regex string string_len start_position match_options
      max_tokens = Ret.value toks) :
    ∃ events, split_trace fuel U regex string string_len start_position match_options
        max_tokens = Ret.value events ∧ toks = events.map SplitEvent.token := by
  rw [← split_trace_token] at h
  cases hs : split_trace fuel U regex string string_len start_position match_options
      max_tokens with
  | value v =>
    rw [hs] at h
    simp only [Ret.map, Ret.value.injEq] at h
    exact ⟨v, rfl, h.symm⟩
  | match_error code => rw [hs] at h; simp [Ret.map] at h
  | null => rw [hs] at h; simp [Ret.map] at h
  | out_of_fuel => rw [hs] at h; simp [Ret.map] at h

/-! ## The bound `max_tokens` -/

theorem trace_add_substrings_count (match_info : GMatchInfo) (match_count : Int)
    (list : List SplitEvent) :
    split_token_count (trace_add_substrings match_info match_count list)
      = split_token_count list := by
  unfold trace_add_substrings
  generalize List.range (match_count.toNat - 1) = ks
  induction ks generalizing list with
  | nil => rfl
  | cons k ks ih =>
    rw [List.foldl_cons, ih]
    simp [split_token_count, SplitEvent.is_group]

theorem split_token_count_piece (t : List Nat) (m0 m1 : Int) (list : List SplitEvent) :
    split_token_count (SplitEvent.piece t m0 m1 :: list) = split_token_count list + 1 := by
  simp [split_token_count, SplitEvent.is_group]

theorem split_token_count_tail (t : List Nat) (list : List SplitEvent) :
    split_token_count (SplitEvent.tail t :: list) = split_token_count list + 1 := by
  simp [split_token_count, SplitEvent.is_group]

/-- The loop never records more than `max_tokens` tokens. -/
theorem split_trace_loop_count (U : GUnicode) (regex : GRegex) (string : List Nat)
    (string_len max_tokens : Int) :
    ∀ (fuel : Nat) (mi : GMatchInfo) (ok : Bool) (list : List SplitEvent)
      (tc lse : Int) (lme : Bool) (events : List SplitEvent),
      (split_token_count list : Int) ≤ tc → tc < max_tokens - 1 →
      split_trace_loop U regex string string_len max_tokens fuel mi ok list tc lse lme
        = Ret.value events →
      (split_token_count events : Int) ≤ max_tokens := by
  intro fuel
  induction fuel with
  | zero =>
    intro mi ok list tc lse lme events _ _ h
    simp [split_trace_loop] at h
  | succ f ih =>
    intro mi ok list tc lse lme events hc ht h
    unfold split_trace_loop at h
    simp only [] at h
    have hadd := trace_add_substrings_count mi (g_match_info_get_match_count mi)
      (SplitEvent.piece (g_strndup string lse (mi.offset 0 - lse)) (mi.offset 0) (mi.offset 1)
        :: list)
    have hpiece := split_token_count_piece (g_strndup string lse (mi.offset 0 - lse))
      (mi.offset 0) (mi.offset 1) list
    split_ifs at h
    all_goals first
      | (simp only [Ret.value.injEq] at h
         subst h
         simp only [split_token_count_tail, hadd, hpiece]
         push_cast
         omega)
      | (simp only [Ret.value.injEq] at h
         subst h
         omega)
      | (cases herr : (g_match_info_next U mi none).error with
         | some code => rw [herr] at h; simp at h
         | none =>
           rw [herr] at h
           dsimp only [] at h
           refine ih _ _ _ _ _ _ _ ?_ ?_ h
           · first
               | (simp only [hadd, hpiece]; push_cast; omega)
               | omega
           · omega)

theorem next_matches_le (U : GUnicode) (mi : GMatchInfo) (e : Option Int)
    (hng : ∀ s l p o offs n, (mi.regex.pcre_re.exec s l p o offs n).1 ≤ 1)
    (hm : mi.matches_ ≤ 1) :
    (g_match_info_next U mi e).info.matches_ ≤ 1 := by
  have hcall : (pcre_exec_call mi).1 ≤ 1 := hng _ _ _ _ _ _
  unfold g_match_info_next
  simp only []
  split_ifs <;> first | exact hm | exact hcall | (simp [PCRE_ERROR_NOMATCH])

theorem match_count_le_one (mi : GMatchInfo) (hm : mi.matches_ ≤ 1) :
    ¬ (g_match_info_get_match_count mi > 1) := by
  unfold g_match_info_get_match_count
  split_ifs <;> omega

/-- Without capture groups the loop records no group text. -/
theorem split_trace_loop_no_group (U : GUnicode) (regex : GRegex) (string : List Nat)
    (string_len max_tokens : Int)
    (hng : ∀ s l p o offs n, (regex.pcre_re.exec s l p o offs n).1 ≤ 1) :
    ∀ (fuel : Nat) (mi : GMatchInfo) (ok : Bool) (list : List SplitEvent)
      (tc lse : Int) (lme : Bool) (events : List SplitEvent),
      mi.regex = regex → mi.matches_ ≤ 1 →
      split_token_count list = list.length →
      split_trace_loop U regex string string_len max_tokens fuel mi ok list tc lse lme
        = Ret.value events →
      split_token_count events = events.length := by
  intro fuel
  induction fuel with
  | zero =>
    intro mi ok list tc lse lme events _ _ _ h
    simp [split_trace_loop] at h
  | succ f ih =>
    intro mi ok list tc lse lme events hre hm hl h
    have hmc := match_count_le_one mi hm
    have hng' : ∀ s l p o offs n, (mi.regex.pcre_re.exec s l p o offs n).1 ≤ 1 := by
      rw [hre]; exact hng
    have hnm := next_matches_le U mi none hng' hm
    have hnr : (g_match_info_next U mi none).info.regex = regex := by
      rw [next_regex, hre]
    unfold split_trace_loop at h
    simp only [hmc, if_false] at h
    have hpiece := split_token_count_piece (g_strndup string lse (mi.offset 0 - lse))
      (mi.offset 0) (mi.offset 1) list
    split_ifs at h
    all_goals first
      | (simp only [Ret.value.injEq] at h
         subst h
         simp only [split_token_count_tail, hpiece, List.length_cons, hl])
      | (cases herr : (g_match_info_next U mi none).error with
         | some code => rw [herr] at h; simp at h
         | none =>
           rw [herr] at h
           dsimp only [] at h
           refine ih _ _ _ _ _ _ _ hnr hnm ?_ h
           simp only [hpiece, List.length_cons, hl])

theorem split_token_count_reverse (events : List SplitEvent) :
    split_token_count events.reverse = split_token_count events := by
  simp [split_token_count]

/-- C7 (amended): for every regex, subject, start position, matcher and every
`max_tokens >= 1`, at most `max_tokens` of the elements of the returned vector
are tokens of the split; the other elements are the texts of capture groups,
which the limit does not count.  For a regex whose matcher never reports more
than one substring (no capture groups) the vector has at most `max_tokens`
elements. -/
theorem C7_split_max_tokens (fuel : Nat) (U : GUnicode) (regex : GRegex) (string : List Nat)
    (string_len start_position : Int) (match_options : Nat) (max_tokens : Int)
    (toks : List (List Nat)) (hmax : 1 ≤ max_tokens)
    (h : g_regex_split_full fuel U regex string string_len start_position match_options
      max_tokens = Ret.value toks) :
    ∃ events, split_trace fuel U regex string string_len start_position match_options
        max_tokens = Ret.value events ∧
      toks = events.map SplitEvent.token ∧
      (split_token_count events : Int) ≤ max_tokens ∧
      ((∀ s l p o offs n, (regex.pcre_re.exec s l p o offs n).1 ≤ 1) →
        (toks.length : Int) ≤ max_tokens) := by
  obtain ⟨events, hev, htoks⟩ := split_full_value fuel U regex string string_len
    start_position match_options max_tokens toks h
  have hmax1 : (if max_tokens ≤ 0 then G_MAXINT else max_tokens) = max_tokens := by
    rw [if_neg (by omega)]
  have key : (split_token_count events : Int) ≤ max_tokens ∧
      ((∀ s l p o offs n, (regex.pcre_re.exec s l p o offs n).1 ≤ 1) →
        split_token_count events = events.length) := by
    rw [split_trace_checked _ _ _ _ _ _ _ _ (split_trace_passed _ _ _ _ _ _ _ _ _ hev).2,
      hmax1] at hev
    generalize (if string_len < 0 then strlen string else string_len) = len at hev
    by_cases h1 : ¬ (start_position ≥ 0)
    · simp [h1] at hev
    · simp only [h1, if_false] at hev
      by_cases h2 : len - start_position = 0
      · simp only [h2, if_true, Ret.value.injEq] at hev
        subst hev
        exact ⟨by simp [split_token_count]; omega, fun _ => rfl⟩
      · simp only [h2, if_false] at hev
        by_cases h3 : max_tokens = 1
        · simp only [h3, if_true, Ret.value.injEq] at hev
          subst hev
          exact ⟨by simp [split_token_count, SplitEvent.is_group, h3], fun _ => rfl⟩
        · simp only [h3, if_false] at hev
          cases herr : (match_full_body U regex string len start_position match_options
              none).error with
          | some code => rw [herr] at hev; simp at hev
          | none =>
            rw [herr] at hev
            dsimp only [] at hev
            cases hloop : split_trace_loop U regex string len max_tokens fuel
              (match_full_body U regex string len start_position match_options none).info
              (match_full_body U regex string len start_position match_options none).ret
              [] 0 start_position false with
            | value v =>
              rw [hloop] at hev
              simp only [Ret.value.injEq] at hev
              subst hev
              rw [split_token_count_reverse, List.length_reverse]
              refine ⟨?_, ?_⟩
              · exact split_trace_loop_count U regex string len max_tokens fuel _ _ _ _ _ _ v
                  (by simp [split_token_count]) (by omega) hloop
              · intro hng
                refine split_trace_loop_no_group U regex string len max_tokens hng fuel _ _ []
                  _ _ _ v ?_ ?_ (by simp [split_token_count]) hloop
                · unfold match_full_body
                  rw [next_regex]
                  rfl
                · unfold match_full_body
                  refine next_matches_le U _ none ?_ ?_
                  · exact hng
                  · simp [match_info_new, PCRE_ERROR_NOMATCH]
            | match_error code => rw [hloop] at hev; simp at hev
            | null => rw [hloop] at hev; simp at hev
            | out_of_fuel => rw [hloop] at hev; simp at hev
  refine ⟨events, hev, htoks, key.1, ?_⟩
  intro hng
  rw [htoks, List.length_map, ← key.2 hng]
  exact key.1

/-- C7, counterexample: with the pattern `(,)` (one capture group) and
`max_tokens = 2` the split of "a,b" returns the three elements "a", "," and
"b". -/
theorem C7_counterexample :
    g_regex_split_full 10 glib_ascii (regex_of search_comma_group 1) [97, 44, 98] 3 0 0 2
      = Ret.value [[97], [44], [98]] ∧
    ¬ (([[97], [44], [98]] : List (List Nat)).length ≤ 2) := by
  decide

/-- C7 (amended), witness: in the same split two of the three elements are
tokens; and with the pattern `,` the split of "a,b,c" with `max_tokens = 2`
has two elements. -/
theorem C7_split_max_tokens_witness :
    (∃ events, split_trace 10 glib_ascii (regex_of search_comma_group 1) [97, 44, 98] 3 0 0 2
        = Ret.value events ∧
      [[97], [44], [98]] = events.map SplitEvent.token ∧
      (split_token_count events : Int) ≤ 2 ∧
      ((∀ s l p o offs n,
          ((regex_of search_comma_group 1).pcre_re.exec s l p o offs n).1 ≤ 1) →
        ((([[97], [44], [98]] : List (List Nat)).length : Nat) : Int) ≤ 2)) ∧
    g_regex_split_full 10 glib_ascii (regex_of search_comma 0) [97, 44, 98, 44, 99] 5 0 0 2
      = Ret.value [[97], [98, 44, 99]] :=
  ⟨C7_split_max_tokens 10 glib_ascii (regex_of search_comma_group 1) [97, 44, 98] 3 0 0 2
    [[97], [44], [98]] (by decide) (by decide), by decide⟩

/-! ## One iteration of the split loop -/

theorem exec_call_of_tracks (mi : GMatchInfo) (regex : GRegex) (string : List Nat) (len : Int)
    (ht : Tracks mi regex string len) :
    pcre_exec_call mi = regex.pcre_re.exec string len mi.pos
      (regex.match_opts ||| mi.match_opts) mi.offsets mi.n_offsets := by
  obtain ⟨h1, h2, h3⟩ := ht
  unfold pcre_exec_call
  rw [h1, h2, h3]

theorem next_tracks (U : GUnicode) (mi : GMatchInfo) (e : Option Int) (regex : GRegex)
    (string : List Nat) (len : Int) (ht : Tracks mi regex string len) :
    Tracks (g_match_info_next U mi e).info regex string len := by
  obtain ⟨h1, h2, h3⟩ := ht
  exact ⟨by rw [next_regex, h1], by rw [next_string, h2], by rw [next_string_len, h3]⟩

/-- A step that finds the match `(m0, m1)`, seen from a run of `regex`. -/
theorem next_state_match (U : GUnicode) (regex : GRegex) (string : List Nat) (len : Int)
    (mi : GMatchInfo) (ht : Tracks mi regex string len) (hpos : 0 ≤ mi.pos)
    (m0 m1 : Int)
    (hret : 0 ≤ (pcre_exec_call mi).1)
    (h0 : (pcre_exec_call mi).2.getD 0 0 = m0)
    (h1 : (pcre_exec_call mi).2.getD 1 0 = m1)
    (hm1 : m1 ≤ len) :
    (g_match_info_next U mi none).ret = true ∧
    (g_match_info_next U mi none).error = none ∧
    Tracks (g_match_info_next U mi none).info regex string len ∧
    (g_match_info_next U mi none).info.matches_ = (pcre_exec_call mi).1 ∧
    (g_match_info_next U mi none).info.offset 0 = m0 ∧
    (g_match_info_next U mi none).info.offset 1 = m1 ∧
    (g_match_info_next U mi none).info.pos =
      (if mi.pos = m1 then NEXT_CHAR U regex string mi.pos else m1) := by
  have hend : (pcre_exec_call mi).2.getD 1 0 ≤ mi.string_len := by
    rw [h1, ht.2.2]; exact hm1
  obtain ⟨a, b, c, d, e⟩ := next_of_match U mi hpos hret hend
  refine ⟨a, b, next_tracks U mi none regex string len ht, d, ?_, ?_, ?_⟩
  · unfold GMatchInfo.offset
    rw [c]
    exact h0
  · unfold GMatchInfo.offset
    rw [c]
    exact h1
  · rw [e, h1, ht.1, ht.2.1]

/-- An iteration of the split loop on a match without groups, below the limit
of tokens, when the next step reports no error. -/
theorem split_trace_loop_step (U : GUnicode) (regex : GRegex) (string : List Nat)
    (len max_tokens : Int) (f : Nat) (mi : GMatchInfo) (list : List SplitEvent)
    (tc lse : Int) (lme : Bool)
    (hm : mi.matches_ ≤ 1)
    (hlim : tc + 1 < max_tokens - 1)
    (herr : (g_match_info_next U mi none).error = none) :
    split_trace_loop U regex string len max_tokens (f + 1) mi true list tc lse lme
      = split_trace_loop U regex string len max_tokens f
          (g_match_info_next U mi none).info (g_match_info_next U mi none).ret
          (if lse ≠ mi.offset 1 then
            SplitEvent.piece (g_strndup string lse (mi.offset 0 - lse))
              (mi.offset 0) (mi.offset 1) :: list
           else list)
          (if lse ≠ mi.offset 1 then tc + 1 else tc)
          (if mi.offset 0 = mi.offset 1 then PREV_CHAR U regex string mi.pos else mi.pos)
          (decide (mi.offset 0 = mi.offset 1)) := by
  have hmc := match_count_le_one mi hm
  rw [split_trace_loop]
  simp only [if_true, hmc, if_false, herr, decide_eq_true_eq]
  have hl : ¬ ((if lse ≠ mi.offset 1 then tc + 1 else tc) ≥ max_tokens - 1) := by
    split_ifs <;> omega
  rw [if_neg hl]

/-- The last iteration of the split loop, after a step without a match. -/
theorem split_trace_loop_stop (U : GUnicode) (regex : GRegex) (string : List Nat)
    (len max_tokens : Int) (f : Nat) (mi : GMatchInfo) (list : List SplitEvent)
    (tc lse : Int) (lme : Bool) :
    split_trace_loop U regex string len max_tokens (f + 1) mi false list tc lse lme
      = Ret.value (if lme = false then
          SplitEvent.tail (g_strndup string lse (mi.string_len - lse)) :: list
        else list) := by
  rw [split_trace_loop]
  cases lme <;> simp

/-! ## Splitting on a pattern that matches the empty string everywhere -/

theorem bytes_at_one (s : List Nat) (i : Nat) (hi : i < s.length) :
    bytes_at s (i : Int) (((i : Int) + 1) - (i : Int)) = [s.getD i 0] := by
  have h : ((i : Int) + 1) - (i : Int) = ((1 : Nat) : Int) := by omega
  rw [h]
  unfold bytes_at
  rw [Int.toNat_ofNat, Int.toNat_ofNat]
  rw [List.getD_eq_getElem?_getD, List.getElem?_eq_getElem hi]
  rw [List.drop_eq_getElem_cons hi]
  rfl

theorem take_succ_map_single (s : List Nat) (i : Nat) (hi : i < s.length) :
    (s.take (i + 1)).map (fun b => [b])
      = (s.take i).map (fun b => [b]) ++ [[s.getD i 0]] := by
  rw [List.take_succ, List.map_append]
  rw [List.getD_eq_getElem?_getD, List.getElem?_eq_getElem hi]
  simp

/-- The loop of the split on a matcher that reports an empty match everywhere,
from the iteration that emits the character number `i`. -/
theorem split_trace_loop_empty (U : GUnicode) (regex : GRegex) (string : List Nat)
    (hbound : (string.length : Int) + 2 < G_MAXINT)
    (hsteps : SingleByteSteps U regex string (string.length : Int))
    (hm : EmptyEverywhere regex string (string.length : Int)) :
    ∀ (d i : Nat) (mi : GMatchInfo) (list : List SplitEvent) (fuel : Nat) (lme : Bool),
      i + 1 + d = string.length →
      Tracks mi regex string (string.length : Int) →
      mi.pos = (i : Int) + 2 → mi.offset 0 = (i : Int) + 1 → mi.offset 1 = (i : Int) + 1 →
      mi.matches_ ≤ 1 →
      (list.reverse.map SplitEvent.token = (string.take i).map (fun b => [b])) →
      d + 2 ≤ fuel →
      ∃ events, split_trace_loop U regex string (string.length : Int) G_MAXINT fuel mi true
          list (i : Int) (i : Int) lme = Ret.value events ∧
        events.reverse.map SplitEvent.token = string.map (fun b => [b]) := by
  intro d
  induction d with
  | zero =>
    intro i mi list fuel lme hd ht hpos h0 h1 hmat hlist hfuel
    obtain ⟨f, rfl⟩ : ∃ f, fuel = f + 2 := ⟨fuel - 2, by omega⟩
    have hi : i < string.length := by omega
    have hcall := exec_call_of_tracks mi regex string _ ht
    have hno : (pcre_exec_call mi).1 = PCRE_ERROR_NOMATCH := by
      rw [hcall]
      exact (hm mi.pos _ _ _).2 (by rw [hpos]; omega)
    obtain ⟨hret, herr⟩ := next_of_nomatch U mi none hno
    have hlim : (i : Int) + 1 < G_MAXINT - 1 := by
      have : (i : Int) + 1 = (string.length : Int) := by omega
      omega
    rw [split_trace_loop_step U regex string _ G_MAXINT (f + 1) mi list _ _ lme hmat hlim herr]
    rw [hret, split_trace_loop_stop]
    have hne : ¬ ((i : Int) = (i : Int) + 1) := by omega
    simp only [h0, h1, hne, ne_eq, not_false_eq_true, if_true, decide_True,
      Bool.true_eq_false, if_false]
    refine ⟨_, rfl, ?_⟩
    rw [List.reverse_cons, List.map_append, hlist]
    simp only [List.map_cons, List.map_nil, SplitEvent.token, g_strndup]
    rw [bytes_at_one string i hi, ← take_succ_map_single string i hi]
    rw [List.take_of_length_le (by omega)]
  | succ d ih =>
    intro i mi list fuel lme hd ht hpos h0 h1 hmat hlist hfuel
    obtain ⟨f, rfl⟩ : ∃ f, fuel = f + 1 := ⟨fuel - 1, by omega⟩
    have hi : i < string.length := by omega
    have hcall := exec_call_of_tracks mi regex string _ ht
    have hex := (hm mi.pos (regex.match_opts ||| mi.match_opts) mi.offsets mi.n_offsets).1
      (by rw [hpos]; omega) (by rw [hpos]; omega)
    rw [← hcall] at hex
    obtain ⟨e1, e2, e3, e4⟩ := hex
    obtain ⟨a, b, c, d1, d2, d3, d4⟩ := next_state_match U regex string _ mi ht
      (by rw [hpos]; omega) mi.pos mi.pos e1 e3 e4 (by rw [hpos]; omega)
    have hlim : (i : Int) + 1 < G_MAXINT - 1 := by
      have : (i : Int) + 1 < (string.length : Int) := by omega
      omega
    rw [split_trace_loop_step U regex string _ G_MAXINT f mi list _ _ lme hmat hlim b]
    rw [a]
    have hne : ¬ ((i : Int) = (i : Int) + 1) := by omega
    have hprev : PREV_CHAR U regex string mi.pos = (i : Int) + 1 := by
      have := (hsteps ((i : Int) + 1) (by omega) (by omega)).2
      rw [hpos]
      rw [show (i : Int) + 2 = (i : Int) + 1 + 1 by ring]
      exact this
    simp only [h0, h1, hne, ne_eq, not_false_eq_true, if_true, decide_True, hprev]
    have hnext : NEXT_CHAR U regex string mi.pos = mi.pos + 1 :=
      (hsteps mi.pos (by rw [hpos]; omega) (by rw [hpos]; omega)).1
    have key := ih (i + 1) (g_match_info_next U mi none).info
      (SplitEvent.piece (g_strndup string (i : Int) ((i : Int) + 1 - (i : Int)))
        ((i : Int) + 1) ((i : Int) + 1) :: list) f true (by omega) c
      (by rw [d4, if_pos rfl, hnext, hpos]; push_cast; ring)
      (by rw [d2, hpos]; push_cast; ring)
      (by rw [d3, hpos]; push_cast; ring)
      (by rw [d1]; exact e2)
      (by
        rw [List.reverse_cons, List.map_append, hlist]
        simp only [List.map_cons, List.map_nil, SplitEvent.token, g_strndup]
        rw [bytes_at_one string i hi, ← take_succ_map_single string i hi])
      (by omega)
    have hcast : (((i + 1 : Nat) : Int)) = (i : Int) + 1 := by push_cast; ring
    rw [hcast] at key
    exact key

theorem match_info_new_tracks (regex : GRegex) (string : List Nat) (len start : Int)
    (opts : Nat) (hlen : 0 ≤ len) :
    Tracks (match_info_new regex string len start opts false) regex string len := by
  refine ⟨rfl, rfl, ?_⟩
  simp only [match_info_new]
  rw [if_neg (by omega)]

/-- C4: with a matcher that reports an empty match at every position `p` in
`[0, len]` when searched from `p` and no match beyond `len`, the split of a
non-empty subject of single-byte characters with unlimited `max_tokens` is
exactly the list of its characters, in order and without an empty token;
`len + 2` loop iterations are enough.  (`len + 2 < G_MAXINT` says that the
number of tokens fits the `gint` counter of the unlimited case; the match
options are inside `G_REGEX_MATCH_MASK`, as the argument check demands.) -/
theorem C4_split_empty_matches (fuel : Nat) (U : GUnicode) (regex : GRegex)
    (string : List Nat) (match_options : Nat)
    (hne : string ≠ [])
    (hbound : (string.length : Int) + 2 < G_MAXINT)
    (hsteps : SingleByteSteps U regex string (string.length : Int))
    (hm : EmptyEverywhere regex string (string.length : Int))
    (hfuel : string.length + 2 ≤ fuel)
    (hopts : bits_outside match_options G_REGEX_MATCH_MASK = 0) :
    g_regex_split_full fuel U regex string (string.length : Int) 0 match_options 0
      = Ret.value (string.map (fun b => [b])) := by
  have hpos : 0 < string.length := List.length_pos.mpr hne
  obtain ⟨f, rfl⟩ : ∃ f, fuel = f + 1 := ⟨fuel - 1, by omega⟩
  -- the first match attempt
  have ht0 := match_info_new_tracks regex string (string.length : Int) 0 match_options
    (by omega)
  have hp0 : (match_info_new regex string (string.length : Int) 0 match_options false).pos
      = 0 := rfl
  have hcall0 := exec_call_of_tracks _ regex string _ ht0
  have hex0 := (hm 0 (regex.match_opts ||| match_options)
    (match_info_new regex string (string.length : Int) 0 match_options false).offsets
    (match_info_new regex string (string.length : Int) 0 match_options false).n_offsets).1
    (le_refl _) (by omega)
  rw [hp0] at hcall0
  rw [show (match_info_new regex string (string.length : Int) 0 match_options false).match_opts
    = match_options from rfl] at hcall0
  rw [← hcall0] at hex0
  obtain ⟨e1, e2, e3, e4⟩ := hex0
  obtain ⟨a0, b0, c0, d1, d2, d3, d4⟩ := next_state_match U regex string _ _ ht0
    (by rw [hp0]) 0 0 e1 e3 e4 (by omega)
  rw [hp0, if_pos rfl, (hsteps 0 (le_refl _) (by omega)).1] at d4
  -- the first iteration of the loop and the second match attempt
  have ht1 := c0
  have hcall1 := exec_call_of_tracks _ regex string _ ht1
  have hex1 := (hm (g_match_info_next U
      (match_info_new regex string (string.length : Int) 0 match_options false) none).info.pos
    (regex.match_opts ||| (g_match_info_next U
      (match_info_new regex string (string.length : Int) 0 match_options false)
      none).info.match_opts)
    (g_match_info_next U
      (match_info_new regex string (string.length : Int) 0 match_options false)
      none).info.offsets
    (g_match_info_next U
      (match_info_new regex string (string.length : Int) 0 match_options false)
      none).info.n_offsets).1 (by rw [d4]; omega) (by rw [d4]; omega)
  rw [← hcall1] at hex1
  obtain ⟨g1, g2, g3, g4⟩ := hex1
  obtain ⟨a1, b1, c1, k1, k2, k3, k4⟩ := next_state_match U regex string _ _ ht1
    (by rw [d4]; omega) _ _ g1 g3 g4 (by rw [d4]; omega)
  rw [if_pos rfl, d4, (hsteps (0 + 1) (by omega) (by omega)).1] at k4
  rw [d4] at k2 k3
  have hloop := split_trace_loop_empty U regex string hbound hsteps hm (string.length - 1) 0
    (g_match_info_next U (g_match_info_next U
      (match_info_new regex string (string.length : Int) 0 match_options false) none).info
      none).info [] f true (by omega) c1 (by rw [k4]; simp) (by rw [k2]; simp)
    (by rw [k3]; simp) (by rw [k1]; exact g2) (by simp) (by omega)
  obtain ⟨events, hev, htok⟩ := hloop
  have htrace : split_trace (f + 1) U regex string (string.length : Int) 0 match_options 0
      = Ret.value events.reverse := by
    rw [split_trace_checked _ _ _ _ _ _ _ _ hopts]
    have hlen0 : ¬ ((string.length : Int) < 0) := by omega
    have hne0 : ¬ ((string.length : Int) - 0 = 0) := by omega
    have hmax : ¬ (G_MAXINT = 1) := by decide
    simp only [ge_iff_le, le_refl, not_true_eq_false, if_false, if_true, hlen0, hne0, hmax]
    unfold match_full_body
    rw [b0]
    dsimp only []
    rw [a0]
    have hlim : (0 : Int) + 1 < G_MAXINT - 1 := by decide
    rw [split_trace_loop_step U regex string _ G_MAXINT f _ [] 0 0 false
      (by rw [d1]; exact e2) hlim b1]
    rw [a1, d2, d3]
    simp only [ne_eq, not_true_eq_false, if_false, if_true, decide_True, d4]
    rw [(hsteps 0 (le_refl _) (by omega)).2]
    simp only [Nat.cast_zero] at hev
    rw [hev]
  rw [split_trace_value _ _ _ _ _ _ _ _ _ htrace, htok]

theorem single_byte_steps_ascii (U : GUnicode) (regex : GRegex) (string : List Nat)
    (hskip : ∀ b, b < 128 → U.g_utf8_skip b = 1)
    (hprev : ∀ (s : List Nat) (p : Int), 0 < p → byte_at s (p - 1) < 128 →
      U.g_utf8_prev_char s p = p - 1)
    (hs : ∀ b ∈ string, b < 128) :
    SingleByteSteps U regex string (string.length : Int) := by
  have hbyte : ∀ p : Int, byte_at string p < 128 := by
    intro p
    unfold byte_at
    rw [List.getD_eq_getElem?_getD]
    cases h : string[p.toNat]? with
    | none => simp
    | some b =>
      simp only [Option.getD_some]
      exact hs b (List.getElem?_mem h)
  intro p _ _
  unfold NEXT_CHAR PREV_CHAR g_utf8_next_char
  constructor
  · split_ifs
    · rw [hskip _ (hbyte p)]
      rfl
    · rfl
  · split_ifs
    · rw [hprev string (p + 1) (by omega) (by rw [show p + 1 - 1 = p by ring]; exact hbyte p)]
      ring
    · ring

theorem glib_utf8_prev_ascii (s : List Nat) (n : Nat) (h : s.getD n 0 < 128) :
    glib_utf8_prev s (n + 1) = (n : Int) := by
  unfold glib_utf8_prev
  have : s.getD n 0 / 64 % 4 ≠ 2 := by omega
  rw [if_pos this]

theorem single_byte_steps_glib (regex : GRegex) (string : List Nat)
    (hs : ∀ b ∈ string, b < 128) :
    SingleByteSteps glib_ascii regex string (string.length : Int) := by
  refine single_byte_steps_ascii glib_ascii regex string ?_ ?_ hs
  · intro b hb
    show glib_utf8_skip b = 1
    unfold glib_utf8_skip
    rw [if_pos (by omega)]
  · intro s p hp hb
    show (if p ≤ 0 then p - 1 else glib_utf8_prev s p.toNat) = p - 1
    rw [if_neg (by omega)]
    obtain ⟨n, hn⟩ : ∃ n : Nat, p = (n : Int) + 1 := ⟨(p - 1).toNat, by omega⟩
    subst hn
    have e : ((n : Int) + 1).toNat = n + 1 := by omega
    rw [e, glib_utf8_prev_ascii]
    · ring
    · have : byte_at s ((n : Int) + 1 - 1) = s.getD n 0 := by
        unfold byte_at
        rw [show (n : Int) + 1 - 1 = (n : Int) by ring, Int.toNat_ofNat]
      rw [← this]
      exact hb

theorem empty_everywhere_search_empty (string : List Nat) (len : Int) (cc : Int) :
    EmptyEverywhere (regex_of search_empty cc) string len := by
  intro pos opts offs n
  constructor
  · intro h0 hl
    have hgt : ¬ (pos > len) := by omega
    simp only [regex_of, exec_of, search_empty, hgt, if_false, set_offsets]
    simp
  · intro hl
    have hgt : pos > len := hl
    simp only [regex_of, exec_of, hgt, if_true]

/-- C4, witness: the subject "ab c" is split into "a", "b", " ", "c". -/
theorem C4_split_empty_matches_witness :
    g_regex_split_full 6 glib_ascii (regex_of search_empty 0) [97, 98, 32, 99] 4 0 0 0
      = Ret.value [[97], [98], [32], [99]] :=
  C4_split_empty_matches 6 glib_ascii (regex_of search_empty 0) [97, 98, 32, 99] 0
    (by decide) (by decide)
    (single_byte_steps_glib _ _ (by decide))
    (empty_everywhere_search_empty _ _ _) (by decide) (by decide)

/-! ## Iterations of the split loop, by what the next search finds -/

/-- An iteration of the split loop on the match `(m0, m1)` when the next
search, from `p`, finds the match `(n0, n1)`. -/
theorem split_iter_match (U : GUnicode) (regex : GRegex) (string : List Nat)
    (len max_tokens : Int) (f : Nat) (mi : GMatchInfo) (list : List SplitEvent)
    (tc lse : Int) (lme : Bool) (p m0 m1 n0 n1 : Int)
    (hat : AtMatch mi regex string len p m0 m1) (hp : 0 ≤ p)
    (hlim : tc + 1 < max_tokens - 1)
    (hret : 0 ≤ (pcre_exec_call mi).1) (hret1 : (pcre_exec_call mi).1 ≤ 1)
    (h0 : (pcre_exec_call mi).2.getD 0 0 = n0)
    (h1 : (pcre_exec_call mi).2.getD 1 0 = n1)
    (hn1 : n1 ≤ len) :
    ∃ mi', split_trace_loop U regex string len max_tokens (f + 1) mi true list tc lse lme
        = split_trace_loop U regex string len max_tokens f mi' true
            (if lse ≠ m1 then SplitEvent.piece (g_strndup string lse (m0 - lse)) m0 m1 :: list
             else list)
            (if lse ≠ m1 then tc + 1 else tc)
            (if m0 = m1 then PREV_CHAR U regex string p else p)
            (decide (m0 = m1)) ∧
      AtMatch mi' regex string len (if p = n1 then NEXT_CHAR U regex string p else n1) n0 n1 := by
  obtain ⟨ht, hpos, ho0, ho1, hm⟩ := hat
  obtain ⟨a, b, c, d1, d2, d3, d4⟩ := next_state_match U regex string len mi ht
    (by rw [hpos]; exact hp) n0 n1 hret h0 h1 hn1
  refine ⟨(g_match_info_next U mi none).info, ?_, c, ?_, d2, d3, ?_⟩
  · rw [split_trace_loop_step U regex string len max_tokens f mi list tc lse lme hm hlim b]
    rw [a, ho0, ho1, hpos]
  · rw [d4, hpos]
  · rw [d1]; exact hret1

/-- The last two iterations of the split loop, on the match `(m0, m1)` when
the next search finds nothing. -/
theorem split_iter_last (U : GUnicode) (regex : GRegex) (string : List Nat)
    (len max_tokens : Int) (f : Nat) (mi : GMatchInfo) (list : List SplitEvent)
    (tc lse : Int) (lme : Bool) (p m0 m1 : Int)
    (hat : AtMatch mi regex string len p m0 m1)
    (hlim : tc + 1 < max_tokens - 1)
    (hno : (pcre_exec_call mi).1 = PCRE_ERROR_NOMATCH) :
    split_trace_loop U regex string len max_tokens (f + 2) mi true list tc lse lme
      = Ret.value
          (if m0 = m1 then
            (if lse ≠ m1 then SplitEvent.piece (g_strndup string lse (m0 - lse)) m0 m1 :: list
             else list)
           else
            SplitEvent.tail (g_strndup string p (len - p)) ::
              (if lse ≠ m1 then
                SplitEvent.piece (g_strndup string lse (m0 - lse)) m0 m1 :: list
               else list)) := by
  obtain ⟨ht, hpos, ho0, ho1, hm⟩ := hat
  obtain ⟨hret, herr⟩ := next_of_nomatch U mi none hno
  rw [split_trace_loop_step U regex string len max_tokens (f + 1) mi list tc lse lme hm hlim herr]
  rw [hret, split_trace_loop_stop, ho0, ho1, hpos, next_string_len, ht.2.2]
  by_cases h : m0 = m1
  · simp [h]
  · simp [h]

/-- The iteration `split_iter_match`, with the answer of the matcher stated for
every call from `p`. -/
theorem split_iter_match_of (U : GUnicode) (regex : GRegex) (string : List Nat)
    (len max_tokens : Int) (f : Nat) (mi : GMatchInfo) (list : List SplitEvent)
    (tc lse : Int) (lme : Bool) (p m0 m1 n0 n1 : Int)
    (hat : AtMatch mi regex string len p m0 m1) (hp : 0 ≤ p)
    (hlim : tc + 1 < max_tokens - 1)
    (hex : ∀ (opts : Nat) (offs : List Int) (n : Int),
      0 ≤ (regex.pcre_re.exec string len p opts offs n).1 ∧
      (regex.pcre_re.exec string len p opts offs n).1 ≤ 1 ∧
      (regex.pcre_re.exec string len p opts offs n).2.getD 0 0 = n0 ∧
      (regex.pcre_re.exec string len p opts offs n).2.getD 1 0 = n1)
    (hn1 : n1 ≤ len) :
    ∃ mi', split_trace_loop U regex string len max_tokens (f + 1) mi true list tc lse lme
        = split_trace_loop U regex string len max_tokens f mi' true
            (if lse ≠ m1 then SplitEvent.piece (g_strndup string lse (m0 - lse)) m0 m1 :: list
             else list)
            (if lse ≠ m1 then tc + 1 else tc)
            (if m0 = m1 then PREV_CHAR U regex string p else p)
            (decide (m0 = m1)) ∧
      AtMatch mi' regex string len (if p = n1 then NEXT_CHAR U regex string p else n1) n0 n1 := by
  have hcall := exec_call_of_tracks mi regex string len hat.1
  rw [hat.2.1] at hcall
  obtain ⟨e1, e2, e3, e4⟩ := hex (regex.match_opts ||| mi.match_opts) mi.offsets mi.n_offsets
  rw [← hcall] at e1 e2 e3 e4
  exact split_iter_match U regex string len max_tokens f mi list tc lse lme p m0 m1 n0 n1
    hat hp hlim e1 e2 e3 e4 hn1

/-- The iterations `split_iter_last`, with the answer of the matcher stated for
every call from `p`. -/
theorem split_iter_last_of (U : GUnicode) (regex : GRegex) (string : List Nat)
    (len max_tokens : Int) (f : Nat) (mi : GMatchInfo) (list : List SplitEvent)
    (tc lse : Int) (lme : Bool) (p m0 m1 : Int)
    (hat : AtMatch mi regex string len p m0 m1)
    (hlim : tc + 1 < max_tokens - 1)
    (hno : ∀ (opts : Nat) (offs : List Int) (n : Int),
      (regex.pcre_re.exec string len p opts offs n).1 = PCRE_ERROR_NOMATCH) :
    split_trace_loop U regex string len max_tokens (f + 2) mi true list tc lse lme
      = Ret.value
          (if m0 = m1 then
            (if lse ≠ m1 then SplitEvent.piece (g_strndup string lse (m0 - lse)) m0 m1 :: list
             else list)
           else
            SplitEvent.tail (g_strndup string p (len - p)) ::
              (if lse ≠ m1 then
                SplitEvent.piece (g_strndup string lse (m0 - lse)) m0 m1 :: list
               else list)) := by
  have hcall := exec_call_of_tracks mi regex string len hat.1
  rw [hat.2.1] at hcall
  have e := hno (regex.match_opts ||| mi.match_opts) mi.offsets mi.n_offsets
  rw [← hcall] at e
  exact split_iter_last U regex string len max_tokens f mi list tc lse lme p m0 m1 hat hlim e

/-- The first match attempt, when the search from `start` finds `(n0, n1)`. -/
theorem match_full_match_of (U : GUnicode) (regex : GRegex) (string : List Nat)
    (len start : Int) (match_options : Nat) (n0 n1 : Int)
    (hlen : 0 ≤ len) (hstart : 0 ≤ start)
    (hex : ∀ (opts : Nat) (offs : List Int) (n : Int),
      0 ≤ (regex.pcre_re.exec string len start opts offs n).1 ∧
      (regex.pcre_re.exec string len start opts offs n).1 ≤ 1 ∧
      (regex.pcre_re.exec string len start opts offs n).2.getD 0 0 = n0 ∧
      (regex.pcre_re.exec string len start opts offs n).2.getD 1 0 = n1)
    (hn1 : n1 ≤ len) :
    (match_full_body U regex string len start match_options none).ret = true ∧
    (match_full_body U regex string len start match_options none).error = none ∧
    AtMatch (match_full_body U regex string len start match_options none).info regex string
      len (if start = n1 then NEXT_CHAR U regex string start else n1) n0 n1 := by
  have ht0 := match_info_new_tracks regex string len start match_options hlen
  have hp0 : (match_info_new regex string len start match_options false).pos = start := rfl
  have hcall := exec_call_of_tracks _ regex string len ht0
  rw [hp0] at hcall
  obtain ⟨e1, e2, e3, e4⟩ := hex
    (regex.match_opts ||| (match_info_new regex string len start match_options false).match_opts)
    (match_info_new regex string len start match_options false).offsets
    (match_info_new regex string len start match_options false).n_offsets
  rw [← hcall] at e1 e2 e3 e4
  obtain ⟨a, b, c, d1, d2, d3, d4⟩ := next_state_match U regex string len _ ht0
    (by rw [hp0]; exact hstart) n0 n1 e1 e3 e4 hn1
  unfold match_full_body
  refine ⟨a, b, c, ?_, d2, d3, ?_⟩
  · rw [d4, hp0]
  · rw [d1]; exact e2

/-- The first match attempt, when the search from `start` finds nothing. -/
theorem match_full_nomatch_of (U : GUnicode) (regex : GRegex) (string : List Nat)
    (len start : Int) (match_options : Nat) (hlen : 0 ≤ len)
    (hno : ∀ (opts : Nat) (offs : List Int) (n : Int),
      (regex.pcre_re.exec string len start opts offs n).1 = PCRE_ERROR_NOMATCH) :
    (match_full_body U regex string len start match_options none).ret = false ∧
    (match_full_body U regex string len start match_options none).error = none ∧
    (match_full_body U regex string len start match_options none).info.string_len = len := by
  have ht0 := match_info_new_tracks regex string len start match_options hlen
  have hp0 : (match_info_new regex string len start match_options false).pos = start := rfl
  have hcall := exec_call_of_tracks _ regex string len ht0
  rw [hp0] at hcall
  have e := hno
    (regex.match_opts ||| (match_info_new regex string len start match_options false).match_opts)
    (match_info_new regex string len start match_options false).offsets
    (match_info_new regex string len start match_options false).n_offsets
  rw [← hcall] at e
  obtain ⟨a, b⟩ := next_of_nomatch U _ none e
  unfold match_full_body
  exact ⟨a, b, by rw [next_string_len]; exact ht0.2.2⟩

/-- The split loop entered after a first match, in terms of `split_trace`. -/
theorem split_trace_unfold (fuel : Nat) (U : GUnicode) (regex : GRegex) (string : List Nat)
    (string_len : Int) (match_options : Nat) (len : Int)
    (hl : effective_len string string_len = len) (hlen : len ≠ 0)
    (herr : (match_full_body U regex string len 0 match_options none).error = none)
    (hopts : bits_outside match_options G_REGEX_MATCH_MASK = 0) :
    split_trace fuel U regex string string_len 0 match_options 0
      = Ret.map List.reverse
          (split_trace_loop U regex string len G_MAXINT fuel
            (match_full_body U regex string len 0 match_options none).info
            (match_full_body U regex string len 0 match_options none).ret [] 0 0 false) := by
  rw [split_trace_checked _ _ _ _ _ _ _ _ hopts]
  have hfold : (if string_len < 0 then strlen string else string_len) = len := hl
  have hne0 : ¬ (len - 0 = 0) := by omega
  have hmax : ¬ (G_MAXINT = 1) := by decide
  simp only [ge_iff_le, le_refl, not_true_eq_false, if_false, if_true, hfold, hne0, hmax, herr]
  cases split_trace_loop U regex string len G_MAXINT fuel
    (match_full_body U regex string len 0 match_options none).info
    (match_full_body U regex string len 0 match_options none).ret [] 0 0 false <;> rfl

/-! ## Splitting "ab c" on the pattern `\s*` -/

/-- The recorded split of "ab c" by a matcher implementing `\s*`: the tokens
"a", "b" and "c", cut before the empty match at 1, the match of the space at
`(2, 3)` and the empty match at 4. -/
theorem split_trace_space_star (fuel : Nat) (U : GUnicode) (regex : GRegex)
    (string_len : Int) (match_options : Nat)
    (hl : effective_len [97, 98, 32, 99] string_len = 4)
    (hsteps : SingleByteSteps U regex [97, 98, 32, 99] 4)
    (hm : MatchesSpaceStar regex [97, 98, 32, 99] 4)
    (hfuel : 6 ≤ fuel)
    (hopts : bits_outside match_options G_REGEX_MATCH_MASK = 0) :
    split_trace fuel U regex [97, 98, 32, 99] string_len 0 match_options 0
      = Ret.value [SplitEvent.piece [97] 1 1, SplitEvent.piece [98] 2 3,
          SplitEvent.piece [99] 4 4] := by
  obtain ⟨f, rfl⟩ : ∃ f, fuel = f + 6 := ⟨fuel - 6, by omega⟩
  have hx : ∀ (p n1 : Int), 0 ≤ p → p ≤ 4 → space_run_end [97, 98, 32, 99] 4 p = n1 →
      ∀ (opts : Nat) (offs : List Int) (n : Int),
        0 ≤ (regex.pcre_re.exec [97, 98, 32, 99] 4 p opts offs n).1 ∧
        (regex.pcre_re.exec [97, 98, 32, 99] 4 p opts offs n).1 ≤ 1 ∧
        (regex.pcre_re.exec [97, 98, 32, 99] 4 p opts offs n).2.getD 0 0 = p ∧
        (regex.pcre_re.exec [97, 98, 32, 99] 4 p opts offs n).2.getD 1 0 = n1 := by
    intro p n1 h0 h4 hr opts offs n
    have := (hm p opts offs n).1 h0 h4
    rw [hr] at this
    exact this
  have hno : ∀ (opts : Nat) (offs : List Int) (n : Int),
      (regex.pcre_re.exec [97, 98, 32, 99] 4 5 opts offs n).1 = PCRE_ERROR_NOMATCH :=
    fun opts offs n => (hm 5 opts offs n).2 (by decide)
  have next0 : NEXT_CHAR U regex [97, 98, 32, 99] 0 = 1 := (hsteps 0 (by decide) (by decide)).1
  have next1 : NEXT_CHAR U regex [97, 98, 32, 99] 1 = 2 := (hsteps 1 (by decide) (by decide)).1
  have next3 : NEXT_CHAR U regex [97, 98, 32, 99] 3 = 4 := (hsteps 3 (by decide) (by decide)).1
  have next4 : NEXT_CHAR U regex [97, 98, 32, 99] 4 = 5 := (hsteps 4 (by decide) (by decide)).1
  have prev1 : PREV_CHAR U regex [97, 98, 32, 99] 1 = 0 := (hsteps 0 (by decide) (by decide)).2
  have prev2 : PREV_CHAR U regex [97, 98, 32, 99] 2 = 1 := (hsteps 1 (by decide) (by decide)).2
  have prev4 : PREV_CHAR U regex [97, 98, 32, 99] 4 = 3 := (hsteps 3 (by decide) (by decide)).2
  have prev5 : PREV_CHAR U regex [97, 98, 32, 99] 5 = 4 := (hsteps 4 (by decide) (by decide)).2
  -- the first match attempt finds the empty match at 0
  obtain ⟨a0, b0, at0⟩ := match_full_match_of U regex [97, 98, 32, 99] 4 0 match_options 0 0
    (by decide) (by decide) (hx 0 0 (by decide) (by decide) (by decide)) (by decide)
  rw [if_pos rfl, next0] at at0
  rw [split_trace_unfold _ U regex _ string_len match_options 4 hl (by decide) b0 hopts, a0]
  -- the search from 1 finds the empty match at 1
  obtain ⟨mi1, e1, at1⟩ := split_iter_match_of U regex [97, 98, 32, 99] 4 G_MAXINT (f + 5) _
    [] 0 0 false 1 0 0 1 1 at0 (by decide) (by decide)
    (hx 1 1 (by decide) (by decide) (by decide)) (by decide)
  rw [if_pos rfl, next1] at at1
  rw [e1]
  simp only [ne_eq, not_true_eq_false, if_false, if_true, prev1, decide_True]
  -- the search from 2 finds the space
  obtain ⟨mi2, e2, at2⟩ := split_iter_match_of U regex [97, 98, 32, 99] 4 G_MAXINT (f + 4) mi1
    [] 0 0 true 2 1 1 2 3 at1 (by decide) (by decide)
    (hx 2 3 (by decide) (by decide) (by decide)) (by decide)
  rw [if_neg (by decide)] at at2
  rw [e2]
  simp only [ne_eq, zero_ne_one, not_false_eq_true, if_true, prev2, decide_True]
  -- the search from 3 finds the empty match at 3
  obtain ⟨mi3, e3, at3⟩ := split_iter_match_of U regex [97, 98, 32, 99] 4 G_MAXINT (f + 3) mi2
    [SplitEvent.piece (g_strndup [97, 98, 32, 99] 0 (1 - 0)) 1 1] (0 + 1) 1 true 3 2 3 3 3 at2
    (by decide) (by decide) (hx 3 3 (by decide) (by decide) (by decide)) (by decide)
  rw [if_pos rfl, next3] at at3
  rw [e3]
  have h13 : ¬ ((1 : Int) = 3) := by decide
  have h23 : ¬ ((2 : Int) = 3) := by decide
  simp only [ne_eq, h13, h23, not_false_eq_true, if_true, if_false, decide_False]
  -- the search from 4 finds the empty match at 4
  obtain ⟨mi4, e4, at4⟩ := split_iter_match_of U regex [97, 98, 32, 99] 4 G_MAXINT (f + 2) mi3
    [SplitEvent.piece (g_strndup [97, 98, 32, 99] 1 (2 - 1)) 2 3,
      SplitEvent.piece (g_strndup [97, 98, 32, 99] 0 (1 - 0)) 1 1] (0 + 1 + 1) 3 false 4 3 3 4 4
    at3 (by decide) (by decide) (hx 4 4 (by decide) (by decide) (by decide)) (by decide)
  rw [if_pos rfl, next4] at at4
  rw [e4]
  simp only [ne_eq, not_true_eq_false, if_false, if_true, prev4, decide_True]
  -- the search from 5 finds nothing
  rw [split_iter_last_of U regex [97, 98, 32, 99] 4 G_MAXINT f mi4 _ (0 + 1 + 1) 3 true 5 4 4
    at4 (by decide) hno]
  decide

theorem matches_space_star_exec (regex : GRegex) (string : List Nat) (len : Int)
    (h : regex.pcre_re.exec = exec_of search_space_star) :
    MatchesSpaceStar regex string len := by
  intro pos opts offs n
  rw [h]
  constructor
  · intro _ hl
    have hgt : ¬ (pos > len) := by omega
    simp only [exec_of, search_space_star, hgt, if_false, set_offsets]
    simp
  · intro hl
    have hgt : pos > len := hl
    simp only [exec_of, hgt, if_true]

/-- C6: with a matcher implementing the pattern `\s*`, `g_regex_split_full` on
the subject "ab c" with unlimited `max_tokens` returns exactly the three
tokens "a", "b" and "c" (six loop iterations are enough); the subject is given
with its length 4 or as a C string, and the match options are inside
`G_REGEX_MATCH_MASK`, as the argument check demands. -/
theorem C6_split_full_space_star (fuel : Nat) (U : GUnicode) (regex : GRegex)
    (match_options : Nat)
    (hsteps : SingleByteSteps U regex [97, 98, 32, 99] 4)
    (hm : MatchesSpaceStar regex [97, 98, 32, 99] 4)
    (hfuel : 6 ≤ fuel)
    (hopts : bits_outside match_options G_REGEX_MATCH_MASK = 0) :
    g_regex_split_full fuel U regex [97, 98, 32, 99] 4 0 match_options 0
      = Ret.value [[97], [98], [99]] ∧
    g_regex_split_full fuel U regex [97, 98, 32, 99] (-1) 0 match_options 0
      = Ret.value [[97], [98], [99]] := by
  constructor
  · exact split_trace_value _ _ _ _ _ _ _ _ _
      (split_trace_space_star fuel U regex 4 match_options (by decide) hsteps hm hfuel hopts)
  · exact split_trace_value _ _ _ _ _ _ _ _ _
      (split_trace_space_star fuel U regex (-1) match_options (by decide) hsteps hm hfuel
        hopts)

/-- C6, witness: the matcher `search_space_star` in UTF-8 mode. -/
theorem C6_split_full_space_star_witness :
    g_regex_split_full 6 glib_ascii (regex_of search_space_star 0) [97, 98, 32, 99] 4 0 0 0
      = Ret.value [[97], [98], [99]] :=
  (C6_split_full_space_star 6 glib_ascii (regex_of search_space_star 0) 0
    (single_byte_steps_glib _ [97, 98, 32, 99] (by decide))
    (matches_space_star_exec _ _ _ rfl) (by decide) (by decide)).1

/-- C5, counterexample: `g_regex_split_simple` with the pattern `\s*`, compiled
by a library whose matcher implements it, splits "ab c" into the three tokens
"a", "b", "c" and not into the four tokens "a", "b", " ", "c". -/
theorem C5_counterexample :
    ∃ regex, g_regex_new pcre_lib_space_star [92, 115, 42] 0 0 = some regex ∧
      MatchesSpaceStar regex [97, 98, 32, 99] 4 ∧
      g_regex_split_simple 6 pcre_lib_space_star glib_ascii [92, 115, 42] [97, 98, 32, 99] 0 0
        = Ret.value [[97], [98], [99]] ∧
      g_regex_split_simple 6 pcre_lib_space_star glib_ascii [92, 115, 42] [97, 98, 32, 99] 0 0
        ≠ Ret.value [[97], [98], [32], [99]] := by
  refine ⟨_, rfl, matches_space_star_exec _ _ _ rfl, by decide, by decide⟩

/-- C5 (amended): with a matcher implementing the pattern `\s*`,
`g_regex_split_simple` on the subject "ab c" returns exactly the three tokens
"a", "b" and "c": the space is matched as a separator and is not a token.  The
options are those that pass the argument checks of `g_regex_new` and of
`g_regex_split_full`. -/
theorem C5_split_simple_space_star (fuel : Nat) (L : PcreLib) (U : GUnicode)
    (pattern : List Nat) (compile_options match_options : Nat) (regex : GRegex)
    (hnew : g_regex_new L pattern compile_options 0 = some regex)
    (hsteps : SingleByteSteps U regex [97, 98, 32, 99] 4)
    (hm : MatchesSpaceStar regex [97, 98, 32, 99] 4)
    (hfuel : 6 ≤ fuel)
    (hopts : bits_outside match_options G_REGEX_MATCH_MASK = 0) :
    g_regex_split_simple fuel L U pattern [97, 98, 32, 99] compile_options match_options
      = Ret.value [[97], [98], [99]] := by
  unfold g_regex_split_simple
  rw [hnew]
  exact split_trace_value _ _ _ _ _ _ _ _ _
    (split_trace_space_star fuel U regex (-1) match_options (by decide) hsteps hm hfuel
        hopts)

/-- C5 (amended), witness: the pattern `\s*` compiled with the default
options. -/
theorem C5_split_simple_space_star_witness :
    g_regex_split_simple 6 pcre_lib_space_star glib_ascii [92, 115, 42] [97, 98, 32, 99] 0 0
      = Ret.value [[97], [98], [99]] :=
  C5_split_simple_space_star 6 pcre_lib_space_star glib_ascii [92, 115, 42] 0 0
    _ rfl
    (single_byte_steps_glib _ [97, 98, 32, 99] (by decide))
    (matches_space_star_exec _ _ _ rfl) (by decide) (by decide)

/-! ## The round trip of a split -/

theorem next_char_gt (U : GUnicode) (regex : GRegex) (string : List Nat) (p : Int) :
    p < NEXT_CHAR U regex string p := by
  unfold NEXT_CHAR g_utf8_next_char
  split_ifs
  · have := U.skip_pos (byte_at string p)
    omega
  · omega

theorem bytes_at_concat (s : List Nat) (a b : Int) (ha : 0 ≤ a) (hab : a ≤ b) :
    bytes_at s 0 a ++ bytes_at s a (b - a) = bytes_at s 0 b := by
  obtain ⟨x, rfl⟩ : ∃ x : Nat, a = (x : Int) := ⟨a.toNat, by omega⟩
  obtain ⟨y, rfl⟩ : ∃ y : Nat, b = (x : Int) + (y : Int) := ⟨(b - x).toNat, by omega⟩
  unfold bytes_at
  have e1 : ((x : Int) + (y : Int) - (x : Int)).toNat = y := by omega
  have e2 : ((x : Int) + (y : Int)).toNat = x + y := by omega
  rw [e1, e2]
  simp only [Int.toNat_zero, List.drop_zero, Int.toNat_ofNat]
  rw [List.take_add]

theorem bytes_at_whole (s : List Nat) (a : Int) (ha : 0 ≤ a) (hl : a ≤ (s.length : Int)) :
    bytes_at s 0 a ++ bytes_at s a ((s.length : Int) - a) = s := by
  rw [bytes_at_concat s a _ ha hl]
  unfold bytes_at
  simp

theorem split_rejoin_append (s : List Nat) (l1 l2 : List SplitEvent) :
    split_rejoin s (l1 ++ l2) = split_rejoin s l1 ++ split_rejoin s l2 := by
  simp [split_rejoin]

theorem split_rejoin_piece (s : List Nat) (t : List Nat) (m0 m1 : Int) :
    split_rejoin s [SplitEvent.piece t m0 m1] = t ++ bytes_at s m0 (m1 - m0) := by
  simp [split_rejoin, SplitEvent.with_separator]

theorem split_rejoin_tail (s : List Nat) (t : List Nat) :
    split_rejoin s [SplitEvent.tail t] = t := by
  simp [split_rejoin, SplitEvent.with_separator]

/-- The loop of the split rebuilds the subject: from an iteration on the match
`(m0, m1)` found by the search from `p`, when the tokens and separators
recorded so far are the subject up to `lse`. -/
theorem split_trace_loop_rejoin (U : GUnicode) (regex : GRegex) (string : List Nat)
    (hbound : (string.length : Int) + 2 < G_MAXINT)
    (hc : MatcherContract regex string (string.length : Int))
    (hng : NoGroups regex)
    (he1 : EmptyAtSearchStart regex string (string.length : Int))
    (he2 : EmptyThenMatch U regex string (string.length : Int))
    (he0 : StepBackReturns U regex string (string.length : Int)) :
    ∀ (fuel : Nat) (mi : GMatchInfo) (list : List SplitEvent) (tc lse : Int) (lme : Bool)
      (p m0 m1 : Int),
      AtMatch mi regex string (string.length : Int)
        (if p = m1 then NEXT_CHAR U regex string p else m1) m0 m1 →
      0 ≤ p → p ≤ m0 → m0 ≤ m1 → m1 ≤ (string.length : Int) → (m0 = m1 → m0 = p) →
      (m0 = m1 → m1 < (string.length : Int) → ∀ (opts : Nat) (offs : List Int) (n : Int),
        (regex.pcre_re.exec string (string.length : Int) (NEXT_CHAR U regex string p)
          opts offs n).1 ≠ PCRE_ERROR_NOMATCH) →
      0 ≤ lse → lse ≤ p → 0 ≤ tc → tc ≤ p →
      split_rejoin string list.reverse = bytes_at string 0 lse →
      (string.length : Int) + 2 ≤ (fuel : Int) + p →
      ∃ events, split_trace_loop U regex string (string.length : Int) G_MAXINT fuel mi true
          list tc lse lme = Ret.value events ∧
        split_rejoin string events.reverse = string := by
  intro fuel
  induction fuel with
  | zero =>
    intro mi list tc lse lme p m0 m1 _ _ h1 h2 h3 _ _ _ _ _ _ _ hf
    exfalso
    simp only [Nat.cast_zero, zero_add] at hf
    omega
  | succ f ih =>
    intro mi list tc lse lme p m0 m1 hat hp hpm hmm hml hemp hthen hlse hlsep htc htcp hrej hf
    -- the position of the next search
    have hq : p < (if p = m1 then NEXT_CHAR U regex string p else m1) := by
      split_ifs with h
      · exact next_char_gt U regex string p
      · omega
    generalize hqdef : (if p = m1 then NEXT_CHAR U regex string p else m1) = q at hat hq
    have hlim : tc + 1 < G_MAXINT - 1 := by omega
    -- what has been recorded after this iteration
    have hrej1 : split_rejoin string
        (if lse ≠ m1 then
          SplitEvent.piece (g_strndup string lse (m0 - lse)) m0 m1 :: list
         else list).reverse = bytes_at string 0 m1 := by
      by_cases h : lse = m1
      · rw [if_neg (not_not.mpr h), hrej, h]
      · simp only [ne_eq, h, not_false_eq_true, if_true, List.reverse_cons]
        rw [split_rejoin_append, split_rejoin_piece, hrej, g_strndup, ← List.append_assoc,
          bytes_at_concat string lse m0 hlse (by omega),
          bytes_at_concat string m0 m1 (by omega) hmm]
    have hlse1 : (if m0 = m1 then PREV_CHAR U regex string q else q) = m1 := by
      by_cases h : m0 = m1
      · have hpm1 : p = m1 := by rw [← h]; exact (hemp h).symm
        rw [if_pos h, ← hqdef, if_pos hpm1]
        rw [he0 p hp (by omega)]
        exact hpm1
      · have hpm1 : ¬ (p = m1) := by omega
        rw [if_neg h, ← hqdef, if_neg hpm1]
    have htc1 : (if lse ≠ m1 then tc + 1 else tc) ≤ q ∧ 0 ≤ (if lse ≠ m1 then tc + 1 else tc) := by
      split_ifs <;> constructor <;> omega
    -- the next search
    have hcall := exec_call_of_tracks mi regex string _ hat.1
    rw [hat.2.1] at hcall
    have hcon := hc q (regex.match_opts ||| mi.match_opts) mi.offsets mi.n_offsets (by omega)
    have hone := hng string (string.length : Int) q (regex.match_opts ||| mi.match_opts)
      mi.offsets mi.n_offsets
    have hE1 := he1 q (regex.match_opts ||| mi.match_opts) mi.offsets mi.n_offsets (by omega)
    have hE2 := he2 q (regex.match_opts ||| mi.match_opts) mi.offsets mi.n_offsets (by omega)
    rw [← hcall] at hcon hone hE1 hE2
    rcases hcon with hno | ⟨hret, hq0, h01, h1l⟩
    · -- no further match: the loop ends
      obtain ⟨g, rfl⟩ : ∃ g, f = g + 1 := ⟨f - 1, by
        have : (2 : Int) ≤ ((f + 1 : Nat) : Int) := by omega
        omega⟩
      rw [split_iter_last U regex string _ G_MAXINT g mi list tc lse lme q m0 m1 hat hlim hno]
      by_cases h : m0 = m1
      · rw [if_pos h]
        refine ⟨_, rfl, ?_⟩
        rw [hrej1]
        have hpm1 : p = m1 := by rw [← h]; exact (hemp h).symm
        have hend : m1 = (string.length : Int) := by
          by_contra hne
          have hlt : m1 < (string.length : Int) := by omega
          have := hthen h hlt (regex.match_opts ||| mi.match_opts) mi.offsets mi.n_offsets
          rw [← hqdef, if_pos hpm1] at hcall
          rw [← hcall] at this
          exact this hno
        rw [hend]
        unfold bytes_at
        simp
      · rw [if_neg h]
        refine ⟨_, rfl, ?_⟩
        rw [List.reverse_cons, split_rejoin_append, hrej1, split_rejoin_tail, g_strndup]
        have hpm1 : ¬ (p = m1) := by omega
        rw [← hqdef, if_neg hpm1]
        exact bytes_at_whole string m1 (by omega) hml
    · -- a further match: the loop goes on
      obtain ⟨mi', e, hat'⟩ := split_iter_match U regex string _ G_MAXINT f mi list tc lse lme
        q m0 m1 _ _ hat (by omega) hlim hret hone rfl rfl h1l
      rw [e, hlse1]
      refine ih mi' _ _ m1 _ q _ _ hat' (by omega) hq0 h01 h1l (hE1 hret) (hE2 hret)
        (by omega) ?_ htc1.2 htc1.1 hrej1 ?_
      · rw [← hqdef]
        split_ifs with h
        · rw [← h]; exact le_of_lt (next_char_gt U regex string p)
        · exact le_refl _
      · push_cast at hf ⊢
        omega

/-- The first match attempt, when it finds the match `(n0, n1)`. -/
theorem match_full_match (U : GUnicode) (regex : GRegex) (string : List Nat)
    (len start : Int) (match_options : Nat) (n0 n1 : Int)
    (hlen : 0 ≤ len) (hstart : 0 ≤ start)
    (hret : 0 ≤ (pcre_exec_call (match_info_new regex string len start match_options false)).1)
    (hret1 : (pcre_exec_call (match_info_new regex string len start match_options false)).1 ≤ 1)
    (h0 : (pcre_exec_call (match_info_new regex string len start match_options
      false)).2.getD 0 0 = n0)
    (h1 : (pcre_exec_call (match_info_new regex string len start match_options
      false)).2.getD 1 0 = n1)
    (hn1 : n1 ≤ len) :
    (match_full_body U regex string len start match_options none).ret = true ∧
    (match_full_body U regex string len start match_options none).error = none ∧
    AtMatch (match_full_body U regex string len start match_options none).info regex string
      len (if start = n1 then NEXT_CHAR U regex string start else n1) n0 n1 := by
  have ht0 := match_info_new_tracks regex string len start match_options hlen
  have hp0 : (match_info_new regex string len start match_options false).pos = start := rfl
  obtain ⟨a, b, c, d1, d2, d3, d4⟩ := next_state_match U regex string len _ ht0
    (by rw [hp0]; exact hstart) n0 n1 hret h0 h1 hn1
  unfold match_full_body
  refine ⟨a, b, c, ?_, d2, d3, ?_⟩
  · rw [d4, hp0]
  · rw [d1]; exact hret1

/-- C3 (amended): for every regex without capture groups, every subject `s`
on which stepping back one character undoes stepping forward, and every
matcher that satisfies the matcher contract, reports an empty match only at
the position the search starts from and, after an empty match before the end
of `s`, finds a further match: `g_regex_split_full` with start 0 and unlimited
`max_tokens` returns (after at most `len + 2` loop iterations) tokens such that
concatenating each token followed by the text of the match that caused it to
be emitted, and then the final tail token if one was emitted, reconstructs
`s`.  The match options are inside `G_REGEX_MATCH_MASK`, as the argument check
demands. -/
theorem C3_split_round_trip (fuel : Nat) (U : GUnicode) (regex : GRegex) (string : List Nat)
    (match_options : Nat)
    (hbound : (string.length : Int) + 2 < G_MAXINT)
    (hc : MatcherContract regex string (string.length : Int))
    (hng : NoGroups regex)
    (he1 : EmptyAtSearchStart regex string (string.length : Int))
    (he2 : EmptyThenMatch U regex string (string.length : Int))
    (he0 : StepBackReturns U regex string (string.length : Int))
    (hfuel : string.length + 2 ≤ fuel)
    (hopts : bits_outside match_options G_REGEX_MATCH_MASK = 0) :
    ∃ events,
      split_trace fuel U regex string (string.length : Int) 0 match_options 0
        = Ret.value events ∧
      g_regex_split_full fuel U regex string (string.length : Int) 0 match_options 0
        = Ret.value (events.map SplitEvent.token) ∧
      split_rejoin string events = string := by
  suffices h : ∃ events,
      split_trace fuel U regex string (string.length : Int) 0 match_options 0
        = Ret.value events ∧ split_rejoin string events = string by
    obtain ⟨events, h1, h2⟩ := h
    exact ⟨events, h1, split_trace_value _ _ _ _ _ _ _ _ _ h1, h2⟩
  by_cases hs : string = []
  · subst hs
    exact ⟨[], by simp [split_trace_checked _ _ _ _ _ _ _ _ hopts], rfl⟩
  · have hpos : 0 < string.length := List.length_pos.mpr hs
    have hl : effective_len string (string.length : Int) = (string.length : Int) := by
      unfold effective_len
      rw [if_neg (by omega)]
    have ht0 := match_info_new_tracks regex string (string.length : Int) 0 match_options
      (by omega)
    have hp0 : (match_info_new regex string (string.length : Int) 0 match_options false).pos
      = 0 := rfl
    have hcall := exec_call_of_tracks _ regex string _ ht0
    rw [hp0] at hcall
    have hcon := hc 0 (regex.match_opts ||| (match_info_new regex string (string.length : Int) 0
      match_options false).match_opts)
      (match_info_new regex string (string.length : Int) 0 match_options false).offsets
      (match_info_new regex string (string.length : Int) 0 match_options false).n_offsets
      (le_refl _)
    have hone := hng string (string.length : Int) 0 (regex.match_opts |||
      (match_info_new regex string (string.length : Int) 0 match_options false).match_opts)
      (match_info_new regex string (string.length : Int) 0 match_options false).offsets
      (match_info_new regex string (string.length : Int) 0 match_options false).n_offsets
    have hE1 := he1 0 (regex.match_opts ||| (match_info_new regex string (string.length : Int) 0
      match_options false).match_opts)
      (match_info_new regex string (string.length : Int) 0 match_options false).offsets
      (match_info_new regex string (string.length : Int) 0 match_options false).n_offsets
      (le_refl _)
    have hE2 := he2 0 (regex.match_opts ||| (match_info_new regex string (string.length : Int) 0
      match_options false).match_opts)
      (match_info_new regex string (string.length : Int) 0 match_options false).offsets
      (match_info_new regex string (string.length : Int) 0 match_options false).n_offsets
      (le_refl _)
    rw [← hcall] at hcon hone hE1 hE2
    obtain ⟨f, rfl⟩ : ∃ f, fuel = f + 1 := ⟨fuel - 1, by omega⟩
    rcases hcon with hno | ⟨hret, hq0, h01, h1l⟩
    · -- no match at all: the subject is the only token
      obtain ⟨a, b⟩ := next_of_nomatch U _ none hno
      have hsl : (match_full_body U regex string (string.length : Int) 0 match_options
          none).info.string_len = (string.length : Int) := by
        unfold match_full_body
        rw [next_string_len]
        exact ht0.2.2
      have a' : (match_full_body U regex string (string.length : Int) 0 match_options
          none).ret = false := a
      have b' : (match_full_body U regex string (string.length : Int) 0 match_options
          none).error = none := b
      rw [split_trace_unfold _ U regex string _ match_options _ hl (by omega) b' hopts, a',
        split_trace_loop_stop, hsl]
      refine ⟨_, rfl, ?_⟩
      simp only [if_true, List.reverse_cons, List.reverse_nil, List.nil_append]
      rw [split_rejoin_tail, g_strndup]
      unfold bytes_at
      simp
    · -- a first match: the loop rebuilds the subject
      obtain ⟨a, b, hat⟩ := match_full_match U regex string (string.length : Int) 0
        match_options _ _ (by omega) (le_refl _) hret hone rfl rfl h1l
      obtain ⟨events, hev, hrej⟩ := split_trace_loop_rejoin U regex string hbound hc hng he1 he2
        he0 (f + 1) _ [] 0 0 false 0 _ _ hat (le_refl _) hq0 h01 h1l (hE1 hret) (hE2 hret)
        (le_refl _) (le_refl _) (le_refl _) (le_refl _) (by simp [split_rejoin, bytes_at])
        (by push_cast; omega)
      rw [split_trace_unfold _ U regex string _ match_options _ hl (by omega) b hopts, a, hev]
      exact ⟨_, rfl, hrej⟩

theorem matcher_contract_caret (string : List Nat) (len : Int) (hlen : 0 ≤ len) :
    MatcherContract (regex_of search_caret 0) string len := by
  intro pos opts offs n hpos
  by_cases hgt : pos > len
  · left
    simp only [regex_of, exec_of, hgt, if_true]
  · by_cases h0 : pos = 0
    · right
      subst h0
      simp only [regex_of, exec_of, search_caret, hgt, if_false, if_true, set_offsets]
      simp
      exact hlen
    · left
      simp only [regex_of, exec_of, search_caret, hgt, h0, if_false]

theorem no_groups_caret : NoGroups (regex_of search_caret 0) := by
  intro s l p o offs n
  simp only [regex_of, exec_of, search_caret]
  split_ifs <;> simp [PCRE_ERROR_NOMATCH]

/-- C3, counterexample: the pattern `^` has no capture group and its matcher
satisfies the matcher contract (it finds the empty string at offset 0 and
nothing else), yet the split of "ab" returns no token at all, so that joining
the tokens with the separators gives the empty string and not "ab": the text
after a final empty match is not emitted. -/
theorem C3_counterexample :
    MatcherContract (regex_of search_caret 0) [97, 98] 2 ∧
    NoGroups (regex_of search_caret 0) ∧
    split_trace 10 glib_ascii (regex_of search_caret 0) [97, 98] 2 0 0 0 = Ret.value [] ∧
    g_regex_split_full 10 glib_ascii (regex_of search_caret 0) [97, 98] 2 0 0 0
      = Ret.value [] ∧
    split_rejoin [97, 98] [] ≠ [97, 98] :=
  ⟨matcher_contract_caret _ _ (by decide), no_groups_caret, by decide, by decide, by decide⟩

theorem step_back_of_single_byte (U : GUnicode) (regex : GRegex) (string : List Nat) (len : Int)
    (h : SingleByteSteps U regex string len) : StepBackReturns U regex string len := by
  intro p h0 hl
  rw [(h p h0 hl).1, (h p h0 hl).2]

theorem space_run_end_bounds (string : List Nat) (len p : Int) (hl : p ≤ len) :
    p ≤ space_run_end string len p ∧ space_run_end string len p ≤ len := by
  unfold space_run_end
  have h1 : ((bytes_at string p (len - p)).takeWhile is_space).length
      ≤ (bytes_at string p (len - p)).length := (List.takeWhile_sublist is_space).length_le
  have h2 : (bytes_at string p (len - p)).length ≤ (len - p).toNat := by
    unfold bytes_at
    exact List.length_take_le _ _
  constructor
  · omega
  · omega

theorem exec_space_star_match (string : List Nat) (len pos : Int) (opts : Nat)
    (offs : List Int) (n : Int) (cc : Int) (hl : pos ≤ len) :
    ((regex_of search_space_star cc).pcre_re.exec string len pos opts offs n).1 = 1 ∧
    ((regex_of search_space_star cc).pcre_re.exec string len pos opts offs n).2.getD 0 0 = pos ∧
    ((regex_of search_space_star cc).pcre_re.exec string len pos opts offs n).2.getD 1 0
      = space_run_end string len pos := by
  have hgt : ¬ (pos > len) := by omega
  simp only [regex_of, exec_of, search_space_star, hgt, if_false, set_offsets]
  simp

theorem exec_space_star_beyond (string : List Nat) (len pos : Int) (opts : Nat)
    (offs : List Int) (n : Int) (cc : Int) (hl : len < pos) :
    ((regex_of search_space_star cc).pcre_re.exec string len pos opts offs n).1
      = PCRE_ERROR_NOMATCH := by
  have hgt : pos > len := hl
  simp only [regex_of, exec_of, hgt, if_true]

theorem matcher_contract_space_star (string : List Nat) (len : Int) :
    MatcherContract (regex_of search_space_star 0) string len := by
  intro pos opts offs n _
  by_cases hgt : len < pos
  · left
    exact exec_space_star_beyond string len pos opts offs n 0 hgt
  · right
    obtain ⟨a, b, c⟩ := exec_space_star_match string len pos opts offs n 0 (by omega)
    obtain ⟨d, e⟩ := space_run_end_bounds string len pos (by omega)
    rw [a, b, c]
    exact ⟨by decide, le_refl _, d, e⟩

theorem no_groups_space_star : NoGroups (regex_of search_space_star 0) := by
  intro s l p o offs n
  by_cases hgt : l < p
  · rw [exec_space_star_beyond s l p o offs n 0 hgt]
    decide
  · rw [(exec_space_star_match s l p o offs n 0 (by omega)).1]

theorem empty_at_start_space_star (string : List Nat) (len : Int) :
    EmptyAtSearchStart (regex_of search_space_star 0) string len := by
  intro pos opts offs n _ hret _
  by_cases hgt : len < pos
  · rw [exec_space_star_beyond string len pos opts offs n 0 hgt] at hret
    exact absurd hret (by decide)
  · exact (exec_space_star_match string len pos opts offs n 0 (by omega)).2.1

theorem empty_then_match_space_star (string : List Nat) (hs : ∀ b ∈ string, b < 128) :
    EmptyThenMatch glib_ascii (regex_of search_space_star 0) string (string.length : Int) := by
  intro pos opts offs n hpos hret hemp hlt opts' offs' n'
  by_cases hgt : (string.length : Int) < pos
  · rw [exec_space_star_beyond string _ pos opts offs n 0 hgt] at hret
    exact absurd hret (by decide)
  · obtain ⟨_, b, c⟩ := exec_space_star_match string (string.length : Int) pos opts offs n 0
      (by omega)
    rw [b, c] at hemp
    rw [c, ← hemp] at hlt
    rw [(single_byte_steps_glib (regex_of search_space_star 0) string hs pos hpos
      (by omega)).1]
    rw [(exec_space_star_match string (string.length : Int) (pos + 1) opts' offs' n' 0
      (by omega)).1]
    decide

/-- C3 (amended), witness: the split of "ab c" on the pattern `\s*`: the tokens
"a", "b", "c" with the separators "", " " and "" give back "ab c". -/
theorem C3_split_round_trip_witness :
    ∃ events,
      split_trace 6 glib_ascii (regex_of search_space_star 0) [97, 98, 32, 99] 4 0 0 0
        = Ret.value events ∧
      g_regex_split_full 6 glib_ascii (regex_of search_space_star 0) [97, 98, 32, 99] 4 0 0 0
        = Ret.value (events.map SplitEvent.token) ∧
      split_rejoin [97, 98, 32, 99] events = [97, 98, 32, 99] :=
  C3_split_round_trip 6 glib_ascii (regex_of search_space_star 0) [97, 98, 32, 99] 0
    (by decide)
    (matcher_contract_space_star _ _)
    no_groups_space_star
    (empty_at_start_space_star _ _)
    (empty_then_match_space_star _ (by decide))
    (step_back_of_single_byte _ _ _ _ (single_byte_steps_glib _ [97, 98, 32, 99] (by decide)))
    (by decide) (by decide)

/-- An empty match found after the position the search starts from (here the
pattern `(?=b)` on "ab", found at offset 1 by the search from 0) makes the loop
step back although `g_match_info_next` has not moved forward: the token "a" is
emitted twice; the round trip of a split is not stated for such matchers. -/
theorem split_empty_match_after_start :
    g_regex_split_full 10 glib_ascii (regex_of search_before_b 0) [97, 98] 2 0 0 0
      = Ret.value [[97], [97]] := by
  decide

/-! ## Numeric references in a replacement -/

theorem fetch_group_text (mi : GMatchInfo) (n : Nat) :
    g_match_info_fetch mi (n : Int)
      = if (n : Int) < mi.matches_ then some (group_text mi (n : Int)) else none := by
  have h0 : ¬ ¬ ((n : Int) ≥ 0) := by simp
  unfold g_match_info_fetch g_match_info_fetch_pos group_text g_strndup
  simp only [h0, if_false]
  by_cases hlt : (n : Int) < mi.matches_
  · have hge : ¬ ((n : Int) ≥ mi.matches_) := by omega
    simp only [hge, if_false, hlt, if_true]
    split_ifs <;> rfl
  · have hge : (n : Int) ≥ mi.matches_ := by omega
    simp [hge, hlt]

theorem group_text_absent (mi : GMatchInfo) (n : Int) (h : ¬ (n < mi.matches_)) :
    group_text mi n = [] := by
  unfold group_text
  rw [if_neg h]

theorem string_append_none (U : GUnicode) (string text : List Nat) :
    string_append U string text CHANGE_CASE_NONE = (string ++ text, CHANGE_CASE_NONE) := by
  unfold string_append
  by_cases h : text = []
  · simp [h]
  · simp [h]

theorem string_append_nil (U : GUnicode) (string : List Nat) (cc : Nat) :
    string_append U string [] cc = (string, cc) := by
  simp [string_append]

/-- C10: for every match state and every numeric reference `NumericRef (n)`
interpolated in case mode None: when `n` is below the match count of the last
step the atom appends exactly what `g_match_info_fetch (n)` returns, the byte
slice of the group (nothing when its start offset is -1); when the group is
absent it appends nothing; so the atom appends the text of the group and
leaves the mode None.  In every case mode, when nothing is appended the case
mode is unchanged.  Example: on "hello world" matched by `(\w+) (\w+)` the
atoms of the template `\2 \1` (group 2, the text " ", group 1) give
"world hello". -/
theorem C10_numeric_reference (U : GUnicode) (mi : GMatchInfo) (n : Nat) (result : List Nat) :
    g_match_info_fetch mi (n : Int)
      = (if (n : Int) < mi.matches_ then some (group_text mi (n : Int)) else none) ∧
    interpolate_step U mi (result, CHANGE_CASE_NONE) (numeric_ref (n : Int))
      = (result ++ group_text mi (n : Int), CHANGE_CASE_NONE) ∧
    (∀ cc : Nat, group_text mi (n : Int) = [] →
      interpolate_step U mi (result, cc) (numeric_ref (n : Int)) = (result, cc)) ∧
    g_regex_replace_eval 2 glib_ascii (regex_of search_two_words 2)
        [104, 101, 108, 108, 111, 32, 119, 111, 114, 108, 100] 11 0 0
        (interpolate_replacement glib_ascii
          [numeric_ref 2, literal_text [32], numeric_ref 1])
      = Ret.value [119, 111, 114, 108, 100, 32, 104, 101, 108, 108, 111] := by
  have hfetch := fetch_group_text mi n
  refine ⟨hfetch, ?_, ?_, by decide⟩
  · unfold interpolate_step
    simp only [numeric_ref]
    rw [hfetch]
    by_cases hlt : (n : Int) < mi.matches_
    · rw [if_pos hlt]
      simp only [string_append_none]
    · rw [if_neg hlt, group_text_absent mi _ hlt]
      simp
  · intro cc hnil
    unfold interpolate_step
    simp only [numeric_ref]
    rw [hfetch]
    by_cases hlt : (n : Int) < mi.matches_
    · rw [if_pos hlt]
      simp only [hnil]
      exact string_append_nil U result cc
    · rw [if_neg hlt]

/-- C10, witness: in the match state of `(\w+) (\w+)` on "hello world", whose
groups 1 and 2 are "hello" and "world", the atom `NumericRef (2)` appends
"world", and the absent group 5 appends nothing in the mode of one upper-case
character, which stays pending. -/
theorem C10_numeric_reference_witness :
    ∃ r, g_regex_match_full glib_ascii (regex_of search_two_words 2)
        [104, 101, 108, 108, 111, 32, 119, 111, 114, 108, 100] 11 0 0 none = some r ∧
      interpolate_step glib_ascii r.info ([], CHANGE_CASE_NONE) (numeric_ref 2)
        = ([119, 111, 114, 108, 100], CHANGE_CASE_NONE) ∧
      interpolate_step glib_ascii r.info ([], CHANGE_CASE_UPPER_SINGLE) (numeric_ref 5)
        = ([], CHANGE_CASE_UPPER_SINGLE) := by
  refine ⟨_, rfl, ?_, ?_⟩
  · have h := (C10_numeric_reference glib_ascii
      (match_full_body glib_ascii (regex_of search_two_words 2)
        [104, 101, 108, 108, 111, 32, 119, 111, 114, 108, 100] 11 0 0 none).info 2 []).2.1
    rw [show ((2 : Nat) : Int) = 2 from rfl] at h
    rw [h]
    decide
  · exact (C10_numeric_reference glib_ascii
      (match_full_body glib_ascii (regex_of search_two_words 2)
        [104, 101, 108, 108, 111, 32, 119, 111, 114, 108, 100] 11 0 0 none).info 5 []).2.2.1
      CHANGE_CASE_UPPER_SINGLE (by decide)

/-! ## Fetching the groups of a match -/

/-- C19: for every match state and every group number `n >= 0`,
`g_match_info_fetch_pos (n)` succeeds exactly when `n` is below the match
count of the last step (the stored result of the matcher, or equivalently the
count that `g_match_info_get_match_count` reports) and then returns the
offsets `offsets[2n]` and `offsets[2n+1]` as they are, else it returns FALSE
and stores nothing; `g_match_info_fetch (n)` returns the empty string when the
start is -1, else the bytes of the subject from the start to the end, and no
string when `g_match_info_fetch_pos` fails. -/
theorem C19_fetch_pos_and_fetch (mi : GMatchInfo) (n : Nat) :
    g_match_info_fetch_pos mi (n : Int)
      = (if (n : Int) < mi.matches_ then
          some (mi.offset (2 * (n : Int)), mi.offset (2 * (n : Int) + 1))
        else none) ∧
    g_match_info_fetch mi (n : Int)
      = (if (n : Int) < mi.matches_ then
          some (if mi.offset (2 * (n : Int)) = -1 then []
            else bytes_at mi.string (mi.offset (2 * (n : Int)))
              (mi.offset (2 * (n : Int) + 1) - mi.offset (2 * (n : Int))))
        else none) ∧
    ((n : Int) < mi.matches_ ↔ (n : Int) < g_match_info_get_match_count mi) := by
  have h0 : ¬ ¬ ((n : Int) ≥ 0) := by simp
  have hn : (0 : Int) ≤ (n : Int) := Int.ofNat_nonneg n
  refine ⟨?_, ?_, ?_⟩
  · unfold g_match_info_fetch_pos
    simp only [h0, if_false]
    by_cases hlt : (n : Int) < mi.matches_
    · have hge : ¬ ((n : Int) ≥ mi.matches_) := by omega
      simp only [hge, hlt, if_true, if_false]
    · have hge : (n : Int) ≥ mi.matches_ := by omega
      simp only [hge, hlt, if_true, if_false]
  · unfold g_match_info_fetch g_match_info_fetch_pos g_strndup
    simp only [h0, if_false]
    by_cases hlt : (n : Int) < mi.matches_
    · have hge : ¬ ((n : Int) ≥ mi.matches_) := by omega
      simp only [hge, hlt, if_true, if_false]
      split_ifs <;> rfl
    · have hge : (n : Int) ≥ mi.matches_ := by omega
      simp only [hge, hlt, if_true, if_false]
  · unfold g_match_info_get_match_count PCRE_ERROR_NOMATCH
    split_ifs <;> omega

/-- C20, the failing input: the pattern `(a)?b` matched against "b".  The
match succeeds with the overall span (0, 1); the matcher reports the count 1
and sets both offsets of group 1 to -1.  Group 1 is a valid group that did not
take part in the match, for which the comments of `g_match_info_fetch` and of
`g_match_info_fetch_pos` promise the empty string and TRUE with (-1, -1); the
test `match_num >= match_info->matches` makes `g_match_info_fetch_pos (1)`
return FALSE and `g_match_info_fetch (1)` return no string.  With the `a`
present ("ab") the same calls succeed. -/
theorem C20_unset_trailing_group :
    (∃ r, g_regex_match_full glib_ascii regex_optional_a_b [98] 1 0 0 none = some r ∧
      g_match_info_matches r.info = true ∧
      r.info.matches_ = 1 ∧
      g_match_info_fetch_pos r.info 0 = some (0, 1) ∧
      r.info.offset 2 = -1 ∧
      r.info.offset 3 = -1 ∧
      g_match_info_fetch_pos r.info 1 = none ∧
      g_match_info_fetch r.info 1 = none) ∧
    regex_optional_a_b.pcre_re.capture_count = 1 ∧
    (∃ r, g_regex_match_full glib_ascii regex_optional_a_b [97, 98] 2 0 0 none = some r ∧
      g_match_info_fetch_pos r.info 1 = some (0, 1) ∧
      g_match_info_fetch r.info 1 = some [97]) :=
  ⟨⟨_, rfl, by decide⟩, by decide, ⟨_, rfl, by decide⟩⟩

/-! ## The parser of replacement templates: escapes -/

theorem deref_cons (c : Nat) (p : List Nat) : deref (c :: p) = c := rfl

theorem deref_nil : deref [] = 0 := rfl

theorem c_string_of_nul_head (buffer : List Nat) (h : buffer.head? = some 0) :
    c_string buffer = [] := by
  cases buffer with
  | nil => simp at h
  | cons b t =>
    simp only [List.head?_cons, Option.some.injEq] at h
    subst h
    simp [c_string]

theorem c_string_of_no_nul (buffer : List Nat) (h : 0 ∉ buffer) : c_string buffer = buffer := by
  unfold c_string
  rw [List.takeWhile_eq_self_iff]
  intro b hb
  have : b ≠ 0 := fun h0 => h (h0 ▸ hb)
  simpa using this

/-- The byte after the backslash selects the case of the `switch`: a digit from
1 to 9. -/
theorem expand_escape_digit (U : GUnicode) (replacement : List Nat) (c : Nat) (p : List Nat)
    (h1 : 49 ≤ c) (h9 : c ≤ 57) :
    expand_escape U replacement (92 :: c :: p) = expand_escape_digits U (c :: p) 0 := by
  unfold expand_escape
  simp only [List.tail_cons, deref, List.headD_cons]
  simp (disch := omega) only [if_neg, if_pos]

/-- The byte after the backslash selects the case of the `switch`: the
digit 0. -/
theorem expand_escape_zero (U : GUnicode) (hskip : U.g_utf8_skip 48 = 1)
    (replacement : List Nat) (p : List Nat) :
    expand_escape U replacement (92 :: 48 :: p)
      = if g_ascii_digit_value (deref p) ≥ 0 then expand_escape_digits U p 8
        else expand_escape_digits U (48 :: p) 0 := by
  unfold expand_escape
  simp only [List.tail_cons, deref, List.headD_cons, hskip, List.drop_succ_cons, List.drop_zero]
  simp

/-- The byte after the backslash selects the case of the `switch`: the default
case. -/
theorem expand_escape_unknown (U : GUnicode) (replacement : List Nat) (c : Nat) (p : List Nat)
    (hc0 : c ≠ 0)
    (hc : c ∉ [116, 110, 118, 114, 102, 97, 98, 92, 120, 108, 117, 76, 85, 69, 103,
      48, 49, 50, 51, 52, 53, 54, 55, 56, 57]) :
    expand_escape U replacement (92 :: c :: p)
      = Parsed.error ⟨replacement.length - (c :: p).length,
          ErrorDetail.unknown_escape_sequence⟩ := by
  simp only [List.mem_cons, List.mem_singleton, List.not_mem_nil, not_or, or_false] at hc
  unfold expand_escape
  simp only [List.tail_cons, deref, List.headD_cons]
  simp (disch := omega) only [if_neg, if_pos]

/-- C18: for every byte `c` that is not NUL and not one of t n v r f a b \ x l
u L U E g 0-9, and every suffix, the template made of a backslash, `c` and the
suffix is rejected by `split_replacement` with the detail "unknown escape
sequence" at byte offset 1, and `g_regex_replace` with that template returns
this error for every regex, subject, length, start position and options that
pass its argument checks: nothing is matched before the template is parsed. -/
theorem C18_unknown_escape (U : GUnicode) (c : Nat) (suffix : List Nat) (hc0 : c ≠ 0)
    (hc : c ∉ [116, 110, 118, 114, 102, 97, 98, 92, 120, 108, 117, 76, 85, 69, 103,
      48, 49, 50, 51, 52, 53, 54, 55, 56, 57]) :
    split_replacement U (92 :: c :: suffix)
      = Parsed.error ⟨1, ErrorDetail.unknown_escape_sequence⟩ ∧
    ∀ (fuel : Nat) (regex : GRegex) (string : List Nat) (string_len start_position : Int)
      (match_options : Nat), 0 ≤ start_position →
      bits_outside match_options G_REGEX_MATCH_MASK = 0 →
      g_regex_replace fuel U regex string string_len start_position (92 :: c :: suffix)
          match_options
        = Replaced.replace_error ⟨1, ErrorDetail.unknown_escape_sequence⟩ := by
  have hsplit : split_replacement U (92 :: c :: suffix)
      = Parsed.error ⟨1, ErrorDetail.unknown_escape_sequence⟩ := by
    unfold split_replacement split_replacement_loop
    rw [if_neg (by simp [deref]), if_pos (by simp [deref]),
      expand_escape_unknown U _ c suffix hc0 hc]
    simp
  refine ⟨hsplit, ?_⟩
  intro fuel regex string string_len start_position match_options hstart hopts
  rw [g_regex_replace_checked _ _ _ _ _ _ _ _ hopts, if_neg (by omega), hsplit]

/-- C18, witness: the template `\q and more`, on a regex that matches
nothing. -/
theorem C18_unknown_escape_witness :
    split_replacement glib_ascii [92, 113, 32, 97, 110, 100]
      = Parsed.error ⟨1, ErrorDetail.unknown_escape_sequence⟩ ∧
    g_regex_replace 5 glib_ascii (regex_of (fun _ _ _ => none) 0) [97, 98] 2 0
        [92, 113, 32, 97, 110, 100] 0
      = Replaced.replace_error ⟨1, ErrorDetail.unknown_escape_sequence⟩ :=
  ⟨(C18_unknown_escape glib_ascii 113 [32, 97, 110, 100] (by decide) (by decide)).1,
   (C18_unknown_escape glib_ascii 113 [32, 97, 110, 100] (by decide) (by decide)).2
      5 (regex_of (fun _ _ _ => none) 0) [97, 98] 2 0 0 (by decide) (by decide)⟩

theorem digit_value_digit (a : Nat) (ha : a ≤ 9) : g_ascii_digit_value (48 + a) = (a : Int) := by
  unfold g_ascii_digit_value
  rw [if_pos (by omega)]
  push_cast
  ring

theorem digit_value_not_digit (c : Nat) (h : g_ascii_isdigit c = false) :
    g_ascii_digit_value c = -1 := by
  unfold g_ascii_isdigit at h
  unfold g_ascii_digit_value
  rw [if_neg (by simpa using h)]

theorem to_gunichar_small (n : Nat) (h : n < 4294967296) : to_gunichar (n : Int) = n := by
  unfold to_gunichar
  rw [Int.emod_eq_of_lt (by omega) (by omega)]
  simp

/-- The loop over the digits stops at a byte that is no digit. -/
theorem digits_loop_stop (n : Nat) (s : DigitsState)
    (h : g_ascii_isdigit (deref s.p) = false) : digits_loop n s = s := by
  cases n with
  | zero => rfl
  | succ n =>
    unfold digits_loop
    rw [if_pos (by rw [digit_value_not_digit _ h]; decide)]

/-- One iteration of the loop over the digits, at the digit `a`. -/
theorem digits_loop_digit (n i a : Nat) (p : List Nat) (x d base : Int) (ha : a ≤ 9) :
    digits_loop (n + 1) { i := i, p := (48 + a) :: p, x := x, d := d, base := base }
      = if (a : Int) > 7 ∧ base = 8 then
          { i := i, p := (48 + a) :: p, x := x, d := d, base := base }
        else if i = 2 ∧ (if (a : Int) > 7 then 10 else base) = 10 then
          { i := i, p := (48 + a) :: p, x := x, d := d, base := 10 }
        else
          digits_loop n
            { i := i + 1, p := p, x := x * 8 + (a : Int), d := d * 10 + (a : Int),
              base := if (a : Int) > 7 then 10 else base } := by
  rw [digits_loop]
  simp only [deref, List.headD_cons, List.tail_cons, digit_value_digit a ha]
  rw [if_neg (by omega)]

/-- After `\0` before a digit the base stays 8 through the loop over the
digits. -/
theorem digits_loop_base_eight (n : Nat) (s : DigitsState) (h : s.base = 8) :
    (digits_loop n s).base = 8 := by
  induction n generalizing s with
  | zero => exact h
  | succ n ih =>
    unfold digits_loop
    by_cases h1 : g_ascii_digit_value (deref s.p) < 0
    · rw [if_pos h1]
      exact h
    · rw [if_neg h1]
      by_cases h7 : g_ascii_digit_value (deref s.p) > 7
      · rw [if_pos ⟨h7, h⟩]
        exact h
      · rw [if_neg (fun hh => h7 hh.1)]
        simp only [if_neg h7, h]
        rw [if_neg (by omega)]
        exact ih _ rfl

theorem expand_escape_zero_plain (U : GUnicode) (hskip : U.g_utf8_skip 48 = 1)
    (replacement rest : List Nat) (hrest : g_ascii_isdigit (deref rest) = false) :
    expand_escape U replacement (92 :: 48 :: rest) = Parsed.ok (rest, numeric_ref 0) := by
  rw [expand_escape_zero U hskip, if_neg (by rw [digit_value_not_digit _ hrest]; decide)]
  have h := digits_loop_digit 2 0 0 rest 0 0 0 (by omega)
  simp only [Nat.add_zero] at h
  unfold expand_escape_digits
  simp only [h]
  simp [digits_loop_stop, hrest]

theorem expand_escape_octal_one (U : GUnicode) (hskip : U.g_utf8_skip 48 = 1)
    (replacement rest : List Nat) (hrest : g_ascii_isdigit (deref rest) = false)
    (a : Nat) (ha : a ≤ 7) :
    expand_escape U replacement (92 :: 48 :: (48 + a) :: rest)
      = Parsed.ok (rest, literal_text (c_string (U.g_unichar_to_utf8 a))) := by
  have h7 : ¬ ((a : Int) > 7) := by omega
  have hloop : digits_loop 3 { i := 0, p := (48 + a) :: rest, x := 0, d := 0, base := 8 }
      = { i := 1, p := rest, x := (a : Nat), d := (a : Nat), base := 8 } := by
    rw [digits_loop_digit 2 0 a rest 0 0 8 (by omega)]
    simp [h7, digits_loop_stop, hrest]
  rw [expand_escape_zero U hskip, if_pos (by
    simp only [deref, List.headD_cons]
    rw [digit_value_digit a (by omega)]
    omega)]
  unfold expand_escape_digits
  simp only [hloop, true_or, if_true]
  rw [to_gunichar_small a (by omega)]

theorem expand_escape_octal_two (U : GUnicode) (hskip : U.g_utf8_skip 48 = 1)
    (replacement rest : List Nat) (hrest : g_ascii_isdigit (deref rest) = false)
    (a b : Nat) (ha : a ≤ 7) (hb : b ≤ 7) :
    expand_escape U replacement (92 :: 48 :: (48 + a) :: (48 + b) :: rest)
      = Parsed.ok (rest, literal_text (c_string (U.g_unichar_to_utf8 (a * 8 + b)))) := by
  have h7 : ¬ ((a : Int) > 7) := by omega
  have h7b : ¬ ((b : Int) > 7) := by omega
  have hloop : digits_loop 3
        { i := 0, p := (48 + a) :: (48 + b) :: rest, x := 0, d := 0, base := 8 }
      = { i := 2, p := rest, x := ((a * 8 + b : Nat) : Int), d := (a : Int) * 10 + (b : Int),
          base := 8 } := by
    rw [digits_loop_digit 2 0 a _ 0 0 8 (by omega)]
    simp only [h7, false_and, if_false, zero_add]
    rw [if_neg (by omega), digits_loop_digit 1 1 b _ _ _ 8 (by omega)]
    simp [h7b, digits_loop_stop, hrest]
  rw [expand_escape_zero U hskip, if_pos (by
    simp only [deref, List.headD_cons]
    rw [digit_value_digit a (by omega)]
    omega)]
  unfold expand_escape_digits
  simp only [hloop, true_or, if_true]
  rw [to_gunichar_small _ (by omega)]

theorem expand_escape_octal_three (U : GUnicode) (hskip : U.g_utf8_skip 48 = 1)
    (replacement rest : List Nat) (a b c : Nat) (ha : a ≤ 7) (hb : b ≤ 7) (hc : c ≤ 7) :
    expand_escape U replacement (92 :: 48 :: (48 + a) :: (48 + b) :: (48 + c) :: rest)
      = Parsed.ok (rest,
          literal_text (c_string (U.g_unichar_to_utf8 ((a * 8 + b) * 8 + c)))) := by
  have h7 : ¬ ((a : Int) > 7) := by omega
  have h7b : ¬ ((b : Int) > 7) := by omega
  have h7c : ¬ ((c : Int) > 7) := by omega
  have hloop : digits_loop 3
        { i := 0, p := (48 + a) :: (48 + b) :: (48 + c) :: rest, x := 0, d := 0, base := 8 }
      = { i := 3, p := rest, x := (((a * 8 + b) * 8 + c : Nat) : Int),
          d := ((a : Int) * 10 + (b : Int)) * 10 + (c : Int), base := 8 } := by
    rw [digits_loop_digit 2 0 a _ 0 0 8 (by omega)]
    simp only [h7, false_and, if_false, zero_add]
    rw [if_neg (by omega), digits_loop_digit 1 1 b _ _ _ 8 (by omega)]
    simp only [h7b, false_and, if_false]
    rw [if_neg (by omega), digits_loop_digit 0 2 c _ _ _ 8 (by omega)]
    simp [h7c, digits_loop]
  rw [expand_escape_zero U hskip, if_pos (by
    simp only [deref, List.headD_cons]
    rw [digit_value_digit a (by omega)]
    omega)]
  unfold expand_escape_digits
  simp only [hloop, true_or, if_true]
  rw [to_gunichar_small _ (by omega)]

/-- C13, counterexample: in the template `\00` the backslash and the `0` are
followed by the one octal digit `0` and then by the end; the code point is 0,
its encoding is the one byte 0, and the Literal of the escape is empty: it does
not hold the encoding.  The same holds of `\000` and `\0000`. -/
theorem C13_counterexample :
    octal_value [48] = 0 ∧ glib_ascii.g_unichar_to_utf8 (octal_value [48]) = [0] ∧
    expand_escape glib_ascii [92, 48, 48] [92, 48, 48] = Parsed.ok ([], literal_text []) ∧
    expand_escape glib_ascii [92, 48, 48, 48] [92, 48, 48, 48]
      = Parsed.ok ([], literal_text []) ∧
    expand_escape glib_ascii [92, 48, 48, 48, 48] [92, 48, 48, 48, 48]
      = Parsed.ok ([], literal_text []) ∧
    split_replacement glib_ascii [92, 48, 48] = Parsed.ok [literal_text []] := by
  refine ⟨by decide, by decide, ?_, ?_, ?_, ?_⟩ <;> decide

/-- C13, amended: in `expand_escape`, what a backslash followed by `0` becomes
depends on the next byte only.  When that byte is no ASCII digit (or the
template ends there) the escape is the numeric reference to group 0 and the
pointer returned is two bytes further.  When it is followed by one, two or
three octal digits and then by a byte that is no digit (or by the end), the
escape is a Literal and the pointer returned is past the digits; the text of
the Literal is the C string in the buffer that received the UTF-8 encoding of
the code point that these digits denote in base 8: the encoding itself when it
holds no NUL byte, the empty text when it starts with the NUL byte, as the
encoding of the code point 0 does.  Before any digit the escape is a Literal,
never a numeric reference.  The skip table is assumed to give the ASCII byte
`0` the length 1. -/
theorem C13_backslash_zero (U : GUnicode) (hskip : U.g_utf8_skip 48 = 1)
    (replacement rest : List Nat) (hrest : g_ascii_isdigit (deref rest) = false) :
    expand_escape U replacement (92 :: 48 :: rest) = Parsed.ok (rest, numeric_ref 0) ∧
    (∀ digits : List Nat, 1 ≤ digits.length → digits.length ≤ 3 →
      (∀ b ∈ digits, 48 ≤ b ∧ b ≤ 55) →
      expand_escape U replacement (92 :: 48 :: (digits ++ rest))
          = Parsed.ok (rest,
              literal_text (c_string (U.g_unichar_to_utf8 (octal_value digits)))) ∧
      (0 ∉ U.g_unichar_to_utf8 (octal_value digits) →
        c_string (U.g_unichar_to_utf8 (octal_value digits))
          = U.g_unichar_to_utf8 (octal_value digits)) ∧
      ((U.g_unichar_to_utf8 (octal_value digits)).head? = some 0 →
        c_string (U.g_unichar_to_utf8 (octal_value digits)) = [])) ∧
    (∀ next : List Nat, g_ascii_isdigit (deref next) = true →
      ∃ p text, expand_escape U replacement (92 :: 48 :: next)
        = Parsed.ok (p, literal_text text)) := by
  refine ⟨expand_escape_zero_plain U hskip replacement rest hrest, ?_, ?_⟩
  · intro digits h1 h3 hoct
    refine ⟨?_, c_string_of_no_nul _, c_string_of_nul_head _⟩
    match digits, h1, h3, hoct with
    | [a], _, _, hoct =>
      have ha := hoct a (by simp)
      obtain ⟨a', rfl⟩ : ∃ a', a = 48 + a' := ⟨a - 48, by omega⟩
      have h := expand_escape_octal_one U hskip replacement rest hrest a' (by omega)
      simpa [octal_value] using h
    | [a, b], _, _, hoct =>
      have ha := hoct a (by simp)
      have hb := hoct b (by simp)
      obtain ⟨a', rfl⟩ : ∃ a', a = 48 + a' := ⟨a - 48, by omega⟩
      obtain ⟨b', rfl⟩ : ∃ b', b = 48 + b' := ⟨b - 48, by omega⟩
      have h := expand_escape_octal_two U hskip replacement rest hrest a' b'
        (by omega) (by omega)
      simpa [octal_value] using h
    | [a, b, c], _, _, hoct =>
      have ha := hoct a (by simp)
      have hb := hoct b (by simp)
      have hc := hoct c (by simp)
      obtain ⟨a', rfl⟩ : ∃ a', a = 48 + a' := ⟨a - 48, by omega⟩
      obtain ⟨b', rfl⟩ : ∃ b', b = 48 + b' := ⟨b - 48, by omega⟩
      obtain ⟨c', rfl⟩ : ∃ c', c = 48 + c' := ⟨c - 48, by omega⟩
      have h := expand_escape_octal_three U hskip replacement rest a' b' c'
        (by omega) (by omega) (by omega)
      simpa [octal_value] using h
  · intro next hnext
    have hd : g_ascii_digit_value (deref next) ≥ 0 := by
      unfold g_ascii_isdigit at hnext
      unfold g_ascii_digit_value
      rw [if_pos (by simpa using hnext)]
      have := (of_decide_eq_true hnext).1
      omega
    rw [expand_escape_zero U hskip, if_pos hd]
    unfold expand_escape_digits
    rw [if_pos (Or.inl (digits_loop_base_eight 3
      { i := 0, p := next, x := 0, d := 0, base := 8 } rfl))]
    exact ⟨_, _, rfl⟩

/-- C13, witness: in the template `\0!` the escape is the reference to group 0
and `!` is left; in `\012!` it is the Literal holding the line feed (code
point 10, octal 12) and `!` is left. -/
theorem C13_backslash_zero_witness :
    expand_escape glib_ascii [92, 48, 33] [92, 48, 33] = Parsed.ok ([33], numeric_ref 0) ∧
    expand_escape glib_ascii [92, 48, 49, 50, 33] [92, 48, 49, 50, 33]
      = Parsed.ok ([33], literal_text [10]) := by
  have h := C13_backslash_zero glib_ascii (by decide) [92, 48, 33] [33] (by decide)
  have h2 := (C13_backslash_zero glib_ascii (by decide) [92, 48, 49, 50, 33] [33]
    (by decide)).2.1 [49, 50] (by decide) (by decide) (by decide)
  exact ⟨h.1, h2.1⟩

/-- An iteration of the loop of `split_replacement` at a backslash. -/
theorem split_replacement_loop_escape (U : GUnicode) (replacement : List Nat) (fuel : Nat)
    (start p p1 : List Nat) (data : InterpolationData) (list : List InterpolationData)
    (hp : deref p = 92) (hesc : expand_escape U replacement p = Parsed.ok (p1, data)) :
    split_replacement_loop U replacement (fuel + 1) start p list
      = split_replacement_loop U replacement fuel p1 p1 (data :: list) := by
  rw [split_replacement_loop, if_neg (by omega), if_pos hp, hesc]

/-- An iteration of the loop of `split_replacement` at a backslash that does
not parse. -/
theorem split_replacement_loop_error (U : GUnicode) (replacement : List Nat) (fuel : Nat)
    (start p : List Nat) (e : ReplaceError) (list : List InterpolationData)
    (hp : deref p = 92) (hesc : expand_escape U replacement p = Parsed.error e) :
    split_replacement_loop U replacement (fuel + 1) start p list = Parsed.error e := by
  rw [split_replacement_loop, if_neg (by omega), if_pos hp, hesc]

/-- The loop of `split_replacement` at the end of the template. -/
theorem split_replacement_loop_end (U : GUnicode) (replacement : List Nat) (fuel : Nat)
    (start p : List Nat) (list : List InterpolationData) (hp : deref p = 0) :
    split_replacement_loop U replacement (fuel + 1) start p list = Parsed.ok list.reverse := by
  rw [split_replacement_loop, if_pos hp]

/-- A template that is one escape parses to one atom. -/
theorem split_replacement_one_escape (U : GUnicode) (replacement : List Nat)
    (data : InterpolationData) (hp : deref replacement = 92)
    (hesc : expand_escape U replacement replacement = Parsed.ok ([], data)) :
    split_replacement U replacement = Parsed.ok [data] := by
  unfold split_replacement
  rw [split_replacement_loop_escape U replacement _ _ _ _ _ _ hp hesc]
  cases replacement with
  | nil => simp [deref] at hp
  | cons b t =>
    rw [List.length_cons, split_replacement_loop_end U _ _ _ [] _ rfl]
    rfl

/-- A template that is one escape and one further byte, no backslash, parses
to the atom of the escape and the Literal of the byte. -/
theorem split_replacement_escape_byte (U : GUnicode) (replacement : List Nat)
    (data : InterpolationData) (b : Nat) (hb0 : b ≠ 0) (hb : b ≠ 92)
    (hlen : 3 ≤ replacement.length) (hp : deref replacement = 92)
    (hesc : expand_escape U replacement replacement = Parsed.ok ([b], data)) :
    split_replacement U replacement = Parsed.ok [data, literal_text [b]] := by
  unfold split_replacement
  rw [split_replacement_loop_escape U replacement _ _ _ _ _ _ hp hesc]
  obtain ⟨n, hn⟩ : ∃ n, replacement.length = n + 2 := ⟨replacement.length - 2, by omega⟩
  rw [hn, split_replacement_loop]
  simp only [deref, List.headD_cons, List.tail_cons, List.headD_nil, List.length_cons,
    List.length_nil]
  rw [if_neg hb0, if_neg hb, if_pos (by simp), split_replacement_loop_end U _ _ _ [] _ rfl]
  rfl

theorem expand_escape_digits_three (U : GUnicode) (replacement rest : List Nat)
    (a b c : Nat) (ha1 : 1 ≤ a) (ha : a ≤ 7) (hb : b ≤ 7) (hc : c ≤ 7) :
    expand_escape U replacement (92 :: (48 + a) :: (48 + b) :: (48 + c) :: rest)
      = Parsed.ok (rest,
          literal_text (c_string (U.g_unichar_to_utf8 (64 * a + 8 * b + c)))) := by
  have h7 : ¬ ((a : Int) > 7) := by omega
  have h7b : ¬ ((b : Int) > 7) := by omega
  have h7c : ¬ ((c : Int) > 7) := by omega
  have hloop : digits_loop 3
        { i := 0, p := (48 + a) :: (48 + b) :: (48 + c) :: rest, x := 0, d := 0, base := 0 }
      = { i := 3, p := rest, x := ((64 * a + 8 * b + c : Nat) : Int),
          d := ((a : Int) * 10 + (b : Int)) * 10 + (c : Int), base := 0 } := by
    rw [digits_loop_digit 2 0 a _ 0 0 0 (by omega)]
    simp only [h7, false_and, if_false, zero_add]
    rw [if_neg (by omega), digits_loop_digit 1 1 b _ _ _ 0 (by omega)]
    simp only [h7b, false_and, if_false]
    rw [if_neg (by omega), digits_loop_digit 0 2 c _ _ _ 0 (by omega)]
    simp only [h7c, false_and, if_false]
    rw [if_neg (by omega)]
    simp only [digits_loop, DigitsState.mk.injEq, true_and]
    exact ⟨by push_cast; ring, by ring, trivial⟩
  rw [expand_escape_digit U replacement (48 + a) _ (by omega) (by omega)]
  unfold expand_escape_digits
  simp only [hloop, or_true, if_true]
  rw [to_gunichar_small _ (by omega)]

theorem expand_escape_digits_one (U : GUnicode) (replacement rest : List Nat)
    (hrest : g_ascii_isdigit (deref rest) = false) (a : Nat) (ha1 : 1 ≤ a) (ha : a ≤ 9) :
    expand_escape U replacement (92 :: (48 + a) :: rest)
      = Parsed.ok (rest, numeric_ref (a : Int)) := by
  have hloop : digits_loop 3 { i := 0, p := (48 + a) :: rest, x := 0, d := 0, base := 0 }
      = { i := 1, p := rest, x := (a : Int), d := (a : Int),
          base := if (a : Int) > 7 then 10 else 0 } := by
    rw [digits_loop_digit 2 0 a _ 0 0 0 (by omega)]
    rw [if_neg (by omega), if_neg (by omega)]
    simp [digits_loop_stop, hrest]
  rw [expand_escape_digit U replacement (48 + a) _ (by omega) (by omega)]
  unfold expand_escape_digits
  simp only [hloop]
  rw [if_neg (by split_ifs <;> omega)]

theorem digits_loop_two (rest : List Nat) (a b : Nat) (ha : a ≤ 9) (hb : b ≤ 9) :
    digits_loop 3 { i := 0, p := (48 + a) :: (48 + b) :: rest, x := 0, d := 0, base := 0 }
      = digits_loop 1
          { i := 2, p := rest, x := (a : Int) * 8 + (b : Int),
            d := 10 * (a : Int) + (b : Int),
            base := if 7 < a ∨ 7 < b then 10 else 0 } := by
  rw [digits_loop_digit 2 0 a _ 0 0 0 (by omega)]
  rw [if_neg (by omega), if_neg (by omega), digits_loop_digit 1 1 b _ _ _ _ (by omega)]
  rw [if_neg (by split_ifs <;> omega), if_neg (by omega)]
  congr 1
  simp only [DigitsState.mk.injEq, true_and]
  refine ⟨by ring, by ring, ?_⟩
  split_ifs <;> first | rfl | omega

theorem expand_escape_digits_two (U : GUnicode) (replacement rest : List Nat)
    (hrest : g_ascii_isdigit (deref rest) = false)
    (a b : Nat) (ha1 : 1 ≤ a) (ha : a ≤ 9) (hb : b ≤ 9) :
    expand_escape U replacement (92 :: (48 + a) :: (48 + b) :: rest)
      = Parsed.ok (rest, numeric_ref (10 * (a : Int) + (b : Int))) := by
  rw [expand_escape_digit U replacement (48 + a) _ (by omega) (by omega)]
  unfold expand_escape_digits
  rw [digits_loop_two rest a b ha hb,
    digits_loop_stop 1 { i := 2, p := rest, x := _, d := _, base := _ } hrest]
  by_cases h : 7 < a ∨ 7 < b
  · simp [h]
  · simp [h]

theorem expand_escape_digits_two_then (U : GUnicode) (replacement rest : List Nat)
    (a b c : Nat) (ha1 : 1 ≤ a) (ha : a ≤ 9) (hb : b ≤ 9) (hc : c ≤ 9)
    (h89 : 7 < a ∨ 7 < b ∨ 7 < c) :
    expand_escape U replacement (92 :: (48 + a) :: (48 + b) :: (48 + c) :: rest)
      = Parsed.ok ((48 + c) :: rest, numeric_ref (10 * (a : Int) + (b : Int))) := by
  rw [expand_escape_digit U replacement (48 + a) _ (by omega) (by omega)]
  unfold expand_escape_digits
  rw [digits_loop_two _ a b ha hb]
  by_cases h : 7 < a ∨ 7 < b
  · simp only [h, if_true]
    rw [digits_loop_digit 0 2 c _ _ _ 10 hc]
    simp
  · simp only [h, if_false]
    have hc7 : (7 : Int) < (c : Int) := by omega
    rw [digits_loop_digit 0 2 c _ _ _ 0 hc]
    simp [hc7]

/-- C14: for all digits `a` in 1..7 and `b`, `c` in 0..7, the template made of
a backslash and the three digits `a b c` parses to exactly one atom, the
Literal whose text is the C string in the buffer that received the UTF-8
encoding of the code point `64a + 8b + c` (the encoding itself when it holds
no NUL byte), so that all four bytes are consumed; and a backslash followed by
the digit `a` alone, or by the two digits `a b`, and then by a byte that is no
digit or by the end of the template, is the numeric reference with their
decimal value, `a` or `10a + b`. -/
theorem C14_octal_and_short_references (U : GUnicode) (a b c : Nat)
    (ha1 : 1 ≤ a) (ha : a ≤ 7) (hb : b ≤ 7) (hc : c ≤ 7) :
    split_replacement U [92, 48 + a, 48 + b, 48 + c]
      = Parsed.ok [literal_text (c_string (U.g_unichar_to_utf8 (64 * a + 8 * b + c)))] ∧
    (0 ∉ U.g_unichar_to_utf8 (64 * a + 8 * b + c) →
      split_replacement U [92, 48 + a, 48 + b, 48 + c]
        = Parsed.ok [literal_text (U.g_unichar_to_utf8 (64 * a + 8 * b + c))]) ∧
    (∀ replacement rest : List Nat, g_ascii_isdigit (deref rest) = false →
      expand_escape U replacement (92 :: (48 + a) :: rest)
        = Parsed.ok (rest, numeric_ref (a : Int)) ∧
      expand_escape U replacement (92 :: (48 + a) :: (48 + b) :: rest)
        = Parsed.ok (rest, numeric_ref (10 * (a : Int) + (b : Int)))) := by
  have h3 : split_replacement U [92, 48 + a, 48 + b, 48 + c]
      = Parsed.ok [literal_text (c_string (U.g_unichar_to_utf8 (64 * a + 8 * b + c)))] :=
    split_replacement_one_escape U _ _ rfl
      (expand_escape_digits_three U _ [] a b c ha1 ha hb hc)
  refine ⟨h3, ?_, ?_⟩
  · intro hnul
    rw [h3, c_string_of_no_nul _ hnul]
  · intro replacement rest hrest
    exact ⟨expand_escape_digits_one U replacement rest hrest a ha1 (by omega),
      expand_escape_digits_two U replacement rest hrest a b ha1 (by omega) (by omega)⟩

/-- C14, witness: the template `\101` is the Literal "A" (code point 65); in
`\1!` the escape is the reference to group 1 and in `\12!` the reference to
group 12. -/
theorem C14_octal_and_short_references_witness :
    split_replacement glib_ascii [92, 49, 48, 49] = Parsed.ok [literal_text [65]] ∧
    expand_escape glib_ascii [92, 49, 33] [92, 49, 33] = Parsed.ok ([33], numeric_ref 1) ∧
    expand_escape glib_ascii [92, 49, 50, 33] [92, 49, 50, 33]
      = Parsed.ok ([33], numeric_ref 12) := by
  have h := C14_octal_and_short_references glib_ascii 1 0 1 (by decide) (by decide)
    (by decide) (by decide)
  have h2 := C14_octal_and_short_references glib_ascii 1 2 0 (by decide) (by decide)
    (by decide) (by decide)
  refine ⟨h.2.1 (by decide), (h.2.2 [92, 49, 33] [33] (by decide)).1, ?_⟩
  exact (h2.2.2 [92, 49, 50, 33] [33] (by decide)).2

/-- C15, counterexample: the template `\189` does not parse to the single
numeric reference 189; the escape stops after two digits, so the atoms are the
reference to group 18 and the Literal "9". -/
theorem C15_counterexample :
    split_replacement glib_ascii [92, 49, 56, 57]
      = Parsed.ok [numeric_ref 18, literal_text [57]] ∧
    split_replacement glib_ascii [92, 49, 56, 57] ≠ Parsed.ok [numeric_ref 189] := by
  decide

/-- C15, amended: for every three decimal digits `d1 d2 d3` with `d1` in 1..9
and at least one of them equal to 8 or 9, the template made of a backslash and
the three digits parses to two atoms: the numeric reference whose value is the
base-10 value of the first two digits, `10 * d1 + d2`, and the Literal holding
the third digit, which the escape does not read. -/
theorem C15_three_decimal_digits (U : GUnicode) (d1 d2 d3 : Nat)
    (h1 : 1 ≤ d1) (h1' : d1 ≤ 9) (h2 : d2 ≤ 9) (h3 : d3 ≤ 9)
    (h89 : 7 < d1 ∨ 7 < d2 ∨ 7 < d3) :
    split_replacement U [92, 48 + d1, 48 + d2, 48 + d3]
      = Parsed.ok [numeric_ref (10 * (d1 : Int) + (d2 : Int)), literal_text [48 + d3]] :=
  split_replacement_escape_byte U _ _ (48 + d3) (by omega) (by omega) (by simp) rfl
    (expand_escape_digits_two_then U _ [] d1 d2 d3 h1 h1' h2 h3 h89)

/-- C15, witness: the template `\189`. -/
theorem C15_three_decimal_digits_witness :
    split_replacement glib_ascii [92, 48 + 1, 48 + 8, 48 + 9]
      = Parsed.ok [numeric_ref (10 * ((1 : Nat) : Int) + ((8 : Nat) : Int)),
          literal_text [48 + 9]] :=
  C15_three_decimal_digits glib_ascii 1 8 9 (by decide) (by decide) (by decide) (by decide)
    (by decide)

/-! ## The parser of replacement templates: references `\g<...>` -/

theorem wrap_gint_small (n : Nat) (h : n ≤ 2147483647) : wrap_gint (n : Int) = (n : Int) := by
  unfold wrap_gint
  omega

theorem isdigit_iff (b : Nat) : g_ascii_isdigit b = true ↔ 48 ≤ b ∧ b ≤ 57 := by
  unfold g_ascii_isdigit
  simp

theorem isalnum_ne (b : Nat) (h : g_ascii_isalnum b = true) : b ≠ 0 ∧ b ≠ 62 := by
  unfold g_ascii_isalnum at h
  simp only [Bool.or_eq_true, decide_eq_true_eq] at h
  omega

/-- The byte after the backslash selects the case of the `switch`: `g`. -/
theorem expand_escape_g (U : GUnicode) (replacement : List Nat) (p : List Nat) :
    expand_escape U replacement (92 :: 103 :: p) = expand_escape_reference replacement p := by
  unfold expand_escape
  simp only [List.tail_cons, deref, List.headD_cons]
  simp

/-- The scan for the closing `>` runs over a name that holds neither a NUL nor
a `>`. -/
theorem reference_end_scan (replacement name rest : List Nat)
    (h : ∀ b ∈ name, b ≠ 0 ∧ b ≠ 62) :
    reference_end replacement (name ++ 62 :: rest) = Parsed.ok (62 :: rest) := by
  induction name with
  | nil => simp [reference_end]
  | cons c name ih =>
    have hc := h c (by simp)
    rw [List.cons_append, reference_end, if_neg hc.1, if_pos hc.2]
    exact ih (fun b hb => h b (List.mem_cons_of_mem _ hb))

theorem decimal_fold_ge (l : List Nat) (x : Nat) :
    x ≤ l.foldl (fun x b => x * 10 + (b - 48)) x := by
  induction l generalizing x with
  | nil => exact le_refl _
  | cons c l ih =>
    rw [List.foldl_cons]
    exact le_trans (by omega) (ih _)

/-- The loop over the digits of `\g<number>` computes the decimal value when
it fits a `gint`. -/
theorem reference_number_digits (replacement p name : List Nat) (x : Nat) (hne : name ≠ [])
    (hd : ∀ b ∈ name, g_ascii_isdigit b = true)
    (hmax : name.foldl (fun x b => x * 10 + (b - 48)) x ≤ 2147483647) :
    reference_number replacement p (name ++ p) (x : Int)
      = Parsed.ok ((name.foldl (fun x b => x * 10 + (b - 48)) x : Nat) : Int) := by
  induction name generalizing x with
  | nil => exact absurd rfl hne
  | cons c name ih =>
    have hc := (isdigit_iff c).1 (hd c (by simp))
    have hval : g_ascii_digit_value c = ((c - 48 : Nat) : Int) := by
      unfold g_ascii_digit_value
      rw [if_pos hc]
      omega
    rw [List.foldl_cons] at hmax ⊢
    have hle := decimal_fold_ge name (x * 10 + (c - 48))
    have hstep : wrap_gint ((x : Int) * 10 + g_ascii_digit_value c)
        = ((x * 10 + (c - 48) : Nat) : Int) := by
      rw [hval, ← wrap_gint_small (x * 10 + (c - 48)) (by omega)]
      push_cast
      rfl
    rw [List.cons_append, reference_number, if_neg (by rw [hval]; omega), hstep]
    by_cases hnil : name = []
    · subst hnil
      simp
    · rw [if_pos (by
        rw [List.length_append]
        have := List.length_pos.2 hnil
        omega)]
      exact ih _ hnil (fun b hb => hd b (List.mem_cons_of_mem _ hb)) hmax

/-- The loop over the digits of `\g<number>` stops at the first byte that is
no digit. -/
theorem reference_number_error (replacement p digits : List Nat) (c : Nat) (rest : List Nat)
    (x : Int) (hd : ∀ b ∈ digits, g_ascii_isdigit b = true) (hc : g_ascii_isdigit c = false) :
    reference_number replacement p (digits ++ c :: (rest ++ p)) x
      = Parsed.error ⟨replacement.length - (c :: (rest ++ p)).length,
          ErrorDetail.digit_expected⟩ := by
  induction digits generalizing x with
  | nil =>
    rw [List.nil_append, reference_number, if_pos (by rw [digit_value_not_digit c hc]; decide)]
  | cons b digits ih =>
    have hb := (isdigit_iff b).1 (hd b (by simp))
    have hval : ¬ g_ascii_digit_value b < 0 := by
      unfold g_ascii_digit_value
      rw [if_pos hb]
      omega
    rw [List.cons_append, reference_number, if_neg hval, if_pos (by
      simp only [List.length_append, List.length_cons]
      omega)]
    exact ih _ (fun b hb => hd b (List.mem_cons_of_mem _ hb))

/-- The loop over the bytes of `\g<name>` accepts a name of letters and
digits. -/
theorem reference_name_alnum (replacement p name : List Nat) (hne : name ≠ [])
    (hd : ∀ b ∈ name, g_ascii_isalnum b = true) :
    reference_name replacement p (name ++ p) = Parsed.ok () := by
  induction name with
  | nil => exact absurd rfl hne
  | cons c name ih =>
    have hc := hd c (by simp)
    rw [List.cons_append, reference_name, if_neg (by rw [hc]; decide)]
    by_cases hnil : name = []
    · subst hnil
      simp
    · rw [if_pos (by
        rw [List.length_append]
        have := List.length_pos.2 hnil
        omega)]
      exact ih hnil (fun b hb => hd b (List.mem_cons_of_mem _ hb))

/-- The loop over the bytes of `\g<name>` stops at the first byte that is
neither a letter nor a digit. -/
theorem reference_name_error (replacement p name : List Nat) (c : Nat) (rest : List Nat)
    (hd : ∀ b ∈ name, g_ascii_isalnum b = true) (hc : g_ascii_isalnum c = false) :
    reference_name replacement p (name ++ c :: (rest ++ p))
      = Parsed.error ⟨replacement.length - (c :: (rest ++ p)).length,
          ErrorDetail.illegal_symbolic_reference⟩ := by
  induction name with
  | nil =>
    rw [List.nil_append, reference_name, if_pos hc]
  | cons b name ih =>
    have hb := hd b (by simp)
    rw [List.cons_append, reference_name, if_neg (by rw [hb]; decide), if_pos (by
      simp only [List.length_append, List.length_cons]
      omega)]
    exact ih (fun b hb => hd b (List.mem_cons_of_mem _ hb))

/-- The case `g` of `expand_escape` on `<name>`, for a non-empty name that
holds neither a NUL nor a `>`: the first byte of the name selects the loop. -/
theorem expand_escape_reference_name (replacement name rest : List Nat) (hne : name ≠ [])
    (h : ∀ b ∈ name, b ≠ 0 ∧ b ≠ 62) :
    expand_escape_reference replacement (60 :: (name ++ 62 :: rest))
      = if g_ascii_isdigit (deref name) then
          match reference_number replacement (62 :: rest) (name ++ 62 :: rest) 0 with
          | Parsed.ok x => Parsed.ok (rest, numeric_ref x)
          | Parsed.error e => Parsed.error e
          | Parsed.out_of_fuel => Parsed.out_of_fuel
        else
          match reference_name replacement (62 :: rest) (name ++ 62 :: rest) with
          | Parsed.ok _ => Parsed.ok (rest, symbolic_ref name)
          | Parsed.error e => Parsed.error e
          | Parsed.out_of_fuel => Parsed.out_of_fuel := by
  have hpos := List.length_pos.2 hne
  have hderef : deref (name ++ 62 :: rest) = deref name := by
    cases name with
    | nil => exact absurd rfl hne
    | cons c name => rfl
  unfold expand_escape_reference
  rw [if_neg (by simp [deref])]
  simp only [List.tail_cons, reference_end_scan replacement name rest h, hderef]
  rw [if_neg (by
    simp only [List.length_append, List.length_cons]
    omega)]
  have htake : (name ++ 62 :: rest).take ((name ++ 62 :: rest).length - (62 :: rest).length)
      = name := by
    rw [List.length_append, Nat.add_sub_cancel]
    exact List.take_left' rfl
  simp only [htake]

/-- A template whose first escape does not parse is rejected with the error of
that escape. -/
theorem split_replacement_first_error (U : GUnicode) (replacement : List Nat)
    (e : ReplaceError) (hp : deref replacement = 92)
    (hesc : expand_escape U replacement replacement = Parsed.error e) :
    split_replacement U replacement = Parsed.error e := by
  unfold split_replacement
  exact split_replacement_loop_error U replacement _ _ _ e [] hp hesc

/-- C16, counterexample: the name `1a` is made of letters and digits and is not
all digits, yet the template `\g<1a>` is no symbolic reference: a name whose
first byte is a digit is read as a number, and the letter is rejected with
"digit expected" at its offset 4. -/
theorem C16_counterexample :
    (∀ b ∈ [49, 97], g_ascii_isalnum b = true) ∧
    split_replacement glib_ascii [92, 103, 60, 49, 97, 62]
      = Parsed.error ⟨4, ErrorDetail.digit_expected⟩ ∧
    split_replacement glib_ascii [92, 103, 60, 49, 97, 62]
      ≠ Parsed.ok [symbolic_ref [49, 97]] := by
  decide

/-- C16, amended: for every non-empty name that holds neither a NUL nor a `>`,
the template `\g<name>` parses as the first byte of the name decides.  When
the first byte is a digit: a name of decimal digits only, whose value fits a
`gint`, gives the numeric reference with the decimal value of the name; a name
with another byte is rejected with "digit expected" at the offset of the first
byte that is no digit, also when that byte is a letter.  When the first byte is
no digit: a name of ASCII letters and digits only gives the symbolic reference
with that name; a name with another byte is rejected with "illegal symbolic
reference" at the offset of the first such byte. -/
theorem C16_symbolic_reference (U : GUnicode) (name : List Nat) (hne : name ≠ [])
    (hclean : ∀ b ∈ name, b ≠ 0 ∧ b ≠ 62) :
    ((∀ b ∈ name, g_ascii_isdigit b = true) → (decimal_value name : Int) ≤ G_MAXINT →
      split_replacement U ([92, 103, 60] ++ name ++ [62])
        = Parsed.ok [numeric_ref ((decimal_value name : Nat) : Int)]) ∧
    (∀ (digits : List Nat) (c : Nat) (rest : List Nat), name = digits ++ c :: rest →
      digits ≠ [] → (∀ b ∈ digits, g_ascii_isdigit b = true) → g_ascii_isdigit c = false →
      split_replacement U ([92, 103, 60] ++ name ++ [62])
        = Parsed.error ⟨3 + digits.length, ErrorDetail.digit_expected⟩) ∧
    (g_ascii_isdigit (deref name) = false → (∀ b ∈ name, g_ascii_isalnum b = true) →
      split_replacement U ([92, 103, 60] ++ name ++ [62]) = Parsed.ok [symbolic_ref name]) ∧
    (∀ (first : List Nat) (c : Nat) (rest : List Nat), name = first ++ c :: rest →
      g_ascii_isdigit (deref name) = false → (∀ b ∈ first, g_ascii_isalnum b = true) →
      g_ascii_isalnum c = false →
      split_replacement U ([92, 103, 60] ++ name ++ [62])
        = Parsed.error ⟨3 + first.length, ErrorDetail.illegal_symbolic_reference⟩) := by
  have hesc : expand_escape U ([92, 103, 60] ++ name ++ [62]) ([92, 103, 60] ++ name ++ [62])
      = expand_escape_reference ([92, 103, 60] ++ name ++ [62]) (60 :: (name ++ [62])) := by
    have : [92, 103, 60] ++ name ++ [62] = 92 :: 103 :: 60 :: (name ++ [62]) := by simp
    rw [this, expand_escape_g]
  rw [expand_escape_reference_name _ name [] hne hclean] at hesc
  have hp : deref ([92, 103, 60] ++ name ++ [62]) = 92 := rfl
  refine ⟨?_, ?_, ?_, ?_⟩
  · intro hdigits hmax
    have hfirst : g_ascii_isdigit (deref name) = true := by
      cases name with
      | nil => exact absurd rfl hne
      | cons c name => exact hdigits c (by simp)
    have hnum := reference_number_digits ([92, 103, 60] ++ name ++ [62]) [62] name 0 hne
      hdigits (by
        unfold G_MAXINT at hmax
        unfold decimal_value at hmax
        exact_mod_cast hmax)
    rw [if_pos hfirst] at hesc
    simp only [Nat.cast_zero] at hnum
    rw [hnum] at hesc
    exact split_replacement_one_escape U _ _ rfl hesc
  · intro digits c rest hname hdne hdigits hc
    have hfirst : g_ascii_isdigit (deref name) = true := by
      rw [hname]
      cases digits with
      | nil => exact absurd rfl hdne
      | cons d digits => exact hdigits d (by simp)
    have herr := reference_number_error ([92, 103, 60] ++ name ++ [62]) [62] digits c rest 0
      hdigits hc
    rw [if_pos hfirst] at hesc
    have hq : name ++ [62] = digits ++ c :: (rest ++ [62]) := by rw [hname]; simp
    rw [hq, herr] at hesc
    rw [split_replacement_first_error U ([92, 103, 60] ++ name ++ [62]) _ hp hesc]
    congr 2
    rw [hname]
    simp only [List.length_append, List.length_cons, List.length_nil]
    omega
  · intro hfirst halnum
    have hname := reference_name_alnum ([92, 103, 60] ++ name ++ [62]) [62] name hne halnum
    rw [if_neg (by rw [hfirst]; decide), hname] at hesc
    exact split_replacement_one_escape U _ _ rfl hesc
  · intro first c rest hname hfirst halnum hc
    have herr := reference_name_error ([92, 103, 60] ++ name ++ [62]) [62] first c rest
      halnum hc
    rw [if_neg (by rw [hfirst]; decide)] at hesc
    have hq : name ++ [62] = first ++ c :: (rest ++ [62]) := by rw [hname]; simp
    rw [hq, herr] at hesc
    rw [split_replacement_first_error U ([92, 103, 60] ++ name ++ [62]) _ hp hesc]
    congr 2
    rw [hname]
    simp only [List.length_append, List.length_cons, List.length_nil]
    omega

/-- C16, witness: the templates `\g<12>`, `\g<1a>`, `\g<a1>` and `\g<a-b>`. -/
theorem C16_symbolic_reference_witness :
    split_replacement glib_ascii ([92, 103, 60] ++ [49, 50] ++ [62])
      = Parsed.ok [numeric_ref ((decimal_value [49, 50] : Nat) : Int)] ∧
    split_replacement glib_ascii ([92, 103, 60] ++ [49, 97] ++ [62])
      = Parsed.error ⟨3 + [49].length, ErrorDetail.digit_expected⟩ ∧
    split_replacement glib_ascii ([92, 103, 60] ++ [97, 49] ++ [62])
      = Parsed.ok [symbolic_ref [97, 49]] ∧
    split_replacement glib_ascii ([92, 103, 60] ++ [97, 45, 98] ++ [62])
      = Parsed.error ⟨3 + [97].length, ErrorDetail.illegal_symbolic_reference⟩ :=
  ⟨(C16_symbolic_reference glib_ascii [49, 50] (by decide) (by decide)).1 (by decide)
      (by decide),
   (C16_symbolic_reference glib_ascii [49, 97] (by decide) (by decide)).2.1 [49] 97 [] rfl
      (by decide) (by decide) (by decide),
   (C16_symbolic_reference glib_ascii [97, 49] (by decide) (by decide)).2.2.1 (by decide)
      (by decide),
   (C16_symbolic_reference glib_ascii [97, 45, 98] (by decide) (by decide)).2.2.2 [97] 45 [98]
      rfl (by decide) (by decide) (by decide)⟩

/-! ## Case modes of the interpolation -/

theorem change_case_upper (U : GUnicode) (c : Nat) :
    CHANGE_CASE U c CHANGE_CASE_UPPER = U.g_unichar_toupper c := by
  unfold CHANGE_CASE
  rw [if_neg (by decide)]

theorem change_case_none (U : GUnicode) (c : Nat) :
    CHANGE_CASE U c CHANGE_CASE_NONE = U.g_unichar_toupper c := by
  unfold CHANGE_CASE
  rw [if_neg (by decide)]

theorem change_case_one_shot (U : GUnicode) (c mode : Nat)
    (hmode : mode = CHANGE_CASE_UPPER_SINGLE ∨ mode = CHANGE_CASE_LOWER_SINGLE) :
    CHANGE_CASE U c mode = one_shot_map U mode c := by
  unfold CHANGE_CASE one_shot_map
  rcases hmode with h | h
  · rw [h, if_neg (by decide), if_neg (by decide)]
  · rw [h, if_pos (by decide), if_pos rfl]

/-- The loop of `string_append` appends the text with every code point sent
through the case mapping. -/
theorem string_append_all_map (U : GUnicode) (cc : Nat) (n : Nat) (text string : List Nat) :
    string_append_all U cc n text string
      = string ++ map_code_points U (fun c => CHANGE_CASE U c cc) n text := by
  induction n generalizing text string with
  | zero => simp [string_append_all, map_code_points]
  | succ n ih =>
    unfold string_append_all map_code_points
    by_cases h : text = []
    · simp [h]
    · rw [if_neg h, if_neg h, ih, List.append_assoc]

/-- In the mode that upper-cases everything `string_append` appends the text
with every code point upper-cased and keeps the mode. -/
theorem string_append_upper (U : GUnicode) (string text : List Nat) :
    string_append U string text CHANGE_CASE_UPPER
      = (string ++ upper_cased U text, CHANGE_CASE_UPPER) := by
  unfold string_append upper_cased
  by_cases h : text = []
  · subst h
    simp [map_code_points]
  · rw [if_neg h, if_neg (by decide), if_neg (by decide), string_append_all_map]
    have hfun : (fun c => CHANGE_CASE U c CHANGE_CASE_UPPER) = U.g_unichar_toupper :=
      funext (change_case_upper U)
    rw [hfun]

/-- In a one-shot mode `string_append` case-maps the first code point of a
non-empty text, appends the rest unchanged and resets the mode. -/
theorem string_append_one_shot (U : GUnicode) (string text : List Nat) (mode : Nat)
    (hmode : mode = CHANGE_CASE_UPPER_SINGLE ∨ mode = CHANGE_CASE_LOWER_SINGLE)
    (h : text ≠ []) :
    string_append U string text mode
      = (string ++ U.g_unichar_to_utf8 (one_shot_map U mode (U.g_utf8_get_char text))
          ++ text.drop (U.g_utf8_skip (text.headD 0)), CHANGE_CASE_NONE) := by
  unfold string_append
  rw [if_neg h, if_neg (by rcases hmode with h | h <;> rw [h] <;> decide),
    if_pos (by rcases hmode with h | h <;> rw [h] <;> decide),
    change_case_one_shot U _ mode hmode]

/-- A Literal or a reference goes through `string_append` with its text. -/
theorem interpolate_step_text (U : GUnicode) (mi : GMatchInfo) (st : List Nat × Nat)
    (a : InterpolationData) (h1 : a.type ≠ ReplType.REPL_TYPE_CHARACTER)
    (h2 : a.type ≠ ReplType.REPL_TYPE_CHANGE_CASE) :
    interpolate_step U mi st a = string_append U st.1 (plain_text mi a) st.2 := by
  unfold interpolate_step plain_text
  cases ht : a.type with
  | REPL_TYPE_STRING => rfl
  | REPL_TYPE_CHARACTER => exact absurd ht h1
  | REPL_TYPE_CHANGE_CASE => exact absurd ht h2
  | REPL_TYPE_NUMERIC_REFERENCE =>
    simp only
    cases g_match_info_fetch mi a.num with
    | none => simp [string_append_nil]
    | some m => rfl
  | REPL_TYPE_SYMBOLIC_REFERENCE =>
    simp only
    cases g_match_info_fetch_named mi a.text with
    | none => simp [string_append_nil]
    | some m => rfl

/-- An atom other than a CaseChange, in the mode that upper-cases
everything. -/
theorem interpolate_step_upper (U : GUnicode) (mi : GMatchInfo) (result : List Nat)
    (a : InterpolationData) (h : a.type ≠ ReplType.REPL_TYPE_CHANGE_CASE) :
    interpolate_step U mi (result, CHANGE_CASE_UPPER) a
      = (result ++ upper_text U mi a, CHANGE_CASE_UPPER) := by
  by_cases hc : a.type = ReplType.REPL_TYPE_CHARACTER
  · unfold interpolate_step upper_text
    rw [hc]
    simp only [change_case_upper]
    rw [if_neg (by decide)]
  · rw [interpolate_step_text U mi _ a hc h, string_append_upper]
    unfold upper_text
    cases ht : a.type with
    | REPL_TYPE_CHARACTER => exact absurd ht hc
    | _ => rfl

/-- An atom other than a CaseChange, in the mode None; the case mapping is
applied to the byte of a LiteralChar in this mode too. -/
theorem interpolate_step_plain (U : GUnicode) (mi : GMatchInfo) (result : List Nat)
    (a : InterpolationData) (h : a.type ≠ ReplType.REPL_TYPE_CHANGE_CASE)
    (hchar : a.type = ReplType.REPL_TYPE_CHARACTER → U.g_unichar_toupper a.c % 256 = a.c) :
    interpolate_step U mi (result, CHANGE_CASE_NONE) a
      = (result ++ plain_text mi a, CHANGE_CASE_NONE) := by
  by_cases hc : a.type = ReplType.REPL_TYPE_CHARACTER
  · unfold interpolate_step plain_text
    rw [hc]
    simp only [change_case_none, hchar hc]
    rw [if_neg (by decide)]
  · rw [interpolate_step_text U mi _ a hc h, string_append_none]

theorem interpolate_fold_upper (U : GUnicode) (mi : GMatchInfo) (X : List InterpolationData)
    (result : List Nat) (hX : ∀ a ∈ X, a.type ≠ ReplType.REPL_TYPE_CHANGE_CASE) :
    X.foldl (interpolate_step U mi) (result, CHANGE_CASE_UPPER)
      = (result ++ X.flatMap (upper_text U mi), CHANGE_CASE_UPPER) := by
  induction X generalizing result with
  | nil => simp
  | cons a X ih =>
    rw [List.foldl_cons, interpolate_step_upper U mi result a (hX a (by simp)),
      ih _ (fun b hb => hX b (List.mem_cons_of_mem _ hb)), List.flatMap_cons,
      List.append_assoc]

theorem interpolate_fold_plain (U : GUnicode) (mi : GMatchInfo) (Y : List InterpolationData)
    (result : List Nat) (hY : ∀ a ∈ Y, a.type ≠ ReplType.REPL_TYPE_CHANGE_CASE)
    (hchar : ∀ a ∈ Y, a.type = ReplType.REPL_TYPE_CHARACTER →
      U.g_unichar_toupper a.c % 256 = a.c) :
    Y.foldl (interpolate_step U mi) (result, CHANGE_CASE_NONE)
      = (result ++ Y.flatMap (plain_text mi), CHANGE_CASE_NONE) := by
  induction Y generalizing result with
  | nil => simp
  | cons a Y ih =>
    rw [List.foldl_cons, interpolate_step_plain U mi result a (hY a (by simp))
        (hchar a (by simp)),
      ih _ (fun b hb => hY b (List.mem_cons_of_mem _ hb))
        (fun b hb => hchar b (List.mem_cons_of_mem _ hb)), List.flatMap_cons,
      List.append_assoc]

/-- C11: for every match state and every list of atoms of the form `\U X \E Y`
where `X` and `Y` hold no CaseChange atom, the interpolation from the mode None
appends what `X` stands for with every code point upper-cased by
`g_unichar_toupper`, atom by atom (for a LiteralChar the byte of its
upper-cased code point), and then what `Y` stands for unchanged, and ends in
the mode None; `interpolate_replacement` returns that buffer.  The bytes of
the LiteralChar atoms of `Y` are assumed fixed by `g_unichar_toupper`, which
the macro `CHANGE_CASE` applies to them in the mode None as well.  The
template `\U\1\E!` parses to such a list, and replacing the matches of
`([a-z]+)` in "foo BAR baz" with it gives "FOO! BAR BAZ!". -/
theorem C11_upper_case_span (U : GUnicode) (mi : GMatchInfo) (X Y : List InterpolationData)
    (result : List Nat) (regex : GRegex) (string : List Nat)
    (hX : ∀ a ∈ X, a.type ≠ ReplType.REPL_TYPE_CHANGE_CASE)
    (hY : ∀ a ∈ Y, a.type ≠ ReplType.REPL_TYPE_CHANGE_CASE)
    (hchar : ∀ a ∈ Y, a.type = ReplType.REPL_TYPE_CHARACTER →
      U.g_unichar_toupper a.c % 256 = a.c) :
    (case_change CHANGE_CASE_UPPER :: (X ++ case_change CHANGE_CASE_NONE :: Y)).foldl
        (interpolate_step U mi) (result, CHANGE_CASE_NONE)
      = (result ++ X.flatMap (upper_text U mi) ++ Y.flatMap (plain_text mi),
          CHANGE_CASE_NONE) ∧
    interpolate_replacement U
        (case_change CHANGE_CASE_UPPER :: (X ++ case_change CHANGE_CASE_NONE :: Y))
        regex mi string result
      = (result ++ X.flatMap (upper_text U mi) ++ Y.flatMap (plain_text mi), false) ∧
    split_replacement glib_ascii [92, 85, 92, 49, 92, 69, 33]
      = Parsed.ok [case_change CHANGE_CASE_UPPER, numeric_ref 1,
          case_change CHANGE_CASE_NONE, literal_text [33]] ∧
    g_regex_replace 4 glib_ascii (regex_of search_lower_word 1)
        [102, 111, 111, 32, 66, 65, 82, 32, 98, 97, 122] 11 0 [92, 85, 92, 49, 92, 69, 33] 0
      = Replaced.eval (Ret.value [70, 79, 79, 33, 32, 66, 65, 82, 32, 66, 65, 90, 33]) := by
  have hfold : (case_change CHANGE_CASE_UPPER :: (X ++ case_change CHANGE_CASE_NONE :: Y)).foldl
        (interpolate_step U mi) (result, CHANGE_CASE_NONE)
      = (result ++ X.flatMap (upper_text U mi) ++ Y.flatMap (plain_text mi),
          CHANGE_CASE_NONE) := by
    rw [List.foldl_cons, List.foldl_append, List.foldl_cons]
    have h1 : interpolate_step U mi (result, CHANGE_CASE_NONE) (case_change CHANGE_CASE_UPPER)
        = (result, CHANGE_CASE_UPPER) := rfl
    rw [h1, interpolate_fold_upper U mi X result hX]
    have h2 : interpolate_step U mi
        (result ++ X.flatMap (upper_text U mi), CHANGE_CASE_UPPER)
        (case_change CHANGE_CASE_NONE)
        = (result ++ X.flatMap (upper_text U mi), CHANGE_CASE_NONE) := rfl
    rw [h2, interpolate_fold_plain U mi Y _ hY hchar]
  refine ⟨hfold, ?_, by decide, by decide⟩
  unfold interpolate_replacement
  simp only [hfold]

/-- C11, witness: the atoms of `\U\1\E!` in the match state of `([a-z]+)` on
"foo BAR baz", whose group 1 is "foo": the buffer receives "FOO!". -/
theorem C11_upper_case_span_witness :
    ∃ r, g_regex_match_full glib_ascii (regex_of search_lower_word 1)
        [102, 111, 111, 32, 66, 65, 82, 32, 98, 97, 122] 11 0 0 none = some r ∧
      (case_change CHANGE_CASE_UPPER ::
          ([numeric_ref 1] ++ case_change CHANGE_CASE_NONE :: [literal_text [33]])).foldl
          (interpolate_step glib_ascii r.info) ([], CHANGE_CASE_NONE)
        = ([70, 79, 79, 33], CHANGE_CASE_NONE) := by
  refine ⟨_, rfl, ?_⟩
  have h := (C11_upper_case_span glib_ascii
    (match_full_body glib_ascii (regex_of search_lower_word 1)
      [102, 111, 111, 32, 66, 65, 82, 32, 98, 97, 122] 11 0 0 none).info
    [numeric_ref 1] [literal_text [33]] [] (regex_of search_lower_word 1) []
    (by decide) (by decide) (by decide)).1
  rw [h]
  decide

theorem interpolate_fold_pending (U : GUnicode) (mi : GMatchInfo)
    (pending : List InterpolationData) (st : List Nat × Nat)
    (hpending : ∀ b ∈ pending,
      b.type ≠ ReplType.REPL_TYPE_CHANGE_CASE ∧ plain_text mi b = []) :
    pending.foldl (interpolate_step U mi) st = st := by
  induction pending with
  | nil => rfl
  | cons b pending ih =>
    have hb := hpending b (by simp)
    have hchar : b.type ≠ ReplType.REPL_TYPE_CHARACTER := by
      intro hc
      have := hb.2
      unfold plain_text at this
      rw [hc] at this
      simp at this
    rw [List.foldl_cons, interpolate_step_text U mi st b hchar hb.1, hb.2, string_append_nil]
    exact ih (fun c hc => hpending c (List.mem_cons_of_mem _ hc))

/-- The first atom with a text in a one-shot mode. -/
theorem interpolate_step_one_shot (U : GUnicode) (mi : GMatchInfo) (result : List Nat)
    (mode : Nat)
    (hmode : mode = CHANGE_CASE_UPPER_SINGLE ∨ mode = CHANGE_CASE_LOWER_SINGLE)
    (a : InterpolationData) (ha : a.type ≠ ReplType.REPL_TYPE_CHANGE_CASE)
    (htext : plain_text mi a ≠ []) :
    interpolate_step U mi (result, mode) a
      = (result ++ one_shot_text U mi mode a, CHANGE_CASE_NONE) := by
  by_cases hc : a.type = ReplType.REPL_TYPE_CHARACTER
  · unfold interpolate_step one_shot_text
    rw [hc]
    simp only [change_case_one_shot U _ mode hmode]
    rw [if_pos (by rcases hmode with h | h <;> rw [h] <;> decide)]
  · rw [interpolate_step_text U mi _ a hc ha,
      string_append_one_shot U result _ mode hmode htext]
    unfold one_shot_text
    cases ht : a.type with
    | REPL_TYPE_CHARACTER => exact absurd ht hc
    | _ => simp only [List.append_assoc]

/-- C12: after a one-shot CaseChange atom (`\l` or `\u`), whatever the mode
before it, the atoms that append nothing (a Literal with an empty text, a
reference to a group that is absent or empty) leave the buffer and the one-shot
mode as they are; the first atom with a text, be it a Literal, a LiteralChar or
a numeric or symbolic reference, appends its text with the first code point
case-mapped and the rest unchanged, and the mode is None right after it; the
atoms after it are interpolated from the mode None, so that, when they hold no
CaseChange atom, they append their texts unchanged (the bytes of their
LiteralChar atoms being fixed by `g_unichar_toupper`). -/
theorem C12_one_shot_case (U : GUnicode) (mi : GMatchInfo) (mode : Nat)
    (hmode : mode = CHANGE_CASE_UPPER_SINGLE ∨ mode = CHANGE_CASE_LOWER_SINGLE)
    (pending : List InterpolationData) (a : InterpolationData)
    (later : List InterpolationData) (result : List Nat) (cc : Nat)
    (hpending : ∀ b ∈ pending,
      b.type ≠ ReplType.REPL_TYPE_CHANGE_CASE ∧ plain_text mi b = [])
    (ha : a.type ≠ ReplType.REPL_TYPE_CHANGE_CASE) (htext : plain_text mi a ≠ []) :
    (case_change mode :: pending).foldl (interpolate_step U mi) (result, cc)
      = (result, mode) ∧
    (case_change mode :: (pending ++ [a])).foldl (interpolate_step U mi) (result, cc)
      = (result ++ one_shot_text U mi mode a, CHANGE_CASE_NONE) ∧
    (case_change mode :: (pending ++ a :: later)).foldl (interpolate_step U mi) (result, cc)
      = later.foldl (interpolate_step U mi)
          (result ++ one_shot_text U mi mode a, CHANGE_CASE_NONE) ∧
    ((∀ b ∈ later, b.type ≠ ReplType.REPL_TYPE_CHANGE_CASE) →
      (∀ b ∈ later, b.type = ReplType.REPL_TYPE_CHARACTER →
        U.g_unichar_toupper b.c % 256 = b.c) →
      (case_change mode :: (pending ++ a :: later)).foldl (interpolate_step U mi)
          (result, cc)
        = (result ++ one_shot_text U mi mode a ++ later.flatMap (plain_text mi),
            CHANGE_CASE_NONE)) := by
  have h0 : interpolate_step U mi (result, cc) (case_change mode) = (result, mode) := rfl
  have h1 : (case_change mode :: pending).foldl (interpolate_step U mi) (result, cc)
      = (result, mode) := by
    rw [List.foldl_cons, h0, interpolate_fold_pending U mi pending _ hpending]
  have h2 : ∀ later : List InterpolationData,
      (case_change mode :: (pending ++ a :: later)).foldl (interpolate_step U mi) (result, cc)
        = later.foldl (interpolate_step U mi)
            (result ++ one_shot_text U mi mode a, CHANGE_CASE_NONE) := by
    intro later
    rw [← List.cons_append, List.foldl_append, h1, List.foldl_cons,
      interpolate_step_one_shot U mi result mode hmode a ha htext]
  refine ⟨h1, ?_, h2 later, ?_⟩
  · rw [h2 []]
    rfl
  · intro hlater hchar
    rw [h2 later, interpolate_fold_plain U mi later _ hlater hchar]

/-- C12, witness: in the match state of `(\w+) (\w+)` on "hello world", the
atoms `\u`, the absent group 5, group 1 and the Literal " w": the buffer
receives "Hello w", with the `h` alone in upper case. -/
theorem C12_one_shot_case_witness :
    ∃ r, g_regex_match_full glib_ascii (regex_of search_two_words 2)
        [104, 101, 108, 108, 111, 32, 119, 111, 114, 108, 100] 11 0 0 none = some r ∧
      (case_change CHANGE_CASE_UPPER_SINGLE ::
          ([numeric_ref 5] ++ numeric_ref 1 :: [literal_text [32, 119]])).foldl
          (interpolate_step glib_ascii r.info) ([], CHANGE_CASE_NONE)
        = ([72, 101, 108, 108, 111, 32, 119], CHANGE_CASE_NONE) := by
  refine ⟨_, rfl, ?_⟩
  have h := (C12_one_shot_case glib_ascii
    (match_full_body glib_ascii (regex_of search_two_words 2)
      [104, 101, 108, 108, 111, 32, 119, 111, 114, 108, 100] 11 0 0 none).info
    CHANGE_CASE_UPPER_SINGLE (Or.inl rfl) [numeric_ref 5] (numeric_ref 1)
    [literal_text [32, 119]] [] CHANGE_CASE_NONE (by decide) (by decide) (by decide)).2.2.2
    (by decide) (by decide)
  rw [h]
  decide

/-! ## A template followed by one more backslash -/

theorem deref_append (p s : List Nat) (hp : p ≠ []) : deref (p ++ s) = deref p := by
  cases p with
  | nil => exact absurd rfl hp
  | cons c p => rfl

theorem tail_append_backslash (p s : List Nat) (hp : p ≠ []) :
    (p ++ s).tail = p.tail ++ s := by
  cases p with
  | nil => exact absurd rfl hp
  | cons c p => rfl

theorem escape_frame_ite {α : Type} {c : Prop} [Decidable c]
    {a b a1 b1 : Parsed (List Nat × α)} {p : List Nat}
    (h1 : c → EscapeFrame a a1 p) (h2 : ¬ c → EscapeFrame b b1 p) :
    EscapeFrame (if c then a else b) (if c then a1 else b1) p := by
  by_cases hc : c
  · rw [if_pos hc, if_pos hc]
    exact h1 hc
  · rw [if_neg hc, if_neg hc]
    exact h2 hc

theorem escape_frame_error {α : Type} (e : ReplaceError) (r1 : Parsed (List Nat × α))
    (p : List Nat) : EscapeFrame (Parsed.error e) r1 p := by
  intro p1 data h
  cases h

theorem escape_frame_ok {α : Type} (p1 : List Nat) (data : α) (p : List Nat) (h : p1 <:+ p) :
    EscapeFrame (Parsed.ok (p1, data)) (Parsed.ok (p1 ++ [92], data)) p := by
  intro p2 data2 heq
  cases heq
  exact ⟨rfl, h⟩

theorem escape_frame_mono {α : Type} {r r1 : Parsed (List Nat × α)} {p q : List Nat}
    (h : EscapeFrame r r1 p) (hpq : p <:+ q) : EscapeFrame r r1 q := by
  intro p1 data heq
  exact ⟨(h p1 data heq).1, (h p1 data heq).2.trans hpq⟩

theorem hex_brace_loop_frame (R R1 : List Nat) (p : List Nat) (x : Int) :
    EscapeFrame (hex_brace_loop R p x) (hex_brace_loop R1 (p ++ [92]) x) p := by
  induction p generalizing x with
  | nil =>
    rw [hex_brace_loop]
    exact escape_frame_error _ _ _
  | cons c p ih =>
    rw [List.cons_append, hex_brace_loop, hex_brace_loop]
    refine escape_frame_ite (fun _ => escape_frame_error _ _ _) (fun _ => ?_)
    by_cases hp : p = []
    · subst hp
      rw [if_pos (by simp [deref]), hex_brace_loop]
      exact escape_frame_error _ _ _
    · rw [deref_append p [92] hp, tail_append_backslash p [92] hp]
      refine escape_frame_ite (fun _ => ?_) (fun _ => ?_)
      · exact escape_frame_mono (ih _) (List.suffix_cons c p)
      · exact escape_frame_ok _ _ _ ((List.tail_suffix p).trans (List.suffix_cons c p))

theorem hex_pair_loop_frame (R R1 : List Nat) (n : Nat) (p : List Nat) (x : Int) :
    EscapeFrame (hex_pair_loop R n p x) (hex_pair_loop R1 n (p ++ [92]) x) p := by
  induction n generalizing p x with
  | zero =>
    rw [hex_pair_loop, hex_pair_loop]
    exact escape_frame_ok _ _ _ (List.suffix_refl p)
  | succ n ih =>
    rw [hex_pair_loop, hex_pair_loop]
    by_cases hp : p = []
    · subst hp
      rw [if_pos (by decide)]
      exact escape_frame_error _ _ _
    · rw [deref_append p [92] hp, tail_append_backslash p [92] hp]
      refine escape_frame_ite (fun _ => escape_frame_error _ _ _) (fun _ => ?_)
      exact escape_frame_mono (ih _ _) (List.tail_suffix p)

theorem expand_escape_hex_frame (U : GUnicode) (R R1 : List Nat) (p : List Nat) :
    EscapeFrame (expand_escape_hex U R p) (expand_escape_hex U R1 (p ++ [92])) p := by
  intro p1 data h
  unfold expand_escape_hex at h ⊢
  by_cases hp : p = []
  · subst hp
    rw [if_neg (by decide)] at h
    simp [hex_pair_loop, deref, g_ascii_xdigit_value, g_ascii_digit_value] at h
  · rw [deref_append p [92] hp, tail_append_backslash p [92] hp]
    by_cases h123 : deref p = 123
    · rw [if_pos h123] at h ⊢
      cases hres : hex_brace_loop R p.tail 0 with
      | error e => rw [hres] at h; cases h
      | out_of_fuel => rw [hres] at h; cases h
      | ok v =>
        obtain ⟨p2, x2⟩ := v
        rw [hres] at h
        have hf := hex_brace_loop_frame R R1 p.tail 0 p2 x2 hres
        rw [hf.1]
        cases h
        exact ⟨rfl, hf.2.trans (List.tail_suffix p)⟩
    · rw [if_neg h123] at h ⊢
      cases hres : hex_pair_loop R 2 p 0 with
      | error e => rw [hres] at h; cases h
      | out_of_fuel => rw [hres] at h; cases h
      | ok v =>
        obtain ⟨p2, x2⟩ := v
        rw [hres] at h
        have hf := hex_pair_loop_frame R R1 2 p 0 p2 x2 hres
        rw [hf.1]
        cases h
        exact ⟨rfl, hf.2⟩

/-- The scan for the closing `>`, when it succeeds, returns the same pointer in
the longer template; the pointer is not at the end. -/
theorem reference_end_frame (R R1 : List Nat) (q s : List Nat)
    (h : reference_end R q = Parsed.ok s) :
    reference_end R1 (q ++ [92]) = Parsed.ok (s ++ [92]) ∧ s <:+ q ∧ s ≠ [] := by
  induction q with
  | nil =>
    rw [reference_end] at h
    cases h
  | cons c q ih =>
    rw [reference_end] at h
    rw [List.cons_append, reference_end]
    by_cases h0 : c = 0
    · rw [if_pos h0] at h
      cases h
    · rw [if_neg h0] at h ⊢
      by_cases h62 : c ≠ 62
      · rw [if_pos h62] at h ⊢
        have := ih h
        exact ⟨this.1, this.2.1.trans (List.suffix_cons c q), this.2.2⟩
      · rw [if_neg h62] at h ⊢
        cases h
        exact ⟨rfl, List.suffix_refl _, by simp⟩

theorem reference_number_frame (R R1 : List Nat) (p q : List Nat) (x v : Int)
    (h : reference_number R p q x = Parsed.ok v) :
    reference_number R1 (p ++ [92]) (q ++ [92]) x = Parsed.ok v := by
  induction q generalizing x with
  | nil =>
    rw [reference_number] at h
    cases h
  | cons c q ih =>
    rw [reference_number] at h
    rw [List.cons_append, reference_number]
    by_cases hd : g_ascii_digit_value c < 0
    · rw [if_pos hd] at h
      cases h
    · rw [if_neg hd] at h ⊢
      by_cases hlen : q.length ≠ p.length
      · rw [if_pos hlen] at h
        rw [if_pos (by simpa using hlen)]
        exact ih _ h
      · rw [if_neg hlen] at h
        rw [if_neg (by simpa using hlen)]
        exact h

theorem reference_name_frame (R R1 : List Nat) (p q : List Nat)
    (h : reference_name R p q = Parsed.ok ()) :
    reference_name R1 (p ++ [92]) (q ++ [92]) = Parsed.ok () := by
  induction q with
  | nil =>
    rw [reference_name] at h
    cases h
  | cons c q ih =>
    rw [reference_name] at h
    rw [List.cons_append, reference_name]
    by_cases hd : g_ascii_isalnum c = false
    · rw [if_pos hd] at h
      cases h
    · rw [if_neg hd] at h ⊢
      by_cases hlen : q.length ≠ p.length
      · rw [if_pos hlen] at h
        rw [if_pos (by simpa using hlen)]
        exact ih h
      · rw [if_neg hlen] at h
        rw [if_neg (by simpa using hlen)]

theorem expand_escape_reference_frame (R R1 : List Nat) (p : List Nat) :
    EscapeFrame (expand_escape_reference R p) (expand_escape_reference R1 (p ++ [92])) p := by
  intro p1 data h
  unfold expand_escape_reference at h ⊢
  by_cases hp : p = []
  · subst hp
    rw [if_pos (by decide)] at h
    cases h
  · rw [deref_append p [92] hp, tail_append_backslash p [92] hp]
    by_cases h60 : deref p ≠ 60
    · rw [if_pos h60] at h
      cases h
    · rw [if_neg h60] at h ⊢
      simp only at h ⊢
      cases hend : reference_end R p.tail with
      | error e => rw [hend] at h; cases h
      | out_of_fuel => rw [hend] at h; cases h
      | ok s =>
        rw [hend] at h
        obtain ⟨hend1, hsuf, hne⟩ := reference_end_frame R R1 p.tail s hend
        rw [hend1]
        simp only at h ⊢
        have hlen : (p.tail ++ [92]).length - (s ++ [92]).length = p.tail.length - s.length := by
          simp
        rw [hlen]
        by_cases hzero : p.tail.length - s.length = 0
        · rw [if_pos hzero] at h
          cases h
        · rw [if_neg hzero] at h ⊢
          have hq : p.tail ≠ [] := by
            intro hnil
            rw [hnil] at hzero
            simp at hzero
          rw [deref_append p.tail [92] hq, tail_append_backslash s [92] hne]
          have htake : (p.tail ++ [92]).take (p.tail.length - s.length)
              = p.tail.take (p.tail.length - s.length) :=
            List.take_append_of_le_length (Nat.sub_le _ _)
          by_cases hdig : g_ascii_isdigit (deref p.tail) = true
          · rw [if_pos hdig] at h ⊢
            cases hnum : reference_number R s p.tail 0 with
            | error e => rw [hnum] at h; cases h
            | out_of_fuel => rw [hnum] at h; cases h
            | ok v =>
              rw [hnum] at h
              rw [reference_number_frame R R1 s p.tail 0 v hnum]
              cases h
              exact ⟨rfl, (List.tail_suffix s).trans (hsuf.trans (List.tail_suffix p))⟩
          · rw [if_neg hdig] at h ⊢
            cases hname : reference_name R s p.tail with
            | error e => rw [hname] at h; cases h
            | out_of_fuel => rw [hname] at h; cases h
            | ok v =>
              rw [hname] at h
              rw [reference_name_frame R R1 s p.tail hname, htake]
              cases h
              exact ⟨rfl, (List.tail_suffix s).trans (hsuf.trans (List.tail_suffix p))⟩

/-- The loop over the digits reads the same digits in the longer template. -/
theorem digits_loop_frame (n : Nat) (s : DigitsState) :
    digits_loop n { s with p := s.p ++ [92] }
      = { digits_loop n s with p := (digits_loop n s).p ++ [92] } ∧
    (digits_loop n s).p <:+ s.p := by
  induction n generalizing s with
  | zero => exact ⟨rfl, List.suffix_refl _⟩
  | succ n ih =>
    have hval : g_ascii_digit_value (deref (s.p ++ [92])) = g_ascii_digit_value (deref s.p) := by
      by_cases hp : s.p = []
      · rw [hp]
        decide
      · rw [deref_append s.p [92] hp]
    rw [digits_loop, digits_loop]
    simp only [hval]
    by_cases h1 : g_ascii_digit_value (deref s.p) < 0
    · rw [if_pos h1, if_pos h1]
      exact ⟨rfl, List.suffix_refl _⟩
    · rw [if_neg h1, if_neg h1]
      have hp : s.p ≠ [] := by
        intro hnil
        rw [hnil] at h1
        exact h1 (by decide)
      by_cases h2 : g_ascii_digit_value (deref s.p) > 7 ∧ s.base = 8
      · rw [if_pos h2, if_pos h2]
        exact ⟨rfl, List.suffix_refl _⟩
      · rw [if_neg h2, if_neg h2]
        by_cases h3 : s.i = 2 ∧
            (if g_ascii_digit_value (deref s.p) > 7 then 10 else s.base) = 10
        · rw [if_pos h3, if_pos h3]
          exact ⟨rfl, List.suffix_refl _⟩
        · rw [if_neg h3, if_neg h3, tail_append_backslash s.p [92] hp]
          have := ih ⟨s.i + 1, s.p.tail, s.x * 8 + g_ascii_digit_value (deref s.p),
            s.d * 10 + g_ascii_digit_value (deref s.p),
            if g_ascii_digit_value (deref s.p) > 7 then 10 else s.base⟩
          exact ⟨this.1, this.2.trans (List.tail_suffix s.p)⟩

theorem expand_escape_digits_frame (U : GUnicode) (p : List Nat) (base : Int) :
    EscapeFrame (expand_escape_digits U p base) (expand_escape_digits U (p ++ [92]) base) p := by
  have hf := digits_loop_frame 3 { i := 0, p := p, x := 0, d := 0, base := base }
  unfold expand_escape_digits
  simp only at hf
  simp only [hf.1]
  exact escape_frame_ite (fun _ => escape_frame_ok _ _ _ hf.2)
    (fun _ => escape_frame_ok _ _ _ hf.2)

/-- An escape that parses in a template parses to the same atom when one more
backslash follows the template. -/
theorem expand_escape_frame (U : GUnicode) (hskip : U.g_utf8_skip 48 = 1) (R R1 : List Nat)
    (b c : Nat) (p : List Nat) :
    EscapeFrame (expand_escape U R (b :: c :: p))
      (expand_escape U R1 (b :: c :: (p ++ [92]))) (b :: c :: p) := by
  have hsuf : p <:+ b :: c :: p := ⟨[b, c], rfl⟩
  have hsuf1 : c :: p <:+ b :: c :: p := ⟨[b], rfl⟩
  unfold expand_escape
  simp only [List.tail_cons]
  simp only [show deref (c :: (p ++ [92])) = deref (c :: p) from rfl]
  iterate 8 (refine escape_frame_ite (fun _ => escape_frame_ok _ _ _ hsuf) (fun _ => ?_))
  refine escape_frame_ite
    (fun _ => escape_frame_mono (expand_escape_hex_frame U R R1 p) hsuf) (fun _ => ?_)
  iterate 5 (refine escape_frame_ite (fun _ => escape_frame_ok _ _ _ hsuf) (fun _ => ?_))
  refine escape_frame_ite
    (fun _ => escape_frame_mono (expand_escape_reference_frame R R1 p) hsuf) (fun _ => ?_)
  refine escape_frame_ite (fun h48 => ?_) (fun _ => ?_)
  · rw [h48, hskip]
    simp only [List.drop_succ_cons, List.drop_zero]
    by_cases hp : p = []
    · subst hp
      rw [if_neg (by decide), if_neg (by decide)]
      exact escape_frame_mono (expand_escape_digits_frame U [c] 0) hsuf1
    · rw [deref_append p [92] hp]
      exact escape_frame_ite
        (fun _ => escape_frame_mono (expand_escape_digits_frame U p 8) hsuf)
        (fun _ => escape_frame_mono (expand_escape_digits_frame U (c :: p) 0) hsuf1)
  refine escape_frame_ite
    (fun _ => escape_frame_mono (expand_escape_digits_frame U (c :: p) 0) hsuf1) (fun _ => ?_)
  exact escape_frame_ite (fun _ => escape_frame_error _ _ _)
    (fun _ => escape_frame_error _ _ _)

/-- A backslash at the end of the template is rejected. -/
theorem expand_escape_stray (U : GUnicode) (R : List Nat) :
    expand_escape U R [92]
      = Parsed.error ⟨R.length, ErrorDetail.stray_final_backslash⟩ := by
  unfold expand_escape
  simp [deref]

/-- When the loop of `split_replacement` accepts a template without a NUL
byte, it rejects the template followed by one more backslash, at the offset of
the end of the longer template. -/
theorem split_replacement_loop_stray (U : GUnicode) (hskip : U.g_utf8_skip 48 = 1)
    (R R1 : List Nat) (fuel : Nat) (start p : List Nat) (list L : List InterpolationData)
    (h0 : 0 ∉ p) (hok : split_replacement_loop U R fuel start p list = Parsed.ok L) :
    split_replacement_loop U R1 (fuel + 1) (start ++ [92]) (p ++ [92]) list
      = Parsed.error ⟨R1.length, ErrorDetail.stray_final_backslash⟩ := by
  induction fuel generalizing start p list with
  | zero =>
    rw [split_replacement_loop] at hok
    cases hok
  | succ fuel ih =>
    rw [split_replacement_loop] at hok
    by_cases hz : deref p = 0
    · have hp : p = [] := by
        cases p with
        | nil => rfl
        | cons c p =>
          exfalso
          apply h0
          have : c = 0 := hz
          rw [this]
          exact List.mem_cons_self _ _
      subst hp
      rw [List.nil_append, split_replacement_loop, if_neg (by decide),
        if_pos (show deref [92] = 92 from rfl), expand_escape_stray]
    · have hp : p ≠ [] := by
        intro hnil
        rw [hnil] at hz
        exact hz rfl
      rw [if_neg hz] at hok
      rw [split_replacement_loop, deref_append p [92] hp, if_neg hz]
      by_cases h92 : deref p = 92
      · rw [if_pos h92] at hok
        rw [if_pos h92]
        cases hesc : expand_escape U R p with
        | error e => rw [hesc] at hok; cases hok
        | out_of_fuel => rw [hesc] at hok; cases hok
        | ok v =>
          obtain ⟨p1, data⟩ := v
          rw [hesc] at hok
          simp only at hok
          cases p with
          | nil => exact absurd rfl hp
          | cons b p =>
            cases p with
            | nil =>
              have hb : b = 92 := h92
              rw [hb, expand_escape_stray] at hesc
              cases hesc
            | cons c p =>
              obtain ⟨hf, hsuf⟩ := expand_escape_frame U hskip R R1 b c p p1 data hesc
              rw [List.cons_append, List.cons_append, hf]
              exact ih p1 p1 (data :: list) (fun hmem => h0 (hsuf.subset hmem)) hok
      · rw [if_neg h92] at hok
        rw [if_neg h92, tail_append_backslash p [92] hp]
        have h0t : 0 ∉ p.tail := fun hmem => h0 (List.mem_of_mem_tail hmem)
        have hcond : ((deref (p.tail ++ [92]) = 92 ∨ deref (p.tail ++ [92]) = 0) ∧
              (start ++ [92]).length - (p.tail ++ [92]).length > 0)
            ↔ ((deref p.tail = 92 ∨ deref p.tail = 0) ∧ start.length - p.tail.length > 0) := by
          have hlen : (start ++ [92]).length - (p.tail ++ [92]).length
              = start.length - p.tail.length := by simp
          rw [hlen]
          by_cases ht : p.tail = []
          · rw [ht]
            simp [deref]
          · rw [deref_append p.tail [92] ht]
        have htake : (start ++ [92]).take ((start ++ [92]).length - (p.tail ++ [92]).length)
            = start.take (start.length - p.tail.length) := by
          have hlen : (start ++ [92]).length - (p.tail ++ [92]).length
              = start.length - p.tail.length := by simp
          rw [hlen]
          exact List.take_append_of_le_length (Nat.sub_le _ _)
        by_cases hc : (deref p.tail = 92 ∨ deref p.tail = 0) ∧ start.length - p.tail.length > 0
        · rw [if_pos hc] at hok
          rw [if_pos (hcond.2 hc), htake]
          exact ih start p.tail _ h0t hok
        · rw [if_neg hc] at hok
          rw [if_neg (fun h => hc (hcond.1 h))]
          exact ih start p.tail _ h0t hok

/-- C17: for every template `t` (a C string, so without a NUL byte) that
`split_replacement` accepts, the template `t` followed by one more backslash is
rejected with the detail "stray final '\'" at the byte offset `len (t) + 1`;
the result is the error and holds no list of atoms.  In particular the template
that is a lone backslash is rejected, at offset 1.  The skip table is assumed
to give the ASCII byte `0` the length 1. -/
theorem C17_stray_final_backslash (U : GUnicode) (hskip : U.g_utf8_skip 48 = 1)
    (t : List Nat) (atoms : List InterpolationData) (hnul : 0 ∉ t)
    (hok : split_replacement U t = Parsed.ok atoms) :
    split_replacement U (t ++ [92])
      = Parsed.error ⟨t.length + 1, ErrorDetail.stray_final_backslash⟩ ∧
    split_replacement U [92] = Parsed.error ⟨1, ErrorDetail.stray_final_backslash⟩ := by
  constructor
  · unfold split_replacement at hok ⊢
    have h := split_replacement_loop_stray U hskip t (t ++ [92]) (t.length + 1) t t [] atoms
      hnul hok
    rw [List.length_append] at h ⊢
    exact h
  · exact split_replacement_first_error U [92] _ rfl (expand_escape_stray U [92])

/-- C17, witness: the template `a\\` (the letter and an escaped backslash) is
accepted, and with one more backslash it is rejected at offset 4. -/
theorem C17_stray_final_backslash_witness :
    split_replacement glib_ascii [97, 92, 92]
      = Parsed.ok [literal_text [97], literal_char 92] ∧
    split_replacement glib_ascii ([97, 92, 92] ++ [92])
      = Parsed.error ⟨[97, 92, 92].length + 1, ErrorDetail.stray_final_backslash⟩ :=
  ⟨by decide,
   (C17_stray_final_backslash glib_ascii (by decide) [97, 92, 92]
      [literal_text [97], literal_char 92] (by decide) (by decide)).1⟩

/-! ## The match count and the steps of a match state -/

/-- C21, the failing input: the pattern `abc` matched against "ab" with the
option for partial matches.  The matcher reports a partial match, which
`IS_PCRE_ERROR` does not count as an error: the step sets no error and returns
FALSE, and the match state holds a partial match.  The comment of
`g_match_info_get_match_count` promises 0 when the match failed and -1 when an
error occurred; its test `matches < PCRE_ERROR_NOMATCH` sends the partial match
to the error branch, and the count is -1.  A plain failure to match gives 0. -/
theorem C21_match_count_partial :
    IS_PCRE_ERROR PCRE_ERROR_PARTIAL = false ∧
    G_REGEX_MATCH_PARTIAL = PCRE_PARTIAL ∧
    (∃ r, g_regex_match_full glib_ascii regex_abc_partial [97, 98] 2 0 G_REGEX_MATCH_PARTIAL
        none = some r ∧
      r.ret = false ∧
      r.error = none ∧
      r.info.matches_ = PCRE_ERROR_PARTIAL ∧
      g_match_info_get_match_count r.info = -1) ∧
    (∃ r, g_regex_match_full glib_ascii regex_abc_partial [97, 120] 2 0 G_REGEX_MATCH_PARTIAL
        none = some r ∧
      g_match_info_get_match_count r.info = 0) ∧
    (∀ mi : GMatchInfo, mi.matches_ = PCRE_ERROR_PARTIAL →
      g_match_info_get_match_count mi = -1) := by
  refine ⟨by decide, by decide, ⟨_, rfl, by decide⟩, ⟨_, rfl, by decide⟩, ?_⟩
  intro mi h
  unfold g_match_info_get_match_count
  rw [h]
  decide

/-- A step that returns TRUE: no error was set before it, the position was not
negative, the matcher reported a match, and the state holds its offsets. -/
theorem next_success (U : GUnicode) (mi : GMatchInfo) (e : Option Int)
    (h : (g_match_info_next U mi e).ret = true) :
    e = none ∧ 0 ≤ mi.pos ∧ 0 ≤ (pcre_exec_call mi).1 ∧
    (g_match_info_next U mi e).error = none ∧
    (g_match_info_next U mi e).info.offsets = (pcre_exec_call mi).2 ∧
    (g_match_info_next U mi e).info.pos =
      (if mi.pos = (pcre_exec_call mi).2.getD 1 0 then NEXT_CHAR U mi.regex mi.string mi.pos
       else (pcre_exec_call mi).2.getD 1 0) := by
  unfold g_match_info_next at h ⊢
  simp only [GMatchInfo.offset] at h ⊢
  by_cases he : e.isSome = true
  · rw [if_pos he] at h
    cases h
  · rw [if_neg he] at h ⊢
    have hnone : e = none := by
      cases e with
      | none => rfl
      | some v => simp at he
    by_cases hpos : ¬ (mi.pos ≥ 0)
    · rw [if_pos hpos] at h
      cases h
    · rw [if_neg hpos] at h ⊢
      by_cases herr : IS_PCRE_ERROR (pcre_exec_call mi).1 = true
      · rw [if_pos herr] at h
        cases h
      · rw [if_neg herr] at h ⊢
        have hp : 0 ≤ mi.pos := by omega
        by_cases heq : mi.pos = (pcre_exec_call mi).2.getD (1 : Int).toNat 0
        · rw [if_pos heq] at h ⊢
          by_cases hgt : mi.pos > mi.string_len
          · rw [if_pos hgt] at h
            cases h
          · rw [if_neg hgt] at h ⊢
            have hm : 0 ≤ (pcre_exec_call mi).1 := by simpa using h
            have heq1 : mi.pos = (pcre_exec_call mi).2.getD 1 0 := heq
            exact ⟨hnone, hp, hm, hnone, rfl, by rw [if_pos heq1]⟩
        · rw [if_neg heq] at h ⊢
          have hm : 0 ≤ (pcre_exec_call mi).1 := by simpa using h
          have heq1 : ¬ mi.pos = (pcre_exec_call mi).2.getD 1 0 := heq
          exact ⟨hnone, hp, hm, hnone, rfl, by rw [if_neg heq1]; rfl⟩

/-- A step that returns TRUE under the matcher contract: the span it reports
lies between the position the search started from and the end of the subject,
and the next search starts at or after the end of the span. -/
theorem next_success_span (U : GUnicode) (regex : GRegex) (string : List Nat) (len : Int)
    (mi : GMatchInfo) (e : Option Int) (ht : Tracks mi regex string len)
    (hc : MatcherContract regex string len)
    (h : (g_match_info_next U mi e).ret = true) :
    mi.pos ≤ (g_match_info_next U mi e).info.offset 0 ∧
    (g_match_info_next U mi e).info.offset 0 ≤ (g_match_info_next U mi e).info.offset 1 ∧
    (g_match_info_next U mi e).info.offset 1 ≤ len ∧
    (g_match_info_next U mi e).info.offset 1 ≤ (g_match_info_next U mi e).info.pos ∧
    0 ≤ mi.pos := by
  obtain ⟨_, hpos, hrc, _, hoffs, hnew⟩ := next_success U mi e h
  have hcall := exec_call_of_tracks mi regex string len ht
  have hcon := hc mi.pos (regex.match_opts ||| mi.match_opts) mi.offsets mi.n_offsets hpos
  rw [← hcall] at hcon
  have h0 : (g_match_info_next U mi e).info.offset 0 = (pcre_exec_call mi).2.getD 0 0 := by
    unfold GMatchInfo.offset
    rw [hoffs]
    rfl
  have h1 : (g_match_info_next U mi e).info.offset 1 = (pcre_exec_call mi).2.getD 1 0 := by
    unfold GMatchInfo.offset
    rw [hoffs]
    rfl
  rw [h0, h1, hnew]
  rcases hcon with hno | ⟨_, ha, hb, hd⟩
  · rw [hno] at hrc
    exact absurd hrc (by decide)
  · refine ⟨ha, hb, hd, ?_, hpos⟩
    by_cases heq : mi.pos = (pcre_exec_call mi).2.getD 1 0
    · rw [if_pos heq]
      have := next_char_gt U mi.regex mi.string mi.pos
      omega
    · rw [if_neg heq]

/-- C22: for every matcher that satisfies the matcher contract, two steps of a
match state in a row that both return TRUE report spans `(a0, a1)` and then
`(b0, b1)` with `a1 <= b0`: the second match starts at or after the end of the
first, so they do not overlap. -/
theorem C22_matches_do_not_overlap (U : GUnicode) (regex : GRegex) (string : List Nat)
    (len : Int) (mi : GMatchInfo) (e : Option Int) (ht : Tracks mi regex string len)
    (hc : MatcherContract regex string len)
    (h1 : (g_match_info_next U mi e).ret = true)
    (h2 : (g_match_info_next U (g_match_info_next U mi e).info
      (g_match_info_next U mi e).error).ret = true) :
    (g_match_info_next U mi e).info.offset 1
      ≤ (g_match_info_next U (g_match_info_next U mi e).info
          (g_match_info_next U mi e).error).info.offset 0 ∧
    (g_match_info_next U mi e).info.offset 0 ≤ (g_match_info_next U mi e).info.offset 1 ∧
    (g_match_info_next U (g_match_info_next U mi e).info
        (g_match_info_next U mi e).error).info.offset 0
      ≤ (g_match_info_next U (g_match_info_next U mi e).info
          (g_match_info_next U mi e).error).info.offset 1 := by
  obtain ⟨_, ha, _, hp, _⟩ := next_success_span U regex string len mi e ht hc h1
  obtain ⟨hb0, hb, _, _, _⟩ := next_success_span U regex string len _ _
    (next_tracks U mi e regex string len ht) hc h2
  exact ⟨le_trans hp hb0, ha, hb⟩

/-- C22, witness: the pattern `\s*` on "a  b" from offset 1: the first step
reports the two spaces, (1, 3), the second the empty match (3, 3) at their
end. -/
theorem C22_matches_do_not_overlap_witness :
    ∃ r, g_regex_match_full glib_ascii (regex_of search_space_star 0) [97, 32, 32, 98] 4 1 0
        none = some r ∧
      r.info.offset 1 ≤ (g_match_info_next glib_ascii r.info r.error).info.offset 0 :=
  ⟨_, rfl,
   (C22_matches_do_not_overlap glib_ascii (regex_of search_space_star 0) [97, 32, 32, 98] 4
    (match_info_new (regex_of search_space_star 0) [97, 32, 32, 98] 4 1 0 false) none
    (match_info_new_tracks _ _ _ _ _ (by decide)) (matcher_contract_space_star _ _)
    (by decide) (by decide)).1⟩

/-! ## The callback of g_regex_replace_eval -/

/-- Without the record of the calls, the instrumented loop is the loop of
`g_regex_replace_eval`. -/
theorem replace_trace_loop_erase (U : GUnicode) (regex : GRegex) (string : List Nat)
    (eval : GRegexEvalCallback) (fuel : Nat) (mi : GMatchInfo) (e : Option Int)
    (result : List Nat) (pos : Int) (done : Bool) (calls : List (GMatchInfo × List Nat)) :
    Ret.map Prod.fst (replace_trace_loop U regex string eval fuel mi e result pos done calls)
      = replace_loop U regex string eval fuel mi e result pos done := by
  induction fuel generalizing mi e result pos done calls with
  | zero => rfl
  | succ fuel ih =>
    rw [replace_trace_loop, replace_loop]
    by_cases hc : ((!done) && g_match_info_matches mi) = true
    · rw [if_pos hc, if_pos hc]
      exact ih _ _ _ _ _ _
    · rw [if_neg hc, if_neg hc]
      rfl

/-- The loop stops right after a call of the callback that returns TRUE: the
step to the next match is made, and the callback is not called on it. -/
theorem replace_trace_loop_done (U : GUnicode) (regex : GRegex) (string : List Nat)
    (eval : GRegexEvalCallback) (fuel : Nat) (mi : GMatchInfo) (e : Option Int)
    (result : List Nat) (pos : Int) (calls : List (GMatchInfo × List Nat))
    (hm : g_match_info_matches mi = true)
    (hdone : (eval regex mi string
      (result ++ bytes_at string pos (mi.offset 0 - pos))).2 = true) :
    replace_trace_loop U regex string eval (fuel + 2) mi e result pos false calls
      = Ret.value
          (⟨(eval regex mi string (result ++ bytes_at string pos (mi.offset 0 - pos))).1,
            mi.offset 1, (g_match_info_next U mi e).error⟩,
           calls ++ [(mi, result ++ bytes_at string pos (mi.offset 0 - pos))]) := by
  rw [replace_trace_loop, if_pos (by rw [hm]; rfl)]
  simp only
  rw [replace_trace_loop, hdone, if_neg (by simp)]

/-- The invariant of the loop on the record of the calls: every call but the
last returned FALSE, and the buffer and the copy position are those left by
the last call. -/
theorem replace_trace_loop_calls (U : GUnicode) (regex : GRegex) (string : List Nat)
    (eval : GRegexEvalCallback) (fuel : Nat) (mi : GMatchInfo) (e : Option Int)
    (result : List Nat) (pos : Int) (done : Bool) (calls : List (GMatchInfo × List Nat))
    (x : ReplaceExit) (calls1 : List (GMatchInfo × List Nat))
    (hrun : replace_trace_loop U regex string eval fuel mi e result pos done calls
      = Ret.value (x, calls1))
    (hinv : ∀ earlier last, calls = earlier ++ [last] →
      (∀ c ∈ earlier, (eval regex c.1 string c.2).2 = false) ∧
      result = (eval regex last.1 string last.2).1 ∧ pos = last.1.offset 1 ∧
      done = (eval regex last.1 string last.2).2) :
    ∀ earlier last, calls1 = earlier ++ [last] →
      (∀ c ∈ earlier, (eval regex c.1 string c.2).2 = false) ∧
      x.result = (eval regex last.1 string last.2).1 ∧ x.str_pos = last.1.offset 1 := by
  induction fuel generalizing mi e result pos done calls with
  | zero =>
    rw [replace_trace_loop] at hrun
    cases hrun
  | succ fuel ih =>
    rw [replace_trace_loop] at hrun
    by_cases hc : ((!done) && g_match_info_matches mi) = true
    · rw [if_pos hc] at hrun
      have hd : done = false := by
        cases done with
        | false => rfl
        | true => simp at hc
      refine ih _ _ _ _ _ _ hrun ?_
      intro earlier last heq
      obtain ⟨h1, h2⟩ := List.append_inj' heq rfl
      have hlast : last = (mi, result ++ bytes_at string pos (mi.offset 0 - pos)) := by
        simpa using h2.symm
      subst hlast
      subst h1
      refine ⟨?_, rfl, rfl, rfl⟩
      intro c hcmem
      rcases List.eq_nil_or_concat calls with hnil | ⟨earlier0, last0, hcat⟩
      · rw [hnil] at hcmem
        cases hcmem
      · rw [List.concat_eq_append] at hcat
        obtain ⟨hall, _, _, hdone⟩ := hinv earlier0 last0 hcat
        rw [hcat] at hcmem
        rcases List.mem_append.1 hcmem with hmem | hmem
        · exact hall c hmem
        · have : c = last0 := by simpa using hmem
          rw [this, ← hdone, hd]
    · rw [if_neg hc] at hrun
      have h1 : x = ⟨result, pos, e⟩ := by
        have := congrArg (fun r => match r with
          | Ret.value v => some v.1
          | _ => none) hrun
        simpa using this.symm
      have h2 : calls1 = calls := by
        have := congrArg (fun r => match r with
          | Ret.value v => some v.2
          | _ => none) hrun
        simpa using this.symm
      intro earlier last heq
      rw [h2] at heq
      obtain ⟨ha, hb, hc2, _⟩ := hinv earlier last heq
      rw [h1]
      exact ⟨ha, hb, hc2⟩

/-- C23: in `g_regex_replace_eval`, a call of the callback that returns TRUE
is the last call: the loop makes the step to the next match and stops, for
every state of the loop and whatever the callback would answer later (first
part, which also says that two more iterations are enough for the loop to
return).  In a run that called the callback, every call but the last returned
FALSE; the buffer at the exit is the one the last call returned and the copy
position is the end of its match; so, when the step made after the last call
set no error, the result is that buffer followed by the rest of the subject
from the end of that match, and when it set an error the result is NULL with
that error. -/
theorem C23_callback_done (fuel : Nat) (U : GUnicode) (regex : GRegex) (string : List Nat)
    (string_len start_position : Int) (match_options : Nat) (eval : GRegexEvalCallback)
    (x : ReplaceExit) (earlier : List (GMatchInfo × List Nat)) (mk : GMatchInfo)
    (rk : List Nat) (hstart : 0 ≤ start_position)
    (hrun : replace_trace fuel U regex string string_len start_position match_options eval
      = Ret.value (x, earlier ++ [(mk, rk)])) :
    (∀ (n : Nat) (mi : GMatchInfo) (e : Option Int) (result : List Nat) (pos : Int)
      (calls : List (GMatchInfo × List Nat)), g_match_info_matches mi = true →
      (eval regex mi string (result ++ bytes_at string pos (mi.offset 0 - pos))).2 = true →
      replace_trace_loop U regex string eval (n + 2) mi e result pos false calls
        = Ret.value
            (⟨(eval regex mi string (result ++ bytes_at string pos (mi.offset 0 - pos))).1,
              mi.offset 1, (g_match_info_next U mi e).error⟩,
             calls ++ [(mi, result ++ bytes_at string pos (mi.offset 0 - pos))])) ∧
    (∀ c ∈ earlier, (eval regex c.1 string c.2).2 = false) ∧
    x.result = (eval regex mk string rk).1 ∧
    x.str_pos = mk.offset 1 ∧
    (x.tmp_error = none →
      g_regex_replace_eval fuel U regex string string_len start_position match_options eval
        = Ret.value ((eval regex mk string rk).1 ++
            bytes_at string (mk.offset 1)
              ((if string_len < 0 then strlen string else string_len) - mk.offset 1))) ∧
    (∀ code, x.tmp_error = some code →
      g_regex_replace_eval fuel U regex string string_len start_position match_options eval
        = Ret.match_error code) := by
  have hopts := (replace_trace_value _ _ _ _ _ _ _ _ _ hrun).2
  rw [replace_trace_checked _ _ _ _ _ _ _ _ hstart hopts] at hrun
  simp only at hrun
  obtain ⟨hall, hres, hpos⟩ := replace_trace_loop_calls U regex string eval fuel _ _ _ _ _ _ _ _
    hrun (by
      intro earlier0 last0 h
      exact absurd h (by simp)) earlier (mk, rk) rfl
  have hloop := replace_trace_loop_erase U regex string eval fuel
    (match_full_body U regex string (if string_len < 0 then strlen string else string_len)
      start_position match_options none).info
    (match_full_body U regex string (if string_len < 0 then strlen string else string_len)
      start_position match_options none).error [] 0 false []
  rw [hrun] at hloop
  simp only [Ret.map] at hloop
  refine ⟨?_, hall, hres, hpos, ?_, ?_⟩
  · intro n mi e result pos calls hm hdone
    exact replace_trace_loop_done U regex string eval n mi e result pos calls hm hdone
  · intro herr
    rw [g_regex_replace_eval_checked _ _ _ _ _ _ _ _ hopts, if_neg (by omega)]
    simp only [← hloop, herr, hres, hpos]
  · intro code herr
    rw [g_regex_replace_eval_checked _ _ _ _ _ _ _ _ hopts, if_neg (by omega)]
    simp only [← hloop, herr]

/-- C23, witness: the pattern `,` on "a,b,c" with a callback that appends "X"
and returns TRUE at once: the callback is called on the first comma only and
the result is "aXb,c". -/
theorem C23_callback_done_witness :
    ∃ r, g_regex_match_full glib_ascii (regex_of search_comma 0) [97, 44, 98, 44, 99] 5 0 0
        none = some r ∧
      g_regex_replace_eval 5 glib_ascii (regex_of search_comma 0) [97, 44, 98, 44, 99] 5 0 0
          (stop_after_first [88])
        = Ret.value ((stop_after_first [88] (regex_of search_comma 0) r.info
            [97, 44, 98, 44, 99] [97]).1 ++
            bytes_at [97, 44, 98, 44, 99] (r.info.offset 1)
              ((if (5 : Int) < 0 then strlen [97, 44, 98, 44, 99] else 5) -
                r.info.offset 1)) ∧
      g_regex_replace_eval 5 glib_ascii (regex_of search_comma 0) [97, 44, 98, 44, 99] 5 0 0
          (stop_after_first [88])
        = Ret.value [97, 88, 98, 44, 99] :=
  ⟨_, rfl,
   (C23_callback_done 5 glib_ascii (regex_of search_comma 0) [97, 44, 98, 44, 99] 5 0 0
      (stop_after_first [88]) ⟨[97, 88], 2, none⟩ []
      (match_full_body glib_ascii (regex_of search_comma 0) [97, 44, 98, 44, 99] 5 0 0
        none).info [97] (by decide) rfl).2.2.2.2.1 rfl,
   by decide⟩

/-! ## The escaping of strings that are not ASCII -/

theorem escape_bytewise_plain (l : List Nat) (h : ∀ b ∈ l, escape_special b = false) :
    escape_bytewise l = l := by
  induction l with
  | nil => rfl
  | cons c l ih =>
    have hc := escape_byte_plain c (h c (List.mem_cons_self _ _))
    have hcons : escape_bytewise (c :: l) = escape_byte c ++ escape_bytewise l := by
      simp [escape_bytewise]
    rw [hcons, hc, ih (fun b hb => h b (List.mem_cons_of_mem _ hb))]
    rfl

theorem escape_bytewise_append (a b : List Nat) :
    escape_bytewise (a ++ b) = escape_bytewise a ++ escape_bytewise b := by
  simp [escape_bytewise]

theorem escape_bytewise_cons (c : Nat) (l : List Nat) :
    escape_bytewise (c :: l) = escape_byte c ++ escape_bytewise l := by
  simp [escape_bytewise]

/-- The loop of `g_regex_escape_string` is over once `p` has reached the
end. -/
theorem escape_loop_stop (U : GUnicode) (string : List Nat) (end_ : Int) (fuel : Nat)
    (p piece_start : Int) (escaped : List Nat) (h : ¬ p < end_) :
    escape_loop U string end_ fuel p piece_start escaped = (piece_start, escaped) := by
  cases fuel with
  | zero => rfl
  | succ fuel => rw [escape_loop, if_neg h]

/-- The loop of `g_regex_escape_string` on a string that the scanner reads in
step: from a state that has escaped the part `a`, holds the pending piece
`piece` and is at the start of `rest`, the final buffer is the byte-wise
escaping. -/
theorem escape_loop_scan (U : GUnicode) (rest : List Nat) (hscan : ScanAligned U rest) :
    ∀ (a piece esc : List Nat) (fuel : Nat), rest.length + 1 ≤ fuel →
      (let s := a ++ piece ++ rest
       let r := escape_loop U s (s.length : Int) fuel
          ((a.length : Int) + (piece.length : Int)) (a.length : Int) esc
       (if r.1 < (s.length : Int) then r.2 ++ bytes_at s r.1 ((s.length : Int) - r.1) else r.2)
          = esc ++ piece ++ escape_bytewise rest) := by
  induction hscan with
  | nil =>
    intro a piece esc fuel hf
    obtain ⟨f, rfl⟩ : ∃ f, fuel = f + 1 := ⟨fuel - 1, by omega⟩
    have hlen : ((a ++ piece ++ ([] : List Nat)).length : Int)
        = (a.length : Int) + (piece.length : Int) := by simp
    simp only [escape_loop, hlen, lt_self_iff_false, if_false]
    by_cases hp : piece = []
    · subst hp
      simp [escape_bytewise]
    · have hpos : 0 < piece.length := List.length_pos.mpr hp
      have hlt : (a.length : Int) < (a.length : Int) + (piece.length : Int) := by omega
      rw [if_pos hlt, bytes_at_mid]
      simp [escape_bytewise]
  | special c rest hsp _ ih =>
    intro a piece esc fuel hf
    obtain ⟨f, rfl⟩ : ∃ f, fuel = f + 1 := ⟨fuel - 1, by omega⟩
    have hf' : rest.length + 1 ≤ f := by simp at hf; omega
    have hlen : ((a ++ piece ++ c :: rest).length : Int)
        = (a.length : Int) + (piece.length : Int) + (rest.length : Int) + 1 := by
      simp; omega
    have hbyte : byte_at (a ++ piece ++ c :: rest) ((a.length : Int) + (piece.length : Int))
        = c := by
      have := byte_at_append (a ++ piece) c rest
      simpa using this
    have hlt : (a.length : Int) + (piece.length : Int)
        < ((a ++ piece ++ c :: rest).length : Int) := by rw [hlen]; omega
    simp only [escape_loop, if_pos hlt, hbyte]
    simp only [hsp, if_true]
    have hflush : (if (a.length : Int) + (piece.length : Int) ≠ (a.length : Int)
          then esc ++ bytes_at (a ++ piece ++ c :: rest) (a.length : Int)
            ((a.length : Int) + (piece.length : Int) - (a.length : Int))
          else esc) = esc ++ piece := by
      by_cases hp : piece = []
      · subst hp; simp
      · have hpos : 0 < piece.length := List.length_pos.mpr hp
        have hne : (a.length : Int) + (piece.length : Int) ≠ (a.length : Int) := by omega
        rw [if_pos hne, bytes_at_mid]
    rw [hflush]
    have key := ih (a ++ piece ++ [c]) [] (if c = 0 then esc ++ piece ++ [92] ++ [48]
      else esc ++ piece ++ [92] ++ [c]) f hf'
    have e1 : a ++ piece ++ [c] ++ [] ++ rest = a ++ piece ++ c :: rest := by simp
    have e3 : ((a ++ piece ++ [c]).length : Int)
        = (a.length : Int) + (piece.length : Int) + 1 := by simp; omega
    simp only [e1, e3, List.length_nil, Nat.cast_zero, add_zero] at key
    rw [key]
    simp only [escape_bytewise, List.flatMap_cons, escape_byte_special c hsp]
    split_ifs <;> simp
  | plain c rest hpl htake _ ih =>
    intro a piece esc fuel hf
    obtain ⟨f, rfl⟩ : ∃ f, fuel = f + 1 := ⟨fuel - 1, by omega⟩
    have hk := U.skip_pos c
    have hlen : ((a ++ piece ++ c :: rest).length : Int)
        = (a.length : Int) + (piece.length : Int) + (rest.length : Int) + 1 := by
      simp; omega
    have hbyte : byte_at (a ++ piece ++ c :: rest) ((a.length : Int) + (piece.length : Int))
        = c := by
      have := byte_at_append (a ++ piece) c rest
      simpa using this
    have hlt : (a.length : Int) + (piece.length : Int)
        < ((a ++ piece ++ c :: rest).length : Int) := by rw [hlen]; omega
    simp only [escape_loop, if_pos hlt, hbyte]
    simp only [hpl, Bool.false_eq_true, if_false]
    have hnext : g_utf8_next_char U (a ++ piece ++ c :: rest)
        ((a.length : Int) + (piece.length : Int))
        = (a.length : Int) + (piece.length : Int) + (U.g_utf8_skip c : Int) := by
      unfold g_utf8_next_char
      rw [hbyte]
    rw [hnext]
    by_cases hin : U.g_utf8_skip c - 1 ≤ rest.length
    · have hf' : (rest.drop (U.g_utf8_skip c - 1)).length + 1 ≤ f := by
        simp at hf ⊢
        omega
      have key := ih a (piece ++ c :: rest.take (U.g_utf8_skip c - 1)) esc f hf'
      have e1 : a ++ (piece ++ c :: rest.take (U.g_utf8_skip c - 1))
            ++ rest.drop (U.g_utf8_skip c - 1) = a ++ piece ++ c :: rest := by
        simp [List.take_append_drop]
      have e2 : ((a.length : Int)
            + ((piece ++ c :: rest.take (U.g_utf8_skip c - 1)).length : Int))
          = (a.length : Int) + (piece.length : Int) + (U.g_utf8_skip c : Int) := by
        simp [List.length_take, Nat.min_eq_left hin]
        omega
      simp only [e1, e2] at key
      rw [key]
      have hsplit : escape_bytewise (c :: rest)
          = c :: rest.take (U.g_utf8_skip c - 1)
            ++ escape_bytewise (rest.drop (U.g_utf8_skip c - 1)) := by
        rw [escape_bytewise_cons, escape_byte_plain c hpl]
        conv_lhs => rw [← List.take_append_drop (U.g_utf8_skip c - 1) rest]
        rw [escape_bytewise_append, escape_bytewise_plain _ htake]
        rfl
      rw [hsplit]
      simp
    · have hall : ∀ b ∈ rest, escape_special b = false := by
        intro b hb
        apply htake b
        rw [List.take_of_length_le (by omega)]
        exact hb
      have hstop : ¬ ((a.length : Int) + (piece.length : Int) + (U.g_utf8_skip c : Int)
          < ((a ++ piece ++ c :: rest).length : Int)) := by
        rw [hlen]
        omega
      rw [escape_loop_stop U _ _ f _ _ _ hstop]
      simp only
      have hlt2 : (a.length : Int) < ((a ++ piece ++ c :: rest).length : Int) := by
        rw [hlen]
        omega
      rw [if_pos hlt2]
      have hmid := bytes_at_mid a (piece ++ c :: rest) []
      have e1 : a ++ (piece ++ c :: rest) ++ [] = a ++ piece ++ c :: rest := by simp
      have e2 : (a.length : Int) + ((piece ++ c :: rest).length : Int)
          = ((a ++ piece ++ c :: rest).length : Int) := by
        simp
      rw [e1, e2] at hmid
      rw [hmid, escape_bytewise_cons, escape_byte_plain c hpl, escape_bytewise_plain _ hall]
      simp

/-- On a string that the scanner reads in step, `g_regex_escape_string` is the
byte-wise escaping. -/
theorem escape_string_scan (U : GUnicode) (s : List Nat) (h : ScanAligned U s) :
    g_regex_escape_string U s (s.length : Int) = escape_bytewise s := by
  have key := escape_loop_scan U s h [] [] [] (s.length + 1) (le_refl _)
  simp only [List.nil_append, List.length_nil, Int.ofNat_zero, add_zero, Nat.cast_zero] at key
  unfold g_regex_escape_string
  have hneg : ¬ ((s.length : Int) < 0) := by omega
  simp only [hneg, if_false, Int.toNat_ofNat]
  exact key

/-- A string of bytes that are code points of one byte is read in step. -/
theorem scan_aligned_single (U : GUnicode) (s : List Nat)
    (h : ∀ b ∈ s, U.g_utf8_skip b = 1) : ScanAligned U s := by
  induction s with
  | nil => exact ScanAligned.nil
  | cons c s ih =>
    have ih1 := ih (fun b hb => h b (List.mem_cons_of_mem _ hb))
    by_cases hsp : escape_special c = true
    · exact ScanAligned.special c s hsp ih1
    · have hk := h c (List.mem_cons_self _ _)
      refine ScanAligned.plain c s (by simpa using hsp) ?_ ?_
      · rw [hk]
        intro b hb
        simp at hb
      · rw [hk]
        exact ih1

/-- C24, counterexample: the two bytes 0xC3 and `.` (not valid UTF-8).  The
scanner takes 0xC3 for the first byte of a character of two bytes and steps
over the dot, which is copied without a backslash. -/
theorem C24_counterexample :
    escape_special 46 = true ∧
    g_regex_escape_string glib_ascii [195, 46] 2 = [195, 46] ∧
    g_regex_escape_string glib_ascii [195, 46] 2 ≠ escape_bytewise [195, 46] := by
  decide

/-- C24, amended: for every byte string `s` with explicit length that the
scanner reads in step (no special byte lies among the bytes that the scanner
steps over after a byte that is not special: so it is for valid UTF-8 and for
bytes below 0x80), `g_regex_escape_string (s)` is the byte-wise escaping:
every special byte appears preceded by an added backslash (NUL as backslash
and `0`) and every other byte is copied unchanged, in order. -/
theorem C24_escape_string_in_step (U : GUnicode) (s : List Nat) (h : ScanAligned U s) :
    g_regex_escape_string U s (s.length : Int) = s.flatMap escape_byte ∧
    (∀ c, escape_special c = true → escape_byte c = if c = 0 then [92, 48] else [92, c]) ∧
    (∀ c, escape_special c = false → escape_byte c = [c]) :=
  ⟨escape_string_scan U s h, escape_byte_special, escape_byte_plain⟩

/-- C24, witness: the string "é." in UTF-8 (0xC3 0xA9 and the dot): the dot
is escaped and the two bytes of the letter are copied. -/
theorem C24_escape_string_in_step_witness :
    g_regex_escape_string glib_ascii [195, 169, 46] (([195, 169, 46] : List Nat).length : Int)
      = [195, 169, 46].flatMap escape_byte :=
  (C24_escape_string_in_step glib_ascii [195, 169, 46]
    (ScanAligned.plain 195 [169, 46] (by decide) (by decide)
      (ScanAligned.special 46 [] (by decide) ScanAligned.nil))).1

/-- The byte-wise escaping of a string that the scanner reads in step is read
in step as well, the digit `0` being a code point of one byte. -/
theorem scan_aligned_bytewise (U : GUnicode) (hskip : U.g_utf8_skip 48 = 1) (s : List Nat)
    (h : ScanAligned U s) : ScanAligned U (escape_bytewise s) := by
  induction h with
  | nil => exact ScanAligned.nil
  | special c rest hsp _ ih =>
    rw [escape_bytewise_cons, escape_byte_special c hsp]
    by_cases h0 : c = 0
    · rw [if_pos h0]
      refine ScanAligned.special 92 _ (by decide) (ScanAligned.plain 48 _ (by decide) ?_ ?_)
      · rw [hskip]
        intro b hb
        simp at hb
      · rw [hskip]
        exact ih
    · rw [if_neg h0]
      exact ScanAligned.special 92 _ (by decide) (ScanAligned.special c _ hsp ih)
  | plain c rest hpl htake _ ih =>
    have hsplit : escape_bytewise (c :: rest)
        = c :: (rest.take (U.g_utf8_skip c - 1)
          ++ escape_bytewise (rest.drop (U.g_utf8_skip c - 1))) := by
      rw [escape_bytewise_cons, escape_byte_plain c hpl]
      conv_lhs => rw [← List.take_append_drop (U.g_utf8_skip c - 1) rest]
      rw [escape_bytewise_append, escape_bytewise_plain _ htake]
      rfl
    rw [hsplit]
    by_cases hin : U.g_utf8_skip c - 1 ≤ rest.length
    · have hlen : (rest.take (U.g_utf8_skip c - 1)).length = U.g_utf8_skip c - 1 := by
        rw [List.length_take, Nat.min_eq_left hin]
      refine ScanAligned.plain c _ hpl ?_ ?_
      · rw [List.take_left' hlen]
        exact htake
      · rw [List.drop_left' hlen]
        exact ih
    · have htk : rest.take (U.g_utf8_skip c - 1) = rest :=
        List.take_of_length_le (by omega)
      have hdr : rest.drop (U.g_utf8_skip c - 1) = [] :=
        List.drop_of_length_le (by omega)
      rw [htk, hdr]
      rw [htk] at htake
      have hnil : escape_bytewise ([] : List Nat) = [] := rfl
      rw [hnil, List.append_nil]
      refine ScanAligned.plain c _ hpl ?_ ?_
      · rw [List.take_of_length_le (by omega)]
        exact htake
      · rw [List.drop_of_length_le (by omega)]
        exact ScanAligned.nil

theorem escape_bytewise_fixed (s : List Nat) :
    escape_bytewise s = s ↔ ∀ b ∈ s, escape_special b = false := by
  constructor
  · intro h
    have hlen := escape_bytewise_length s
    rw [h] at hlen
    have hz : s.countP escape_special = 0 := by omega
    intro b hb
    have := List.countP_eq_zero.1 hz b hb
    simpa using this
  · exact escape_bytewise_plain s

theorem escape_bytewise_backslash (s : List Nat) (b : Nat) (hb : b ∈ s)
    (hsp : escape_special b = true) : 92 ∈ escape_bytewise s := by
  induction s with
  | nil => cases hb
  | cons c s ih =>
    rw [escape_bytewise_cons]
    rcases List.mem_cons.1 hb with h | h
    · subst h
      rw [escape_byte_special b hsp]
      split_ifs <;> simp
    · exact List.mem_append_right _ (ih h)

/-- C25, counterexample: the two bytes 0xC3 and `.`.  The first pass copies
them, the second pass copies them again: the escaping of the escaped string is
not its byte-wise escaping, and it is the escaped string itself although the
string holds a special byte. -/
theorem C25_counterexample :
    escape_special 46 = true ∧
    g_regex_escape_string glib_ascii (g_regex_escape_string glib_ascii [195, 46] 2) 2
      ≠ escape_bytewise (g_regex_escape_string glib_ascii [195, 46] 2) ∧
    g_regex_escape_string glib_ascii (g_regex_escape_string glib_ascii [195, 46] 2) 2
      = g_regex_escape_string glib_ascii [195, 46] 2 := by
  decide

/-- C25, amended: for every byte string `s` that the scanner reads in step (so
for valid UTF-8 and for bytes below 0x80), `g_regex_escape_string` applied to
the escaped string is the byte-wise escaping of the escaped string: every
backslash that the first pass added, and the byte it guards when that byte is
special, gets one more backslash; and the second pass returns the escaped
string itself exactly when `s` holds no special byte.  The digit `0` is
assumed to be a code point of one byte. -/
theorem C25_escape_twice (U : GUnicode) (hskip : U.g_utf8_skip 48 = 1) (s : List Nat)
    (h : ScanAligned U s) :
    g_regex_escape_string U (g_regex_escape_string U s (s.length : Int))
        ((g_regex_escape_string U s (s.length : Int)).length : Int)
      = escape_bytewise (g_regex_escape_string U s (s.length : Int)) ∧
    g_regex_escape_string U s (s.length : Int) = escape_bytewise s ∧
    (g_regex_escape_string U (g_regex_escape_string U s (s.length : Int))
        ((g_regex_escape_string U s (s.length : Int)).length : Int)
      = g_regex_escape_string U s (s.length : Int)
      ↔ ∀ b ∈ s, escape_special b = false) := by
  have h1 := escape_string_scan U s h
  have h2 := escape_string_scan U (escape_bytewise s) (scan_aligned_bytewise U hskip s h)
  rw [h1, h2]
  refine ⟨rfl, rfl, ?_⟩
  constructor
  · intro hfix b hb
    have hplain := (escape_bytewise_fixed (escape_bytewise s)).1 hfix
    by_contra hsp
    have hsp1 : escape_special b = true := by simpa using hsp
    have := hplain 92 (escape_bytewise_backslash s b hb hsp1)
    exact absurd this (by decide)
  · intro hplain
    rw [escape_bytewise_plain s hplain, escape_bytewise_plain s hplain]

/-- C25, witness: the string "a." is escaped to `a\.` and then to `a\\\.`. -/
theorem C25_escape_twice_witness :
    g_regex_escape_string glib_ascii
        (g_regex_escape_string glib_ascii [97, 46] (([97, 46] : List Nat).length : Int))
        ((g_regex_escape_string glib_ascii [97, 46]
          (([97, 46] : List Nat).length : Int)).length : Int)
      = escape_bytewise
          (g_regex_escape_string glib_ascii [97, 46] (([97, 46] : List Nat).length : Int)) ∧
    escape_bytewise
        (g_regex_escape_string glib_ascii [97, 46] (([97, 46] : List Nat).length : Int))
      = [97, 92, 92, 92, 46] :=
  ⟨(C25_escape_twice glib_ascii (by decide) [97, 46]
      (scan_aligned_single glib_ascii [97, 46] (by decide))).1,
   by decide⟩

theorem update_last_sent_change_eq (priv : GFileMonitorPrivate) (file : Option GFile)
    (time_now : Nat) :
    update_last_sent_change priv file time_now
      = { priv with last_sent_change_file := file, last_sent_change_time := time_now } := by
  obtain ⟨c, r, lt, lf, sd, vt, vf⟩ := priv
  cases lf <;> cases file <;> simp [update_last_sent_change]
  rename_i a b
  by_cases h : a = b
  · simp [h]
  · simp [h]

theorem send_delayed_change_now_eq (priv : GFileMonitorPrivate) (time_now : Nat) :
    send_delayed_change_now priv time_now
      = if priv.send_delayed_change_timeout.isSome then
          ({ priv with send_delayed_change_timeout := none, last_sent_change_time := time_now },
            [⟨priv.last_sent_change_file, none, GFileMonitorEvent.G_FILE_MONITOR_EVENT_CHANGED⟩])
        else (priv, []) := rfl

/-- C28: for every state of the monitor and every event that is not
`Changed`, the events emitted by `g_file_monitor_emit_event` are, in order:
`Changed` of the last emitted file if and only if a delayed change was
pending; then a synthesized `ChangesDoneHint` of the held file if and only if
the event is not `ChangesDoneHint` and the timer of the virtual changes-done
event was pending; then the event itself, with its file, other file and kind,
last.  Afterwards no delayed-change timer, no virtual-done timer and no last
emitted file remain. -/
theorem C28_flush_before_other_event (priv : GFileMonitorPrivate) (time_now : Nat)
    (file : GFile) (other_file : Option GFile) (event_type : GFileMonitorEvent)
    (h : event_type ≠ GFileMonitorEvent.G_FILE_MONITOR_EVENT_CHANGED) :
    (g_file_monitor_emit_event priv time_now file other_file event_type).2
      = (if priv.send_delayed_change_timeout.isSome then
          [⟨priv.last_sent_change_file, none, GFileMonitorEvent.G_FILE_MONITOR_EVENT_CHANGED⟩]
         else [])
        ++ (if event_type ≠ GFileMonitorEvent.G_FILE_MONITOR_EVENT_CHANGES_DONE_HINT
              ∧ priv.virtual_changes_done_timeout.isSome then
          [⟨priv.virtual_changes_done_file, none,
            GFileMonitorEvent.G_FILE_MONITOR_EVENT_CHANGES_DONE_HINT⟩]
         else [])
        ++ [⟨some file, other_file, event_type⟩] ∧
    (g_file_monitor_emit_event priv time_now file other_file event_type).1.send_delayed_change_timeout
      = none ∧
    (g_file_monitor_emit_event priv time_now file other_file event_type).1.virtual_changes_done_timeout
      = none ∧
    (g_file_monitor_emit_event priv time_now file other_file event_type).1.last_sent_change_file
      = none := by
  obtain ⟨c, r, lt, lf, sd, vt, vf⟩ := priv
  unfold g_file_monitor_emit_event
  rw [if_pos h]
  simp only [update_last_sent_change_eq]
  by_cases hd : event_type = GFileMonitorEvent.G_FILE_MONITOR_EVENT_CHANGES_DONE_HINT
  · cases sd <;> cases vt <;>
      simp [hd, send_delayed_change_now, cancel_virtual_changes_done]
  · cases sd <;> cases vt <;>
      simp [hd, send_delayed_change_now, send_virtual_changes_done_now]

/-- C28, witness: a delayed change of the file 7 and its virtual changes-done
event are pending when the file 8 is deleted: `Changed (7)`, `ChangesDoneHint
(7)` and `Deleted (8)` are emitted in this order. -/
theorem C28_flush_before_other_event_witness :
    (g_file_monitor_emit_event
        ⟨false, 800, 0, some 7, some 800, some 2100, some 7⟩ 200 8 none
        GFileMonitorEvent.G_FILE_MONITOR_EVENT_DELETED).2
      = [⟨some 7, none, GFileMonitorEvent.G_FILE_MONITOR_EVENT_CHANGED⟩,
         ⟨some 7, none, GFileMonitorEvent.G_FILE_MONITOR_EVENT_CHANGES_DONE_HINT⟩,
         ⟨some 8, none, GFileMonitorEvent.G_FILE_MONITOR_EVENT_DELETED⟩] :=
  (C28_flush_before_other_event ⟨false, 800, 0, some 7, some 800, some 2100, some 7⟩ 200 8 none
    GFileMonitorEvent.G_FILE_MONITOR_EVENT_DELETED (by decide)).1

theorem emit_event_cancelled (priv : GFileMonitorPrivate) (time_now : Nat) (file : GFile)
    (other_file : Option GFile) (event_type : GFileMonitorEvent) :
    (g_file_monitor_emit_event priv time_now file other_file event_type).1.cancelled
      = priv.cancelled := by
  obtain ⟨c, r, lt, lf, sd, vt, vf⟩ := priv
  unfold g_file_monitor_emit_event
  simp only [update_last_sent_change_eq, send_delayed_change_now, send_virtual_changes_done_now,
    cancel_virtual_changes_done, cancel_delayed_change, schedule_delayed_change,
    schedule_virtual_change_done]
  split_ifs <;> rfl

theorem monitor_step_cancelled (klass_cancel : GFileMonitorPrivate → Bool)
    (priv : GFileMonitorPrivate) (time_now : Nat) (input : MonitorInput)
    (h : priv.cancelled = true) :
    (monitor_step klass_cancel priv time_now input).1.cancelled = true := by
  cases input with
  | emit_event file other_file event_type =>
    simp only [monitor_step, emit_event_cancelled, h]
  | delayed_change_expiry =>
    simp only [monitor_step, delayed_changed_event_timeout, send_delayed_change_now]
    split_ifs <;> exact h
  | virtual_changes_done_expiry =>
    simp only [monitor_step, virtual_changes_done_timeout, send_virtual_changes_done_now]
    split_ifs <;> exact h
  | set_rate_limit limit_msecs => exact h
  | cancel =>
    simp only [monitor_step, g_file_monitor_cancel, h, if_true]

theorem hook_calls_run_cancelled (klass_cancel : GFileMonitorPrivate → Bool)
    (inputs : List (Nat × MonitorInput)) :
    ∀ priv : GFileMonitorPrivate, priv.cancelled = true →
      hook_calls_run klass_cancel priv inputs = 0 := by
  induction inputs with
  | nil => intro priv _; rfl
  | cons x rest ih =>
    intro priv h
    obtain ⟨t, input⟩ := x
    have hrest := ih _ (monitor_step_cancelled klass_cancel priv t input h)
    simp only [hook_calls_run, hrest, add_zero]
    cases input <;> simp [g_file_monitor_cancel, h]

theorem hook_calls_run_le (klass_cancel : GFileMonitorPrivate → Bool)
    (inputs : List (Nat × MonitorInput)) :
    ∀ priv : GFileMonitorPrivate, hook_calls_run klass_cancel priv inputs ≤ 1 := by
  induction inputs with
  | nil => intro priv; simp [hook_calls_run]
  | cons x rest ih =>
    intro priv
    obtain ⟨t, input⟩ := x
    by_cases hc : priv.cancelled = true
    · rw [hook_calls_run_cancelled klass_cancel _ priv hc]
      omega
    · have hc' : priv.cancelled = false := by simpa using hc
      cases input with
      | cancel =>
        have hafter : (monitor_step klass_cancel priv t MonitorInput.cancel).1.cancelled = true := by
          simp [monitor_step, g_file_monitor_cancel, hc']
        simp only [hook_calls_run, hook_calls_run_cancelled klass_cancel rest _ hafter]
        simp [g_file_monitor_cancel, hc']
      | emit_event file other_file event_type =>
        simp only [hook_calls_run, zero_add]
        exact ih _
      | delayed_change_expiry =>
        simp only [hook_calls_run, zero_add]
        exact ih _
      | virtual_changes_done_expiry =>
        simp only [hook_calls_run, zero_add]
        exact ih _
      | set_rate_limit limit_msecs =>
        simp only [hook_calls_run, zero_add]
        exact ih _

/-- C30: `g_file_monitor_cancel` is idempotent.  On a monitor that is already
cancelled it returns TRUE, leaves every field of the private data unchanged and
does not call the hook `klass->cancel`; over any run of inputs, whatever the
number of calls of `g_file_monitor_cancel` in it, the hook is called at most
once; after any call of `g_file_monitor_cancel`, `g_file_monitor_is_cancelled`
returns TRUE. -/
theorem C30_cancel_idempotent (klass_cancel : GFileMonitorPrivate → Bool) :
    (∀ priv : GFileMonitorPrivate, g_file_monitor_is_cancelled priv = true →
      g_file_monitor_cancel klass_cancel priv = ⟨priv, true, 0⟩) ∧
    (∀ priv : GFileMonitorPrivate,
      g_file_monitor_cancel klass_cancel (g_file_monitor_cancel klass_cancel priv).priv
        = ⟨(g_file_monitor_cancel klass_cancel priv).priv, true, 0⟩) ∧
    (∀ (priv : GFileMonitorPrivate) (inputs : List (Nat × MonitorInput)),
      hook_calls_run klass_cancel priv inputs ≤ 1) ∧
    (∀ priv : GFileMonitorPrivate,
      g_file_monitor_is_cancelled (g_file_monitor_cancel klass_cancel priv).priv = true) := by
  have hset : ∀ priv : GFileMonitorPrivate,
      (g_file_monitor_cancel klass_cancel priv).priv.cancelled = true := by
    intro priv
    unfold g_file_monitor_cancel
    split_ifs with h
    · exact h
    · rfl
  have hidem : ∀ priv : GFileMonitorPrivate, priv.cancelled = true →
      g_file_monitor_cancel klass_cancel priv = ⟨priv, true, 0⟩ := by
    intro priv h
    unfold g_file_monitor_cancel
    rw [if_pos h]
  exact ⟨hidem, fun priv => hidem _ (hset priv),
    fun priv inputs => hook_calls_run_le klass_cancel inputs priv, hset⟩

/-- C30, witness: the monitor after `g_file_monitor_init` is cancelled three
times, with an event between the calls: the hook is called once, and the second
call changes nothing. -/
theorem C30_cancel_idempotent_witness :
    hook_calls_run (fun _ => true) g_file_monitor_init
        [(0, MonitorInput.cancel),
         (5, MonitorInput.emit_event 7 none GFileMonitorEvent.G_FILE_MONITOR_EVENT_CHANGED),
         (10, MonitorInput.cancel), (20, MonitorInput.cancel)] = 1 ∧
    g_file_monitor_cancel (fun _ => true)
        (g_file_monitor_cancel (fun _ => true) g_file_monitor_init).priv
      = ⟨(g_file_monitor_cancel (fun _ => true) g_file_monitor_init).priv, true, 0⟩ :=
  ⟨by decide, (C30_cancel_idempotent (fun _ => true)).2.1 g_file_monitor_init⟩

/-- C29, counterexample: the file 7 changes at the times 0 and 100, so that a
delayed change and a virtual changes-done event are pending, and the monitor
is cancelled at the time 200.  Both timers are still pending after the cancel;
the expiry of the delayed change at the time 800 emits `Changed (7)`, the
expiry of the other timer at 2100 emits `ChangesDoneHint (7)`, and a call of
`g_file_monitor_emit_event` at the time 300 emits three events. -/
theorem C29_counterexample :
    (monitor_run (fun _ => true) g_file_monitor_init
        [(0, MonitorInput.emit_event 7 none GFileMonitorEvent.G_FILE_MONITOR_EVENT_CHANGED),
         (100, MonitorInput.emit_event 7 none GFileMonitorEvent.G_FILE_MONITOR_EVENT_CHANGED),
         (200, MonitorInput.cancel)]).1
      = ⟨true, 800, 0, some 7, some 800, some 2100, some 7⟩ ∧
    (monitor_run (fun _ => true) ⟨true, 800, 0, some 7, some 800, some 2100, some 7⟩
        [(800, MonitorInput.delayed_change_expiry),
         (2100, MonitorInput.virtual_changes_done_expiry)]).2
      = [(800, ⟨some 7, none, GFileMonitorEvent.G_FILE_MONITOR_EVENT_CHANGED⟩),
         (2100, ⟨some 7, none, GFileMonitorEvent.G_FILE_MONITOR_EVENT_CHANGES_DONE_HINT⟩)] ∧
    (g_file_monitor_emit_event ⟨true, 800, 0, some 7, some 800, some 2100, some 7⟩ 300 8 none
        GFileMonitorEvent.G_FILE_MONITOR_EVENT_DELETED).2
      = [⟨some 7, none, GFileMonitorEvent.G_FILE_MONITOR_EVENT_CHANGED⟩,
         ⟨some 7, none, GFileMonitorEvent.G_FILE_MONITOR_EVENT_CHANGES_DONE_HINT⟩,
         ⟨some 8, none, GFileMonitorEvent.G_FILE_MONITOR_EVENT_DELETED⟩] := by
  decide

theorem emit_event_flag (priv : GFileMonitorPrivate) (flag : Bool) (time_now : Nat)
    (file : GFile) (other_file : Option GFile) (event_type : GFileMonitorEvent) :
    g_file_monitor_emit_event { priv with cancelled := flag } time_now file other_file event_type
      = ({ (g_file_monitor_emit_event priv time_now file other_file event_type).1 with
            cancelled := flag },
          (g_file_monitor_emit_event priv time_now file other_file event_type).2) := by
  obtain ⟨c, r, lt, lf, sd, vt, vf⟩ := priv
  unfold g_file_monitor_emit_event
  simp only [update_last_sent_change_eq, send_delayed_change_now, send_virtual_changes_done_now,
    cancel_virtual_changes_done, cancel_delayed_change, schedule_delayed_change,
    schedule_virtual_change_done]
  split_ifs <;> rfl

/-- C29, amended: after `g_file_monitor_cancel` has returned,
`g_file_monitor_is_cancelled` returns TRUE; the call itself emits nothing and
changes no field of the private data but the flag, so that the timers pending
at the time of the cancel remain pending.  The coalescer does not consult the
flag: a later call of `g_file_monitor_emit_event`, and the expiry of a
delayed-change or virtual-done timer that was pending, emit the events that
they emit on the same monitor not cancelled. -/
theorem C29_cancel_sets_flag_only (klass_cancel : GFileMonitorPrivate → Bool)
    (priv : GFileMonitorPrivate) :
    g_file_monitor_is_cancelled (g_file_monitor_cancel klass_cancel priv).priv = true ∧
    (∀ t, (monitor_step klass_cancel priv t MonitorInput.cancel).2 = []) ∧
    (g_file_monitor_cancel klass_cancel priv).priv = { priv with cancelled := true } ∧
    (∀ time_now file other_file event_type,
      g_file_monitor_emit_event (g_file_monitor_cancel klass_cancel priv).priv
          time_now file other_file event_type
        = ({ (g_file_monitor_emit_event priv time_now file other_file event_type).1 with
              cancelled := true },
            (g_file_monitor_emit_event priv time_now file other_file event_type).2)) ∧
    (∀ time_now,
      (delayed_changed_event_timeout (g_file_monitor_cancel klass_cancel priv).priv time_now).2
        = (delayed_changed_event_timeout priv time_now).2) ∧
    (virtual_changes_done_timeout (g_file_monitor_cancel klass_cancel priv).priv).2
      = (virtual_changes_done_timeout priv).2 := by
  have hpriv : (g_file_monitor_cancel klass_cancel priv).priv = { priv with cancelled := true } := by
    unfold g_file_monitor_cancel
    split_ifs with h
    · obtain ⟨c, r, lt, lf, sd, vt, vf⟩ := priv
      simp only at h
      subst h
      rfl
    · rfl
  refine ⟨?_, fun t => rfl, hpriv, ?_, ?_, ?_⟩
  · rw [hpriv]
    rfl
  · intro time_now file other_file event_type
    rw [hpriv]
    exact emit_event_flag priv true time_now file other_file event_type
  · intro time_now
    rw [hpriv]
    simp only [delayed_changed_event_timeout, send_delayed_change_now]
    split_ifs <;> rfl
  · rw [hpriv]
    simp only [virtual_changes_done_timeout, send_virtual_changes_done_now]
    split_ifs <;> rfl

theorem quiet_step (klass_cancel : GFileMonitorPrivate → Bool) (priv : GFileMonitorPrivate)
    (t : Nat) (input : MonitorInput) (h : quiet_input input = true) :
    (monitor_step klass_cancel priv t input).1.virtual_changes_done_timeout
      = priv.virtual_changes_done_timeout ∧
    (monitor_step klass_cancel priv t input).1.virtual_changes_done_file
      = priv.virtual_changes_done_file ∧
    ∀ e ∈ (monitor_step klass_cancel priv t input).2,
      e.event_type ≠ GFileMonitorEvent.G_FILE_MONITOR_EVENT_CHANGES_DONE_HINT := by
  cases input with
  | emit_event file other_file event_type => simp [quiet_input] at h
  | virtual_changes_done_expiry => simp [quiet_input] at h
  | delayed_change_expiry =>
    simp only [monitor_step, delayed_changed_event_timeout, send_delayed_change_now]
    split_ifs
    · refine ⟨rfl, rfl, ?_⟩
      intro e he
      simp only [List.mem_singleton] at he
      subst he
      simp
    · refine ⟨rfl, rfl, ?_⟩
      intro e he
      cases he
  | set_rate_limit limit_msecs =>
    refine ⟨rfl, rfl, ?_⟩
    intro e he
    cases he
  | cancel =>
    simp only [monitor_step, g_file_monitor_cancel]
    split_ifs
    · refine ⟨rfl, rfl, ?_⟩
      intro e he
      cases he
    · refine ⟨rfl, rfl, ?_⟩
      intro e he
      cases he

theorem quiet_run (klass_cancel : GFileMonitorPrivate → Bool)
    (inputs : List (Nat × MonitorInput)) :
    ∀ priv : GFileMonitorPrivate, inputs.all (fun x => quiet_input x.2) = true →
      (monitor_run klass_cancel priv inputs).1.virtual_changes_done_timeout
        = priv.virtual_changes_done_timeout ∧
      (monitor_run klass_cancel priv inputs).1.virtual_changes_done_file
        = priv.virtual_changes_done_file ∧
      ∀ e ∈ (monitor_run klass_cancel priv inputs).2,
        e.2.event_type ≠ GFileMonitorEvent.G_FILE_MONITOR_EVENT_CHANGES_DONE_HINT := by
  induction inputs with
  | nil =>
    intro priv _
    refine ⟨rfl, rfl, ?_⟩
    intro e he
    cases he
  | cons x rest ih =>
    intro priv h
    obtain ⟨t, input⟩ := x
    simp only [List.all_cons, Bool.and_eq_true] at h
    obtain ⟨hstep1, hstep2, hstep3⟩ := quiet_step klass_cancel priv t input h.1
    obtain ⟨hrun1, hrun2, hrun3⟩ := ih (monitor_step klass_cancel priv t input).1 h.2
    simp only [monitor_run]
    refine ⟨hrun1.trans hstep1, hrun2.trans hstep2, ?_⟩
    intro e he
    rcases List.mem_append.1 he with h1 | h1
    · obtain ⟨e0, he0, rfl⟩ := List.mem_map.1 h1
      exact hstep3 e0 he0
    · exact hrun3 e h1

theorem emit_changed_arms_done (priv : GFileMonitorPrivate) (time_now : Nat) (file : GFile)
    (other_file : Option GFile) :
    (g_file_monitor_emit_event priv time_now file other_file
        GFileMonitorEvent.G_FILE_MONITOR_EVENT_CHANGED).1.virtual_changes_done_timeout
      = some (time_now + 2000) ∧
    (g_file_monitor_emit_event priv time_now file other_file
        GFileMonitorEvent.G_FILE_MONITOR_EVENT_CHANGED).1.virtual_changes_done_file
      = some file ∧
    ∀ e ∈ (g_file_monitor_emit_event priv time_now file other_file
        GFileMonitorEvent.G_FILE_MONITOR_EVENT_CHANGED).2,
      e.event_type ≠ GFileMonitorEvent.G_FILE_MONITOR_EVENT_CHANGES_DONE_HINT := by
  have hc : ¬ (GFileMonitorEvent.G_FILE_MONITOR_EVENT_CHANGED
      ≠ GFileMonitorEvent.G_FILE_MONITOR_EVENT_CHANGED) := fun h => h rfl
  unfold g_file_monitor_emit_event
  rw [if_neg hc]
  refine ⟨rfl, rfl, ?_⟩
  intro e he
  simp only [] at he
  split_ifs at he
  all_goals first
    | (simp at he; done)
    | (simp only [List.mem_singleton] at he; subst he; simp)

/-- C27, counterexample: the file 7 changes at the time 0 and no other change
follows; the file 8 is deleted at the time 500.  The synthesized
`ChangesDoneHint (7)` is emitted at the time 500, before 0 + 2000, and no
`ChangesDoneHint` has arrived from the monitor. -/
theorem C27_counterexample :
    (monitor_run (fun _ => true) g_file_monitor_init
        [(0, MonitorInput.emit_event 7 none GFileMonitorEvent.G_FILE_MONITOR_EVENT_CHANGED),
         (500, MonitorInput.emit_event 8 none GFileMonitorEvent.G_FILE_MONITOR_EVENT_DELETED)]).2
      = [(0, ⟨some 7, none, GFileMonitorEvent.G_FILE_MONITOR_EVENT_CHANGED⟩),
         (500, ⟨some 7, none, GFileMonitorEvent.G_FILE_MONITOR_EVENT_CHANGES_DONE_HINT⟩),
         (500, ⟨some 8, none, GFileMonitorEvent.G_FILE_MONITOR_EVENT_DELETED⟩)] := by
  decide

/-- C27, amended: a `Changed` event of the file `file` that arrives at the
time `T`, rate-limited or not, emits no `ChangesDoneHint` and leaves the timer
of the virtual changes-done event due at `T + 2000` ms for that file.  As long
as no further event arrives from the monitor (the inputs are expiries of the
delayed change, changes of the rate limit and cancels), no `ChangesDoneHint`
is emitted and the timer stays due at `T + 2000`: it cannot expire before
`T + 2000`, and its expiry emits the synthesized `ChangesDoneHint (file)`,
alone, and clears the timer.  A `ChangesDoneHint` that arrives from the
monitor first is the only `ChangesDoneHint` that its call emits, and it clears
the timer; any other event that is not `Changed` and arrives first makes the
synthesized `ChangesDoneHint (file)` be emitted at once, before `T + 2000`. -/
theorem C27_virtual_done_deadline (klass_cancel : GFileMonitorPrivate → Bool)
    (priv : GFileMonitorPrivate) (T : Nat) (file : GFile) (other_file : Option GFile)
    (inputs : List (Nat × MonitorInput))
    (hquiet : inputs.all (fun x => quiet_input x.2) = true) :
    (∀ e ∈ (g_file_monitor_emit_event priv T file other_file
        GFileMonitorEvent.G_FILE_MONITOR_EVENT_CHANGED).2,
      e.event_type ≠ GFileMonitorEvent.G_FILE_MONITOR_EVENT_CHANGES_DONE_HINT) ∧
    (∀ e ∈ (monitor_run klass_cancel (g_file_monitor_emit_event priv T file other_file
        GFileMonitorEvent.G_FILE_MONITOR_EVENT_CHANGED).1 inputs).2,
      e.2.event_type ≠ GFileMonitorEvent.G_FILE_MONITOR_EVENT_CHANGES_DONE_HINT) ∧
    (monitor_run klass_cancel (g_file_monitor_emit_event priv T file other_file
        GFileMonitorEvent.G_FILE_MONITOR_EVENT_CHANGED).1 inputs).1.virtual_changes_done_timeout
      = some (T + 2000) ∧
    (∀ t, input_due (monitor_run klass_cancel (g_file_monitor_emit_event priv T file other_file
        GFileMonitorEvent.G_FILE_MONITOR_EVENT_CHANGED).1 inputs).1 t
          MonitorInput.virtual_changes_done_expiry = decide (T + 2000 ≤ t)) ∧
    virtual_changes_done_timeout (monitor_run klass_cancel
        (g_file_monitor_emit_event priv T file other_file
          GFileMonitorEvent.G_FILE_MONITOR_EVENT_CHANGED).1 inputs).1
      = ({ (monitor_run klass_cancel (g_file_monitor_emit_event priv T file other_file
              GFileMonitorEvent.G_FILE_MONITOR_EVENT_CHANGED).1 inputs).1 with
            virtual_changes_done_timeout := none, virtual_changes_done_file := none },
          [⟨some file, none, GFileMonitorEvent.G_FILE_MONITOR_EVENT_CHANGES_DONE_HINT⟩]) ∧
    (∀ t f o,
      (g_file_monitor_emit_event (monitor_run klass_cancel
          (g_file_monitor_emit_event priv T file other_file
            GFileMonitorEvent.G_FILE_MONITOR_EVENT_CHANGED).1 inputs).1 t f o
          GFileMonitorEvent.G_FILE_MONITOR_EVENT_CHANGES_DONE_HINT).2.filter
          (fun e => e.event_type = GFileMonitorEvent.G_FILE_MONITOR_EVENT_CHANGES_DONE_HINT)
        = [⟨some f, o, GFileMonitorEvent.G_FILE_MONITOR_EVENT_CHANGES_DONE_HINT⟩] ∧
      (g_file_monitor_emit_event (monitor_run klass_cancel
          (g_file_monitor_emit_event priv T file other_file
            GFileMonitorEvent.G_FILE_MONITOR_EVENT_CHANGED).1 inputs).1 t f o
          GFileMonitorEvent.G_FILE_MONITOR_EVENT_CHANGES_DONE_HINT).1.virtual_changes_done_timeout
        = none) ∧
    (∀ t f o event_type,
      event_type ≠ GFileMonitorEvent.G_FILE_MONITOR_EVENT_CHANGED →
      event_type ≠ GFileMonitorEvent.G_FILE_MONITOR_EVENT_CHANGES_DONE_HINT →
      (g_file_monitor_emit_event (monitor_run klass_cancel
          (g_file_monitor_emit_event priv T file other_file
            GFileMonitorEvent.G_FILE_MONITOR_EVENT_CHANGED).1 inputs).1 t f o event_type).2.filter
          (fun e => e.event_type = GFileMonitorEvent.G_FILE_MONITOR_EVENT_CHANGES_DONE_HINT)
        = [⟨some file, none, GFileMonitorEvent.G_FILE_MONITOR_EVENT_CHANGES_DONE_HINT⟩]) := by
  obtain ⟨harm1, harm2, harm3⟩ := emit_changed_arms_done priv T file other_file
  obtain ⟨hrun1, hrun2, hrun3⟩ := quiet_run klass_cancel inputs
    (g_file_monitor_emit_event priv T file other_file
      GFileMonitorEvent.G_FILE_MONITOR_EVENT_CHANGED).1 hquiet
  rw [harm1] at hrun1
  rw [harm2] at hrun2
  generalize (monitor_run klass_cancel (g_file_monitor_emit_event priv T file other_file
      GFileMonitorEvent.G_FILE_MONITOR_EVENT_CHANGED).1 inputs).1 = q at hrun1 hrun2
  refine ⟨harm3, hrun3, hrun1, ?_, ?_, ?_, ?_⟩
  · intro t
    simp only [input_due, hrun1]
  · simp only [virtual_changes_done_timeout, send_virtual_changes_done_now, hrun1, hrun2,
      Option.isSome_some, if_true]
  · intro t f o
    have h28 : GFileMonitorEvent.G_FILE_MONITOR_EVENT_CHANGES_DONE_HINT
        ≠ GFileMonitorEvent.G_FILE_MONITOR_EVENT_CHANGED := by decide
    obtain ⟨c, r, lt, lf, sd, vt, vf⟩ := q
    simp only at hrun1 hrun2
    subst hrun1 hrun2
    unfold g_file_monitor_emit_event
    rw [if_pos h28]
    simp only [update_last_sent_change_eq]
    cases sd <;>
      simp [send_delayed_change_now, cancel_virtual_changes_done]
  · intro t f o event_type hc hd
    obtain ⟨c, r, lt, lf, sd, vt, vf⟩ := q
    simp only at hrun1 hrun2
    subst hrun1 hrun2
    unfold g_file_monitor_emit_event
    rw [if_pos hc]
    simp only [update_last_sent_change_eq]
    cases sd <;>
      simp [hd, send_delayed_change_now, send_virtual_changes_done_now, List.filter_cons]

/-- C27, witness: the file 7 has changed at the time 0 and changes again at
the time 400, rate-limited; the delayed change expires at 800 and the monitor
is cancelled at 900.  The timer of the virtual changes-done event is due at
2400. -/
theorem C27_virtual_done_deadline_witness :
    ([(800, MonitorInput.delayed_change_expiry), (900, MonitorInput.cancel)].all
        (fun x => quiet_input x.2) = true) ∧
    (monitor_run (fun _ => true)
        (g_file_monitor_emit_event ⟨false, 800, 0, some 7, none, some 2000, some 7⟩ 400 7 none
          GFileMonitorEvent.G_FILE_MONITOR_EVENT_CHANGED).1
        [(800, MonitorInput.delayed_change_expiry),
         (900, MonitorInput.cancel)]).1.virtual_changes_done_timeout
      = some (400 + 2000) :=
  ⟨by decide,
   (C27_virtual_done_deadline (fun _ => true) ⟨false, 800, 0, some 7, none, some 2000, some 7⟩
      400 7 none [(800, MonitorInput.delayed_change_expiry), (900, MonitorInput.cancel)]
      (by decide)).2.2.1⟩

theorem to_guint32_natCast (n : Nat) (h : n < 4294967296) : to_guint32 (n : Int) = n := by
  unfold to_guint32
  rw [Int.emod_eq_of_lt (by omega) (by omega)]
  simp

theorem changed_times_append (a b : List (Nat × Emission)) :
    changed_times (a ++ b) = changed_times a ++ changed_times b := by
  simp [changed_times]

theorem emit_changed_now_eq (priv : GFileMonitorPrivate) (time_now : Nat) (file : GFile)
    (other_file : Option GFile)
    (h : ¬ (priv.last_sent_change_file.isSome = true ∧
      time_difference priv.last_sent_change_time time_now < to_guint32 priv.rate_limit_msec)) :
    g_file_monitor_emit_event priv time_now file other_file
        GFileMonitorEvent.G_FILE_MONITOR_EVENT_CHANGED
      = ({ priv with
            last_sent_change_time := time_now
            last_sent_change_file := some file
            send_delayed_change_timeout := none
            virtual_changes_done_timeout := some (time_now + 2000)
            virtual_changes_done_file := some file },
          [⟨some file, other_file, GFileMonitorEvent.G_FILE_MONITOR_EVENT_CHANGED⟩]) := by
  have hc : ¬ (GFileMonitorEvent.G_FILE_MONITOR_EVENT_CHANGED
      ≠ GFileMonitorEvent.G_FILE_MONITOR_EVENT_CHANGED) := fun h => h rfl
  have hb : (!(priv.last_sent_change_file.isSome &&
      decide (time_difference priv.last_sent_change_time time_now
        < to_guint32 priv.rate_limit_msec))) = true := by
    cases hs : priv.last_sent_change_file.isSome
    · simp
    · have hge : ¬ (time_difference priv.last_sent_change_time time_now
          < to_guint32 priv.rate_limit_msec) := fun hlt => h ⟨hs, hlt⟩
      simp [hge]
  unfold g_file_monitor_emit_event
  rw [if_neg hc]
  simp only [hb, if_true, if_neg h, update_last_sent_change_eq]
  obtain ⟨c, r, lt, lf, sd, vt, vf⟩ := priv
  cases sd <;> cases vt <;>
    simp [cancel_delayed_change, cancel_virtual_changes_done, schedule_virtual_change_done,
      DEFAULT_VIRTUAL_CHANGES_DONE_DELAY_SECS]

theorem emit_changed_limited_eq (priv : GFileMonitorPrivate) (time_now : Nat) (file : GFile)
    (other_file : Option GFile)
    (h : priv.last_sent_change_file.isSome = true ∧
      time_difference priv.last_sent_change_time time_now < to_guint32 priv.rate_limit_msec) :
    g_file_monitor_emit_event priv time_now file other_file
        GFileMonitorEvent.G_FILE_MONITOR_EVENT_CHANGED
      = ({ priv with
            send_delayed_change_timeout :=
              match priv.send_delayed_change_timeout with
              | none => some (time_now + to_guint32 (priv.rate_limit_msec
                  - (time_difference priv.last_sent_change_time time_now : Nat)))
              | some d => some d
            virtual_changes_done_timeout := some (time_now + 2000)
            virtual_changes_done_file := some file },
          []) := by
  have hc : ¬ (GFileMonitorEvent.G_FILE_MONITOR_EVENT_CHANGED
      ≠ GFileMonitorEvent.G_FILE_MONITOR_EVENT_CHANGED) := fun h => h rfl
  have hb : (!(priv.last_sent_change_file.isSome &&
      decide (time_difference priv.last_sent_change_time time_now
        < to_guint32 priv.rate_limit_msec))) = false := by
    simp [h.1, h.2]
  unfold g_file_monitor_emit_event
  rw [if_neg hc]
  simp only [hb, if_pos h, Bool.false_eq_true, if_false]
  obtain ⟨c, r, lt, lf, sd, vt, vf⟩ := priv
  cases sd <;> cases vt <;>
    simp [schedule_delayed_change, cancel_virtual_changes_done, schedule_virtual_change_done,
      DEFAULT_VIRTUAL_CHANGES_DONE_DELAY_SECS]

/-- One step of a run that reports changes only, at the rate limit `R`: either
no `Changed` is emitted and the last change is what it was, or one `Changed`
is emitted at the time of the step, at least `R` after the last one. -/
theorem changed_step (klass_cancel : GFileMonitorPrivate → Bool) (R : Nat)
    (hR : R < 4294967296) (priv : GFileMonitorPrivate) (t0 t : Nat) (input : MonitorInput)
    (hrate : priv.rate_limit_msec = (R : Int))
    (hlast : priv.last_sent_change_time ≤ t0)
    (hdelay : ∀ d, priv.send_delayed_change_timeout = some d →
      priv.last_sent_change_file.isSome = true ∧ priv.last_sent_change_time + R ≤ d)
    (hkind : changed_or_timer input = true) (ht : t0 ≤ t)
    (hdue : input_due priv t input = true) :
    ((monitor_step klass_cancel priv t input).1.rate_limit_msec = (R : Int) ∧
      (monitor_step klass_cancel priv t input).1.last_sent_change_time ≤ t ∧
      ∀ d, (monitor_step klass_cancel priv t input).1.send_delayed_change_timeout = some d →
        (monitor_step klass_cancel priv t input).1.last_sent_change_file.isSome = true ∧
        (monitor_step klass_cancel priv t input).1.last_sent_change_time + R ≤ d) ∧
    ((changed_times ((monitor_step klass_cancel priv t input).2.map (fun e => (t, e))) = [] ∧
        (monitor_step klass_cancel priv t input).1.last_sent_change_file
          = priv.last_sent_change_file ∧
        (monitor_step klass_cancel priv t input).1.last_sent_change_time
          = priv.last_sent_change_time) ∨
      (changed_times ((monitor_step klass_cancel priv t input).2.map (fun e => (t, e))) = [t] ∧
        (monitor_step klass_cancel priv t input).1.last_sent_change_file.isSome = true ∧
        (monitor_step klass_cancel priv t input).1.last_sent_change_time = t ∧
        (priv.last_sent_change_file.isSome = true → priv.last_sent_change_time + R ≤ t))) := by
  have hRu : to_guint32 priv.rate_limit_msec = R := by
    rw [hrate]
    exact to_guint32_natCast R hR
  have hdiff : time_difference priv.last_sent_change_time t = t - priv.last_sent_change_time := by
    unfold time_difference
    rw [if_neg (by omega)]
  cases input with
  | set_rate_limit limit_msecs => simp [changed_or_timer] at hkind
  | cancel =>
    have hs : (monitor_step klass_cancel priv t MonitorInput.cancel).1
        = { priv with cancelled := true } := by
      simp only [monitor_step, g_file_monitor_cancel]
      split_ifs with h
      · obtain ⟨c, r, lt, lf, sd, vt, vf⟩ := priv
        simp only at h
        subst h
        rfl
      · rfl
    have he : (monitor_step klass_cancel priv t MonitorInput.cancel).2 = [] := rfl
    rw [hs, he]
    exact ⟨⟨hrate, by simpa using (by omega : priv.last_sent_change_time ≤ t), hdelay⟩,
      Or.inl ⟨rfl, rfl, rfl⟩⟩
  | virtual_changes_done_expiry =>
    have hlt : priv.last_sent_change_time ≤ t := by omega
    by_cases hv : priv.virtual_changes_done_timeout.isSome = true
    · have hs : monitor_step klass_cancel priv t MonitorInput.virtual_changes_done_expiry
          = ({ priv with virtual_changes_done_timeout := none,
                         virtual_changes_done_file := none },
              [⟨priv.virtual_changes_done_file, none,
                GFileMonitorEvent.G_FILE_MONITOR_EVENT_CHANGES_DONE_HINT⟩]) := by
        simp only [monitor_step, virtual_changes_done_timeout, send_virtual_changes_done_now,
          hv, if_true]
      rw [hs]
      exact ⟨⟨hrate, hlt, hdelay⟩, Or.inl ⟨by simp [changed_times], rfl, rfl⟩⟩
    · have hs : monitor_step klass_cancel priv t MonitorInput.virtual_changes_done_expiry
          = (priv, []) := by
        simp only [monitor_step, virtual_changes_done_timeout, send_virtual_changes_done_now]
        rw [if_neg hv]
      rw [hs]
      exact ⟨⟨hrate, hlt, hdelay⟩, Or.inl ⟨rfl, rfl, rfl⟩⟩
  | delayed_change_expiry =>
    simp only [input_due] at hdue
    cases hd : priv.send_delayed_change_timeout with
    | none => simp [hd] at hdue
    | some d =>
      simp only [hd, decide_eq_true_eq] at hdue
      obtain ⟨hfile, hgap⟩ := hdelay d hd
      have hs : monitor_step klass_cancel priv t MonitorInput.delayed_change_expiry
          = ({ priv with send_delayed_change_timeout := none, last_sent_change_time := t },
              [⟨priv.last_sent_change_file, none,
                GFileMonitorEvent.G_FILE_MONITOR_EVENT_CHANGED⟩]) := by
        simp only [monitor_step, delayed_changed_event_timeout, send_delayed_change_now, hd,
          Option.isSome_some, if_true]
      rw [hs]
      refine ⟨⟨hrate, le_refl _, ?_⟩, Or.inr ⟨by simp [changed_times], hfile, rfl, ?_⟩⟩
      · intro d2 hd2
        simp at hd2
      · intro _
        omega
  | emit_event file other_file event_type =>
    simp only [changed_or_timer, decide_eq_true_eq] at hkind
    subst hkind
    simp only [monitor_step]
    by_cases hlim : priv.last_sent_change_file.isSome = true ∧
        time_difference priv.last_sent_change_time t < to_guint32 priv.rate_limit_msec
    · rw [emit_changed_limited_eq priv t file other_file hlim]
      rw [hRu, hdiff] at hlim
      refine ⟨⟨hrate, by simpa using (by omega : priv.last_sent_change_time ≤ t), ?_⟩,
        Or.inl ⟨rfl, rfl, rfl⟩⟩
      intro d2 hd2
      simp only at hd2
      cases hd : priv.send_delayed_change_timeout with
      | none =>
        rw [hd] at hd2
        simp only [Option.some.injEq] at hd2
        have hsub : to_guint32 (priv.rate_limit_msec
            - ((time_difference priv.last_sent_change_time t : Nat) : Int))
            = R - (t - priv.last_sent_change_time) := by
          rw [hrate, hdiff]
          have hcast : (R : Int) - ((t - priv.last_sent_change_time : Nat) : Int)
              = ((R - (t - priv.last_sent_change_time) : Nat) : Int) := by omega
          rw [hcast]
          exact to_guint32_natCast _ (by omega)
        rw [hsub] at hd2
        exact ⟨hlim.1, by simp only []; omega⟩
      | some d =>
        rw [hd] at hd2
        simp only [Option.some.injEq] at hd2
        subst hd2
        exact hdelay _ hd
    · rw [emit_changed_now_eq priv t file other_file hlim]
      rw [hRu, hdiff] at hlim
      refine ⟨⟨hrate, le_refl _, ?_⟩, Or.inr ⟨by simp [changed_times], rfl, rfl, ?_⟩⟩
      · intro d2 hd2
        simp at hd2
      · intro hsome
        have : ¬ (t - priv.last_sent_change_time < R) := fun h => hlim ⟨hsome, h⟩
        omega

theorem changed_gap_run (klass_cancel : GFileMonitorPrivate → Bool) (R : Nat)
    (hR : R < 4294967296) (inputs : List (Nat × MonitorInput)) :
    ∀ (priv : GFileMonitorPrivate) (t0 : Nat),
      priv.rate_limit_msec = (R : Int) →
      priv.last_sent_change_time ≤ t0 →
      (∀ d, priv.send_delayed_change_timeout = some d →
        priv.last_sent_change_file.isSome = true ∧ priv.last_sent_change_time + R ≤ d) →
      inputs.all (fun x => changed_or_timer x.2) = true →
      well_timed klass_cancel t0 priv inputs = true →
      List.Pairwise (fun a b => a + R ≤ b)
          (changed_times (monitor_run klass_cancel priv inputs).2) ∧
        ∀ e ∈ changed_times (monitor_run klass_cancel priv inputs).2,
          t0 ≤ e ∧ (priv.last_sent_change_file.isSome = true →
            priv.last_sent_change_time + R ≤ e) := by
  induction inputs with
  | nil =>
    intro priv t0 _ _ _ _ _
    simp [monitor_run, changed_times]
  | cons x rest ih =>
    intro priv t0 hrate hlast hdelay hkind htimed
    obtain ⟨t, input⟩ := x
    simp only [List.all_cons, Bool.and_eq_true] at hkind
    simp only [well_timed, Bool.and_eq_true, decide_eq_true_eq] at htimed
    obtain ⟨⟨ht, hdue⟩, hrest⟩ := htimed
    obtain ⟨⟨hrate2, hlast2, hdelay2⟩, hcase⟩ :=
      changed_step klass_cancel R hR priv t0 t input hrate hlast hdelay hkind.1 ht hdue
    obtain ⟨hpair, hall⟩ :=
      ih (monitor_step klass_cancel priv t input).1 t hrate2 hlast2 hdelay2 hkind.2 hrest
    simp only [monitor_run, changed_times_append]
    rcases hcase with ⟨hnone, hfile, htime⟩ | ⟨hone, hfile, htime, hgap⟩
    · rw [hnone, List.nil_append]
      refine ⟨hpair, ?_⟩
      intro e he
      obtain ⟨h1, h2⟩ := hall e he
      rw [hfile, htime] at h2
      exact ⟨le_trans ht h1, h2⟩
    · rw [hone]
      simp only [List.singleton_append, List.pairwise_cons, List.mem_cons]
      refine ⟨⟨?_, hpair⟩, ?_⟩
      · intro e he
        have := (hall e he).2 hfile
        rw [htime] at this
        exact this
      · intro e he
        rcases he with rfl | he
        · exact ⟨ht, hgap⟩
        · obtain ⟨h1, _⟩ := hall e he
          refine ⟨le_trans ht h1, ?_⟩
          intro hsome
          have := hgap hsome
          omega

theorem window_of_gap (times : List Nat) (len : Nat)
    (h : List.Pairwise (fun a b => a + len ≤ b) times) (w : Nat) :
    count_in_window times w len ≤ 1 := by
  unfold count_in_window
  have hfs : (times.filter (fun e => decide (w ≤ e) && decide (e < w + len))).Sublist times :=
    List.filter_sublist times
  have hsub := List.Pairwise.sublist hfs h
  cases hf : times.filter (fun e => decide (w ≤ e) && decide (e < w + len)) with
  | nil => simp
  | cons a l =>
    cases l with
    | nil => simp
    | cons b l2 =>
      exfalso
      rw [hf] at hsub
      have hab : a + len ≤ b := (List.pairwise_cons.1 hsub).1 b (List.mem_cons_self _ _)
      have ha : a ∈ times.filter (fun e => decide (w ≤ e) && decide (e < w + len)) := by
        rw [hf]
        exact List.mem_cons_self _ _
      have hb : b ∈ times.filter (fun e => decide (w ≤ e) && decide (e < w + len)) := by
        rw [hf]
        exact List.mem_cons_of_mem _ (List.mem_cons_self _ _)
      have ha2 := (List.mem_filter.1 ha).2
      have hb2 := (List.mem_filter.1 hb).2
      simp only [Bool.and_eq_true, decide_eq_true_eq] at ha2 hb2
      omega

/-- C26, counterexample: at the default rate limit of 800 ms the file 7
changes at the time 0, is deleted at the time 10 and changes again at the time
20.  The deletion clears the last emitted file, so that the second change is
emitted at once: the window of 800 ms that starts at 0 holds two `Changed`
events. -/
theorem C26_counterexample :
    well_timed (fun _ => true) 0 g_file_monitor_init
        [(0, MonitorInput.emit_event 7 none GFileMonitorEvent.G_FILE_MONITOR_EVENT_CHANGED),
         (10, MonitorInput.emit_event 7 none GFileMonitorEvent.G_FILE_MONITOR_EVENT_DELETED),
         (20, MonitorInput.emit_event 7 none GFileMonitorEvent.G_FILE_MONITOR_EVENT_CHANGED)]
      = true ∧
    changed_times (monitor_run (fun _ => true) g_file_monitor_init
        [(0, MonitorInput.emit_event 7 none GFileMonitorEvent.G_FILE_MONITOR_EVENT_CHANGED),
         (10, MonitorInput.emit_event 7 none GFileMonitorEvent.G_FILE_MONITOR_EVENT_DELETED),
         (20, MonitorInput.emit_event 7 none GFileMonitorEvent.G_FILE_MONITOR_EVENT_CHANGED)]).2
      = [0, 20] ∧
    count_in_window (changed_times (monitor_run (fun _ => true) g_file_monitor_init
        [(0, MonitorInput.emit_event 7 none GFileMonitorEvent.G_FILE_MONITOR_EVENT_CHANGED),
         (10, MonitorInput.emit_event 7 none GFileMonitorEvent.G_FILE_MONITOR_EVENT_DELETED),
         (20, MonitorInput.emit_event 7 none GFileMonitorEvent.G_FILE_MONITOR_EVENT_CHANGED)]).2)
      0 800 = 2 := by
  decide

/-- C26, amended: for every rate limit `R` from 0 to G_MAXINT, every sequence
of incoming `Changed` events and timer firings (and cancels), in the order of
time and with no timer firing before it is due, on a monitor set to the rate
limit `R` after its initialisation, and every time window of the length `R`:
the coalescer (`g_file_monitor_emit_event` together with its delayed-change
timer) emits at most one `Changed` event within that window; any two `Changed`
events emitted are at least `R` apart.  The clock is taken not to wrap during
the run. -/
theorem C26_changed_rate_limit (klass_cancel : GFileMonitorPrivate → Bool) (R : Nat)
    (hR : R ≤ 2147483647) (inputs : List (Nat × MonitorInput))
    (hkind : inputs.all (fun x => changed_or_timer x.2) = true)
    (htimed : well_timed klass_cancel 0
      (g_file_monitor_set_rate_limit g_file_monitor_init (R : Int)) inputs = true) :
    List.Pairwise (fun a b => a + R ≤ b)
        (changed_times (monitor_run klass_cancel
          (g_file_monitor_set_rate_limit g_file_monitor_init (R : Int)) inputs).2) ∧
    ∀ w, count_in_window
        (changed_times (monitor_run klass_cancel
          (g_file_monitor_set_rate_limit g_file_monitor_init (R : Int)) inputs).2) w R ≤ 1 := by
  have hgap := (changed_gap_run klass_cancel R (by omega) inputs
    (g_file_monitor_set_rate_limit g_file_monitor_init (R : Int)) 0 rfl (le_refl _)
    (by intro d hd; cases hd) hkind htimed).1
  exact ⟨hgap, fun w => window_of_gap _ R hgap w⟩

/-- C26, witness: the file 7 changes at the times 0, 100, 200, 300 and 400 at
the rate limit of 800 ms; the delayed change expires at 800 and the virtual
changes-done event at 2400.  `Changed` is emitted at 0 and at 800. -/
theorem C26_changed_rate_limit_witness :
    changed_times (monitor_run (fun _ => true)
        (g_file_monitor_set_rate_limit g_file_monitor_init ((800 : Nat) : Int))
        [(0, MonitorInput.emit_event 7 none GFileMonitorEvent.G_FILE_MONITOR_EVENT_CHANGED),
         (100, MonitorInput.emit_event 7 none GFileMonitorEvent.G_FILE_MONITOR_EVENT_CHANGED),
         (200, MonitorInput.emit_event 7 none GFileMonitorEvent.G_FILE_MONITOR_EVENT_CHANGED),
         (300, MonitorInput.emit_event 7 none GFileMonitorEvent.G_FILE_MONITOR_EVENT_CHANGED),
         (400, MonitorInput.emit_event 7 none GFileMonitorEvent.G_FILE_MONITOR_EVENT_CHANGED),
         (800, MonitorInput.delayed_change_expiry),
         (2400, MonitorInput.virtual_changes_done_expiry)]).2 = [0, 800] ∧
    ∀ w, count_in_window (changed_times (monitor_run (fun _ => true)
        (g_file_monitor_set_rate_limit g_file_monitor_init ((800 : Nat) : Int))
        [(0, MonitorInput.emit_event 7 none GFileMonitorEvent.G_FILE_MONITOR_EVENT_CHANGED),
         (100, MonitorInput.emit_event 7 none GFileMonitorEvent.G_FILE_MONITOR_EVENT_CHANGED),
         (200, MonitorInput.emit_event 7 none GFileMonitorEvent.G_FILE_MONITOR_EVENT_CHANGED),
         (300, MonitorInput.emit_event 7 none GFileMonitorEvent.G_FILE_MONITOR_EVENT_CHANGED),
         (400, MonitorInput.emit_event 7 none GFileMonitorEvent.G_FILE_MONITOR_EVENT_CHANGED),
         (800, MonitorInput.delayed_change_expiry),
         (2400, MonitorInput.virtual_changes_done_expiry)]).2) w 800 ≤ 1 :=
  ⟨by decide,
   (C26_changed_rate_limit (fun _ => true) 800 (by decide)
      [(0, MonitorInput.emit_event 7 none GFileMonitorEvent.G_FILE_MONITOR_EVENT_CHANGED),
       (100, MonitorInput.emit_event 7 none GFileMonitorEvent.G_FILE_MONITOR_EVENT_CHANGED),
       (200, MonitorInput.emit_event 7 none GFileMonitorEvent.G_FILE_MONITOR_EVENT_CHANGED),
       (300, MonitorInput.emit_event 7 none GFileMonitorEvent.G_FILE_MONITOR_EVENT_CHANGED),
       (400, MonitorInput.emit_event 7 none GFileMonitorEvent.G_FILE_MONITOR_EVENT_CHANGED),
       (800, MonitorInput.delayed_change_expiry),
       (2400, MonitorInput.virtual_changes_done_expiry)] (by decide) (by decide)).2⟩

/-! ## The decoder of escaped strings -/

theorem escape_decode_plain (c : Nat) (l : List Nat) (h : c ≠ 92) :
    escape_decode (c :: l) = c :: escape_decode l := by
  cases l with
  | nil => simp [escape_decode]
  | cons d rest => simp [escape_decode, h]

theorem escape_decode_pair (d : Nat) (l : List Nat) :
    escape_decode (92 :: d :: l) = (if d = 48 then 0 else d) :: escape_decode l := by
  simp [escape_decode]

theorem escape_decode_bytewise (s : List Nat) : escape_decode (escape_bytewise s) = s := by
  induction s with
  | nil => rfl
  | cons c rest ih =>
    rw [escape_bytewise_cons]
    by_cases hsp : escape_special c = true
    · rw [escape_byte_special c hsp]
      by_cases h0 : c = 0
      · subst h0
        simp only [if_true, List.cons_append, List.nil_append]
        rw [escape_decode_pair, ih]
        simp
      · have h48 : c ≠ 48 := by
          intro h
          subst h
          exact absurd hsp (by decide)
        simp only [if_neg h0, List.cons_append, List.nil_append]
        rw [escape_decode_pair, ih, if_neg h48]
    · have hpl : escape_special c = false := by simpa using hsp
      have h92 : c ≠ 92 := by
        intro h
        subst h
        exact absurd hpl (by decide)
      rw [escape_byte_plain c hpl]
      simp only [List.cons_append, List.nil_append]
      rw [escape_decode_plain c _ h92, ih]

/-- C40: on byte strings whose bytes are all below 0x80, `escape_decode`
(backslash and `0` give NUL, backslash and another byte give that byte, any
other byte gives itself) undoes `g_regex_escape_string`; so the function is
injective there: two such strings with the same escaped pattern are equal.
The skip table is a parameter; an ASCII byte is a code point of one byte. -/
theorem C40_escape_string_injective (U : GUnicode)
    (hskip : ∀ b, b < 128 → U.g_utf8_skip b = 1) :
    (∀ s : List Nat, (∀ b ∈ s, b < 128) →
      escape_decode (g_regex_escape_string U s (s.length : Int)) = s) ∧
    (∀ s t : List Nat, (∀ b ∈ s, b < 128) → (∀ b ∈ t, b < 128) →
      g_regex_escape_string U s (s.length : Int) = g_regex_escape_string U t (t.length : Int) →
      s = t) := by
  have hdec : ∀ s : List Nat, (∀ b ∈ s, b < 128) →
      escape_decode (g_regex_escape_string U s (s.length : Int)) = s := by
    intro s hs
    rw [escape_string_scan U s (scan_aligned_single U s (fun b hb => hskip b (hs b hb)))]
    exact escape_decode_bytewise s
  refine ⟨hdec, ?_⟩
  intro s t hs ht heq
  have h1 := hdec s hs
  rw [heq, hdec t ht] at h1
  exact h1.symm

/-- C40, witness: the bytes `a . NUL \ 0` are escaped to `a \ . \ 0 \ \ 0` and
decoded back. -/
theorem C40_escape_string_injective_witness :
    (∀ b, b < 128 → glib_ascii.g_utf8_skip b = 1) ∧
    g_regex_escape_string glib_ascii [97, 46, 0, 92, 48] 5 = [97, 92, 46, 92, 48, 92, 92, 48] ∧
    escape_decode (g_regex_escape_string glib_ascii [97, 46, 0, 92, 48]
      (([97, 46, 0, 92, 48] : List Nat).length : Int)) = [97, 46, 0, 92, 48] :=
  ⟨fun b hb => by
      show glib_utf8_skip b = 1
      unfold glib_utf8_skip
      rw [if_pos (by omega)],
   by decide,
   (C40_escape_string_injective glib_ascii (fun b hb => by
      show glib_utf8_skip b = 1
      unfold glib_utf8_skip
      rw [if_pos (by omega)])).1 [97, 46, 0, 92, 48] (by decide)⟩

/-! ## The character escapes and the short numeric references -/

theorem expand_escape_character (U : GUnicode) (replacement rest : List Nat) (c b : Nat)
    (h : (c, b) ∈ [(116, 9), (110, 10), (118, 11), (114, 13), (102, 12), (97, 7), (98, 8),
      (92, 92)]) :
    expand_escape U replacement (92 :: c :: rest) = Parsed.ok (rest, literal_char b) := by
  simp only [List.mem_cons, Prod.mk.injEq, List.mem_singleton, List.not_mem_nil, or_false] at h
  rcases h with h | h | h | h | h | h | h | h <;> obtain ⟨rfl, rfl⟩ := h <;>
    simp [expand_escape, deref]

/-- C35: each of the eight character escapes `\t \n \v \r \f \a \b \\` is
parsed to one LiteralChar atom that holds the byte of the character (tab 9,
newline 10, vertical tab 11, carriage return 13, form feed 12, bell 7,
backspace 8, backslash 92), wherever it stands in a template, and the template
made of the escape alone parses to that atom.  While the case mode is None the
interpolation of the atom appends that byte and leaves the mode as it is; the
macro `CHANGE_CASE` is applied to the byte in this mode too, where it calls
`g_unichar_toupper`, which is taken to leave the eight bytes as they are. -/
theorem C35_character_escapes (U : GUnicode)
    (hupper : ∀ b ∈ [9, 10, 11, 13, 12, 7, 8, 92], U.g_unichar_toupper b = b) :
    ∀ c b, (c, b) ∈ [(116, 9), (110, 10), (118, 11), (114, 13), (102, 12), (97, 7), (98, 8),
        (92, 92)] →
      (∀ replacement rest : List Nat,
        expand_escape U replacement (92 :: c :: rest) = Parsed.ok (rest, literal_char b)) ∧
      split_replacement U [92, c] = Parsed.ok [literal_char b] ∧
      (∀ (match_info : GMatchInfo) (result : List Nat),
        interpolate_step U match_info (result, CHANGE_CASE_NONE) (literal_char b)
          = (result ++ [b], CHANGE_CASE_NONE)) ∧
      CHANGE_CASE U b CHANGE_CASE_NONE = U.g_unichar_toupper b := by
  intro c b h
  have hb : b ∈ [9, 10, 11, 13, 12, 7, 8, 92] := by
    simp only [List.mem_cons, Prod.mk.injEq, List.mem_singleton, List.not_mem_nil,
      or_false] at h
    rcases h with h | h | h | h | h | h | h | h <;> obtain ⟨rfl, rfl⟩ := h <;> decide
  have hlt : b < 256 := by
    simp only [List.mem_cons, List.mem_singleton, List.not_mem_nil, or_false] at hb
    omega
  refine ⟨fun replacement rest => expand_escape_character U replacement rest c b h, ?_, ?_,
    change_case_none U b⟩
  · exact split_replacement_one_escape U [92, c] (literal_char b) rfl
      (expand_escape_character U [92, c] [] c b h)
  · intro match_info result
    simp only [interpolate_step, literal_char, change_case_none, hupper b hb,
      Nat.mod_eq_of_lt hlt]
    rw [if_neg (by decide)]

/-- C35, witness: the escape `\n` with the case mappings of ASCII. -/
theorem C35_character_escapes_witness :
    (∀ b ∈ [9, 10, 11, 13, 12, 7, 8, 92], glib_ascii.g_unichar_toupper b = b) ∧
    split_replacement glib_ascii [92, 110] = Parsed.ok [literal_char 10] ∧
    interpolate_step glib_ascii (match_info_new (regex_of search_empty 0) [] 0 0 0 false)
        ([120], CHANGE_CASE_NONE) (literal_char 10)
      = ([120, 10], CHANGE_CASE_NONE) :=
  ⟨by decide,
   (C35_character_escapes glib_ascii (by decide) 110 10 (by decide)).2.1,
   (C35_character_escapes glib_ascii (by decide) 110 10 (by decide)).2.2.1
      (match_info_new (regex_of search_empty 0) [] 0 0 0 false) [120]⟩

/-- The loop over the digits reads `k` digits, at most as many as it has
iterations: the pointer is `k` bytes further and `d` has these digits
appended in base ten. -/
theorem digits_loop_consumed (n : Nat) :
    ∀ s : DigitsState, ∃ k, k ≤ n ∧ (digits_loop n s).i = s.i + k ∧
      (digits_loop n s).p = s.p.drop k ∧
      (∀ b ∈ s.p.take k, g_ascii_isdigit b = true) ∧
      (digits_loop n s).d = (s.p.take k).foldl (fun (x : Int) (b : Nat) => x * 10 + ((b : Int) - 48)) s.d := by
  induction n with
  | zero =>
    intro s
    exact ⟨0, le_refl _, rfl, rfl, by simp, rfl⟩
  | succ n ih =>
    intro s
    unfold digits_loop
    by_cases h1 : g_ascii_digit_value (deref s.p) < 0
    · rw [if_pos h1]
      exact ⟨0, Nat.zero_le _, rfl, rfl, by simp, rfl⟩
    · rw [if_neg h1]
      by_cases h2 : g_ascii_digit_value (deref s.p) > 7 ∧ s.base = 8
      · rw [if_pos h2]
        exact ⟨0, Nat.zero_le _, rfl, rfl, by simp, rfl⟩
      · rw [if_neg h2]
        by_cases h3 : s.i = 2 ∧
            (if g_ascii_digit_value (deref s.p) > 7 then 10 else s.base) = 10
        · rw [if_pos h3]
          exact ⟨0, Nat.zero_le _, rfl, rfl, by simp, rfl⟩
        · rw [if_neg h3]
          obtain ⟨si, sp, sx, sd, sb⟩ := s
          cases sp with
          | nil =>
            exfalso
            apply h1
            simp [deref, g_ascii_digit_value]
          | cons c t =>
            have hc : 48 ≤ c ∧ c ≤ 57 := by
              by_contra hn
              apply h1
              simp only [deref, List.headD_cons, g_ascii_digit_value]
              rw [if_neg hn]
              decide
            have hv : g_ascii_digit_value c = (c : Int) - 48 := by
              unfold g_ascii_digit_value
              rw [if_pos hc]
            obtain ⟨k, hk, hi, hp, hdig, hd⟩ := ih
              { i := si + 1, p := t, x := sx * 8 + g_ascii_digit_value c,
                d := sd * 10 + g_ascii_digit_value c,
                base := if g_ascii_digit_value c > 7 then 10 else sb }
            simp only [deref, List.headD_cons, List.tail_cons]
            refine ⟨k + 1, by omega, ?_, ?_, ?_, ?_⟩
            · rw [hi]
              simp only []
              omega
            · rw [hp]
              rfl
            · intro b hb
              rw [List.take_succ_cons] at hb
              rcases List.mem_cons.1 hb with rfl | hb
              · exact (isdigit_iff _).2 hc
              · exact hdig b hb
            · rw [hd, List.take_succ_cons, List.foldl_cons, hv]

theorem decimal_value_short (l : List Nat) (hlen : l.length ≤ 2)
    (hdig : ∀ b ∈ l, g_ascii_isdigit b = true) :
    l.foldl (fun (x : Int) (b : Nat) => x * 10 + ((b : Int) - 48)) 0 = (decimal_value l : Int) ∧
    decimal_value l ≤ 99 := by
  match l, hlen, hdig with
  | [], _, _ => exact ⟨rfl, by decide⟩
  | [a], _, hdig =>
    have ha := (isdigit_iff a).1 (hdig a (by simp))
    simp only [decimal_value, List.foldl_cons, List.foldl_nil]
    omega
  | [a, b], _, hdig =>
    have ha := (isdigit_iff a).1 (hdig a (by simp))
    have hb := (isdigit_iff b).1 (hdig b (by simp))
    simp only [decimal_value, List.foldl_cons, List.foldl_nil]
    omega
  | _ :: _ :: _ :: _, hlen, _ => simp at hlen

/-- A numeric reference that the loop over the digits gives has read one or two
digits and holds their decimal value. -/
theorem expand_escape_digits_numeric (U : GUnicode) (p : List Nat) (base : Int)
    (p1 : List Nat) (data : InterpolationData)
    (h : expand_escape_digits U p base = Parsed.ok (p1, data))
    (hnum : data.type = ReplType.REPL_TYPE_NUMERIC_REFERENCE) :
    ∃ k, k ≤ 2 ∧ p1 = p.drop k ∧ (∀ b ∈ p.take k, g_ascii_isdigit b = true) ∧
      data = numeric_ref (decimal_value (p.take k) : Int) ∧ decimal_value (p.take k) ≤ 99 := by
  obtain ⟨k, hk, hi, hp, hdig, hd⟩ :=
    digits_loop_consumed 3 { i := 0, p := p, x := 0, d := 0, base := base }
  unfold expand_escape_digits at h
  simp only [] at h
  by_cases hs : (digits_loop 3 { i := 0, p := p, x := 0, d := 0, base := base }).base = 8 ∨
      (digits_loop 3 { i := 0, p := p, x := 0, d := 0, base := base }).i = 3
  · rw [if_pos hs] at h
    simp only [Parsed.ok.injEq, Prod.mk.injEq] at h
    rw [← h.2] at hnum
    exact absurd hnum (by simp [literal_text])
  · rw [if_neg hs] at h
    simp only [Parsed.ok.injEq, Prod.mk.injEq] at h
    have hk2 : k ≤ 2 := by
      have : (digits_loop 3 { i := 0, p := p, x := 0, d := 0, base := base }).i ≠ 3 :=
        fun h3 => hs (Or.inr h3)
      rw [hi] at this
      simp only [zero_add] at this
      omega
    have hlen : (p.take k).length ≤ 2 := by
      rw [List.length_take]
      omega
    obtain ⟨hval, hle⟩ := decimal_value_short (p.take k) hlen hdig
    refine ⟨k, hk2, ?_, hdig, ?_, hle⟩
    · rw [← h.1, hp]
    · rw [← h.2, hd, hval]

theorem expand_escape_zero_any (U : GUnicode) (replacement rest : List Nat) :
    expand_escape U replacement (92 :: 48 :: rest)
      = if g_ascii_digit_value (deref ((48 :: rest).drop (U.g_utf8_skip 48))) ≥ 0 then
          expand_escape_digits U ((48 :: rest).drop (U.g_utf8_skip 48)) 8
        else expand_escape_digits U (48 :: rest) 0 := by
  simp [expand_escape, deref]

theorem expand_escape_digits_base_eight (U : GUnicode) (p p1 : List Nat)
    (data : InterpolationData) (h : expand_escape_digits U p 8 = Parsed.ok (p1, data)) :
    data.type = ReplType.REPL_TYPE_STRING := by
  unfold expand_escape_digits at h
  simp only [] at h
  rw [if_pos (Or.inl (digits_loop_base_eight 3 _ rfl))] at h
  simp only [Parsed.ok.injEq, Prod.mk.injEq] at h
  rw [← h.2]
  rfl

theorem digits_loop_first (n : Nat) (c : Nat) (t : List Nat)
    (hc : g_ascii_isdigit c = true) :
    digits_loop (n + 1) { i := 0, p := c :: t, x := 0, d := 0, base := 0 }
      = digits_loop n
          { i := 1, p := t, x := g_ascii_digit_value c, d := g_ascii_digit_value c,
            base := if g_ascii_digit_value c > 7 then 10 else 0 } := by
  have hd := (isdigit_iff c).1 hc
  have hv : g_ascii_digit_value c = (c : Int) - 48 := by
    unfold g_ascii_digit_value
    rw [if_pos hd]
  have h1 : ¬ (g_ascii_digit_value c < 0) := by rw [hv]; omega
  rw [digits_loop]
  simp only [deref, List.headD_cons, List.tail_cons]
  rw [if_neg h1, if_neg (by simp), if_neg (by simp)]
  simp

/-- A numeric reference read after a backslash and a digit: one or two digits
were read, and the number is their decimal value. -/
theorem expand_escape_short_reference (U : GUnicode) (replacement rest p1 : List Nat)
    (c : Nat) (data : InterpolationData) (hc : g_ascii_isdigit c = true)
    (h : expand_escape U replacement (92 :: c :: rest) = Parsed.ok (p1, data))
    (hnum : data.type = ReplType.REPL_TYPE_NUMERIC_REFERENCE) :
    ∃ k, 1 ≤ k ∧ k ≤ 2 ∧ p1 = (c :: rest).drop k ∧
      (∀ b ∈ (c :: rest).take k, g_ascii_isdigit b = true) ∧
      data = numeric_ref (decimal_value ((c :: rest).take k) : Int) ∧
      decimal_value ((c :: rest).take k) ≤ 99 := by
  have hd := (isdigit_iff c).1 hc
  have hbase0 : expand_escape_digits U (c :: rest) 0 = Parsed.ok (p1, data) := by
    by_cases h0 : c = 48
    · subst h0
      rw [expand_escape_zero_any] at h
      by_cases hnext : g_ascii_digit_value (deref ((48 :: rest).drop (U.g_utf8_skip 48))) ≥ 0
      · rw [if_pos hnext] at h
        have := expand_escape_digits_base_eight U _ p1 data h
        rw [this] at hnum
        exact absurd hnum (by decide)
      · rw [if_neg hnext] at h
        exact h
    · rw [expand_escape_digit U replacement c rest (by omega) hd.2] at h
      exact h
  unfold expand_escape_digits at hbase0
  simp only [] at hbase0
  rw [digits_loop_first 2 c rest hc] at hbase0
  obtain ⟨k, hk, hi, hp, hdig, hdval⟩ := digits_loop_consumed 2
    { i := 1, p := rest, x := g_ascii_digit_value c, d := g_ascii_digit_value c,
      base := if g_ascii_digit_value c > 7 then 10 else 0 }
  simp only [] at hi hp hdig hdval
  by_cases hs : (digits_loop 2
      { i := 1, p := rest, x := g_ascii_digit_value c, d := g_ascii_digit_value c,
        base := if g_ascii_digit_value c > 7 then 10 else 0 }).base = 8 ∨
      (digits_loop 2
      { i := 1, p := rest, x := g_ascii_digit_value c, d := g_ascii_digit_value c,
        base := if g_ascii_digit_value c > 7 then 10 else 0 }).i = 3
  · rw [if_pos hs] at hbase0
    simp only [Parsed.ok.injEq, Prod.mk.injEq] at hbase0
    rw [← hbase0.2] at hnum
    exact absurd hnum (by simp [literal_text])
  · rw [if_neg hs] at hbase0
    simp only [Parsed.ok.injEq, Prod.mk.injEq] at hbase0
    have hk1 : k ≤ 1 := by
      have hne : (digits_loop 2
          { i := 1, p := rest, x := g_ascii_digit_value c, d := g_ascii_digit_value c,
            base := if g_ascii_digit_value c > 7 then 10 else 0 }).i ≠ 3 :=
        fun h3 => hs (Or.inr h3)
      rw [hi] at hne
      omega
    have hdig2 : ∀ b ∈ (c :: rest).take (k + 1), g_ascii_isdigit b = true := by
      intro b hb
      rw [List.take_succ_cons] at hb
      rcases List.mem_cons.1 hb with rfl | hb
      · exact hc
      · exact hdig b hb
    have hlen : ((c :: rest).take (k + 1)).length ≤ 2 := by
      rw [List.length_take]
      omega
    obtain ⟨hval, hle⟩ := decimal_value_short _ hlen hdig2
    have hv : g_ascii_digit_value c = (c : Int) - 48 := by
      unfold g_ascii_digit_value
      rw [if_pos hd]
    refine ⟨k + 1, by omega, by omega, ?_, hdig2, ?_, hle⟩
    · rw [← hbase0.1, hp]
      rfl
    · rw [← hbase0.2, hdval, ← hval, List.take_succ_cons, List.foldl_cons, hv]
      simp

/-- C39: a numeric reference produced from the form of a backslash directly
followed by a digit, at any place of any template, has a value between 0 and
99: the parser has read one or two digits, the number is their decimal value,
and the pointer it returns is right after them, so that a third digit is left
in the text that follows.  In a template made of a backslash and three digits
that is read as a numeric reference (one of the digits is 8 or 9), the third
digit is parsed as literal text. -/
theorem C39_short_numeric_reference (U : GUnicode) (replacement rest p1 : List Nat)
    (c : Nat) (data : InterpolationData) (hc : g_ascii_isdigit c = true)
    (h : expand_escape U replacement (92 :: c :: rest) = Parsed.ok (p1, data))
    (hnum : data.type = ReplType.REPL_TYPE_NUMERIC_REFERENCE) :
    (0 ≤ data.num ∧ data.num ≤ 99) ∧
    (∃ k, 1 ≤ k ∧ k ≤ 2 ∧ p1 = (c :: rest).drop k ∧
      (∀ b ∈ (c :: rest).take k, g_ascii_isdigit b = true) ∧
      data = numeric_ref (decimal_value ((c :: rest).take k) : Int)) ∧
    (∀ d1 d2 d3 : Nat, 1 ≤ d1 → d1 ≤ 9 → d2 ≤ 9 → d3 ≤ 9 → (7 < d1 ∨ 7 < d2 ∨ 7 < d3) →
      split_replacement U [92, 48 + d1, 48 + d2, 48 + d3]
        = Parsed.ok [numeric_ref (10 * (d1 : Int) + (d2 : Int)), literal_text [48 + d3]]) := by
  obtain ⟨k, hk1, hk2, hp, hdig, hdata, hle⟩ :=
    expand_escape_short_reference U replacement rest p1 c data hc h hnum
  refine ⟨?_, ⟨k, hk1, hk2, hp, hdig, hdata⟩, ?_⟩
  · rw [hdata]
    simp only [numeric_ref]
    omega
  · intro d1 d2 d3 h1 h1' h2 h3 h89
    exact split_replacement_escape_byte U _ _ (48 + d3) (by omega) (by omega) (by simp) rfl
      (expand_escape_digits_two_then U _ [] d1 d2 d3 h1 h1' h2 h3 h89)

/-- C39, witness: in the template `x\1897` the escape at the offset 1 is read
as the numeric reference 18, and the pointer is left at the digit 9. -/
theorem C39_short_numeric_reference_witness :
    expand_escape glib_ascii [120, 92, 49, 56, 57, 55] [92, 49, 56, 57, 55]
      = Parsed.ok ([57, 55], numeric_ref 18) ∧
    (0 ≤ (numeric_ref 18).num ∧ (numeric_ref 18).num ≤ 99) :=
  ⟨by decide,
   (C39_short_numeric_reference glib_ascii [120, 92, 49, 56, 57, 55] [56, 57, 55] [57, 55] 49
      (numeric_ref 18) (by decide) (by decide) (by decide)).1⟩

/-! ## The scenario of five changes in a row -/

theorem emit_changed_first (file : GFile) (other_file : Option GFile) (t : Nat) :
    g_file_monitor_emit_event g_file_monitor_init t file other_file
        GFileMonitorEvent.G_FILE_MONITOR_EVENT_CHANGED
      = (⟨false, 800, t, some file, none, some (t + 2000), some file⟩,
          [⟨some file, other_file, GFileMonitorEvent.G_FILE_MONITOR_EVENT_CHANGED⟩]) := by
  rw [emit_changed_now_eq _ _ _ _ (by simp [g_file_monitor_init])]
  rfl

theorem emit_changed_within_limit (c : Bool) (last t : Nat) (f file : GFile)
    (other_file : Option GFile) (delayed : Option Nat) (v : Option Nat) (vf : Option GFile)
    (h1 : last ≤ t) (h2 : t < last + 800) :
    g_file_monitor_emit_event ⟨c, 800, last, some f, delayed, v, vf⟩ t file other_file
        GFileMonitorEvent.G_FILE_MONITOR_EVENT_CHANGED
      = (⟨c, 800, last, some f,
            (match delayed with
              | none => some (last + 800)
              | some d => some d),
            some (t + 2000), some file⟩, []) := by
  have hdiff : time_difference last t = t - last := by
    unfold time_difference
    rw [if_neg (by omega)]
  have hlim : to_guint32 (800 : Int) = 800 := by decide
  have hcond : (⟨c, 800, last, some f, delayed, v, vf⟩ : GFileMonitorPrivate).last_sent_change_file.isSome
        = true ∧
      time_difference (⟨c, 800, last, some f, delayed, v, vf⟩ : GFileMonitorPrivate).last_sent_change_time t
        < to_guint32 (⟨c, 800, last, some f, delayed, v, vf⟩ : GFileMonitorPrivate).rate_limit_msec := by
    refine ⟨rfl, ?_⟩
    simp only [hdiff, hlim]
    omega
  rw [emit_changed_limited_eq _ _ _ _ hcond]
  simp only [hdiff]
  have hsub : to_guint32 ((800 : Int) - ((t - last : Nat) : Int)) = 800 - (t - last) := by
    have hcast : (800 : Int) - ((t - last : Nat) : Int) = ((800 - (t - last) : Nat) : Int) := by
      omega
    rw [hcast]
    exact to_guint32_natCast _ (by omega)
  rw [hsub]
  cases delayed with
  | none =>
    simp only [GFileMonitorPrivate.mk.injEq, Prod.mk.injEq, Option.some.injEq, true_and,
      and_true]
    omega
  | some d => rfl

/-- C31: a fresh monitor has the rate limit of 800 ms.  Fed with `Changed (f)`
at the times 0, 100, 200, 300 and 400, it emits `Changed (f)` at 0 and nothing
else, and is left with the delayed change due at 800 (the last emitted time
plus the rate limit: it was scheduled once, by the event at 100) and the
virtual changes-done event due at 2400.  With nothing further fed, the two
timers expire when they are due and the monitor has emitted three events in
all: `Changed (f)` at 0, `Changed (f)` at 800 and `ChangesDoneHint (f)` at
2400; no timer is pending afterwards. -/
theorem C31_five_changes (klass_cancel : GFileMonitorPrivate → Bool) (f : GFile) :
    g_file_monitor_init.rate_limit_msec = 800 ∧
    monitor_run klass_cancel g_file_monitor_init
        [(0, MonitorInput.emit_event f none GFileMonitorEvent.G_FILE_MONITOR_EVENT_CHANGED),
         (100, MonitorInput.emit_event f none GFileMonitorEvent.G_FILE_MONITOR_EVENT_CHANGED)]
      = (⟨false, 800, 0, some f, some 800, some 2100, some f⟩,
          [(0, ⟨some f, none, GFileMonitorEvent.G_FILE_MONITOR_EVENT_CHANGED⟩)]) ∧
    monitor_run klass_cancel g_file_monitor_init
        [(0, MonitorInput.emit_event f none GFileMonitorEvent.G_FILE_MONITOR_EVENT_CHANGED),
         (100, MonitorInput.emit_event f none GFileMonitorEvent.G_FILE_MONITOR_EVENT_CHANGED),
         (200, MonitorInput.emit_event f none GFileMonitorEvent.G_FILE_MONITOR_EVENT_CHANGED),
         (300, MonitorInput.emit_event f none GFileMonitorEvent.G_FILE_MONITOR_EVENT_CHANGED),
         (400, MonitorInput.emit_event f none GFileMonitorEvent.G_FILE_MONITOR_EVENT_CHANGED)]
      = (⟨false, 800, 0, some f, some 800, some 2400, some f⟩,
          [(0, ⟨some f, none, GFileMonitorEvent.G_FILE_MONITOR_EVENT_CHANGED⟩)]) ∧
    (∀ t, input_due ⟨false, 800, 0, some f, some 800, some 2400, some f⟩ t
        MonitorInput.delayed_change_expiry = decide (800 ≤ t)) ∧
    (∀ t, input_due ⟨false, 800, 0, some f, some 800, some 2400, some f⟩ t
        MonitorInput.virtual_changes_done_expiry = decide (2400 ≤ t)) ∧
    monitor_run klass_cancel g_file_monitor_init
        [(0, MonitorInput.emit_event f none GFileMonitorEvent.G_FILE_MONITOR_EVENT_CHANGED),
         (100, MonitorInput.emit_event f none GFileMonitorEvent.G_FILE_MONITOR_EVENT_CHANGED),
         (200, MonitorInput.emit_event f none GFileMonitorEvent.G_FILE_MONITOR_EVENT_CHANGED),
         (300, MonitorInput.emit_event f none GFileMonitorEvent.G_FILE_MONITOR_EVENT_CHANGED),
         (400, MonitorInput.emit_event f none GFileMonitorEvent.G_FILE_MONITOR_EVENT_CHANGED),
         (800, MonitorInput.delayed_change_expiry),
         (2400, MonitorInput.virtual_changes_done_expiry)]
      = (⟨false, 800, 800, some f, none, none, none⟩,
          [(0, ⟨some f, none, GFileMonitorEvent.G_FILE_MONITOR_EVENT_CHANGED⟩),
           (800, ⟨some f, none, GFileMonitorEvent.G_FILE_MONITOR_EVENT_CHANGED⟩),
           (2400, ⟨some f, none, GFileMonitorEvent.G_FILE_MONITOR_EVENT_CHANGES_DONE_HINT⟩)]) := by
  have e0 := emit_changed_first f none 0
  have e1 := emit_changed_within_limit false 0 100 f f none none (some (0 + 2000)) (some f)
    (by omega) (by omega)
  have e2 := emit_changed_within_limit false 0 200 f f none (some 800) (some (100 + 2000))
    (some f) (by omega) (by omega)
  have e3 := emit_changed_within_limit false 0 300 f f none (some 800) (some (200 + 2000))
    (some f) (by omega) (by omega)
  have e4 := emit_changed_within_limit false 0 400 f f none (some 800) (some (300 + 2000))
    (some f) (by omega) (by omega)
  simp only [zero_add] at e1
  refine ⟨rfl, ?_, ?_, fun t => rfl, fun t => rfl, ?_⟩
  · simp only [monitor_run, monitor_step, e0, e1]
    rfl
  · simp only [monitor_run, monitor_step, e0, e1, e2, e3, e4]
    rfl
  · simp only [monitor_run, monitor_step, e0, e1, e2, e3, e4]
    rfl

/-! ## The invariants of the state of the monitor -/

theorem emit_other_clears (priv : GFileMonitorPrivate) (time_now : Nat) (file : GFile)
    (other_file : Option GFile) (event_type : GFileMonitorEvent)
    (h : event_type ≠ GFileMonitorEvent.G_FILE_MONITOR_EVENT_CHANGED) :
    (g_file_monitor_emit_event priv time_now file other_file
      event_type).1.send_delayed_change_timeout = none ∧
    (g_file_monitor_emit_event priv time_now file other_file
      event_type).1.virtual_changes_done_timeout = none := by
  obtain ⟨c, r, lt, lf, sd, vt, vf⟩ := priv
  unfold g_file_monitor_emit_event
  rw [if_pos h]
  simp only [update_last_sent_change_eq]
  by_cases hd : event_type = GFileMonitorEvent.G_FILE_MONITOR_EVENT_CHANGES_DONE_HINT
  · cases sd <;> cases vt <;>
      simp [hd, send_delayed_change_now, cancel_virtual_changes_done]
  · cases sd <;> cases vt <;>
      simp [hd, send_delayed_change_now, send_virtual_changes_done_now]

theorem cancel_virtual_changes_done_none (priv : GFileMonitorPrivate) :
    (cancel_virtual_changes_done priv).virtual_changes_done_timeout = none := by
  unfold cancel_virtual_changes_done
  split_ifs with h
  · rfl
  · simpa using h

/-- One input keeps the invariants of the state: a delayed change is pending
only with a last emitted file, and a pending virtual changes-done event holds
the file of the most recent event, which was `Changed`. -/
theorem monitor_step_invariant (klass_cancel : GFileMonitorPrivate → Bool)
    (priv : GFileMonitorPrivate) (last : Option (GFile × GFileMonitorEvent)) (t : Nat)
    (input : MonitorInput)
    (h1 : priv.send_delayed_change_timeout.isSome = true →
      priv.last_sent_change_file.isSome = true)
    (h2 : priv.virtual_changes_done_timeout.isSome = true →
      ∃ f, last = some (f, GFileMonitorEvent.G_FILE_MONITOR_EVENT_CHANGED) ∧
        priv.virtual_changes_done_file = some f) :
    ((monitor_step klass_cancel priv t input).1.send_delayed_change_timeout.isSome = true →
      (monitor_step klass_cancel priv t input).1.last_sent_change_file.isSome = true) ∧
    ((monitor_step klass_cancel priv t input).1.virtual_changes_done_timeout.isSome = true →
      ∃ f, last_event_from last [(t, input)]
          = some (f, GFileMonitorEvent.G_FILE_MONITOR_EVENT_CHANGED) ∧
        (monitor_step klass_cancel priv t input).1.virtual_changes_done_file = some f) := by
  cases input with
  | emit_event file other_file event_type =>
    simp only [monitor_step, last_event_from]
    by_cases hc : event_type = GFileMonitorEvent.G_FILE_MONITOR_EVENT_CHANGED
    · subst hc
      by_cases hlim : priv.last_sent_change_file.isSome = true ∧
          time_difference priv.last_sent_change_time t < to_guint32 priv.rate_limit_msec
      · rw [emit_changed_limited_eq priv t file other_file hlim]
        exact ⟨fun _ => hlim.1, fun _ => ⟨file, rfl, rfl⟩⟩
      · rw [emit_changed_now_eq priv t file other_file hlim]
        exact ⟨fun _ => rfl, fun _ => ⟨file, rfl, rfl⟩⟩
    · obtain ⟨hd, hv⟩ := emit_other_clears priv t file other_file event_type hc
      rw [hd, hv]
      exact ⟨fun h => absurd h (by simp), fun h => absurd h (by simp)⟩
  | delayed_change_expiry =>
    simp only [monitor_step, delayed_changed_event_timeout, send_delayed_change_now,
      last_event_from]
    split_ifs
    · exact ⟨fun h => absurd h (by simp), h2⟩
    · exact ⟨h1, h2⟩
  | virtual_changes_done_expiry =>
    simp only [monitor_step, virtual_changes_done_timeout, send_virtual_changes_done_now,
      last_event_from]
    split_ifs
    · exact ⟨h1, fun h => absurd h (by simp)⟩
    · exact ⟨h1, h2⟩
  | set_rate_limit limit_msecs => exact ⟨h1, h2⟩
  | cancel =>
    simp only [monitor_step, g_file_monitor_cancel, last_event_from]
    split_ifs
    · exact ⟨h1, h2⟩
    · exact ⟨h1, h2⟩

theorem last_event_from_cons (last : Option (GFile × GFileMonitorEvent))
    (x : Nat × MonitorInput) (rest : List (Nat × MonitorInput)) :
    last_event_from last (x :: rest) = last_event_from (last_event_from last [x]) rest := by
  obtain ⟨t, input⟩ := x
  cases input <;> rfl

theorem monitor_run_invariant (klass_cancel : GFileMonitorPrivate → Bool)
    (inputs : List (Nat × MonitorInput)) :
    ∀ (priv : GFileMonitorPrivate) (last : Option (GFile × GFileMonitorEvent)),
      (priv.send_delayed_change_timeout.isSome = true →
        priv.last_sent_change_file.isSome = true) →
      (priv.virtual_changes_done_timeout.isSome = true →
        ∃ f, last = some (f, GFileMonitorEvent.G_FILE_MONITOR_EVENT_CHANGED) ∧
          priv.virtual_changes_done_file = some f) →
      ((monitor_run klass_cancel priv inputs).1.send_delayed_change_timeout.isSome = true →
        (monitor_run klass_cancel priv inputs).1.last_sent_change_file.isSome = true) ∧
      ((monitor_run klass_cancel priv inputs).1.virtual_changes_done_timeout.isSome = true →
        ∃ f, last_event_from last inputs
            = some (f, GFileMonitorEvent.G_FILE_MONITOR_EVENT_CHANGED) ∧
          (monitor_run klass_cancel priv inputs).1.virtual_changes_done_file = some f) := by
  induction inputs with
  | nil =>
    intro priv last h1 h2
    exact ⟨h1, h2⟩
  | cons x rest ih =>
    intro priv last h1 h2
    obtain ⟨t, input⟩ := x
    obtain ⟨hs1, hs2⟩ := monitor_step_invariant klass_cancel priv last t input h1 h2
    have := ih (monitor_step klass_cancel priv t input).1 (last_event_from last [(t, input)])
      hs1 hs2
    rw [last_event_from_cons]
    exact this

theorem update_last_sent_change_timers (priv : GFileMonitorPrivate) (file : Option GFile)
    (time_now : Nat) :
    sources_of (update_last_sent_change priv file time_now) = sources_of priv := by
  unfold update_last_sent_change sources_of
  simp only []
  split_ifs <;> rfl

theorem sources_send_delayed_change_now_eq (priv : GFileMonitorPrivate) (time_now : Nat) :
    sources_send_delayed_change_now priv (sources_of priv)
      = sources_of (send_delayed_change_now priv time_now).1 := by
  obtain ⟨c, r, lt, lf, sd, vt, vf⟩ := priv
  cases sd <;> simp [sources_send_delayed_change_now, sources_of, send_delayed_change_now]

theorem sources_cancel_delayed_change_eq (priv : GFileMonitorPrivate) :
    sources_cancel_delayed_change priv (sources_of priv)
      = sources_of (cancel_delayed_change priv) := by
  obtain ⟨c, r, lt, lf, sd, vt, vf⟩ := priv
  cases sd <;> simp [sources_cancel_delayed_change, sources_of, cancel_delayed_change]

theorem sources_schedule_delayed_change_eq (priv : GFileMonitorPrivate)
    (delay_msec time_now : Nat) :
    sources_schedule_delayed_change priv delay_msec time_now (sources_of priv)
      = sources_of (schedule_delayed_change priv delay_msec time_now) := by
  obtain ⟨c, r, lt, lf, sd, vt, vf⟩ := priv
  cases sd <;> simp [sources_schedule_delayed_change, sources_of, schedule_delayed_change]

theorem sources_send_virtual_changes_done_now_eq (priv : GFileMonitorPrivate) :
    sources_send_virtual_changes_done_now priv (sources_of priv)
      = sources_of (send_virtual_changes_done_now priv).1 := by
  obtain ⟨c, r, lt, lf, sd, vt, vf⟩ := priv
  cases vt <;>
    simp [sources_send_virtual_changes_done_now, sources_of, send_virtual_changes_done_now]

theorem sources_cancel_virtual_changes_done_eq (priv : GFileMonitorPrivate) :
    sources_cancel_virtual_changes_done priv (sources_of priv)
      = sources_of (cancel_virtual_changes_done priv) := by
  obtain ⟨c, r, lt, lf, sd, vt, vf⟩ := priv
  cases vt <;>
    simp [sources_cancel_virtual_changes_done, sources_of, cancel_virtual_changes_done]

theorem sources_schedule_virtual_change_done_eq (priv : GFileMonitorPrivate) (file : GFile)
    (time_now : Nat) (h : priv.virtual_changes_done_timeout = none) :
    sources_schedule_virtual_change_done time_now (sources_of priv)
      = sources_of (schedule_virtual_change_done priv file time_now) := by
  obtain ⟨c, r, lt, lf, sd, vt, vf⟩ := priv
  simp only at h
  subst h
  simp [sources_schedule_virtual_change_done, sources_of, schedule_virtual_change_done]

/-- Without the call of `cancel_virtual_changes_done` before it,
`schedule_virtual_change_done` on a state with a pending virtual changes-done
event would leave two sources attached. -/
theorem sources_schedule_over_pending (priv : GFileMonitorPrivate) (time_now : Nat)
    (h : priv.virtual_changes_done_timeout.isSome = true) :
    (sources_schedule_virtual_change_done time_now
      (sources_of priv)).virtual_changes_done.length = 2 := by
  obtain ⟨c, r, lt, lf, sd, vt, vf⟩ := priv
  cases vt with
  | none => simp at h
  | some v => simp [sources_schedule_virtual_change_done, sources_of]

/-- The sources attached after a call of `g_file_monitor_emit_event` are those
that the fields name, when they were so before the call. -/
theorem sources_emit_event_eq (priv : GFileMonitorPrivate) (time_now : Nat) (file : GFile)
    (other_file : Option GFile) (event_type : GFileMonitorEvent) :
    sources_emit_event priv time_now file event_type (sources_of priv)
      = sources_of (g_file_monitor_emit_event priv time_now file other_file event_type).1 := by
  unfold sources_emit_event g_file_monitor_emit_event
  by_cases hc : event_type ≠ GFileMonitorEvent.G_FILE_MONITOR_EVENT_CHANGED
  · rw [if_pos hc, if_pos hc]
    simp only []
    rw [sources_send_delayed_change_now_eq priv time_now,
      ← update_last_sent_change_timers (send_delayed_change_now priv time_now).1 none 0]
    by_cases hd : event_type = GFileMonitorEvent.G_FILE_MONITOR_EVENT_CHANGES_DONE_HINT
    · rw [if_pos hd, if_pos hd]
      exact sources_cancel_virtual_changes_done_eq _
    · rw [if_neg hd, if_neg hd]
      exact sources_send_virtual_changes_done_now_eq _
  · rw [if_neg hc, if_neg hc]
    simp only []
    by_cases hlim : priv.last_sent_change_file.isSome = true ∧
        time_difference priv.last_sent_change_time time_now < to_guint32 priv.rate_limit_msec
    · have hb : (priv.last_sent_change_file.isSome &&
          decide (time_difference priv.last_sent_change_time time_now
            < to_guint32 priv.rate_limit_msec)) = true := by
        simpa using hlim
      rw [if_pos hlim]
      simp only [hb, if_true, Bool.not_true, Bool.false_eq_true, if_false]
      rw [sources_schedule_delayed_change_eq, sources_cancel_virtual_changes_done_eq]
      exact sources_schedule_virtual_change_done_eq _ file time_now
        (cancel_virtual_changes_done_none _)
    · have hb : (priv.last_sent_change_file.isSome &&
          decide (time_difference priv.last_sent_change_time time_now
            < to_guint32 priv.rate_limit_msec)) = false := by
        cases h : (priv.last_sent_change_file.isSome &&
          decide (time_difference priv.last_sent_change_time time_now
            < to_guint32 priv.rate_limit_msec))
        · rfl
        · exact absurd (by simpa using h) hlim
      rw [if_neg hlim]
      simp only [hb, Bool.false_eq_true, if_false, Bool.not_false, if_true]
      rw [sources_cancel_delayed_change_eq,
        ← update_last_sent_change_timers (cancel_delayed_change priv) (some file) time_now,
        sources_cancel_virtual_changes_done_eq]
      exact sources_schedule_virtual_change_done_eq _ file time_now
        (cancel_virtual_changes_done_none _)

/-- One input keeps the attached sources equal to those that the fields
name. -/
theorem sources_step_eq (klass_cancel : GFileMonitorPrivate → Bool)
    (priv : GFileMonitorPrivate) (t : Nat) (input : MonitorInput) :
    sources_step priv t input (sources_of priv)
      = sources_of (monitor_step klass_cancel priv t input).1 := by
  cases input with
  | emit_event file other_file event_type =>
    exact sources_emit_event_eq priv t file other_file event_type
  | delayed_change_expiry => exact sources_send_delayed_change_now_eq priv t
  | virtual_changes_done_expiry => exact sources_send_virtual_changes_done_now_eq priv
  | set_rate_limit limit_msecs => rfl
  | cancel =>
    simp only [sources_step, monitor_step, g_file_monitor_cancel]
    split_ifs <;> rfl

/-- At the end of a run that starts with the sources that the fields name, the
attached sources are those that the fields name. -/
theorem sources_run_eq (klass_cancel : GFileMonitorPrivate → Bool)
    (inputs : List (Nat × MonitorInput)) :
    ∀ priv : GFileMonitorPrivate,
      sources_run klass_cancel priv (sources_of priv) inputs
        = sources_of (monitor_run klass_cancel priv inputs).1 := by
  induction inputs with
  | nil => intro priv; rfl
  | cons x rest ih =>
    intro priv
    obtain ⟨t, input⟩ := x
    simp only [sources_run, monitor_run]
    rw [sources_step_eq klass_cancel priv t input]
    exact ih _

theorem option_toList_length_le {α : Type} (o : Option α) : o.toList.length ≤ 1 := by
  cases o <;> simp

/-- C34: in every state that the monitor reaches from its initial state by any
sequence of calls of `g_file_monitor_emit_event`, timer expiries, changes of
the rate limit and cancels: (a) a delayed change is pending only if a last
emitted file is recorded; (c) when a virtual changes-done event is pending,
the file it holds is the file of the most recent event of the monitor, and
that event was `Changed`; (b) at most one timer of each kind is outstanding:
`schedule_delayed_change` creates no source when one is pending, and the
timeout sources attached to the main loop, followed through every
`g_timeout_add`, `g_source_attach`, `g_source_remove` and `g_source_destroy`
of the run, are those that the two timeout fields name, so at most one with
each callback. -/
theorem C34_monitor_invariants (klass_cancel : GFileMonitorPrivate → Bool)
    (inputs : List (Nat × MonitorInput)) :
    ((monitor_run klass_cancel g_file_monitor_init inputs).1.send_delayed_change_timeout.isSome
        = true →
      (monitor_run klass_cancel g_file_monitor_init inputs).1.last_sent_change_file.isSome
        = true) ∧
    ((monitor_run klass_cancel g_file_monitor_init inputs).1.virtual_changes_done_timeout.isSome
        = true →
      ∃ f, last_event_from none inputs
          = some (f, GFileMonitorEvent.G_FILE_MONITOR_EVENT_CHANGED) ∧
        (monitor_run klass_cancel g_file_monitor_init inputs).1.virtual_changes_done_file
          = some f) ∧
    (∀ (priv : GFileMonitorPrivate) (delay_msec time_now : Nat),
      priv.send_delayed_change_timeout.isSome = true →
      schedule_delayed_change priv delay_msec time_now = priv) ∧
    sources_run klass_cancel g_file_monitor_init ⟨[], []⟩ inputs
      = sources_of (monitor_run klass_cancel g_file_monitor_init inputs).1 ∧
    (sources_run klass_cancel g_file_monitor_init ⟨[], []⟩ inputs).delayed_change.length ≤ 1 ∧
    (sources_run klass_cancel g_file_monitor_init ⟨[], []⟩
      inputs).virtual_changes_done.length ≤ 1 := by
  obtain ⟨ha, hc⟩ := monitor_run_invariant klass_cancel inputs g_file_monitor_init none
    (fun h => absurd h (by simp [g_file_monitor_init]))
    (fun h => absurd h (by simp [g_file_monitor_init]))
  have hs : sources_run klass_cancel g_file_monitor_init ⟨[], []⟩ inputs
      = sources_of (monitor_run klass_cancel g_file_monitor_init inputs).1 :=
    sources_run_eq klass_cancel inputs g_file_monitor_init
  refine ⟨ha, hc, ?_, hs, ?_, ?_⟩
  · intro priv delay_msec time_now h
    unfold schedule_delayed_change
    rw [if_neg]
    intro hn
    rw [hn] at h
    exact absurd h (by simp)
  · rw [hs]
    exact option_toList_length_le _
  · rw [hs]
    exact option_toList_length_le _

/-! ## The last event of a burst of changes -/

/-- One step of a run that reports changes only, at a rate limit `R` of at
most 2000 ms, with the timers dispatched in order: a pending delayed change
stays due no later than the virtual changes-done event, and when no virtual
changes-done event is pending the last event emitted is `ChangesDoneHint`. -/
theorem done_last_step (klass_cancel : GFileMonitorPrivate → Bool) (R : Nat) (hR : R ≤ 2000)
    (priv : GFileMonitorPrivate) (t0 t : Nat) (input : MonitorInput)
    (pre : List (Nat × Emission))
    (hrate : priv.rate_limit_msec = (R : Int))
    (hdelay : ∀ d, priv.send_delayed_change_timeout = some d →
      ∃ v, priv.virtual_changes_done_timeout = some v ∧ d ≤ v)
    (hdone : ∀ v, priv.virtual_changes_done_timeout = some v → v ≤ t0 + 2000)
    (hlast : priv.virtual_changes_done_timeout = none →
      pre = [] ∨ ∃ e, pre.getLast? = some e ∧
        e.2.event_type = GFileMonitorEvent.G_FILE_MONITOR_EVENT_CHANGES_DONE_HINT)
    (hfresh : pre = [] → priv.last_sent_change_file = none)
    (hkind : changed_or_timer input = true) (ht : t0 ≤ t)
    (hdue : input_due priv t input = true) (horder : timer_order priv input = true) :
    (monitor_step klass_cancel priv t input).1.rate_limit_msec = (R : Int) ∧
    (∀ d, (monitor_step klass_cancel priv t input).1.send_delayed_change_timeout = some d →
      ∃ v, (monitor_step klass_cancel priv t input).1.virtual_changes_done_timeout = some v ∧
        d ≤ v) ∧
    (∀ v, (monitor_step klass_cancel priv t input).1.virtual_changes_done_timeout = some v →
      v ≤ t + 2000) ∧
    ((monitor_step klass_cancel priv t input).1.virtual_changes_done_timeout = none →
      pre ++ (monitor_step klass_cancel priv t input).2.map (fun e => (t, e)) = [] ∨
      ∃ e, (pre ++ (monitor_step klass_cancel priv t input).2.map
          (fun e => (t, e))).getLast? = some e ∧
        e.2.event_type = GFileMonitorEvent.G_FILE_MONITOR_EVENT_CHANGES_DONE_HINT) ∧
    (pre ++ (monitor_step klass_cancel priv t input).2.map (fun e => (t, e)) = [] →
      (monitor_step klass_cancel priv t input).1.last_sent_change_file = none) ∧
    ((∃ file other_file, input = MonitorInput.emit_event file other_file
        GFileMonitorEvent.G_FILE_MONITOR_EVENT_CHANGED) →
      pre ++ (monitor_step klass_cancel priv t input).2.map (fun e => (t, e)) ≠ []) := by
  have hRu : to_guint32 priv.rate_limit_msec = R := by
    rw [hrate]
    exact to_guint32_natCast R (by omega)
  cases input with
  | set_rate_limit limit_msecs => simp [changed_or_timer] at hkind
  | cancel =>
    have hs : (monitor_step klass_cancel priv t MonitorInput.cancel).1
        = { priv with cancelled := true } := by
      simp only [monitor_step, g_file_monitor_cancel]
      split_ifs with h
      · obtain ⟨c, r, lt, lf, sd, vt, vf⟩ := priv
        simp only at h
        subst h
        rfl
      · rfl
    have he : (monitor_step klass_cancel priv t MonitorInput.cancel).2 = [] := rfl
    rw [hs, he]
    simp only [List.map_nil, List.append_nil]
    refine ⟨hrate, hdelay, ?_, hlast, hfresh, ?_⟩
    · intro v hv
      have := hdone v hv
      omega
    · rintro ⟨file, other_file, h⟩
      cases h
  | virtual_changes_done_expiry =>
    simp only [input_due] at hdue
    cases hv : priv.virtual_changes_done_timeout with
    | none => simp [hv] at hdue
    | some v =>
      have hnodelay : priv.send_delayed_change_timeout = none := by
        cases hd : priv.send_delayed_change_timeout with
        | none => rfl
        | some d =>
          exfalso
          obtain ⟨v2, hv2, hle⟩ := hdelay d hd
          rw [hv] at hv2
          simp only [Option.some.injEq] at hv2
          subst hv2
          simp only [timer_order, hd, hv, decide_eq_true_eq] at horder
          omega
      have hs : monitor_step klass_cancel priv t MonitorInput.virtual_changes_done_expiry
          = ({ priv with virtual_changes_done_timeout := none,
                         virtual_changes_done_file := none },
              [⟨priv.virtual_changes_done_file, none,
                GFileMonitorEvent.G_FILE_MONITOR_EVENT_CHANGES_DONE_HINT⟩]) := by
        simp only [monitor_step, virtual_changes_done_timeout, send_virtual_changes_done_now,
          hv, Option.isSome_some, if_true]
      rw [hs]
      refine ⟨hrate, ?_, ?_, ?_, ?_, ?_⟩
      · intro d hd
        simp only at hd
        rw [hnodelay] at hd
        cases hd
      · intro v2 hv2
        simp at hv2
      · intro _
        right
        exact ⟨(t, ⟨priv.virtual_changes_done_file, none,
          GFileMonitorEvent.G_FILE_MONITOR_EVENT_CHANGES_DONE_HINT⟩), by simp, rfl⟩
      · intro h
        simp at h
      · intro _ h
        simp at h
  | delayed_change_expiry =>
    simp only [input_due] at hdue
    cases hd : priv.send_delayed_change_timeout with
    | none => simp [hd] at hdue
    | some d =>
      obtain ⟨v, hv, hle⟩ := hdelay d hd
      have hs : monitor_step klass_cancel priv t MonitorInput.delayed_change_expiry
          = ({ priv with send_delayed_change_timeout := none, last_sent_change_time := t },
              [⟨priv.last_sent_change_file, none,
                GFileMonitorEvent.G_FILE_MONITOR_EVENT_CHANGED⟩]) := by
        simp only [monitor_step, delayed_changed_event_timeout, send_delayed_change_now, hd,
          Option.isSome_some, if_true]
      rw [hs]
      refine ⟨hrate, ?_, ?_, ?_, ?_, ?_⟩
      · intro d2 hd2
        simp at hd2
      · intro v2 hv2
        have := hdone v2 hv2
        omega
      · intro hnone
        simp only at hnone
        rw [hv] at hnone
        cases hnone
      · intro h
        simp at h
      · intro _ h
        simp at h
  | emit_event file other_file event_type =>
    simp only [changed_or_timer, decide_eq_true_eq] at hkind
    subst hkind
    simp only [monitor_step]
    by_cases hlim : priv.last_sent_change_file.isSome = true ∧
        time_difference priv.last_sent_change_time t < to_guint32 priv.rate_limit_msec
    · rw [emit_changed_limited_eq priv t file other_file hlim]
      have hpre : pre ≠ [] := by
        intro h
        have := hfresh h
        rw [this] at hlim
        simp at hlim
      simp only [List.map_nil, List.append_nil]
      refine ⟨hrate, ?_, ?_, ?_, ?_, fun _ => hpre⟩
      · intro d2 hd2
        refine ⟨t + 2000, rfl, ?_⟩
        cases hd : priv.send_delayed_change_timeout with
        | none =>
          rw [hd] at hd2
          simp only [Option.some.injEq] at hd2
          have hlt := hlim.2
          rw [hRu] at hlt
          have hsub : to_guint32 (priv.rate_limit_msec
              - ((time_difference priv.last_sent_change_time t : Nat) : Int))
              = R - time_difference priv.last_sent_change_time t := by
            rw [hrate]
            have hcast : (R : Int) - ((time_difference priv.last_sent_change_time t : Nat) : Int)
                = ((R - time_difference priv.last_sent_change_time t : Nat) : Int) := by omega
            rw [hcast]
            exact to_guint32_natCast _ (by omega)
          rw [hsub] at hd2
          omega
        | some d =>
          rw [hd] at hd2
          simp only [Option.some.injEq] at hd2
          subst hd2
          obtain ⟨v, hv, hle⟩ := hdelay _ hd
          have := hdone v hv
          omega
      · intro v hv
        simp only [Option.some.injEq] at hv
        omega
      · intro h
        simp at h
      · intro h
        exact absurd h hpre
    · rw [emit_changed_now_eq priv t file other_file hlim]
      refine ⟨hrate, ?_, ?_, ?_, ?_, ?_⟩
      · intro d2 hd2
        simp at hd2
      · intro v hv
        simp only [Option.some.injEq] at hv
        omega
      · intro h
        simp at h
      · intro h
        simp at h
      · intro _ h
        simp at h

theorem has_changed_event_cons (x : Nat × MonitorInput) (rest : List (Nat × MonitorInput))
    (h : has_changed_event (x :: rest) = true) :
    (∃ file other_file, x.2 = MonitorInput.emit_event file other_file
      GFileMonitorEvent.G_FILE_MONITOR_EVENT_CHANGED) ∨ has_changed_event rest = true := by
  unfold has_changed_event at h
  rw [List.any_cons, Bool.or_eq_true] at h
  rcases h with h | h
  · left
    obtain ⟨t, input⟩ := x
    cases input with
    | emit_event file other_file event_type =>
      simp only [decide_eq_true_eq] at h
      subst h
      exact ⟨file, other_file, rfl⟩
    | delayed_change_expiry => simp at h
    | virtual_changes_done_expiry => simp at h
    | set_rate_limit limit_msecs => simp at h
    | cancel => simp at h
  · right
    exact h

theorem done_last_run (klass_cancel : GFileMonitorPrivate → Bool) (R : Nat) (hR : R ≤ 2000)
    (inputs : List (Nat × MonitorInput)) :
    ∀ (priv : GFileMonitorPrivate) (t0 : Nat) (pre : List (Nat × Emission)),
      priv.rate_limit_msec = (R : Int) →
      (∀ d, priv.send_delayed_change_timeout = some d →
        ∃ v, priv.virtual_changes_done_timeout = some v ∧ d ≤ v) →
      (∀ v, priv.virtual_changes_done_timeout = some v → v ≤ t0 + 2000) →
      (priv.virtual_changes_done_timeout = none →
        pre = [] ∨ ∃ e, pre.getLast? = some e ∧
          e.2.event_type = GFileMonitorEvent.G_FILE_MONITOR_EVENT_CHANGES_DONE_HINT) →
      (pre = [] → priv.last_sent_change_file = none) →
      inputs.all (fun x => changed_or_timer x.2) = true →
      well_timed klass_cancel t0 priv inputs = true →
      timers_in_order klass_cancel priv inputs = true →
      (∀ d, (monitor_run klass_cancel priv inputs).1.send_delayed_change_timeout = some d →
        ∃ v, (monitor_run klass_cancel priv inputs).1.virtual_changes_done_timeout = some v ∧
          d ≤ v) ∧
      ((monitor_run klass_cancel priv inputs).1.virtual_changes_done_timeout = none →
        pre ++ (monitor_run klass_cancel priv inputs).2 = [] ∨
        ∃ e, (pre ++ (monitor_run klass_cancel priv inputs).2).getLast? = some e ∧
          e.2.event_type = GFileMonitorEvent.G_FILE_MONITOR_EVENT_CHANGES_DONE_HINT) ∧
      (pre ≠ [] ∨ has_changed_event inputs = true →
        pre ++ (monitor_run klass_cancel priv inputs).2 ≠ []) := by
  induction inputs with
  | nil =>
    intro priv t0 pre _ hdelay _ hlast _ _ _ _
    simp only [monitor_run, List.append_nil]
    refine ⟨hdelay, hlast, ?_⟩
    rintro (h | h)
    · exact h
    · simp [has_changed_event] at h
  | cons x rest ih =>
    intro priv t0 pre hrate hdelay hdone hlast hfresh hkind htimed horder
    obtain ⟨t, input⟩ := x
    simp only [List.all_cons, Bool.and_eq_true] at hkind
    simp only [well_timed, Bool.and_eq_true, decide_eq_true_eq] at htimed
    simp only [timers_in_order, Bool.and_eq_true] at horder
    obtain ⟨⟨ht, hdue⟩, htrest⟩ := htimed
    obtain ⟨h1, h2, h3, h4, h5, h6⟩ := done_last_step klass_cancel R hR priv t0 t input pre
      hrate hdelay hdone hlast hfresh hkind.1 ht hdue horder.1
    obtain ⟨r1, r2, r3⟩ := ih (monitor_step klass_cancel priv t input).1 t
      (pre ++ (monitor_step klass_cancel priv t input).2.map (fun e => (t, e)))
      h1 h2 h3 h4 h5 hkind.2 htrest horder.2
    simp only [monitor_run, ← List.append_assoc]
    refine ⟨r1, r2, ?_⟩
    intro h
    apply r3
    rcases h with h | h
    · left
      intro hnil
      exact h (List.append_eq_nil.1 hnil).1
    · rcases has_changed_event_cons _ _ h with hc | hc
      · left
        exact h6 hc
      · right
        exact hc

/-- C32, counterexample: the rate limit is set to 5000 ms; the file 7 changes
at the times 0 and 100.  The virtual changes-done event is due at 2100 and
the delayed change at 5000: the timers expire in this order, and the last
event emitted is `Changed`, after the synthesized `ChangesDoneHint`. -/
theorem C32_counterexample :
    well_timed (fun _ => true) 0 (g_file_monitor_set_rate_limit g_file_monitor_init 5000)
        [(0, MonitorInput.emit_event 7 none GFileMonitorEvent.G_FILE_MONITOR_EVENT_CHANGED),
         (100, MonitorInput.emit_event 7 none GFileMonitorEvent.G_FILE_MONITOR_EVENT_CHANGED),
         (2100, MonitorInput.virtual_changes_done_expiry),
         (5000, MonitorInput.delayed_change_expiry)] = true ∧
    timers_in_order (fun _ => true) (g_file_monitor_set_rate_limit g_file_monitor_init 5000)
        [(0, MonitorInput.emit_event 7 none GFileMonitorEvent.G_FILE_MONITOR_EVENT_CHANGED),
         (100, MonitorInput.emit_event 7 none GFileMonitorEvent.G_FILE_MONITOR_EVENT_CHANGED),
         (2100, MonitorInput.virtual_changes_done_expiry),
         (5000, MonitorInput.delayed_change_expiry)] = true ∧
    monitor_run (fun _ => true) (g_file_monitor_set_rate_limit g_file_monitor_init 5000)
        [(0, MonitorInput.emit_event 7 none GFileMonitorEvent.G_FILE_MONITOR_EVENT_CHANGED),
         (100, MonitorInput.emit_event 7 none GFileMonitorEvent.G_FILE_MONITOR_EVENT_CHANGED),
         (2100, MonitorInput.virtual_changes_done_expiry),
         (5000, MonitorInput.delayed_change_expiry)]
      = (⟨false, 5000, 5000, some 7, none, none, none⟩,
          [(0, ⟨some 7, none, GFileMonitorEvent.G_FILE_MONITOR_EVENT_CHANGED⟩),
           (2100, ⟨some 7, none, GFileMonitorEvent.G_FILE_MONITOR_EVENT_CHANGES_DONE_HINT⟩),
           (5000, ⟨some 7, none, GFileMonitorEvent.G_FILE_MONITOR_EVENT_CHANGED⟩)]) := by
  decide

/-- C32, amended: for every rate limit `R` from 0 to 2000 ms (the delay of the
virtual changes-done event) set on a fresh monitor, and every run of `Changed`
events and timer expiries (and cancels), in the order of time, no timer
expiring before it is due and the expired timers dispatched in the order of
their deadlines: a pending delayed change is due no later than the virtual
changes-done event, so once the synthesized `ChangesDoneHint` is out no
delayed change is pending and no `Changed` follows it; and when the run holds
a `Changed` event and all timers have fired, the last event emitted is
`ChangesDoneHint`. -/
theorem C32_done_is_last (klass_cancel : GFileMonitorPrivate → Bool) (R : Nat)
    (hR : R ≤ 2000) (inputs : List (Nat × MonitorInput))
    (hkind : inputs.all (fun x => changed_or_timer x.2) = true)
    (htimed : well_timed klass_cancel 0
      (g_file_monitor_set_rate_limit g_file_monitor_init (R : Int)) inputs = true)
    (horder : timers_in_order klass_cancel
      (g_file_monitor_set_rate_limit g_file_monitor_init (R : Int)) inputs = true) :
    (∀ d, (monitor_run klass_cancel (g_file_monitor_set_rate_limit g_file_monitor_init (R : Int))
        inputs).1.send_delayed_change_timeout = some d →
      ∃ v, (monitor_run klass_cancel (g_file_monitor_set_rate_limit g_file_monitor_init (R : Int))
          inputs).1.virtual_changes_done_timeout = some v ∧ d ≤ v) ∧
    ((monitor_run klass_cancel (g_file_monitor_set_rate_limit g_file_monitor_init (R : Int))
        inputs).1.virtual_changes_done_timeout = none →
      (monitor_run klass_cancel (g_file_monitor_set_rate_limit g_file_monitor_init (R : Int))
        inputs).1.send_delayed_change_timeout = none ∧
      (has_changed_event inputs = true →
        ∃ e, (monitor_run klass_cancel
            (g_file_monitor_set_rate_limit g_file_monitor_init (R : Int)) inputs).2.getLast?
              = some e ∧
          e.2.event_type = GFileMonitorEvent.G_FILE_MONITOR_EVENT_CHANGES_DONE_HINT)) := by
  obtain ⟨r1, r2, r3⟩ := done_last_run klass_cancel R hR inputs
    (g_file_monitor_set_rate_limit g_file_monitor_init (R : Int)) 0 [] rfl
    (by intro d hd; cases hd) (by intro v hv; cases hv) (fun _ => Or.inl rfl) (fun _ => rfl)
    hkind htimed horder
  simp only [List.nil_append] at r2 r3
  refine ⟨r1, ?_⟩
  intro hnone
  constructor
  · cases hd : (monitor_run klass_cancel
        (g_file_monitor_set_rate_limit g_file_monitor_init (R : Int))
        inputs).1.send_delayed_change_timeout with
    | none => rfl
    | some d =>
      obtain ⟨v, hv, _⟩ := r1 d hd
      rw [hnone] at hv
      cases hv
  · intro hch
    rcases r2 hnone with h | h
    · exact absurd h (r3 (Or.inr hch))
    · exact h

/-- C32, witness: the rate limit of 800 ms and the file 7 changing at 0, 100,
200, 300 and 400; the delayed change expires at 800 and the virtual
changes-done event at 2400, which is the last event emitted. -/
theorem C32_done_is_last_witness :
    (monitor_run (fun _ => true)
        (g_file_monitor_set_rate_limit g_file_monitor_init ((800 : Nat) : Int))
        [(0, MonitorInput.emit_event 7 none GFileMonitorEvent.G_FILE_MONITOR_EVENT_CHANGED),
         (100, MonitorInput.emit_event 7 none GFileMonitorEvent.G_FILE_MONITOR_EVENT_CHANGED),
         (200, MonitorInput.emit_event 7 none GFileMonitorEvent.G_FILE_MONITOR_EVENT_CHANGED),
         (300, MonitorInput.emit_event 7 none GFileMonitorEvent.G_FILE_MONITOR_EVENT_CHANGED),
         (400, MonitorInput.emit_event 7 none GFileMonitorEvent.G_FILE_MONITOR_EVENT_CHANGED),
         (800, MonitorInput.delayed_change_expiry),
         (2400, MonitorInput.virtual_changes_done_expiry)]).1.virtual_changes_done_timeout
      = none ∧
    ∃ e, (monitor_run (fun _ => true)
        (g_file_monitor_set_rate_limit g_file_monitor_init ((800 : Nat) : Int))
        [(0, MonitorInput.emit_event 7 none GFileMonitorEvent.G_FILE_MONITOR_EVENT_CHANGED),
         (100, MonitorInput.emit_event 7 none GFileMonitorEvent.G_FILE_MONITOR_EVENT_CHANGED),
         (200, MonitorInput.emit_event 7 none GFileMonitorEvent.G_FILE_MONITOR_EVENT_CHANGED),
         (300, MonitorInput.emit_event 7 none GFileMonitorEvent.G_FILE_MONITOR_EVENT_CHANGED),
         (400, MonitorInput.emit_event 7 none GFileMonitorEvent.G_FILE_MONITOR_EVENT_CHANGED),
         (800, MonitorInput.delayed_change_expiry),
         (2400, MonitorInput.virtual_changes_done_expiry)]).2.getLast? = some e ∧
      e.2.event_type = GFileMonitorEvent.G_FILE_MONITOR_EVENT_CHANGES_DONE_HINT :=
  ⟨by decide,
   ((C32_done_is_last (fun _ => true) 800 (by decide)
      [(0, MonitorInput.emit_event 7 none GFileMonitorEvent.G_FILE_MONITOR_EVENT_CHANGED),
       (100, MonitorInput.emit_event 7 none GFileMonitorEvent.G_FILE_MONITOR_EVENT_CHANGED),
       (200, MonitorInput.emit_event 7 none GFileMonitorEvent.G_FILE_MONITOR_EVENT_CHANGED),
       (300, MonitorInput.emit_event 7 none GFileMonitorEvent.G_FILE_MONITOR_EVENT_CHANGED),
       (400, MonitorInput.emit_event 7 none GFileMonitorEvent.G_FILE_MONITOR_EVENT_CHANGED),
       (800, MonitorInput.delayed_change_expiry),
       (2400, MonitorInput.virtual_changes_done_expiry)]
      (by decide) (by decide) (by decide)).2 (by decide)).2 (by decide)⟩

/-! ## The position of a match state and the spans of successive matches -/

theorem exec_of_before_b (string : List Nat) (len pos : Int) (opts : Nat) (offs : List Int)
    (n : Int) :
    ((regex_of search_before_b 0).pcre_re.exec string len pos opts offs n).1
        = PCRE_ERROR_NOMATCH ∨
    ∃ i : Nat, pos + (i : Int) ≤ len ∧
      (regex_of search_before_b 0).pcre_re.exec string len pos opts offs n
        = (1, set_offsets offs [pos + (i : Int), pos + (i : Int)]) := by
  by_cases hgt : pos > len
  · left
    simp only [regex_of, exec_of, hgt, if_true]
  · by_cases hi : (bytes_at string pos (len - pos)).findIdx (fun b => b == 98)
        < (bytes_at string pos (len - pos)).length
    · right
      refine ⟨(bytes_at string pos (len - pos)).findIdx (fun b => b == 98), ?_, ?_⟩
      · have hlen : (bytes_at string pos (len - pos)).length ≤ (len - pos).toNat := by
          unfold bytes_at
          rw [List.length_take]
          exact Nat.min_le_left _ _
        omega
      · simp only [regex_of, exec_of, search_before_b, hgt, if_false, hi, if_true]
        simp
    · left
      simp only [regex_of, exec_of, search_before_b, hgt, if_false, hi]

theorem matcher_contract_before_b (string : List Nat) (len : Int) :
    MatcherContract (regex_of search_before_b 0) string len := by
  intro pos opts offs n hpos
  rcases exec_of_before_b string len pos opts offs n with h | ⟨i, hi, h⟩
  · left
    exact h
  · right
    rw [h]
    simp only [set_offsets, List.cons_append, List.nil_append, List.getD_cons_zero,
      List.getD_cons_succ]
    refine ⟨by decide, by omega, le_refl _, hi⟩

/-- A step that returns TRUE moves the position forward, from a position that
is not beyond the end of the subject. -/
theorem next_success_moves (U : GUnicode) (regex : GRegex) (string : List Nat) (len : Int)
    (mi : GMatchInfo) (e : Option Int) (ht : Tracks mi regex string len)
    (hc : MatcherContract regex string len)
    (h : (g_match_info_next U mi e).ret = true) :
    mi.pos < (g_match_info_next U mi e).info.pos ∧ mi.pos ≤ len ∧
    (g_match_info_next U mi e).info.pos
      = (if mi.pos = (g_match_info_next U mi e).info.offset 1
          then NEXT_CHAR U regex string mi.pos
          else (g_match_info_next U mi e).info.offset 1) := by
  obtain ⟨_, _, _, _, hoffs, hnew⟩ := next_success U mi e h
  obtain ⟨h0, h01, h1, _, _⟩ := next_success_span U regex string len mi e ht hc h
  have ho1 : (g_match_info_next U mi e).info.offset 1 = (pcre_exec_call mi).2.getD 1 0 := by
    unfold GMatchInfo.offset
    rw [hoffs]
    rfl
  rw [ht.1, ht.2.1, ← ho1] at hnew
  refine ⟨?_, by omega, hnew⟩
  rw [hnew]
  by_cases heq : mi.pos = (g_match_info_next U mi e).info.offset 1
  · rw [if_pos heq]
    exact next_char_gt U regex string mi.pos
  · rw [if_neg heq]
    omega

/-- C37, counterexample: the pattern `(?=b)`, the empty string before a `b`,
on "ab".  Its matcher satisfies the matcher contract and depends on the
subject and the position only.  The search from 0 reports the empty match
(1, 1), which lies after the position the search started from; the state moves
to the end of the match, 1, and the next step reports (1, 1) again. -/
theorem C37_counterexample :
    MatcherContract (regex_of search_before_b 0) [97, 98] 2 ∧
    ∃ r, g_regex_match_full glib_ascii (regex_of search_before_b 0) [97, 98] 2 0 0 none
        = some r ∧
      r.ret = true ∧
      (r.info.offset 0, r.info.offset 1) = (1, 1) ∧
      (next_iter glib_ascii 1 r).ret = true ∧
      ((next_iter glib_ascii 1 r).info.offset 0, (next_iter glib_ascii 1 r).info.offset 1)
        = (1, 1) :=
  ⟨matcher_contract_before_b _ _, _, rfl, by decide, by decide, by decide, by decide⟩

/-- C37, amended: for every matcher that satisfies the matcher contract, when a
step of a match state returns TRUE with the span `(m0, m1)` and this is not an
empty match located strictly after the position the search started from, the
next step that returns TRUE reports a span that starts after `m0`, so a
different span.  (After an empty match located strictly after the position the
search started from, the next search starts at that very place and can report
the same empty match once more.) -/
theorem C37_spans_differ (U : GUnicode) (regex : GRegex) (string : List Nat)
    (len : Int) (mi : GMatchInfo) (e : Option Int) (ht : Tracks mi regex string len)
    (hc : MatcherContract regex string len)
    (h1 : (g_match_info_next U mi e).ret = true)
    (h2 : (g_match_info_next U (g_match_info_next U mi e).info
      (g_match_info_next U mi e).error).ret = true)
    (hempty : (g_match_info_next U mi e).info.offset 0 = (g_match_info_next U mi e).info.offset 1 →
      (g_match_info_next U mi e).info.offset 0 ≤ mi.pos) :
    (g_match_info_next U mi e).info.offset 0
      < (g_match_info_next U (g_match_info_next U mi e).info
          (g_match_info_next U mi e).error).info.offset 0 ∧
    ((g_match_info_next U (g_match_info_next U mi e).info
        (g_match_info_next U mi e).error).info.offset 0,
      (g_match_info_next U (g_match_info_next U mi e).info
        (g_match_info_next U mi e).error).info.offset 1)
      ≠ ((g_match_info_next U mi e).info.offset 0, (g_match_info_next U mi e).info.offset 1) := by
  obtain ⟨hmove, _, hnew⟩ := next_success_moves U regex string len mi e ht hc h1
  obtain ⟨ha0, ha01, _, _, _⟩ := next_success_span U regex string len mi e ht hc h1
  obtain ⟨hb0, _, _, _, _⟩ := next_success_span U regex string len _ _
    (next_tracks U mi e regex string len ht) hc h2
  have hlt : (g_match_info_next U mi e).info.offset 0
      < (g_match_info_next U (g_match_info_next U mi e).info
          (g_match_info_next U mi e).error).info.offset 0 := by
    by_cases heq : mi.pos = (g_match_info_next U mi e).info.offset 1
    · omega
    · rw [if_neg heq] at hnew
      by_cases hemp : (g_match_info_next U mi e).info.offset 0
          = (g_match_info_next U mi e).info.offset 1
      · have := hempty hemp
        omega
      · omega
  refine ⟨hlt, ?_⟩
  intro hsame
  have := congrArg Prod.fst hsame
  simp only at this
  omega

/-- C37, witness: the pattern `\s*` on "a  b" from offset 1: the first step
reports the two spaces, (1, 3), the second the empty match (3, 3). -/
theorem C37_spans_differ_witness :
    ∃ r, g_regex_match_full glib_ascii (regex_of search_space_star 0) [97, 32, 32, 98] 4 1 0
        none = some r ∧
      r.info.offset 0 < (g_match_info_next glib_ascii r.info r.error).info.offset 0 :=
  ⟨_, rfl,
   (C37_spans_differ glib_ascii (regex_of search_space_star 0) [97, 32, 32, 98] 4
    (match_info_new (regex_of search_space_star 0) [97, 32, 32, 98] 4 1 0 false) none
    (match_info_new_tracks _ _ _ _ _ (by decide)) (matcher_contract_space_star _ _)
    (by decide) (by decide) (by decide)).1⟩

/-- The state after a step on which the matcher reports no error. -/
theorem next_state_no_error (U : GUnicode) (mi : GMatchInfo) (hpos : 0 ≤ mi.pos)
    (herr : IS_PCRE_ERROR (pcre_exec_call mi).1 = false) :
    (g_match_info_next U mi none).error = none ∧
    (g_match_info_next U mi none).info.offsets = (pcre_exec_call mi).2 ∧
    (g_match_info_next U mi none).ret
      = g_match_info_matches (g_match_info_next U mi none).info ∧
    (g_match_info_next U mi none).info.pos
      = (if mi.pos = (pcre_exec_call mi).2.getD 1 0 then
          (if mi.pos > mi.string_len then -1 else NEXT_CHAR U mi.regex mi.string mi.pos)
         else (pcre_exec_call mi).2.getD 1 0) := by
  have hge : ¬ ¬ (mi.pos ≥ 0) := by simpa using hpos
  have e1 : (Int.toNat 1) = 1 := rfl
  unfold g_match_info_next g_match_info_matches
  simp only [Option.isSome_none, Bool.false_eq_true, if_false, hge, herr, GMatchInfo.offset, e1]
  by_cases h1 : mi.pos = (pcre_exec_call mi).2.getD 1 0
  · by_cases h2 : mi.pos > mi.string_len
    · simp only [if_pos h1, if_pos h2]
      refine ⟨trivial, trivial, ?_, trivial⟩
      decide
    · simp only [if_pos h1, if_neg h2, and_self]
  · simp only [if_neg h1, and_self]

theorem contract_no_error (regex : GRegex) (string : List Nat) (len : Int)
    (hc : MatcherContract regex string len) (mi : GMatchInfo)
    (ht : Tracks mi regex string len) (hpos : 0 ≤ mi.pos) :
    IS_PCRE_ERROR (pcre_exec_call mi).1 = false := by
  have hcon := hc mi.pos (regex.match_opts ||| mi.match_opts) mi.offsets mi.n_offsets hpos
  rw [← exec_call_of_tracks mi regex string len ht] at hcon
  rcases hcon with h | ⟨h, _⟩
  · rw [h]
    decide
  · simp only [IS_PCRE_ERROR, PCRE_ERROR_NOMATCH, Bool.and_eq_false_imp, decide_eq_true_eq]
    intro hlt
    omega

/-- One step keeps the position of the match state in range: in `[0, len]`,
or at the character after an offset of `[0, len]`; the end of the last match
stays in `[0, len]`. -/
theorem next_pos_range (U : GUnicode) (regex : GRegex) (string : List Nat) (len : Int)
    (hc : MatcherContract regex string len) (hk : KeepsEndOnFailure regex string len)
    (mi : GMatchInfo) (ht : Tracks mi regex string len)
    (hend : 0 ≤ mi.offset 1 ∧ mi.offset 1 ≤ len)
    (hpos : (0 ≤ mi.pos ∧ mi.pos ≤ len) ∨
      ∃ q, 0 ≤ q ∧ q ≤ len ∧ mi.pos = NEXT_CHAR U regex string q) :
    (g_match_info_next U mi none).error = none ∧
    (0 ≤ (g_match_info_next U mi none).info.offset 1 ∧
      (g_match_info_next U mi none).info.offset 1 ≤ len) ∧
    ((0 ≤ (g_match_info_next U mi none).info.pos ∧
        (g_match_info_next U mi none).info.pos ≤ len) ∨
      ∃ q, 0 ≤ q ∧ q ≤ len ∧ (g_match_info_next U mi none).info.pos
        = NEXT_CHAR U regex string q) := by
  have hp0 : 0 ≤ mi.pos := by
    rcases hpos with h | ⟨q, hq0, _, hq⟩
    · exact h.1
    · have := next_char_gt U regex string q
      omega
  obtain ⟨herr, hoffs, _, hnew⟩ := next_state_no_error U mi hp0
    (contract_no_error regex string len hc mi ht hp0)
  have ho1 : (g_match_info_next U mi none).info.offset 1 = (pcre_exec_call mi).2.getD 1 0 := by
    unfold GMatchInfo.offset
    rw [hoffs]
    rfl
  have hend1 : 0 ≤ (pcre_exec_call mi).2.getD 1 0 ∧ (pcre_exec_call mi).2.getD 1 0 ≤ len := by
    have hcon := hc mi.pos (regex.match_opts ||| mi.match_opts) mi.offsets mi.n_offsets hp0
    have hkeep := hk mi.pos (regex.match_opts ||| mi.match_opts) mi.offsets mi.n_offsets
    rw [← exec_call_of_tracks mi regex string len ht] at hcon hkeep
    rcases hcon with h | ⟨_, h0, h01, h1⟩
    · rw [hkeep h]
      exact hend
    · omega
  rw [ht.1, ht.2.1, ht.2.2] at hnew
  refine ⟨herr, by rw [ho1]; exact hend1, ?_⟩
  rw [hnew]
  by_cases heq : mi.pos = (pcre_exec_call mi).2.getD 1 0
  · rw [if_pos heq, if_neg (by omega)]
    right
    exact ⟨mi.pos, hp0, by omega, rfl⟩
  · rw [if_neg heq]
    left
    exact hend1

theorem next_iter_pos_range (U : GUnicode) (regex : GRegex) (string : List Nat) (len : Int)
    (hc : MatcherContract regex string len) (hk : KeepsEndOnFailure regex string len)
    (k : Nat) :
    ∀ r : NextResult, Tracks r.info regex string len → r.error = none →
      (0 ≤ r.info.offset 1 ∧ r.info.offset 1 ≤ len) →
      ((0 ≤ r.info.pos ∧ r.info.pos ≤ len) ∨
        ∃ q, 0 ≤ q ∧ q ≤ len ∧ r.info.pos = NEXT_CHAR U regex string q) →
      ((0 ≤ (next_iter U k r).info.pos ∧ (next_iter U k r).info.pos ≤ len) ∨
        ∃ q, 0 ≤ q ∧ q ≤ len ∧ (next_iter U k r).info.pos = NEXT_CHAR U regex string q) := by
  induction k with
  | zero =>
    intro r _ _ _ hpos
    exact hpos
  | succ k ih =>
    intro r ht he hend hpos
    rw [next_iter_succ, he]
    obtain ⟨h1, h2, h3⟩ := next_pos_range U regex string len hc hk r.info ht hend hpos
    exact ih _ (next_tracks U r.info none regex string len ht) h1 h2 h3

theorem keeps_end_exec_of (search : List Nat → Int → Int → Option (List Int))
    (capture_count : Int) (string : List Nat) (len : Int) :
    KeepsEndOnFailure (regex_of search capture_count) string len := by
  intro pos opts offs n h
  simp only [regex_of, exec_of] at h ⊢
  by_cases hgt : pos > len
  · simp only [hgt, if_true]
  · simp only [hgt, if_false] at h ⊢
    cases hs : search string len pos with
    | none => rfl
    | some spans =>
      rw [hs] at h
      simp only [PCRE_ERROR_NOMATCH] at h
      omega

/-- C33, counterexample: the pattern `\s*` on "a" (length 1) from the start
position 1.  The matcher satisfies the matcher contract; it reports the empty
match (1, 1) at the end of the subject, and `g_match_info_next` moves the
position to the next character: the position is 2, which is neither in
`[0, 1]` nor -1. -/
theorem C33_counterexample :
    MatcherContract (regex_of search_space_star 0) [97] 1 ∧
    ∃ r, g_regex_match_full glib_ascii (regex_of search_space_star 0) [97] 1 1 0 none
        = some r ∧
      r.ret = true ∧ r.info.pos = 2 :=
  ⟨matcher_contract_space_star _ _, _, rfl, by decide, by decide⟩

/-- C33, amended: for every matcher that satisfies the matcher contract and
leaves `offsets[1]` as it was when it finds nothing, and every start position
in `[0, len]`, with option bits inside the mask: `g_regex_match_full` gives a
match state, and after it and after every later call of
`g_match_info_next`, whether it reports a match or not, the position of the
match state lies in `[0, len]` or is the offset of the character that follows
an offset of `[0, len]` (the state steps over one character after an empty
match at the position of the search, and after a failed search from the end of
the last match); so it lies in `[0, len + 1]` when the characters of the
subject are single bytes.  The value -1 is not stored under these
hypotheses. -/
theorem C33_position_range (U : GUnicode) (regex : GRegex) (string : List Nat) (len : Int)
    (start_position : Int) (match_options : Nat)
    (hc : MatcherContract regex string len) (hk : KeepsEndOnFailure regex string len)
    (h0 : 0 ≤ start_position) (h1 : start_position ≤ len)
    (hopts : bits_outside match_options G_REGEX_MATCH_MASK = 0) (k : Nat) :
    ∃ r0, g_regex_match_full U regex string len start_position match_options none = some r0 ∧
      (((0 ≤ (next_iter U k r0).info.pos ∧ (next_iter U k r0).info.pos ≤ len) ∨
        ∃ q, 0 ≤ q ∧ q ≤ len ∧ (next_iter U k r0).info.pos = NEXT_CHAR U regex string q) ∧
      (SingleByteSteps U regex string len →
        0 ≤ (next_iter U k r0).info.pos ∧ (next_iter U k r0).info.pos ≤ len + 1)) := by
  refine ⟨_, g_regex_match_full_checked U regex string len start_position match_options h0
    hopts, ?_⟩
  have hlen : 0 ≤ len := by omega
  have ht0 := match_info_new_tracks regex string len start_position match_options hlen
  have hend0 : 0 ≤ (match_info_new regex string len start_position match_options false).offset 1
      ∧ (match_info_new regex string len start_position match_options false).offset 1 ≤ len := by
    have hz : (match_info_new regex string len start_position match_options false).offset 1
        = 0 := by
      simp only [match_info_new, GMatchInfo.offset, List.getD_eq_getElem?_getD]
      cases hg : (List.replicate ((regex.pcre_re.capture_count + 1) * 3).toNat (0 : Int))[
          (1 : Int).toNat]? with
      | none => simp [hg]
      | some v =>
        have := List.getElem?_mem hg
        rw [List.mem_replicate] at this
        simp [hg, this.2]
    rw [hz]
    exact ⟨le_refl _, hlen⟩
  obtain ⟨he, hend, hpos⟩ := next_pos_range U regex string len hc hk
    (match_info_new regex string len start_position match_options false) ht0 hend0
    (Or.inl ⟨h0, h1⟩)
  have hrun := next_iter_pos_range U regex string len hc hk k
    (match_full_body U regex string len start_position match_options none)
    (next_tracks U _ none regex string len ht0) he hend hpos
  refine ⟨hrun, ?_⟩
  intro hs
  rcases hrun with h | ⟨q, hq0, hq1, hq⟩
  · omega
  · rw [hq, (hs q hq0 hq1).1]
    omega

/-- C33, witness: the pattern `\s*` on "a b" from the start position 0, after
the first match and three further steps. -/
theorem C33_position_range_witness :
    ∃ r0, g_regex_match_full glib_ascii (regex_of search_space_star 0) [97, 32, 98] 3 0 0 none
        = some r0 ∧
      0 ≤ (next_iter glib_ascii 3 r0).info.pos ∧ (next_iter glib_ascii 3 r0).info.pos ≤ 3 + 1 :=
  let ⟨r0, hr0, h⟩ :=
    C33_position_range glib_ascii (regex_of search_space_star 0) [97, 32, 98] 3 0 0
      (matcher_contract_space_star _ _) (keeps_end_exec_of _ _ _ _) (by decide) (by decide)
      (by decide) 3
  ⟨r0, hr0,
    h.2 (single_byte_steps_glib (regex_of search_space_star 0) [97, 32, 98] (by decide))⟩

/-! ## The number of steps of a match state and the end of the loops -/

theorem next_error_none (U : GUnicode) (regex : GRegex) (string : List Nat) (len : Int)
    (hc : MatcherContract regex string len) (mi : GMatchInfo)
    (ht : Tracks mi regex string len) :
    (g_match_info_next U mi none).error = none ∧
    (g_match_info_matches (g_match_info_next U mi none).info = true → 0 ≤ mi.pos →
      (g_match_info_next U mi none).ret = true) := by
  by_cases hpos : 0 ≤ mi.pos
  · obtain ⟨he, _, hr, _⟩ := next_state_no_error U mi hpos
      (contract_no_error regex string len hc mi ht hpos)
    exact ⟨he, fun hm _ => by rw [hr]; exact hm⟩
  · have hneg : ¬ (mi.pos ≥ 0) := hpos
    refine ⟨?_, fun _ h => absurd h hpos⟩
    unfold g_match_info_next
    simp only [Option.isSome_none, Bool.false_eq_true, if_false, hneg, not_false_eq_true,
      if_true]

theorem successful_steps_bound (U : GUnicode) (regex : GRegex) (string : List Nat) (len : Int)
    (hc : MatcherContract regex string len) (k : Nat) :
    ∀ (mi : GMatchInfo) (e : Option Int), Tracks mi regex string len →
      (∀ j, j ≤ k → (next_iter U j (g_match_info_next U mi e)).ret = true) →
      mi.pos + (k : Int) ≤ len ∧
      mi.pos + (k : Int) + 1 ≤ (next_iter U k (g_match_info_next U mi e)).info.pos := by
  induction k with
  | zero =>
    intro mi e ht h
    have h0 := h 0 (le_refl _)
    simp only [next_iter] at h0
    obtain ⟨hm, hl, _⟩ := next_success_moves U regex string len mi e ht hc h0
    simp only [next_iter, Nat.cast_zero, add_zero]
    omega
  | succ k ih =>
    intro mi e ht h
    have h0 := h 0 (Nat.zero_le _)
    simp only [next_iter] at h0
    obtain ⟨hm, hl, _⟩ := next_success_moves U regex string len mi e ht hc h0
    obtain ⟨i1, i2⟩ := ih (g_match_info_next U mi e).info (g_match_info_next U mi e).error
      (next_tracks U mi e regex string len ht)
      (fun j hj => by
        have := h (j + 1) (by omega)
        rw [next_iter_succ] at this
        exact this)
    rw [next_iter_succ]
    push_cast
    omega

theorem split_loop_returns (U : GUnicode) (regex : GRegex) (string : List Nat)
    (len string_len max_tokens : Int) (hc : MatcherContract regex string len) (fuel : Nat) :
    ∀ (mi : GMatchInfo) (ok : Bool) (list : List (List Nat)) (token_count : Int)
      (last_separator_end : Int) (last_match_is_empty : Bool),
      Tracks mi regex string len → 1 ≤ fuel →
      (ok = true → (len + 1 - mi.pos).toNat + 2 ≤ fuel) →
      ∃ v, split_loop U regex string string_len max_tokens fuel mi ok list token_count
        last_separator_end last_match_is_empty = Ret.value v := by
  induction fuel with
  | zero =>
    intro mi ok list token_count last_separator_end last_match_is_empty _ h1 _
    omega
  | succ fuel ih =>
    intro mi ok list token_count last_separator_end last_match_is_empty ht _ hb
    rw [split_loop]
    cases ok with
    | false =>
      simp only [Bool.false_eq_true, if_false]
      split_ifs
      · exact ⟨_, rfl⟩
      · exact ⟨_, rfl⟩
    | true =>
      have hb1 := hb rfl
      obtain ⟨herr, _⟩ := next_error_none U regex string len hc mi ht
      have hrec : ∀ (list1 : List (List Nat)) (token_count1 last_separator_end1 : Int)
          (last_match_is_empty1 : Bool),
          ∃ v, split_loop U regex string string_len max_tokens fuel
            (g_match_info_next U mi none).info (g_match_info_next U mi none).ret list1
            token_count1 last_separator_end1 last_match_is_empty1 = Ret.value v := by
        intro list1 token_count1 last_separator_end1 last_match_is_empty1
        apply ih _ _ _ _ _ _ (next_tracks U mi none regex string len ht) (by omega)
        intro hret
        obtain ⟨hm, hl, _⟩ := next_success_moves U regex string len mi none ht hc hret
        omega
      simp only [if_true, herr]
      split_ifs
      all_goals first
        | exact ⟨_, rfl⟩
        | exact hrec _ _ _ _

theorem replace_loop_returns (U : GUnicode) (regex : GRegex) (string : List Nat) (len : Int)
    (hc : MatcherContract regex string len) (eval : GRegexEvalCallback) (fuel : Nat) :
    ∀ (mi : GMatchInfo) (result : List Nat) (str_pos : Int) (done : Bool),
      Tracks mi regex string len → 1 ≤ fuel →
      (done = false → g_match_info_matches mi = true →
        0 ≤ mi.pos ∧ (len + 1 - mi.pos).toNat + 2 ≤ fuel) →
      ∃ x, replace_loop U regex string eval fuel mi none result str_pos done = Ret.value x ∧
        x.tmp_error = none := by
  induction fuel with
  | zero =>
    intro mi result str_pos done _ h1 _
    omega
  | succ fuel ih =>
    intro mi result str_pos done ht _ hb
    rw [replace_loop]
    by_cases hcond : ((!done) && g_match_info_matches mi) = true
    · rw [if_pos hcond]
      simp only [Bool.and_eq_true, Bool.not_eq_true'] at hcond
      obtain ⟨hp, hfuel⟩ := hb hcond.1 hcond.2
      obtain ⟨herr, hret⟩ := next_error_none U regex string len hc mi ht
      simp only [herr]
      apply ih _ _ _ _ (next_tracks U mi none regex string len ht) (by omega)
      intro _ hm
      obtain ⟨hmv, hl, _⟩ := next_success_moves U regex string len mi none ht hc (hret hm hp)
      constructor <;> omega
    · rw [if_neg hcond]
      exact ⟨_, rfl, rfl⟩

/-- C36: for every matcher that satisfies the matcher contract, every step of
`g_match_info_next` that returns TRUE strictly increases the position of the
match state; so, from the match state that `g_regex_match_full` gives at the
start position, the steps that return TRUE in a row are at most
`len - start_position + 1`; and the loops end, patterns that match the empty
string included: `len - start_position + 2` iterations are enough for
`g_regex_split_full` and for `g_regex_replace_eval` to return a value, on a
start position in `[0, len]` and option bits inside the mask. -/
theorem C36_matching_terminates (U : GUnicode) (regex : GRegex) (string : List Nat)
    (len : Int) (hlen : 0 ≤ len) (hc : MatcherContract regex string len) :
    (∀ (mi : GMatchInfo) (e : Option Int), Tracks mi regex string len →
      (g_match_info_next U mi e).ret = true → mi.pos < (g_match_info_next U mi e).info.pos) ∧
    (∀ (start_position : Int) (match_options : Nat) (k : Nat) (r0 : NextResult),
      g_regex_match_full U regex string len start_position match_options none = some r0 →
      (∀ j, j ≤ k → (next_iter U j r0).ret = true) →
      (k : Int) + 1 ≤ len - start_position + 1) ∧
    (∀ (start_position : Int) (match_options : Nat) (max_tokens : Int) (fuel : Nat),
      0 ≤ start_position → start_position ≤ len →
      bits_outside match_options G_REGEX_MATCH_MASK = 0 →
      (len - start_position + 2).toNat ≤ fuel →
      ∃ tokens, g_regex_split_full fuel U regex string len start_position match_options
        max_tokens = Ret.value tokens) ∧
    (∀ (start_position : Int) (match_options : Nat) (eval : GRegexEvalCallback) (fuel : Nat),
      0 ≤ start_position → start_position ≤ len →
      bits_outside match_options G_REGEX_MATCH_MASK = 0 →
      (len - start_position + 2).toNat ≤ fuel →
      ∃ out, g_regex_replace_eval fuel U regex string len start_position match_options eval
        = Ret.value out) := by
  have hl : ¬ (len < 0) := by omega
  refine ⟨?_, ?_, ?_, ?_⟩
  · intro mi e ht h
    exact (next_success_moves U regex string len mi e ht hc h).1
  · intro start_position match_options k r0 hcall h
    obtain ⟨_, _, _, hr0⟩ := g_regex_match_full_some U regex string _ _ _ _ _ hcall
    subst hr0
    have ht0 := match_info_new_tracks regex string len start_position match_options hlen
    have := (successful_steps_bound U regex string len hc k
      (match_info_new regex string len start_position match_options false) none ht0 h).1
    have hp : (match_info_new regex string len start_position match_options false).pos
        = start_position := rfl
    rw [hp] at this
    omega
  · intro start_position match_options max_tokens fuel h0 h1 hopts hf
    have ht0 := match_info_new_tracks regex string len start_position match_options hlen
    obtain ⟨herr, _⟩ := next_error_none U regex string len hc
      (match_info_new regex string len start_position match_options false) ht0
    have herr2 : (match_full_body U regex string len start_position match_options
        none).error = none := herr
    have hloop : ∀ max_tokens1 : Int, ∃ v, split_loop U regex string len max_tokens1 fuel
        (match_full_body U regex string len start_position match_options none).info
        (match_full_body U regex string len start_position match_options none).ret
        [] 0 start_position false = Ret.value v := by
      intro max_tokens1
      apply split_loop_returns U regex string len len max_tokens1 hc fuel _ _ _ _ _ _
        (next_tracks U _ none regex string len ht0) (by omega)
      intro hret
      obtain ⟨hm, _, _⟩ := next_success_moves U regex string len _ none ht0 hc hret
      have hp : (match_info_new regex string len start_position match_options false).pos
          = start_position := rfl
      rw [hp] at hm
      have hm2 : start_position < (match_full_body U regex string len start_position
          match_options none).info.pos := hm
      omega
    rw [g_regex_split_full_checked _ _ _ _ _ _ _ _ hopts]
    simp only [hl, if_false, herr2]
    rw [if_neg (by omega)]
    by_cases hz : len - start_position = 0
    · rw [if_pos hz]
      exact ⟨_, rfl⟩
    · rw [if_neg hz]
      by_cases hone : (if max_tokens ≤ 0 then G_MAXINT else max_tokens) = 1
      · rw [if_pos hone]
        exact ⟨_, rfl⟩
      · rw [if_neg hone]
        obtain ⟨v, hv⟩ := hloop (if max_tokens ≤ 0 then G_MAXINT else max_tokens)
        rw [hv]
        exact ⟨_, rfl⟩
  · intro start_position match_options eval fuel h0 h1 hopts hf
    have ht0 := match_info_new_tracks regex string len start_position match_options hlen
    obtain ⟨herr, hret⟩ := next_error_none U regex string len hc
      (match_info_new regex string len start_position match_options false) ht0
    have herr2 : (match_full_body U regex string len start_position match_options
        none).error = none := herr
    rw [g_regex_replace_eval_checked _ _ _ _ _ _ _ _ hopts]
    simp only [hl, if_false, herr2]
    rw [if_neg (by omega)]
    obtain ⟨x, hx, hxe⟩ := replace_loop_returns U regex string len hc eval fuel
      (match_full_body U regex string len start_position match_options none).info [] 0 false
      (next_tracks U _ none regex string len ht0) (by omega)
      (by
        intro _ hm
        have hp : (match_info_new regex string len start_position match_options false).pos
            = start_position := rfl
        obtain ⟨hmv, _, _⟩ := next_success_moves U regex string len _ none ht0 hc
          (hret hm (by rw [hp]; exact h0))
        rw [hp] at hmv
        have hm2 : start_position < (match_full_body U regex string len start_position
            match_options none).info.pos := hmv
        constructor <;> omega)
    rw [hx]
    simp only [hxe]
    exact ⟨_, rfl⟩

/-- C36, witness: the pattern `\s*`, which matches the empty string, on
"a b": the split returns with 5 iterations allowed. -/
theorem C36_matching_terminates_witness :
    (∃ tokens, g_regex_split_full 5 glib_ascii (regex_of search_space_star 0) [97, 32, 98] 3
      0 0 0 = Ret.value tokens) ∧
    g_regex_split_full 5 glib_ascii (regex_of search_space_star 0) [97, 32, 98] 3 0 0 0
      = Ret.value [[97], [98]] :=
  ⟨(C36_matching_terminates glib_ascii (regex_of search_space_star 0) [97, 32, 98] 3
      (by decide) (matcher_contract_space_star _ _)).2.2.1 0 0 0 5 (by decide) (by decide)
      (by decide) (by decide),
   by decide⟩

/-! ## The slices copied by g_regex_replace_eval -/

/-- Without the record of the slices, the instrumented loop is the loop of
`g_regex_replace_eval`. -/
theorem replace_slices_loop_erase (U : GUnicode) (regex : GRegex) (string : List Nat)
    (eval : GRegexEvalCallback) (fuel : Nat) (mi : GMatchInfo) (e : Option Int)
    (result : List Nat) (pos : Int) (done : Bool) (slices : List (Int × Int)) :
    Ret.map Prod.fst (replace_slices_loop U regex string eval fuel mi e result pos done slices)
      = replace_loop U regex string eval fuel mi e result pos done := by
  induction fuel generalizing mi e result pos done slices with
  | zero => rfl
  | succ fuel ih =>
    rw [replace_slices_loop, replace_loop]
    by_cases hc : ((!done) && g_match_info_matches mi) = true
    · rw [if_pos hc, if_pos hc]
      exact ih _ _ _ _ _ _
    · rw [if_neg hc, if_neg hc]
      rfl

theorem replace_slices_loop_range (U : GUnicode) (regex : GRegex) (string : List Nat)
    (len : Int) (hc : MatcherContract regex string len) (eval : GRegexEvalCallback)
    (fuel : Nat) :
    ∀ (mi : GMatchInfo) (result : List Nat) (str_pos : Int) (done : Bool)
      (slices : List (Int × Int)) (x : ReplaceExit) (slices1 : List (Int × Int)),
      Tracks mi regex string len →
      replace_slices_loop U regex string eval fuel mi none result str_pos done slices
        = Ret.value (x, slices1) →
      (∀ s ∈ slices, 0 ≤ s.1 ∧ s.1 ≤ s.2 ∧ s.2 ≤ len) →
      0 ≤ str_pos → str_pos ≤ len →
      (g_match_info_matches mi = true →
        str_pos ≤ mi.offset 0 ∧ mi.offset 0 ≤ mi.offset 1 ∧ mi.offset 1 ≤ len ∧
        mi.offset 1 ≤ mi.pos ∧ 0 ≤ mi.pos) →
      (∀ s ∈ slices1, 0 ≤ s.1 ∧ s.1 ≤ s.2 ∧ s.2 ≤ len) ∧
      0 ≤ x.str_pos ∧ x.str_pos ≤ len ∧ x.tmp_error = none := by
  induction fuel with
  | zero =>
    intro mi result str_pos done slices x slices1 _ hrun
    cases hrun
  | succ fuel ih =>
    intro mi result str_pos done slices x slices1 ht hrun hgood hs0 hs1 hm
    rw [replace_slices_loop] at hrun
    by_cases hcond : ((!done) && g_match_info_matches mi) = true
    · rw [if_pos hcond] at hrun
      simp only [Bool.and_eq_true, Bool.not_eq_true'] at hcond
      obtain ⟨ha, hb, hc1, hd, hp⟩ := hm hcond.2
      obtain ⟨herr, hret⟩ := next_error_none U regex string len hc mi ht
      simp only [herr] at hrun
      refine ih _ _ _ _ _ x slices1 (next_tracks U mi none regex string len ht) hrun ?_
        (by omega) hc1 ?_
      · intro s hs
        rcases List.mem_append.1 hs with h | h
        · exact hgood s h
        · simp only [List.mem_singleton] at h
          subst h
          exact ⟨hs0, ha, by omega⟩
      · intro hmatch
        obtain ⟨g0, g01, g1, gp, _⟩ := next_success_span U regex string len mi none ht hc
          (hret hmatch hp)
        refine ⟨by omega, g01, g1, gp, by omega⟩
    · rw [if_neg hcond] at hrun
      simp only [Ret.value.injEq, Prod.mk.injEq] at hrun
      obtain ⟨hx, hsl⟩ := hrun
      subst hx hsl
      exact ⟨hgood, hs0, hs1, rfl⟩

theorem bytes_at_prefix (s : List Nat) (a b : Int) (ha : 0 ≤ a) (hab : a ≤ b) :
    bytes_at s 0 a <+: bytes_at s 0 b :=
  ⟨bytes_at s a (b - a), bytes_at_concat s a b ha hab⟩

theorem replace_loop_prefix (U : GUnicode) (regex : GRegex) (string : List Nat)
    (eval : GRegexEvalCallback) (happ : CallbackAppends eval) (start : Int) (h0 : 0 ≤ start)
    (fuel : Nat) :
    ∀ (mi : GMatchInfo) (e : Option Int) (result : List Nat) (str_pos : Int) (done : Bool)
      (x : ReplaceExit),
      replace_loop U regex string eval fuel mi e result str_pos done = Ret.value x →
      ((result = [] ∧ str_pos = 0 ∧ (g_match_info_matches mi = true → start ≤ mi.offset 0)) ∨
        bytes_at string 0 start <+: result) →
      (x.result = [] ∧ x.str_pos = 0) ∨ bytes_at string 0 start <+: x.result := by
  induction fuel with
  | zero =>
    intro mi e result str_pos done x hrun
    cases hrun
  | succ fuel ih =>
    intro mi e result str_pos done x hrun hinv
    rw [replace_loop] at hrun
    by_cases hcond : ((!done) && g_match_info_matches mi) = true
    · rw [if_pos hcond] at hrun
      simp only [Bool.and_eq_true, Bool.not_eq_true'] at hcond
      refine ih _ _ _ _ _ x hrun (Or.inr ?_)
      have hres : bytes_at string 0 start
          <+: result ++ bytes_at string str_pos (mi.offset 0 - str_pos) := by
        rcases hinv with ⟨hr, hs, hm⟩ | hpre
        · subst hr hs
          have := bytes_at_prefix string start (mi.offset 0) h0 (hm hcond.2)
          simpa using this
        · exact hpre.trans (List.prefix_append _ _)
      exact hres.trans (happ regex mi string _)
    · rw [if_neg hcond] at hrun
      simp only [Ret.value.injEq] at hrun
      subst hrun
      rcases hinv with ⟨hr, hs, _⟩ | hpre
      · exact Or.inl ⟨hr, hs⟩
      · exact Or.inr hpre

theorem matcher_contract_comma (string : List Nat) (len : Int) :
    MatcherContract (regex_of search_comma 0) string len := by
  intro pos opts offs n hpos
  by_cases hgt : pos > len
  · left
    simp only [regex_of, exec_of, hgt, if_true]
  · by_cases hi : (bytes_at string pos (len - pos)).findIdx (fun b => b == 44)
        < (bytes_at string pos (len - pos)).length
    · right
      have hlen : (bytes_at string pos (len - pos)).length ≤ (len - pos).toNat := by
        unfold bytes_at
        rw [List.length_take]
        exact Nat.min_le_left _ _
      simp only [regex_of, exec_of, search_comma, hgt, if_false, hi, if_true, set_offsets,
        List.cons_append, List.nil_append, List.getD_cons_zero, List.getD_cons_succ]
      refine ⟨by simp, by omega, by omega, by omega⟩
    · left
      simp only [regex_of, exec_of, search_comma, hgt, if_false, hi]

/-- C38: for every matcher that satisfies the matcher contract and every start
position in `[0, len]`, every slice that `g_regex_replace_eval` copies from the
subject, `(str_pos, offsets[0])` before each call of the callback and
`(str_pos, len)` at the end, satisfies `0 <= from <= to <= len` (the record of
the slices is a ghost of the loop, and `len - start_position + 2` iterations
are enough for the run to end, on option bits inside the mask); and when the
callback only appends to the buffer, the output begins with the subject up to
the start position. -/
theorem C38_replace_slices_in_range (U : GUnicode) (regex : GRegex) (string : List Nat)
    (len : Int) (start_position : Int) (match_options : Nat) (eval : GRegexEvalCallback)
    (fuel : Nat) (hc : MatcherContract regex string len)
    (h0 : 0 ≤ start_position) (h1 : start_position ≤ len) :
    (∀ (n : Nat) (mi : GMatchInfo) (e : Option Int) (result : List Nat) (pos : Int)
      (done : Bool) (slices : List (Int × Int)),
      Ret.map Prod.fst (replace_slices_loop U regex string eval n mi e result pos done slices)
        = replace_loop U regex string eval n mi e result pos done) ∧
    (∀ slices, replace_slices fuel U regex string len start_position match_options eval
        = Ret.value slices →
      ∀ s ∈ slices, 0 ≤ s.1 ∧ s.1 ≤ s.2 ∧ s.2 ≤ len) ∧
    (bits_outside match_options G_REGEX_MATCH_MASK = 0 →
      (len - start_position + 2).toNat ≤ fuel →
      ∃ slices, replace_slices fuel U regex string len start_position match_options eval
        = Ret.value slices) ∧
    (CallbackAppends eval → ∀ out,
      g_regex_replace_eval fuel U regex string len start_position match_options eval
        = Ret.value out →
      bytes_at string 0 start_position <+: out) := by
  have hlen : 0 ≤ len := by omega
  have hl : ¬ (len < 0) := by omega
  have ht0 := match_info_new_tracks regex string len start_position match_options hlen
  have hp : (match_info_new regex string len start_position match_options false).pos
      = start_position := rfl
  obtain ⟨herr, hret⟩ := next_error_none U regex string len hc
    (match_info_new regex string len start_position match_options false) ht0
  have herr2 : (match_full_body U regex string len start_position match_options
      none).error = none := herr
  have hfirst : g_match_info_matches (match_full_body U regex string len start_position
      match_options none).info = true →
      start_position ≤ (match_full_body U regex string len start_position match_options
        none).info.offset 0 ∧
      (match_full_body U regex string len start_position match_options none).info.offset 0
        ≤ (match_full_body U regex string len start_position match_options
          none).info.offset 1 ∧
      (match_full_body U regex string len start_position match_options none).info.offset 1
        ≤ len ∧
      (match_full_body U regex string len start_position match_options none).info.offset 1
        ≤ (match_full_body U regex string len start_position match_options none).info.pos ∧
      0 ≤ (match_full_body U regex string len start_position match_options
        none).info.pos := by
    intro hm
    obtain ⟨g0, g01, g1, gp, _⟩ := next_success_span U regex string len _ none ht0 hc
      (hret hm (by rw [hp]; exact h0))
    rw [hp] at g0
    have q0 : start_position ≤ (match_full_body U regex string len start_position
        match_options none).info.offset 0 := g0
    have q01 : (match_full_body U regex string len start_position match_options
        none).info.offset 0 ≤ (match_full_body U regex string len start_position
        match_options none).info.offset 1 := g01
    have q1 : (match_full_body U regex string len start_position match_options
        none).info.offset 1 ≤ len := g1
    have qp : (match_full_body U regex string len start_position match_options
        none).info.offset 1 ≤ (match_full_body U regex string len start_position
        match_options none).info.pos := gp
    exact ⟨q0, q01, q1, qp, by omega⟩
  refine ⟨fun n mi e result pos done slices =>
    replace_slices_loop_erase U regex string eval n mi e result pos done slices, ?_, ?_, ?_⟩
  · intro slices hrun
    rw [replace_slices_checked _ _ _ _ _ _ _ _ h0
      (replace_slices_value _ _ _ _ _ _ _ _ _ hrun).2] at hrun
    simp only [hl, if_false, herr2] at hrun
    cases hloop : replace_slices_loop U regex string eval fuel
        (match_full_body U regex string len start_position match_options none).info none
        [] 0 false [] with
    | value x =>
      obtain ⟨x1, sl⟩ := x
      obtain ⟨hgood, hx0, hx1, hxe⟩ := replace_slices_loop_range U regex string len hc eval
        fuel _ _ _ _ _ x1 sl (next_tracks U _ none regex string len ht0) hloop
        (by intro s hs; cases hs) (le_refl _) hlen
        (by
          intro hm
          obtain ⟨q0, q01, q1, qp, qq⟩ := hfirst hm
          exact ⟨le_trans h0 q0, q01, q1, qp, qq⟩)
      rw [hloop] at hrun
      simp only [hxe, Ret.value.injEq] at hrun
      subst hrun
      intro s hs
      rcases List.mem_append.1 hs with h | h
      · exact hgood s h
      · simp only [List.mem_singleton] at h
        subst h
        exact ⟨hx0, hx1, le_refl _⟩
    | match_error code =>
      rw [hloop] at hrun
      cases hrun
    | null =>
      rw [hloop] at hrun
      cases hrun
    | out_of_fuel =>
      rw [hloop] at hrun
      cases hrun
  · intro hopts hf
    obtain ⟨x, hx, hxe⟩ := replace_loop_returns U regex string len hc eval fuel
      (match_full_body U regex string len start_position match_options none).info [] 0 false
      (next_tracks U _ none regex string len ht0) (by omega)
      (by
        intro _ hm
        obtain ⟨q0, q01, q1, qp, qq⟩ := hfirst hm
        have hmv := (next_success_moves U regex string len _ none ht0 hc
          (hret hm (by rw [hp]; exact h0))).1
        rw [hp] at hmv
        have hm2 : start_position < (match_full_body U regex string len start_position
            match_options none).info.pos := hmv
        constructor <;> omega)
    have herase := replace_slices_loop_erase U regex string eval fuel
      (match_full_body U regex string len start_position match_options none).info none
      [] 0 false []
    rw [hx] at herase
    rw [replace_slices_checked _ _ _ _ _ _ _ _ h0 hopts]
    simp only [hl, if_false, herr2]
    cases hloop : replace_slices_loop U regex string eval fuel
        (match_full_body U regex string len start_position match_options none).info none
        [] 0 false [] with
    | value y =>
      rw [hloop] at herase
      simp only [Ret.map, Ret.value.injEq] at herase
      simp only [herase, hxe]
      exact ⟨_, rfl⟩
    | match_error code =>
      rw [hloop] at herase
      cases herase
    | null =>
      rw [hloop] at herase
      cases herase
    | out_of_fuel =>
      rw [hloop] at herase
      cases herase
  · intro happ out hrun
    rw [g_regex_replace_eval_checked _ _ _ _ _ _ _ _
      (g_regex_replace_eval_value _ _ _ _ _ _ _ _ _ hrun).2] at hrun
    simp only [hl, if_false, herr2] at hrun
    rw [if_neg (by omega)] at hrun
    cases hloop : replace_loop U regex string eval fuel
        (match_full_body U regex string len start_position match_options none).info none
        [] 0 false with
    | value x =>
      rw [hloop] at hrun
      have hpre := replace_loop_prefix U regex string eval happ start_position h0 fuel _ _ _ _
        _ x hloop (Or.inl ⟨rfl, rfl, fun hm => (hfirst hm).1⟩)
      cases hxe : x.tmp_error with
      | some code =>
        simp only [hxe] at hrun
        cases hrun
      | none =>
        simp only [hxe, Ret.value.injEq] at hrun
        subst hrun
        rcases hpre with ⟨hr, hs⟩ | hpre
        · rw [hr, hs]
          have := bytes_at_prefix string start_position len h0 h1
          simpa using this
        · exact hpre.trans (List.prefix_append _ _)
    | match_error code =>
      rw [hloop] at hrun
      cases hrun
    | null =>
      rw [hloop] at hrun
      cases hrun
    | out_of_fuel =>
      rw [hloop] at hrun
      cases hrun

/-- C38, witness: the pattern `,` on "a,b,c" from the start position 2, with
the literal replacement "X": the slices copied are (0, 3) and (4, 5), and the
output "a,bXc" begins with "a,". -/
theorem C38_replace_slices_in_range_witness :
    replace_slices 5 glib_ascii (regex_of search_comma 0) [97, 44, 98, 44, 99] 5 2 0
        (literal_replacement [88]) = Ret.value [(0, 3), (4, 5)] ∧
    g_regex_replace_eval 5 glib_ascii (regex_of search_comma 0) [97, 44, 98, 44, 99] 5 2 0
        (literal_replacement [88]) = Ret.value [97, 44, 98, 88, 99] ∧
    ∀ s ∈ [((0 : Int), (3 : Int)), (4, 5)], 0 ≤ s.1 ∧ s.1 ≤ s.2 ∧ s.2 ≤ 5 :=
  ⟨by decide, by decide,
   (C38_replace_slices_in_range glib_ascii (regex_of search_comma 0) [97, 44, 98, 44, 99] 5 2
      0 (literal_replacement [88]) 5 (matcher_contract_comma _ _) (by decide)
      (by decide)).2.1 [(0, 3), (4, 5)] (by decide)⟩
